import Mathlib

/-!
# GNU units 1.88: the units algebra engine of `units.c`

A shallow embedding of the parts of `units.c` that canonicalise, compare and
resolve units, followed by theorems about them.

Conventions of the embedding.

* A C string is the list of its characters before the terminating NUL
  (`CStr`); `strlen` is `List.length`.
* A product list (`char *numerator[MAXSUBUNITS]`) is the list of its entries
  before the terminating null pointer.
* `NULLUNIT` is the address of the string `""`.  The code tells the sentinel
  from an atom both by address (`*ptr == NULLUNIT`) and by content
  (`!strlen(*product)` in `reduceproduct`, `**ptr` in `showunit`); atoms have
  non-empty names, so an entry is the sentinel exactly when its text is empty.
* `double` is modelled by exact rational arithmetic (`ℚ`).
-/

namespace GnuUnits

/-! ## Strings -/

/-- A C string: the characters before the terminating NUL. -/
abbrev CStr := List Char

/-- The string `""` that `NULLUNIT` points to (units.c:151). -/
def NULLUNIT : CStr := []

/-- `strcmp` of the C library: the sign of the comparison of the two strings as
sequences of unsigned characters; a string that ends first is the lesser. -/
def strcmp : CStr → CStr → Int
  | [], [] => 0
  | [], _ :: _ => -1
  | _ :: _, [] => 1
  | a :: as, b :: bs =>
    if a = b then strcmp as bs else if a < b then -1 else 1

/-- `strcmp(a, b) <= 0`: the order `qsort` sorts by through `compare`
(units.c:870-874). -/
def strle (a b : CStr) : Prop := strcmp a b ≤ 0

instance : DecidableRel strle := fun a b => by unfold strle; infer_instance

/-! ## Unit values -/

/-- `struct unittype` (units.h:104-108): the entries of `numerator` and of
`denominator` before their null terminator, and the factor. -/
structure unittype where
  numerator : List CStr
  denominator : List CStr
  factor : ℚ
  deriving DecidableEq

/-- The atoms of a product list: its entries other than `NULLUNIT`. -/
def atoms (l : List CStr) : List CStr := l.filter (fun a => a ≠ NULLUNIT)

/-- `sortunit` (units.c:879-889): `qsort` of the entries before the terminator
of each list with `strcmp` as comparison.  Entries that `strcmp` calls equal
have the same text, so the sorted list is determined by the input. -/
def sortunit (theunit : unittype) : unittype :=
  { theunit with
    numerator := theunit.numerator.insertionSort strle
    denominator := theunit.denominator.insertionSort strle }

/-- The loop of `cancelunit` (units.c:904-915) on the remaining parts of the
numerator and denominator, `num` and `den` being the two pointers; the result
is what the two remaining parts hold when the loop ends.  Each iteration
advances a pointer, so `fuel` bounds the iterations. -/
def cancelLoop : Nat → List CStr → List CStr → List CStr × List CStr
  | fuel + 1, n :: ns, d :: ds =>
    let comp := strcmp d n
    if comp = 0 then
      let r := cancelLoop fuel ns ds
      (NULLUNIT :: r.1, NULLUNIT :: r.2)
    else if comp < 0 then
      let r := cancelLoop fuel (n :: ns) ds
      (r.1, d :: r.2)
    else
      let r := cancelLoop fuel ns (d :: ds)
      (n :: r.1, r.2)
  | _, num, den => (num, den)

/-- `cancelunit` (units.c:895-916). -/
def cancelunit (theunit : unittype) : unittype :=
  let r := cancelLoop (theunit.numerator.length + theunit.denominator.length)
    theunit.numerator theunit.denominator
  { theunit with numerator := r.1, denominator := r.2 }

/-! ## Error codes and constants -/

def E_PRODOVERFLOW : Int := 2
def E_REDUCE : Int := 3
def E_BADSUM : Int := 4
def E_NOTANUMBER : Int := 5
def E_NOTROOT : Int := 6
def E_UNKNOWNUNIT : Int := 7

/-- Size of a product buffer (units.h:102). -/
def MAXSUBUNITS : Nat := 100

/-- `PRIMITIVECHAR` (units.c:50). -/
def PRIMITIVECHAR : Char := '!'

/-- `NODIM` (units.c:60). -/
def NODIM : CStr := "!dimensionless".toList

/-- `strchr(s, c) != NULL` for a character `c` other than NUL. -/
def strchr (s : CStr) (c : Char) : Bool := s.contains c

/-- `strncmp` of the C library, as a sign: compares at most `n` characters and
stops at the end of a string. -/
def strncmp : CStr → CStr → Nat → Int
  | _, _, 0 => 0
  | [], [], _ + 1 => 0
  | [], _ :: _, _ + 1 => -1
  | _ :: _, [], _ + 1 => 1
  | a :: as, b :: bs, n + 1 =>
    if a = b then strncmp as bs n else if a < b then -1 else 1

/-! ## The database -/

/-- `struct unitlist` (units.c:114-120) without the source position. -/
structure unitlist where
  name : CStr
  value : CStr
  deriving DecidableEq

/-- `struct prefixlist` (units.c:125-133) without the source position. -/
structure prefixlist where
  len : Nat
  name : CStr
  value : CStr
  deriving DecidableEq

/-- `struct functype` (units.h:111-115); `none` is a null or unset pointer and
`defn` is the member `def`. -/
structure functype where
  param : Option CStr
  defn : Option CStr
  dimen : Option CStr
  deriving DecidableEq

/-- `struct pair` (units.h:117-119). -/
structure pair where
  location : ℚ
  value : ℚ
  deriving DecidableEq

/-- `struct func` (units.h:121-131) without the source position: `table` holds
the `tablelen` points, `none` when the pointer is null. -/
structure func where
  name : CStr
  forward : functype
  inverse : functype
  table : Option (List pair)
  tableunit : Option CStr
  deriving DecidableEq

/-- The tables `utab` and `ptab` and the list of functions.  `utab` lists the
unit entries newest first: `readunits` puts a new entry at the head of its hash
chain, every entry is in the chain of its own name, and `ulookup` compares
whole names, so the chain walk of `ulookup` meets the entries of a given name
in this order.  `ptab` lists the prefix entries in insertion order; the chain
of bucket `h` is the entries whose name has `prefixhash` equal to `h`, in this
order (`readunits` appends at `last`).  `funcs` is the linked list from
`firstfunc` on. -/
structure Database where
  utab : List unitlist
  ptab : List prefixlist
  funcs : List func

/-- `prefixhash` (units.c:86): the first character, NUL for the empty string,
masked with 127. -/
def prefixhash (str : CStr) : Nat :=
  match str with
  | [] => 0
  | c :: _ => c.toNat % 128

/-- `ulookup` (units.c:271-280). -/
def ulookup (db : Database) (str : CStr) : Option unitlist :=
  db.utab.find? (fun uptr => strcmp str uptr.name = 0)

/-- `plookup` (units.c:286-296): the first entry of the chain of
`prefixhash(str)` whose name matches the beginning of `str`. -/
def plookup (db : Database) (str : CStr) : Option prefixlist :=
  db.ptab.find? (fun pfx =>
    prefixhash pfx.name = prefixhash str ∧ strncmp str pfx.name pfx.len = 0)

/-! ## Name resolution -/

/-- The third plural rule of `lookupunit` (units.c:978-988) on the current
`copy`; `look` is the recursive call `lookupunit(copy, prefixok)`. -/
def pluralI (look : CStr → Option CStr) (copy : CStr) : Option CStr :=
  if 2 < copy.length ∧ copy.getLast? = some 'i' then
    let copy := copy.dropLast ++ ['y']
    if (look copy).isSome then some copy else none
  else none

/-- The second plural rule of `lookupunit` (units.c:967-977), followed by the
third, which sees the `copy` the second one left. -/
def pluralE (look : CStr → Option CStr) (copy : CStr) : Option CStr :=
  if 2 < copy.length ∧ copy.getLast? = some 'e' then
    let copy := copy.dropLast
    if (look copy).isSome then some copy else pluralI look copy
  else pluralI look copy

/-- The plural branch of `lookupunit` (units.c:956-990): the string copied to
the answer buffer, or `none` when the branch falls through. -/
def pluralS (look : CStr → Option CStr) (unit : CStr) : Option CStr :=
  if 2 < unit.length ∧ unit.getLast? = some 's' then
    let copy := unit.dropLast
    if (look copy).isSome then some copy else pluralE look copy
  else none

/-- The prefix branch of `lookupunit` (units.c:991-1007); `look0` is the
recursive call `lookupunit(copy, 0)`. -/
def prefixBranch (db : Database) (look0 : CStr → Option CStr) (unit : CStr)
    (prefixok : Bool) : Option CStr :=
  if prefixok then
    match plookup db unit with
    | some pfxptr =>
      let copy := unit.drop pfxptr.len
      if copy.length = 0 ∨ (look0 copy).isSome then
        some (pfxptr.value ++ [' '] ++ copy)
      else none
    | none => none
  else none

/-- `lookupunit` (units.c:946-1008) with a bound on the depth of the
recursion; `none` is the null pointer.  The answer is the text the returned
pointer points to at the time of the return. -/
def lookupunitAux (db : Database) : Nat → CStr → Bool → Option CStr
  | 0, _, _ => none
  | fuel + 1, unit, prefixok =>
    match ulookup db unit with
    | some uptr => some uptr.value
    | none =>
      match pluralS (fun copy => lookupunitAux db fuel copy prefixok) unit with
      | some r => some r
      | none =>
        prefixBranch db (fun copy => lookupunitAux db fuel copy false) unit prefixok

/-- `lookupunit` (units.c:946-1008).  The plural calls are on a shorter string,
the prefix call is on a string that is not longer and forbids prefixes, so the
depth of the recursion is at most `2 * strlen(unit) + 1`. -/
def lookupunit (db : Database) (unit : CStr) (prefixok : Bool) : Option CStr :=
  lookupunitAux db (2 * unit.length + 2) unit prefixok

/-! ## Comparison -/

/-- `ignore_dimless` (units.c:1200-1210); `none` is the null pointer. -/
def ignore_dimless (db : Database) : Option CStr → Bool
  | none => false
  | some name =>
    match ulookup db name with
    | some ul => strcmp ul.value NODIM = 0
    | none => false

/-- `ignore_nothing` (units.c:1212-1216). -/
def ignore_nothing : Option CStr → Bool := fun _ => false

/-- `ignore_primitive` (units.c:1219-1229). -/
def ignore_primitive (db : Database) : Option CStr → Bool
  | none => false
  | some name =>
    match ulookup db name with
    | some ul => strchr ul.value PRIMITIVECHAR
    | none => false

/-- The loop of `compareproducts` (units.c:1243-1259).  `one` and `two` are the
entries from the two pointers on; `head?` is `*one`, `none` at the terminator.
Each iteration advances a pointer, so `fuel` bounds the iterations; with no
fuel left the answer is 1. -/
def compareproductsLoop (isdimless : Option CStr → Bool) :
    Nat → List CStr → List CStr → Int
  | 0, _, _ => 1
  | fuel + 1, one, two =>
    if one = [] ∧ two = [] then 0
    else
      let oneblank := (one.head? == some NULLUNIT) || isdimless one.head?
      let twoblank := (two.head? == some NULLUNIT) || isdimless two.head?
      if one = [] ∧ ¬ twoblank then 1
      else if two = [] ∧ ¬ oneblank then 1
      else if oneblank then compareproductsLoop isdimless fuel one.tail two
      else if twoblank then compareproductsLoop isdimless fuel one two.tail
      else
        match one, two with
        | o :: os, t :: ts =>
          if strcmp o t ≠ 0 then 1 else compareproductsLoop isdimless fuel os ts
        | _, _ => 1

/-- `compareproducts` (units.c:1239-1260). -/
def compareproducts (one two : List CStr) (isdimless : Option CStr → Bool) : Int :=
  compareproductsLoop isdimless (one.length + two.length + 1) one two

/-- `compareunits` (units.c:1266-1273). -/
def compareunits (first second : unittype) (isdimless : Option CStr → Bool) : Int :=
  if compareproducts first.numerator second.numerator isdimless ≠ 0 then 1
  else if compareproducts first.denominator second.denominator isdimless ≠ 0 then 1
  else 0

/-! ## Conversion -/

/-- What `showanswer` returns and the numbers it prints: `ret` is the return
value, `doingrec` whether "reciprocal conversion" was announced, `first` the
number of the first line and `second` that of the second line. -/
structure answer where
  ret : Int
  doingrec : Bool
  first : Option ℚ
  second : Option ℚ
  deriving DecidableEq

/-- The reciprocal `invhave` that `showanswer` builds (units.c:1737-1743). -/
def invhave (haveu : unittype) : unittype :=
  { factor := 1 / haveu.factor
    denominator := haveu.numerator
    numerator := haveu.denominator }

/-- The two output lines of `showanswer` (units.c:1785-1807). -/
def showlines (oneline : Bool) (haveu want : unittype) (doingrec : Bool) : answer :=
  { ret := 0
    doingrec := doingrec
    first := some (haveu.factor / want.factor)
    second := if oneline then none else some (want.factor / haveu.factor) }

/-- `showanswer` (units.c:1723-1808), the texts around the numbers left out;
`strictconvert` and `oneline` are the globals of these names. -/
def showanswer (db : Database) (strictconvert oneline : Bool)
    (haveu want : unittype) : answer :=
  if compareunits haveu want (ignore_dimless db) ≠ 0 then
    if strictconvert ∨ compareunits (invhave haveu) want (ignore_dimless db) ≠ 0 then
      { ret := -1, doingrec := false, first := none, second := none }
    else showlines oneline (invhave haveu) want true
  else showlines oneline haveu want false

/-! ## Products -/

/-- The inner loop of `moveproduct` (units.c:1034): from index `dest` on, the
index of the first entry that is the terminator or `NULLUNIT`. -/
def freeslot (product : List CStr) (dest : Nat) : Nat :=
  dest + ((product.drop dest).takeWhile (fun a => a ≠ NULLUNIT)).length

/-- The loop of `moveproduct` (units.c:1032-1042): `dest` is the index the
pointer `dest` stands at, the list argument the entries of `tomove` from `src`
on.  The result is the return value, `product` and what these entries of
`tomove` became. -/
def moveproductLoop : List CStr → Nat → List CStr → Int × List CStr × List CStr
  | product, _, [] => (0, product, [])
  | product, dest, s :: src =>
    if s = NULLUNIT then
      let r := moveproductLoop product dest src
      (r.1, r.2.1, s :: r.2.2)
    else
      let dest := freeslot product dest
      if dest ≥ MAXSUBUNITS - 1 then (E_PRODOVERFLOW, product, s :: src)
      else
        let product := if dest < product.length then product.set dest s else product ++ [s]
        let r := moveproductLoop product dest src
        (r.1, r.2.1, NULLUNIT :: r.2.2)

/-- `moveproduct` (units.c:1026-1044). -/
def moveproduct (product tomove : List CStr) : Int × List CStr × List CStr :=
  moveproductLoop product 0 tomove

/-- `multunit` (units.c:1080-1089): the return value, `left` and `right`. -/
def multunit (left right : unittype) : Int × unittype × unittype :=
  let factor := left.factor * right.factor
  let m := moveproduct left.numerator right.numerator
  if m.1 ≠ 0 then
    (m.1, { left with factor := factor, numerator := m.2.1 },
      { right with numerator := m.2.2 })
  else
    let d := moveproduct left.denominator right.denominator
    (d.1, { factor := factor, numerator := m.2.1, denominator := d.2.1 },
      { right with numerator := m.2.2, denominator := d.2.2 })

/-- `divunit` (units.c:1091-1100): the return value, `left` and `right`. -/
def divunit (left right : unittype) : Int × unittype × unittype :=
  let factor := left.factor / right.factor
  let m := moveproduct left.numerator right.denominator
  if m.1 ≠ 0 then
    (m.1, { left with factor := factor, numerator := m.2.1 },
      { right with denominator := m.2.2 })
  else
    let d := moveproduct left.denominator right.numerator
    (d.1, { factor := factor, numerator := m.2.1, denominator := d.2.1 },
      { right with denominator := m.2.2, numerator := d.2.2 })

/-- `initializeunit` (units.c:791-796). -/
def initializeunit : unittype := { factor := 1, numerator := [], denominator := [] }

/-- `invertunit` (units.c:1426-1443): the entries of the two arrays are
exchanged up to and including the later of the two terminators. -/
def invertunit (theunit : unittype) : unittype :=
  { factor := 1 / theunit.factor
    numerator := theunit.denominator
    denominator := theunit.numerator }

/-! ## Reduction -/

def DIDREDUCTION : Nat := 1
def NOREDUCTION : Nat := 2
def ERROR : Nat := 4

/-- `parseunit` as the reducer sees it (its source, parse.y, is a parameter of
the embedding): the return value and the unit written to `output`. -/
abbrev Parser := CStr → Int × unittype

/-- The state a reduction leaves: a return value, the unit, and the global
`irreducible` (`none` is the null pointer). -/
structure reduction where
  ret : Nat
  theunit : unittype
  irreducible : Option CStr

/-- The two loops of `reduceproduct` (units.c:1133-1159): `idx` is the index the
pointer `product` stands at.  One step is one iteration of the inner `for (;;)`;
`none` means the steps allowed by `fuel` did not finish the loops (a definition
that mentions itself never does). -/
def reduceproductLoop (db : Database) (parseunit : Parser) (flip : Bool) :
    Nat → unittype → Option CStr → Nat → Nat → Option reduction
  | 0, _, _, _, _ => none
  | fuel + 1, theunit, irreducible, idx, didsomething =>
    let product := if flip then theunit.denominator else theunit.numerator
    match product.get? idx with
    | none => some { ret := didsomething, theunit := theunit, irreducible := irreducible }
    | some p =>
      if p.length = 0 then
        reduceproductLoop db parseunit flip fuel theunit irreducible (idx + 1) didsomething
      else
        match lookupunit db p true with
        | none =>
          some { ret := ERROR, theunit := theunit,
                 irreducible := if irreducible.isNone then some p else irreducible }
        | some toadd =>
          if strchr toadd PRIMITIVECHAR then
            reduceproductLoop db parseunit flip fuel theunit irreducible (idx + 1) didsomething
          else
            let theunit1 : unittype :=
              if flip then { theunit with denominator := product.set idx NULLUNIT }
              else { theunit with numerator := product.set idx NULLUNIT }
            let parsed := parseunit toadd
            if parsed.1 ≠ 0 then
              some { ret := ERROR, theunit := theunit1, irreducible := irreducible }
            else
              let r := if flip then divunit theunit1 parsed.2 else multunit theunit1 parsed.2
              if r.1 ≠ 0 then
                some { ret := ERROR, theunit := r.2.1, irreducible := irreducible }
              else
                reduceproductLoop db parseunit flip fuel r.2.1 irreducible idx DIDREDUCTION

/-- `reduceproduct` (units.c:1118-1160). -/
def reduceproduct (db : Database) (parseunit : Parser) (fuel : Nat)
    (theunit : unittype) (irreducible : Option CStr) (flip : Bool) : Option reduction :=
  reduceproductLoop db parseunit flip fuel theunit irreducible 0 NOREDUCTION

/-- The `while` loop of `reduceunit` (units.c:1180-1190); the return value is an
error code here. -/
def reduceunitLoop (db : Database) (parseunit : Parser) :
    Nat → unittype → Option CStr → Option (Int × unittype × Option CStr)
  | 0, _, _ => none
  | fuel + 1, theunit, irreducible =>
    match reduceproduct db parseunit fuel theunit irreducible false with
    | none => none
    | some r1 =>
      let second : Option reduction :=
        if r1.ret &&& ERROR = 0 then
          match reduceproduct db parseunit fuel r1.theunit r1.irreducible true with
          | none => none
          | some r2 => some { r2 with ret := r1.ret ||| r2.ret }
        else some r1
      match second with
      | none => none
      | some r =>
        if r.ret &&& ERROR ≠ 0 then
          if r.irreducible.isSome then some (E_UNKNOWNUNIT, r.theunit, r.irreducible)
          else some (E_REDUCE, r.theunit, r.irreducible)
        else if r.ret &&& DIDREDUCTION ≠ 0 then
          reduceunitLoop db parseunit fuel r.theunit r.irreducible
        else some (0, r.theunit, r.irreducible)

/-- `reduceunit` (units.c:1168-1192): `irreducible` is cleared, then the loop
runs.  The result is the return value, the unit and `irreducible`. -/
def reduceunit (db : Database) (parseunit : Parser) (fuel : Nat) (theunit : unittype) :
    Option (Int × unittype × Option CStr) :=
  reduceunitLoop db parseunit fuel theunit none

/-- `completereduce` (units.c:1278-1288). -/
def completereduce (db : Database) (parseunit : Parser) (fuel : Nat) (unit : unittype) :
    Option (Int × unittype × Option CStr) :=
  match reduceunit db parseunit fuel unit with
  | none => none
  | some r =>
    if r.1 ≠ 0 then some r
    else some (0, cancelunit (sortunit r.2.1), r.2.2)

/-! ## Powers, roots and sums -/

/-- `freeunit` (units.c:802-816). -/
def freeunit (theunit : unittype) : unittype :=
  { theunit with numerator := [], denominator := [] }

/-- The loop over the numerator in `expunit` (units.c:1313-1321): the entries
`src` of the original numerator are appended at `numptr`, `num` being the
entries before `numptr`; the flag reports the overflow return. -/
def expunitNum : List CStr → List CStr → Bool × List CStr
  | [], num => (false, num)
  | s :: src, num =>
    if s ≠ NULLUNIT then
      if num.length > MAXSUBUNITS - 1 then (true, num)
      else expunitNum src (num ++ [s])
    else expunitNum src num

/-- The loop over the denominator in `expunit` (units.c:1322-1330), which
tests the bound after the write. -/
def expunitDen : List CStr → List CStr → Bool × List CStr
  | [], den => (false, den)
  | s :: src, den =>
    if s ≠ NULLUNIT then
      if (den ++ [s]).length > MAXSUBUNITS - 1 then (true, den ++ [s])
      else expunitDen src (den ++ [s])
    else expunitDen src den

/-- The loop `for (i = 1; i < power; i++)` of `expunit` (units.c:1311-1331) with
the number of iterations left. -/
def expunitLoop (orignum origden : List CStr) (thefactor : ℚ) :
    Nat → unittype → Int × unittype
  | 0, theunit => (0, theunit)
  | k + 1, theunit =>
    let factor := theunit.factor * thefactor
    let rn := expunitNum orignum theunit.numerator
    if rn.1 then
      (E_PRODOVERFLOW, { theunit with factor := factor, numerator := rn.2 })
    else
      let rd := expunitDen origden theunit.denominator
      if rd.1 then
        (E_PRODOVERFLOW, { factor := factor, numerator := rn.2, denominator := rd.2 })
      else
        expunitLoop orignum origden thefactor k
          { factor := factor, numerator := rn.2, denominator := rd.2 }

/-- `expunit` (units.c:1294-1335): the return value and the entries that the
loops write to the two lists.  The lists stand for the arrays as long as they
hold at most `MAXSUBUNITS - 1` entries: a list of `MAXSUBUNITS` entries means
that the source has written entry `MAXSUBUNITS - 1` and then the terminator at
index `MAXSUBUNITS`, outside the array, and the value that the program holds
afterwards is not given by the lists.  The statements about the value assume
that both lists of the result hold at most `MAXSUBUNITS - 1` entries. -/
def expunit (theunit : unittype) (power : Int) : Int × unittype :=
  if power = 0 then (0, initializeunit)
  else
    expunitLoop theunit.numerator theunit.denominator theunit.factor
      (power - 1).toNat theunit

/-- The second loop of `subunitroot` (units.c:1386-1399) from the pointer `ptr`
on; `current` is the string `*current`, `out` the entries written so far. -/
def subunitrootLoop (n : Nat) : List CStr → CStr → Nat → List CStr → Int × List CStr
  | [], current, count, out =>
    if count = n then (0, out ++ [current])
    else if count ≠ 0 then (E_NOTROOT, out)
    else (0, out)
  | p :: ptr, current, count, out =>
    if p = NULLUNIT then subunitrootLoop n ptr current count out
    else
      let out1 := if count = n then out ++ [current] else out
      let current1 := if count = n then p else current
      let count1 := if count = n then 0 else count
      if strcmp current1 p = 0 then subunitrootLoop n ptr current1 (count1 + 1) out1
      else (E_NOTROOT, out1)

/-- `subunitroot` (units.c:1378-1400): the return value and the entries written
to `out`.  `current` starts at the first entry that is not `NULLUNIT`; when
there is none it rests on the terminator and the loop never reads it. -/
def subunitroot (n : Nat) (inl : List CStr) : Int × List CStr :=
  let current :=
    match inl.dropWhile (fun a => a = NULLUNIT) with
    | [] => NULLUNIT
    | c :: _ => c
  subunitrootLoop n inl current 0 []

/-- `rootunit` (units.c:1402-1421): the return value and `inunit`.  `pow` is the
function of the C library; `n` is the positive `int` of the call. -/
def rootunit (db : Database) (parseunit : Parser) (pow : ℚ → ℚ → ℚ) (fuel : Nat)
    (inunit : unittype) (n : Nat) : Option (Int × unittype) :=
  match completereduce db parseunit fuel inunit with
  | none => none
  | some r =>
    if r.1 ≠ 0 then some (r.1, r.2.1)
    else
      let inunit := r.2.1
      if n &&& 1 = 0 ∧ inunit.factor < 0 then some (E_NOTROOT, inunit)
      else
        let outfactor := pow inunit.factor (1 / (n : ℚ))
        let sn := subunitroot n inunit.numerator
        if sn.1 ≠ 0 then some (sn.1, inunit)
        else
          let sd := subunitroot n inunit.denominator
          if sd.1 ≠ 0 then some (sd.1, inunit)
          else
            let m := multunit initializeunit
              { factor := outfactor, numerator := sn.2, denominator := sd.2 }
            some (m.1, m.2.1)

/-- `addunit` (units.c:1483-1497): the return value, `unita` and `unitb`. -/
def addunit (db : Database) (parseunit : Parser) (fuel : Nat)
    (unita unitb : unittype) : Option (Int × unittype × unittype) :=
  match completereduce db parseunit fuel unita with
  | none => none
  | some ra =>
    if ra.1 ≠ 0 then some (ra.1, ra.2.1, unitb)
    else
      match completereduce db parseunit fuel unitb with
      | none => none
      | some rb =>
        if rb.1 ≠ 0 then some (rb.1, ra.2.1, rb.2.1)
        else if compareunits ra.2.1 rb.2.1 ignore_nothing ≠ 0 then
          some (E_BADSUM, ra.2.1, rb.2.1)
        else
          some (0, { ra.2.1 with factor := ra.2.1.factor + rb.2.1.factor },
            freeunit rb.2.1)

/-! ## Notions used by the statements -/

/-- The entries of a product list that `compareproducts` does not skip: those
that are neither `NULLUNIT` nor ignored by the predicate. -/
def kept (isdimless : Option CStr → Bool) (l : List CStr) : List CStr :=
  l.filter (fun a => !((a == NULLUNIT) || isdimless (some a)))

/-- A small database for the concrete cases: the primitive units `meter`,
`second` and `henry`, the dimensionless primitive `radian`, the derived units
`inch`, `foot` and `hertz`, and the prefixes `kilo-`, `k-` and `c-`. -/
def sampledb : Database :=
  { utab :=
      [ { name := "henry".toList, value := "!".toList },
        { name := "hertz".toList, value := "/second".toList },
        { name := "foot".toList, value := "12 inch".toList },
        { name := "inch".toList, value := "2.54 cm".toList },
        { name := "radian".toList, value := "!dimensionless".toList },
        { name := "second".toList, value := "!".toList },
        { name := "meter".toList, value := "!".toList } ]
    ptab :=
      [ { len := 4, name := "kilo".toList, value := "1e3".toList },
        { len := 1, name := "k".toList, value := "kilo".toList },
        { len := 1, name := "c".toList, value := "0.01".toList } ]
    funcs := [] }

/-- The reduced value `f / second`. -/
def perSecond (f : ℚ) : unittype :=
  { factor := f, numerator := [], denominator := ["second".toList] }

/-- The reduced value `f second`. -/
def seconds (f : ℚ) : unittype :=
  { factor := f, numerator := ["second".toList], denominator := [] }

/-- The reduced value `f meter`. -/
def meters (f : ℚ) : unittype :=
  { factor := f, numerator := ["meter".toList], denominator := [] }

/-- Two unit values with the same numerator and denominator entries. -/
def sameatoms (u v : unittype) : Prop :=
  u.numerator = v.numerator ∧ u.denominator = v.denominator

/-- Every entry of the list is `NULLUNIT` or a primitive atom: `lookupunit`
finds a definition for it that holds the primitive mark. -/
def primitiveonly (db : Database) (l : List CStr) : Prop :=
  ∀ a ∈ l, a = NULLUNIT ∨
    ∃ body : CStr, lookupunit db a true = some body ∧ strchr body PRIMITIVECHAR = true

/-- Two outcomes of `reduceproduct` that agree in everything but the factor. -/
def samereduction : Option reduction → Option reduction → Prop
  | none, none => True
  | some r, some s =>
    r.ret = s.ret ∧ r.irreducible = s.irreducible ∧ sameatoms r.theunit s.theunit
  | _, _ => False

/-- Two outcomes of `reduceunit` or `completereduce` that agree in everything
but the factor. -/
def samereduced :
    Option (Int × unittype × Option CStr) → Option (Int × unittype × Option CStr) → Prop
  | none, none => True
  | some r, some s => r.1 = s.1 ∧ r.2.2 = s.2.2 ∧ sameatoms r.2.1 s.2.1
  | _, _ => False

/-- A parser for the concrete cases: it fails on every input. -/
def noparser : Parser := fun _ => (1, initializeunit)

/-! ## Loading definitions -/

/-- `WHITE` (units.h:87). -/
def WHITE : CStr := " \t\n".toList

/-- `removepadding` (units.c:329-338). -/
def removepadding (inp : CStr) : CStr :=
  ((inp.dropWhile (fun c => WHITE.contains c)).reverse.dropWhile
    (fun c => WHITE.contains c)).reverse

/-- `fnlookup` (units.c:300-310). -/
def fnlookup (db : Database) (str : CStr) (length : Nat) : Option func :=
  db.funcs.find? (fun funcptr =>
    length = funcptr.name.length ∧ strncmp funcptr.name str length = 0)

/-- `strchr("0123456789.", unitname[0])` as a truth value: the character NUL
of an empty name is found at the end of the digit string. -/
def startsdigit (unitname : CStr) : Bool :=
  match unitname with
  | [] => true
  | c :: _ => "0123456789.".toList.contains c

/-- `strchr("23456789", unitname[strlen(unitname)-1])` as a truth value, for a
name that is not empty. -/
def endsdigit (unitname : CStr) : Bool :=
  match unitname.getLast? with
  | none => true
  | some c => "23456789".toList.contains c

/-- The prefix branch of `readunits` (units.c:513-560): the database and
whether `goterr` was set. -/
def readprefixline (db : Database) (unitname unitdef : CStr) : Database × Bool :=
  let len := unitname.length
  let unitname := unitname.dropLast
  if startsdigit unitname then (db, true)
  else
    match plookup db unitname with
    | some _ => (db, true)
    | none =>
      ({ db with
          ptab := db.ptab ++ [{ len := len - 1, name := unitname, value := unitdef }] },
        false)

/-- The unit branch of `readunits` (units.c:727-774). -/
def readunit (db : Database) (unitname unitdef : CStr) : Database × Bool :=
  if endsdigit unitname then (db, true)
  else if startsdigit unitname then (db, true)
  else if (ulookup db unitname).isSome then (db, true)
  else ({ db with utab := { name := unitname, value := unitdef } :: db.utab }, false)

/-- How `readunits` cuts a token `name[unit]` or `name(param)` (units.c:568-597
and 653-683): `lookupname` is `unitname` after the opening bracket was
overwritten by NUL, `endok` is false when the closing bracket is missing or has
more than one character from it to the end of its string, `name` and `inner` are
`unitname` and `start` after the closing bracket was overwritten too. -/
structure bracketed where
  lookupname : CStr
  endok : Bool
  name : CStr
  inner : CStr

/-- The cut of a token that holds the opening bracket `lb`; `rb` is the closing
bracket.  Both brackets are searched from the start of the token, so the
closing one may stand before the opening one. -/
def cutbrackets (unitname : CStr) (lb rb : Char) : bracketed :=
  let i := unitname.indexOf lb
  let lookupname := unitname.take i
  let start := unitname.drop (i + 1)
  match unitname.indexOf? rb with
  | none => { lookupname := lookupname, endok := false, name := lookupname, inner := start }
  | some j =>
    if j < i then
      { lookupname := lookupname, endok := decide (i - j ≤ 1),
        name := unitname.take j, inner := start }
    else
      { lookupname := lookupname, endok := decide (unitname.length - j ≤ 1),
        name := lookupname, inner := (unitname.take j).drop (i + 1) }

/-- `strtod` of the C library as the loader uses it: `none` when no number
starts the string (`start == end`), else the value and the rest of the string
from `end` on. -/
abbrev Strtod := CStr → Option (ℚ × CStr)

/-- The loop that reads the points of a table (units.c:602-635): `start` and
the points read so far; `none` when `tableerr` is set.  `strtod` consumes at
least one character when it succeeds, so as many iterations as the text has
characters, plus one, end the loop; running out of them counts as an error. -/
def readtable (strtod : Strtod) : Nat → CStr → List pair → Option (List pair)
  | 0, _, _ => none
  | fuel + 1, start, tab =>
    match strtod start with
    | none => some tab
    | some (location, rest) =>
      if (match tab.getLast? with
          | some last => decide (location ≤ last.location)
          | none => false) then none
      else
        let start := rest.dropWhile (fun c => " \t".toList.contains c)
        match strtod start with
        | none => none
        | some (value, rest) =>
          readtable strtod fuel (rest.dropWhile (fun c => " \t,".toList.contains c))
            (tab ++ [{ location := location, value := value }])

/-- The table branch of `readunits` (units.c:561-649). -/
def readtableline (strtod : Strtod) (db : Database) (unitname unitdef : CStr) :
    Database × Bool :=
  let b := cutbrackets unitname '[' ']'
  if startsdigit b.lookupname then (db, true)
  else if !b.endok then (db, true)
  else if (fnlookup db b.lookupname b.lookupname.length).isSome then (db, true)
  else
    match readtable strtod (unitdef.length + 1) unitdef [] with
    | none => (db, true)
    | some tab =>
      ({ db with
          funcs := db.funcs ++
            [{ name := b.name
               forward := { param := none, defn := none, dimen := none }
               inverse := { param := none, defn := none, dimen := none }
               table := some tab
               tableunit := some b.inner }] },
        false)

/-- The end of the function branch of `readunits` (units.c:710-726): `unitdef`
is the text after the dimension part. -/
def addfuncentry (db : Database) (b : bracketed) (fdimen idimen : Option CStr)
    (unitdef : CStr) : Database × Bool :=
  let inv := unitdef.indexOf? ';'
  let forward : functype :=
    { param := some b.inner
      defn := some (removepadding
        (match inv with
          | some k => unitdef.take k
          | none => unitdef))
      dimen := fdimen }
  let inverse : functype :=
    { param := inv.map (fun _ => b.name)
      defn := inv.map (fun k => removepadding (unitdef.drop (k + 1)))
      dimen := idimen }
  ({ db with
      funcs := db.funcs ++
        [{ name := b.name, forward := forward, inverse := inverse, table := none,
           tableunit := none }] },
    false)

/-- The function branch of `readunits` (units.c:650-726). -/
def readfuncline (db : Database) (unitname unitdef : CStr) : Database × Bool :=
  let b := cutbrackets unitname '(' ')'
  if startsdigit b.lookupname then (db, true)
  else if !b.endok then (db, true)
  else if (fnlookup db b.lookupname b.lookupname.length).isSome then (db, true)
  else
    match unitdef with
    | '[' :: rest =>
      match rest.indexOf? ']' with
      | none => (db, true)
      | some e =>
        match rest.indexOf? ';' with
        | some i =>
          if e < i then (db, true)
          else
            addfuncentry db b (some (removepadding (rest.take i)))
              (some (removepadding ((rest.take e).drop (i + 1)))) (rest.drop (e + 1))
        | none =>
          addfuncentry db b (some (removepadding (rest.take e))) none (rest.drop (e + 1))
    | _ => addfuncentry db b none none unitdef

/-- The part of the loop body of `readunits` that handles one definition line
(units.c:511-774): `unitname` is the first token of the line, `unitdef` the
rest after `removepadding`, both non-empty (lines without them are dealt with
before, units.c:495-509). -/
def readdefinition (strtod : Strtod) (db : Database) (unitname unitdef : CStr) :
    Database × Bool :=
  if unitname.getLast? = some '-' then readprefixline db unitname unitdef
  else if strchr unitname '[' then readtableline strtod db unitname unitdef
  else if strchr unitname '(' then readfuncline db unitname unitdef
  else readunit db unitname unitdef

/-- `readunits` (units.c:379-787) on the definition lines it reads, each given
as its `unitname` and `unitdef`: the database and whether `goterr` was set. -/
def readunits (strtod : Strtod) : Database → List (CStr × CStr) → Database × Bool
  | db, [] => (db, false)
  | db, line :: lines =>
    let r := readdefinition strtod db line.1 line.2
    let rest := readunits strtod r.1 lines
    (rest.1, r.2 || rest.2)

/-- The tables before any file is read. -/
def emptydb : Database := { utab := [], ptab := [], funcs := [] }

/-- What `readunits` keeps true of the prefix table: every entry has a
non-empty name of length `len`, and no entry's name starts with the name of an
entry registered before it. -/
def ptabOrdered (ptab : List prefixlist) : Prop :=
  (∀ p ∈ ptab, p.len = p.name.length ∧ p.name ≠ []) ∧
  ptab.Pairwise (fun p q => ¬ p.name <+: q.name)

/-! ## Numbers and powers -/

def E_BADFUNCARG : Int := 10
def E_NOTINDOMAIN : Int := 11
def E_BADTABLE : Int := 12
def E_NOINVERSE : Int := 13
def E_PARSEMEM : Int := 14
def E_FUNARGDEF : Int := 15
def E_BADFILE : Int := 17

/-- `unit2num` (units.c:1338-1351): the return value, `input` and the global
`irreducible`. -/
def unit2num (db : Database) (parseunit : Parser) (fuel : Nat) (input : unittype) :
    Option (Int × unittype × Option CStr) :=
  match completereduce db parseunit fuel input with
  | none => none
  | some r =>
    if r.1 ≠ 0 then some r
    else if compareunits r.2.1 initializeunit ignore_nothing ≠ 0 then
      some (E_NOTANUMBER, r.2.1, r.2.2)
    else some (0, freeunit r.2.1, r.2.2)

/-- `linearinterp` (units.c:1500-1507), in exact arithmetic.  For `b = a` the C
division gives no number; the statements about the value assume `b ≠ a`. -/
def linearinterp (a b aval bval c : ℚ) : ℚ :=
  let lambda := (b - c) / (b - a)
  lambda * aval + (1 - lambda) * bval

/-- The search loop of the forward evaluation of a table (units.c:1563-1573) on
the points from index `count` on: the interpolated value at the first segment
whose locations enclose `value`, `none` when `foundit` stays 0. -/
def forwardsearch (value : ℚ) : List pair → Option ℚ
  | p :: q :: rest =>
    if p.location ≤ value ∧ value ≤ q.location then
      some (linearinterp p.location q.location p.value q.value value)
    else forwardsearch value (q :: rest)
  | _ => none

/-- The search loop of the inverse evaluation of a table (units.c:1538-1550). -/
def inversesearch (value : ℚ) : List pair → Option ℚ
  | p :: q :: rest =>
    if (p.value ≤ value ∧ value ≤ q.value) ∨ (q.value ≤ value ∧ value ≤ p.value) then
      some (linearinterp p.value q.value p.location q.location value)
    else inversesearch value (q :: rest)
  | _ => none

/-- The globals `function_parameter` and `parameter_value` (units.c:148-149);
`none` is the null pointer, and `parameter_value` holds the unit it points to. -/
structure globals where
  function_parameter : Option CStr
  parameter_value : Option unittype

/-- `parseunit` as `evalfunc` sees it: a parser that reads the two globals and
leaves them as it found them. -/
abbrev SlotParser := globals → Parser

/-- What a call of `evalfunc` leaves: the return value, the unit, the two
globals after the call, and the contents of the two globals while the body of
the branch was parsed (`none` when the body was not parsed). -/
structure evaluation where
  err : Int
  theunit : unittype
  slot : globals
  bodyslot : Option globals

/-- The test of the dimension of the argument in `evalfunc` (units.c:1589-1598):
the error to return, 0 when the test passes or there is no dimension; `none`
when a reduction does not finish. -/
def dimensioncheck (db : Database) (parseunit : Parser) (fuel : Nat)
    (dimen : Option CStr) (theunit : unittype) : Option Int :=
  match dimen with
  | none => some 0
  | some dimen =>
    let parsed := parseunit dimen
    if parsed.1 ≠ 0 then some E_BADTABLE
    else
      match completereduce db parseunit fuel parsed.2 with
      | none => none
      | some result =>
        if result.1 ≠ 0 then some E_BADTABLE
        else if compareunits result.2.1 theunit ignore_nothing ≠ 0 then some E_BADFUNCARG
        else some 0

/-- `evalfunc` (units.c:1512-1614).  `slot` holds the two globals at the call.
A table has `tableunit` set and a function has `forward.def` set (units.c:597
and 716), so the empty text stands for pointers that are never null where
they are read.  The global `irreducible`, which the reductions inside set, is
not part of the result. -/
def evalfunc (db : Database) (parseunit : SlotParser) (fuel : Nat) (slot : globals)
    (theunit : unittype) (infunc : func) (inverse : Bool) : Option evaluation :=
  match infunc.table with
  | some table =>
    let parsed := parseunit slot (infunc.tableunit.getD [])
    if parsed.1 ≠ 0 then
      some { err := E_BADTABLE, theunit := theunit, slot := slot, bodyslot := none }
    else
      let result := parsed.2
      if inverse then
        let d := divunit theunit result
        if d.1 ≠ 0 then
          some { err := d.1, theunit := d.2.1, slot := slot, bodyslot := none }
        else
          match unit2num db (parseunit slot) fuel d.2.1 with
          | none => none
          | some n =>
            if n.1 = E_NOTANUMBER then
              some { err := E_BADFUNCARG, theunit := n.2.1, slot := slot, bodyslot := none }
            else if n.1 ≠ 0 then
              some { err := n.1, theunit := n.2.1, slot := slot, bodyslot := none }
            else
              match inversesearch n.2.1.factor table with
              | none =>
                some { err := E_NOTINDOMAIN, theunit := n.2.1, slot := slot,
                       bodyslot := none }
              | some value =>
                some { err := 0, theunit := { freeunit n.2.1 with factor := value },
                       slot := slot, bodyslot := none }
      else
        match unit2num db (parseunit slot) fuel theunit with
        | none => none
        | some n =>
          if n.1 ≠ 0 then
            some { err := n.1, theunit := n.2.1, slot := slot, bodyslot := none }
          else
            match forwardsearch n.2.1.factor table with
            | none =>
              some { err := E_NOTINDOMAIN, theunit := n.2.1, slot := slot,
                     bodyslot := none }
            | some value =>
              some { err := 0
                     theunit := (multunit initializeunit
                       { result with factor := result.factor * value }).2.1
                     slot := slot, bodyslot := none }
  | none =>
    let thefunc := if inverse then infunc.inverse else infunc.forward
    if inverse = true ∧ thefunc.defn.isNone then
      some { err := E_NOINVERSE, theunit := theunit, slot := slot, bodyslot := none }
    else
      match completereduce db (parseunit slot) fuel theunit with
      | none => none
      | some r =>
        if r.1 ≠ 0 then
          some { err := r.1, theunit := r.2.1, slot := slot, bodyslot := none }
        else
          match dimensioncheck db (parseunit slot) fuel thefunc.dimen r.2.1 with
          | none => none
          | some e =>
            if e ≠ 0 then
              some { err := e, theunit := r.2.1, slot := slot, bodyslot := none }
            else
              let bound : globals :=
                { function_parameter := thefunc.param, parameter_value := some r.2.1 }
              let parsed := parseunit bound (thefunc.defn.getD [])
              if parsed.1 = E_PARSEMEM then
                some { err := E_PARSEMEM, theunit := r.2.1, slot := slot,
                       bodyslot := some bound }
              else if parsed.1 ≠ 0 then
                some { err := E_FUNARGDEF, theunit := r.2.1, slot := slot,
                       bodyslot := some bound }
              else
                some { err := 0, theunit := (multunit initializeunit parsed.2).2.1,
                       slot := slot, bodyslot := some bound }

/-- The return value of `readunits` (units.c:784-786) for the outcome of the
loop. -/
def readunitsreturn (r : Database × Bool) : Int := if r.2 then E_BADFILE else 0

/-- A stand-in for `strtod` in the concrete cases: it skips blanks and reads one
decimal digit. -/
def digitstrtod : Strtod := fun s =>
  match s.dropWhile (fun c => c = ' ') with
  | c :: rest => if c.isDigit then some (((c.toNat - 48 : Nat) : ℚ), rest) else none
  | [] => none

/-! ## Sample functions -/

/-- A parser for the concrete cases: the empty text is refused, the name of the
bound parameter denotes the bound value, and any other text is taken as the
name of one unit. -/
def nameparser : SlotParser := fun slot s =>
  if s = [] then (1, initializeunit)
  else if slot.function_parameter = some s then
    match slot.parameter_value with
    | some v => (0, v)
    | none => (1, initializeunit)
  else (0, { factor := 1, numerator := [s], denominator := [] })

/-- The two globals outside the evaluation of a function. -/
def noslot : globals := { function_parameter := none, parameter_value := none }

/-- The function `f(x) [meter] x`, which has no inverse. -/
def samplefunc : func :=
  { name := "f".toList
    forward := { param := some "x".toList, defn := some "x".toList,
                 dimen := some "meter".toList }
    inverse := { param := none, defn := none, dimen := none }
    table := none
    tableunit := none }

/-- A parser for the concrete cases: a text that holds `(` is refused, any other
text is taken as a product of unit names separated by blanks. -/
def wordsparser : Parser := fun s =>
  if s.contains '(' then (1, initializeunit)
  else
    (0, { factor := 1, numerator := (s.splitOn ' ').filter (fun w => w ≠ []),
          denominator := [] })

/-- A database for the concrete cases: the primitive unit `meter`, the unit
`are` defined as `meter meter`, and the unit `bad` defined as `((`. -/
def aredb : Database :=
  { utab :=
      [ { name := "bad".toList, value := "((".toList },
        { name := "are".toList, value := "meter meter".toList },
        { name := "meter".toList, value := "!".toList } ]
    ptab := []
    funcs := [] }

/-- The value `are meter ... meter` whose numerator holds 99 atoms, as many as
the array has room for. -/
def fullunit : unittype :=
  { factor := 1, numerator := "are".toList :: List.replicate 98 "meter".toList,
    denominator := [] }

/-! ## Units files -/

/-- `MAXINCLUDE` (units.c:58). -/
def MAXINCLUDE : Nat := 5

def E_FILE : Int := 16

/-- A line of a units file as the loop of `readunits` tells the kinds apart
(units.c:411-509), with the tokens `strtok` cuts from it: a command line
`!locale name`, `!endlocale`, `!include name` or any other line that starts with
`!`; a line without a token; a line that holds a name and no definition; and a
definition line with its `unitname` and its `unitdef` after `removepadding`. -/
inductive fileline where
  | localeline (name : CStr)
  | endlocaleline
  | includeline (name : CStr)
  | badcommand
  | blank
  | nodef (unitname : CStr)
  | definition (unitname unitdef : CStr)
  deriving DecidableEq

/-- The local variables `goterr`, `wronglocale` and `inlocale` of one call of
`readunits`, with the tables the call has built so far. -/
structure loadstate where
  db : Database
  goterr : Bool
  wronglocale : Bool
  inlocale : Bool

/-- The name `readunits` gives to `fopen` for `!include unitname` met in `file`
(units.c:459-471): `unitname` itself when it holds a `/` or a backslash, else
`unitname` put behind the directory part of `file`. -/
def includefile (file unitname : CStr) : CStr :=
  if strchr unitname '/' ∨ strchr unitname '\\' then unitname
  else
    (file.reverse.dropWhile (fun c => !(c = '/' ∨ c = '\\'))).reverse ++ unitname

/-- One turn of the loop of `readunits` (units.c:408-775) in the file `file`
read at `depth`.  `recurse` is the recursive call `readunits(includefile, ...,
depth+1)`: it gives the return value and the tables, or `none` when it never
returns.  `E_MEMORY` is never returned: allocation does not fail here. -/
def readline (strtod : Strtod) (mylocale : CStr)
    (recurse : CStr → Database → Option (Int × Database)) (file : CStr) (depth : Nat)
    (st : loadstate) : fileline → Option loadstate
  | fileline.localeline name =>
    if name = [] then some { st with goterr := true }
    else if st.inlocale then some { st with goterr := true }
    else
      some { st with
        inlocale := true
        wronglocale := if strcmp name mylocale ≠ 0 then true else st.wronglocale }
  | fileline.endlocaleline =>
    some { st with
      goterr := if st.inlocale then st.goterr else true
      wronglocale := false
      inlocale := false }
  | fileline.includeline name =>
    if st.wronglocale then some st
    else if depth > MAXINCLUDE then some { st with goterr := true }
    else
      match recurse (includefile file name) st.db with
      | none => none
      | some r => some { st with db := r.2, goterr := if r.1 ≠ 0 then true else st.goterr }
  | fileline.badcommand =>
    if st.wronglocale then some st else some { st with goterr := true }
  | fileline.blank => some st
  | fileline.nodef _ =>
    if st.wronglocale then some st else some { st with goterr := true }
  | fileline.definition unitname unitdef =>
    if st.wronglocale then some st
    else
      let r := readdefinition strtod st.db unitname unitdef
      some { st with db := r.1, goterr := if r.2 then true else st.goterr }

/-- The loop of `readunits` (units.c:408-775) over the lines of one file. -/
def readlines (strtod : Strtod) (mylocale : CStr)
    (recurse : CStr → Database → Option (Int × Database)) (file : CStr) (depth : Nat) :
    loadstate → List fileline → Option loadstate
  | st, [] => some st
  | st, line :: lines =>
    match readline strtod mylocale recurse file depth st line with
    | none => none
    | some st1 => readlines strtod mylocale recurse file depth st1 lines

/-- `readunits` (units.c:379-787) on files: `files` gives the lines of the
files that `fopen` can open, `db` holds the tables at the call.  The result is
the return value and the tables; `none` means that the calls allowed by `fuel`
did not finish the load. -/
def readunitsAt (strtod : Strtod) (mylocale : CStr) (files : CStr → Option (List fileline)) :
    Nat → Nat → CStr → Database → Option (Int × Database)
  | 0, _, _, _ => none
  | fuel + 1, depth, file, db =>
    match files file with
    | none => some (E_FILE, db)
    | some lines =>
      match readlines strtod mylocale
          (readunitsAt strtod mylocale files fuel (depth + 1)) file depth
          { db := db, goterr := false, wronglocale := false, inlocale := false } lines with
      | none => none
      | some st => some (if st.goterr then E_BADFILE else 0, st.db)

/-- The call `readunits(file, ..., 0)` of `main` (units.c:2664): no chain of
calls is longer than `MAXINCLUDE + 2`. -/
def readunitsfile (strtod : Strtod) (mylocale : CStr)
    (files : CStr → Option (List fileline)) (file : CStr) (db : Database) :
    Option (Int × Database) :=
  readunitsAt strtod mylocale files (MAXINCLUDE + 2) 0 file db

/-- Seven files for the concrete cases: `f0` includes `f1`, ..., `f5` includes
`f6`, and `f6` defines the unit `deep`. -/
def chainfiles : CStr → Option (List fileline) := fun file =>
  if file = "f0".toList then some [fileline.includeline "f1".toList]
  else if file = "f1".toList then some [fileline.includeline "f2".toList]
  else if file = "f2".toList then some [fileline.includeline "f3".toList]
  else if file = "f3".toList then some [fileline.includeline "f4".toList]
  else if file = "f4".toList then some [fileline.includeline "f5".toList]
  else if file = "f5".toList then some [fileline.includeline "f6".toList]
  else if file = "f6".toList then some [fileline.definition "deep".toList "!".toList]
  else none

/-- A line other than `!locale` and `!endlocale`. -/
def plainline : fileline → Bool
  | fileline.localeline _ => false
  | fileline.endlocaleline => false
  | _ => true

/-! ## Checks and searches -/

/-- `SIGN` (units.c:1816-1818). -/
def SIGN (x : ℚ) : Int := if x > 0 then 1 else if x < 0 then -1 else 0

/-- What `checkfunc` prints for a table: `Table '%s' has only one data point`,
`Table '%s' lacks unique inverse around entry %.8g` with the location it names,
or nothing. -/
inductive tablemessage where
  | onepoint
  | lacksinverse (location : ℚ)
  | nothing
  deriving DecidableEq

/-- The loop of `checkfunc` over the entries of a table from the third on
(units.c:1833-1838): `prev` is `table[i-1]`, the list holds `table[i]` and the
entries behind it. -/
def checkfuncLoop (direction : Int) : pair → List pair → tablemessage
  | _, [] => tablemessage.nothing
  | prev, p :: rest =>
    if SIGN (p.value - prev.value) ≠ direction then tablemessage.lacksinverse p.location
    else checkfuncLoop direction p rest

/-- The table branch of `checkfunc` (units.c:1827-1841) for a function whose
`table` holds these points. -/
def checkfunc (table : List pair) : tablemessage :=
  match table with
  | [] => tablemessage.onepoint
  | [_] => tablemessage.onepoint
  | p0 :: p1 :: rest => checkfuncLoop (SIGN (p1.value - p0.value)) p1 rest

/-- `strstr(haystack, needle) != NULL`. -/
def strstr (haystack needle : CStr) : Bool :=
  haystack.tails.any (fun t => needle.isPrefixOf t)

/-- `struct namedef` (units.c:1962-1965). -/
structure namedef where
  name : CStr
  defn : CStr
  deriving DecidableEq

/-- `addtolist` (units.c:1970-2012): the list after the call.  `searchtype` is
`CONFORMABLE` exactly when `have` is not null (units.c:2051-2057), so it is read
off `haveu`.  The return values of `parseunit` and `completereduce` are not
looked at: `want` is what they leave.  `none` means that `completereduce` did
not return within `fuel`. -/
def addtolist (db : Database) (parseunit : Parser) (fuel : Nat) (haveu : Option unittype)
    (searchstring rname : CStr) (name : Option CStr) (defn : CStr) (list : List namedef) :
    Option (List namedef) :=
  match name with
  | none => some list
  | some name =>
    let keepit : Option Bool :=
      match haveu with
      | some h =>
        match completereduce db parseunit fuel (parseunit name).2 with
        | none => none
        | some want => some (decide (compareunits h want.2.1 (ignore_dimless db) = 0))
      | none => some (strstr rname searchstring)
    match keepit with
    | none => none
    | some true =>
      some (list ++
        [{ name := rname
           defn := if strchr defn PRIMITIVECHAR then "<primitive unit>".toList else defn }])
    | some false => some list

/-- The loop of `tryallunits` over the unit table (units.c:2059-2062); the
entries of the hash table are visited in the order of `utab` here, which the
sorting that follows makes immaterial. -/
def addunits (db : Database) (parseunit : Parser) (fuel : Nat) (haveu : Option unittype)
    (searchstring : CStr) : List unitlist → List namedef → Option (List namedef)
  | [], list => some list
  | uptr :: rest, list =>
    match addtolist db parseunit fuel haveu searchstring uptr.name (some uptr.name)
        uptr.value list with
    | none => none
    | some list1 => addunits db parseunit fuel haveu searchstring rest list1

/-- The loop of `tryallunits` over the functions (units.c:2063-2074). -/
def addfuncs (db : Database) (parseunit : Parser) (fuel : Nat) (haveu : Option unittype)
    (searchstring : CStr) : List func → List namedef → Option (List namedef)
  | [], list => some list
  | funcptr :: rest, list =>
    match (if funcptr.table.isSome then
        addtolist db parseunit fuel haveu searchstring funcptr.name funcptr.tableunit
          "<piecewise linear>".toList list
      else
        addtolist db parseunit fuel haveu searchstring funcptr.name funcptr.inverse.dimen
          "<nonlinear>".toList list) with
    | none => none
    | some list1 => addfuncs db parseunit fuel haveu searchstring rest list1

/-- `tryallunits` (units.c:2038-2100): the list it prints, in the order of
printing.  `qsort` with `compnd` sorts by `strcmp` of the names; entries of one
name may come out of it in either order. -/
def tryallunits (db : Database) (parseunit : Parser) (fuel : Nat) (haveu : Option unittype)
    (searchstring : Option CStr) : Option (List namedef) :=
  match addunits db parseunit fuel haveu (searchstring.getD []) db.utab [] with
  | none => none
  | some list1 =>
    match addfuncs db parseunit fuel haveu (searchstring.getD []) db.funcs list1 with
    | none => none
    | some list2 => some (list2.insertionSort (fun a b => strcmp a.name b.name ≤ 0))

/-- A database for the concrete cases in which `foo` is both a unit and a
table, and `f` is a function without dimensions. -/
def searchdb : Database :=
  { utab :=
      [ { name := "foo".toList, value := "!".toList },
        { name := "meter".toList, value := "!".toList } ]
    ptab := []
    funcs :=
      [ { name := "foo".toList
          forward := { param := none, defn := none, dimen := none }
          inverse := { param := none, defn := none, dimen := none }
          table := some [{ location := 0, value := 0 }, { location := 1, value := 1 }]
          tableunit := some "meter".toList },
        { name := "f".toList
          forward := { param := some "x".toList, defn := some "x".toList, dimen := none }
          inverse := { param := none, defn := none, dimen := none }
          table := none
          tableunit := none } ] }

/-! ## The arrays of a unit, slot by slot -/

/-- The counting loops of `invertunit` (units.c:1434-1435): the number of slots
before the first null pointer. -/
def arraylength (a : List (Option CStr)) : Nat :=
  (a.takeWhile Option.isSome).length

/-- One file for the concrete cases: the prefixes `kilo-` and `k-` and the
unit `meter`. -/
def prefixfile : CStr → Option (List fileline) := fun file =>
  if file = "u".toList then
    some [fileline.definition "kilo-".toList "1e3".toList,
      fileline.definition "k-".toList "kilo".toList,
      fileline.definition "meter".toList "!".toList]
  else none

/-- The tables that the load of `prefixfile` leaves. -/
def prefixdb : Database :=
  { utab := [{ name := "meter".toList, value := "!".toList }]
    ptab :=
      [ { len := 4, name := "kilo".toList, value := "1e3".toList },
        { len := 1, name := "k".toList, value := "kilo".toList } ]
    funcs := [] }

/-- Values for the concrete cases: fifty atoms `m` in the numerator, and in
the denominator. -/
def fiftyabove : unittype :=
  { factor := 1, numerator := List.replicate 50 ['m'], denominator := [] }

def fiftybelow : unittype :=
  { factor := 1, numerator := [], denominator := List.replicate 50 ['m'] }

/-- A sorted value for the concrete cases: `2 m m m s / k m m`. -/
def cancelsample : unittype :=
  { factor := 2
    numerator := [['m'], ['m'], ['m'], ['s']]
    denominator := [['k'], ['m'], ['m']] }

/-- The table `one[meter] 0 5`, which has one point. -/
def onepointtable : func :=
  { name := "one".toList
    forward := { param := none, defn := none, dimen := none }
    inverse := { param := none, defn := none, dimen := none }
    table := some [{ location := 0, value := 5 }]
    tableunit := some "meter".toList }

/-! ## The function-parameter slot, with the effect of the parser on it -/

/-- `parseunit` with its effect on the globals `function_parameter` and
`parameter_value`: the return value, the unit written to `output`, and the two
globals as the call leaves them. -/
abbrev GlobalParser := globals → CStr → (Int × unittype) × globals

/-- The loops of `reduceproduct` (units.c:1133-1159) with the two globals
passed from one call of `parseunit` to the next. -/
def reduceproductLoopG (db : Database) (parseunit : GlobalParser) (flip : Bool) :
    Nat → globals → unittype → Option CStr → Nat → Nat → Option (reduction × globals)
  | 0, _, _, _, _, _ => none
  | fuel + 1, g, theunit, irreducible, idx, didsomething =>
    let product := if flip then theunit.denominator else theunit.numerator
    match product.get? idx with
    | none =>
      some ({ ret := didsomething, theunit := theunit, irreducible := irreducible }, g)
    | some p =>
      if p.length = 0 then
        reduceproductLoopG db parseunit flip fuel g theunit irreducible (idx + 1) didsomething
      else
        match lookupunit db p true with
        | none =>
          some ({ ret := ERROR, theunit := theunit,
                  irreducible := if irreducible.isNone then some p else irreducible }, g)
        | some toadd =>
          if strchr toadd PRIMITIVECHAR then
            reduceproductLoopG db parseunit flip fuel g theunit irreducible (idx + 1)
              didsomething
          else
            let theunit1 : unittype :=
              if flip then { theunit with denominator := product.set idx NULLUNIT }
              else { theunit with numerator := product.set idx NULLUNIT }
            let parsed := parseunit g toadd
            if parsed.1.1 ≠ 0 then
              some ({ ret := ERROR, theunit := theunit1, irreducible := irreducible },
                parsed.2)
            else
              let r :=
                if flip then divunit theunit1 parsed.1.2 else multunit theunit1 parsed.1.2
              if r.1 ≠ 0 then
                some ({ ret := ERROR, theunit := r.2.1, irreducible := irreducible }, parsed.2)
              else
                reduceproductLoopG db parseunit flip fuel parsed.2 r.2.1 irreducible idx
                  DIDREDUCTION

/-- `reduceproduct` (units.c:1118-1160) with the two globals. -/
def reduceproductG (db : Database) (parseunit : GlobalParser) (fuel : Nat) (g : globals)
    (theunit : unittype) (irreducible : Option CStr) (flip : Bool) :
    Option (reduction × globals) :=
  reduceproductLoopG db parseunit flip fuel g theunit irreducible 0 NOREDUCTION

/-- The `while` loop of `reduceunit` (units.c:1180-1190) with the two globals. -/
def reduceunitLoopG (db : Database) (parseunit : GlobalParser) :
    Nat → globals → unittype → Option CStr →
      Option ((Int × unittype × Option CStr) × globals)
  | 0, _, _, _ => none
  | fuel + 1, g, theunit, irreducible =>
    match reduceproductG db parseunit fuel g theunit irreducible false with
    | none => none
    | some r1 =>
      let second : Option (reduction × globals) :=
        if r1.1.ret &&& ERROR = 0 then
          match reduceproductG db parseunit fuel r1.2 r1.1.theunit r1.1.irreducible true with
          | none => none
          | some r2 => some ({ r2.1 with ret := r1.1.ret ||| r2.1.ret }, r2.2)
        else some r1
      match second with
      | none => none
      | some r =>
        if r.1.ret &&& ERROR ≠ 0 then
          if r.1.irreducible.isSome then
            some ((E_UNKNOWNUNIT, r.1.theunit, r.1.irreducible), r.2)
          else some ((E_REDUCE, r.1.theunit, r.1.irreducible), r.2)
        else if r.1.ret &&& DIDREDUCTION ≠ 0 then
          reduceunitLoopG db parseunit fuel r.2 r.1.theunit r.1.irreducible
        else some ((0, r.1.theunit, r.1.irreducible), r.2)

/-- `reduceunit` (units.c:1168-1192) with the two globals. -/
def reduceunitG (db : Database) (parseunit : GlobalParser) (fuel : Nat) (g : globals)
    (theunit : unittype) : Option ((Int × unittype × Option CStr) × globals) :=
  reduceunitLoopG db parseunit fuel g theunit none

/-- `completereduce` (units.c:1278-1288) with the two globals. -/
def completereduceG (db : Database) (parseunit : GlobalParser) (fuel : Nat) (g : globals)
    (unit : unittype) : Option ((Int × unittype × Option CStr) × globals) :=
  match reduceunitG db parseunit fuel g unit with
  | none => none
  | some r =>
    if r.1.1 ≠ 0 then some r
    else some ((0, cancelunit (sortunit r.1.2.1), r.1.2.2), r.2)

/-- `unit2num` (units.c:1338-1351) with the two globals. -/
def unit2numG (db : Database) (parseunit : GlobalParser) (fuel : Nat) (g : globals)
    (input : unittype) : Option ((Int × unittype × Option CStr) × globals) :=
  match completereduceG db parseunit fuel g input with
  | none => none
  | some r =>
    if r.1.1 ≠ 0 then some r
    else if compareunits r.1.2.1 initializeunit ignore_nothing ≠ 0 then
      some ((E_NOTANUMBER, r.1.2.1, r.1.2.2), r.2)
    else some ((0, freeunit r.1.2.1, r.1.2.2), r.2)

/-- The test of the dimension of the argument in `evalfunc` (units.c:1589-1598)
with the two globals. -/
def dimensioncheckG (db : Database) (parseunit : GlobalParser) (fuel : Nat) (g : globals)
    (dimen : Option CStr) (theunit : unittype) : Option (Int × globals) :=
  match dimen with
  | none => some (0, g)
  | some dimen =>
    let parsed := parseunit g dimen
    if parsed.1.1 ≠ 0 then some (E_BADTABLE, parsed.2)
    else
      match completereduceG db parseunit fuel parsed.2 parsed.1.2 with
      | none => none
      | some result =>
        if result.1.1 ≠ 0 then some (E_BADTABLE, result.2)
        else if compareunits result.1.2.1 theunit ignore_nothing ≠ 0 then
          some (E_BADFUNCARG, result.2)
        else some (0, result.2)

/-- `evalfunc` (units.c:1512-1614) with the two globals passed through every
call of `parseunit`, and with its own assignments to them (units.c:1599-1606):
`slot` holds the globals at the call, the field `slot` of the result the
globals at the return, and `bodyslot` the globals at the call of `parseunit` on
the body of the branch. -/
def evalfuncG (db : Database) (parseunit : GlobalParser) (fuel : Nat) (slot : globals)
    (theunit : unittype) (infunc : func) (inverse : Bool) : Option evaluation :=
  match infunc.table with
  | some table =>
    let parsed := parseunit slot (infunc.tableunit.getD [])
    if parsed.1.1 ≠ 0 then
      some { err := E_BADTABLE, theunit := theunit, slot := parsed.2, bodyslot := none }
    else
      let result := parsed.1.2
      if inverse then
        let d := divunit theunit result
        if d.1 ≠ 0 then
          some { err := d.1, theunit := d.2.1, slot := parsed.2, bodyslot := none }
        else
          match unit2numG db parseunit fuel parsed.2 d.2.1 with
          | none => none
          | some n =>
            if n.1.1 = E_NOTANUMBER then
              some { err := E_BADFUNCARG, theunit := n.1.2.1, slot := n.2, bodyslot := none }
            else if n.1.1 ≠ 0 then
              some { err := n.1.1, theunit := n.1.2.1, slot := n.2, bodyslot := none }
            else
              match inversesearch n.1.2.1.factor table with
              | none =>
                some { err := E_NOTINDOMAIN, theunit := n.1.2.1, slot := n.2,
                       bodyslot := none }
              | some value =>
                some { err := 0, theunit := { freeunit n.1.2.1 with factor := value },
                       slot := n.2, bodyslot := none }
      else
        match unit2numG db parseunit fuel parsed.2 theunit with
        | none => none
        | some n =>
          if n.1.1 ≠ 0 then
            some { err := n.1.1, theunit := n.1.2.1, slot := n.2, bodyslot := none }
          else
            match forwardsearch n.1.2.1.factor table with
            | none =>
              some { err := E_NOTINDOMAIN, theunit := n.1.2.1, slot := n.2,
                     bodyslot := none }
            | some value =>
              some { err := 0
                     theunit := (multunit initializeunit
                       { result with factor := result.factor * value }).2.1
                     slot := n.2, bodyslot := none }
  | none =>
    let thefunc := if inverse then infunc.inverse else infunc.forward
    if inverse = true ∧ thefunc.defn.isNone then
      some { err := E_NOINVERSE, theunit := theunit, slot := slot, bodyslot := none }
    else
      match completereduceG db parseunit fuel slot theunit with
      | none => none
      | some r =>
        if r.1.1 ≠ 0 then
          some { err := r.1.1, theunit := r.1.2.1, slot := r.2, bodyslot := none }
        else
          match dimensioncheckG db parseunit fuel r.2 thefunc.dimen r.1.2.1 with
          | none => none
          | some e =>
            if e.1 ≠ 0 then
              some { err := e.1, theunit := r.1.2.1, slot := e.2, bodyslot := none }
            else
              let save_value := e.2.parameter_value
              let save_function := e.2.function_parameter
              let bound : globals :=
                { function_parameter := thefunc.param, parameter_value := some r.1.2.1 }
              let parsed := parseunit bound (thefunc.defn.getD [])
              let restored : globals :=
                { function_parameter := save_function, parameter_value := save_value }
              if parsed.1.1 = E_PARSEMEM then
                some { err := E_PARSEMEM, theunit := r.1.2.1, slot := restored,
                       bodyslot := some bound }
              else if parsed.1.1 ≠ 0 then
                some { err := E_FUNARGDEF, theunit := r.1.2.1, slot := restored,
                       bodyslot := some bound }
              else
                some { err := 0, theunit := (multunit initializeunit parsed.1.2).2.1,
                       slot := restored, bodyslot := some bound }

/-- A parser for the concrete cases: outside the body of a function it leaves
the two globals as it found them, inside (a parameter is bound) it leaves the
name `y` without a value in them. -/
def nameparserG : GlobalParser := fun slot s =>
  (nameparser slot s,
    if slot.function_parameter.isSome then
      { function_parameter := some "y".toList, parameter_value := none }
    else slot)

/-! ## Printing a unit -/

/-- `if (counter > 1) printf("%s%d", powerstring, counter)` of `showunit`
(units.c:836-837). -/
def showpower (powerstring : CStr) (counter : Nat) : CStr :=
  if counter > 1 then powerstring ++ Nat.toDigits 10 counter else []

/-- The test `ptr > theunit->numerator && **ptr && !strcmp(*ptr, *(ptr - 1))`
of `showunit` (units.c:832-833); `prev` is `*(ptr - 1)`, `none` at the first
entry. -/
def samerun (prev : Option CStr) (p : CStr) : Bool :=
  match prev with
  | none => false
  | some q => decide (p ≠ []) && decide (strcmp p q = 0)

/-- A loop of `showunit` over one list (units.c:831-842 and 847-862); `slash` is
true in the loop over the denominator, which prints ` /` before the first entry
it prints.  The result is the text printed and the variables `counter` and
`printedslash` after the loop. -/
def showloop (powerstring : CStr) (slash : Bool) :
    Option CStr → Nat → Bool → List CStr → CStr × Nat × Bool
  | _, counter, printedslash, [] => ([], counter, printedslash)
  | prev, counter, printedslash, p :: ptr =>
    if samerun prev p then
      showloop powerstring slash (some p) (counter + 1) printedslash ptr
    else
      let power := showpower powerstring counter
      let name : CStr :=
        if p ≠ [] then
          (if slash = true ∧ printedslash = false then " /".toList else []) ++ ' ' :: p
        else []
      let r := showloop powerstring slash (some p) 1
        (printedslash || (slash && decide (p ≠ []))) ptr
      (power ++ name ++ r.1, r.2.1, r.2.2)

/-- `showunit` (units.c:822-865): the text printed.  `numformat` is the text
that `printf(numformat, factor)` prints, `powerstring` the global of this
name. -/
def showunit (numformat : ℚ → CStr) (powerstring : CStr) (theunit : unittype) : CStr :=
  let n := showloop powerstring false none 1 false theunit.numerator
  let d := showloop powerstring true none 1 false theunit.denominator
  numformat theunit.factor ++ n.1 ++ showpower powerstring n.2.1
    ++ d.1 ++ showpower powerstring d.2.1

/-- The text of one product list as the specification words it: each distinct
atom once, in sorted order, followed by the power string and its multiplicity
`k` when `k` exceeds 1. -/
def showpowers (powerstring : CStr) (l : List CStr) : CStr :=
  (((atoms l).dedup.insertionSort strle).map
    (fun a => ' ' :: a ++ showpower powerstring (l.count a))).flatten

/-- The text of a unit as the specification words it: the factor, the
numerator, and ` /` once before the first atom of the denominator. -/
def showcanonical (numformat : ℚ → CStr) (powerstring : CStr) (theunit : unittype) : CStr :=
  numformat theunit.factor ++ showpowers powerstring theunit.numerator
    ++ (if atoms theunit.denominator = [] then []
        else " /".toList ++ showpowers powerstring theunit.denominator)

/-- A list given by its runs: `(a, k)` stands for `k + 1` successive entries
`a`. -/
def expandruns : List (CStr × Nat) → List CStr
  | [] => []
  | r :: t => List.replicate (r.2 + 1) r.1 ++ expandruns t

/-- What a loop of `showunit` prints for a list given by its runs, the last
power included. -/
def showruns (powerstring : CStr) (slash : Bool) : Bool → List (CStr × Nat) → CStr
  | _, [] => []
  | printedslash, r :: t =>
    if r.1 = NULLUNIT then showruns powerstring slash printedslash t
    else
      (if slash = true ∧ printedslash = false then " /".toList else []) ++ ' ' :: r.1
        ++ showpower powerstring (r.2 + 1)
        ++ showruns powerstring slash (printedslash || slash) t

/-- A value with a sentinel and repeated atoms for the concrete cases:
`2 s m m _ m m / m k m`. -/
def showsample : unittype :=
  { factor := 2
    numerator := [['s'], ['m'], ['m'], NULLUNIT, ['m'], ['m']]
    denominator := [['m'], ['k'], ['m']] }

/-- The atoms that head the runs of a list given by its runs. -/
def runatoms (runs : List (CStr × Nat)) : List CStr :=
  (runs.filter (fun r => r.1 ≠ NULLUNIT)).map (fun r => r.1)

/-! ## Reduction with the refused substitution recorded -/

/-- The loops of `reduceproduct` (units.c:1133-1159) with a record of how they
ended: the flag is true exactly when the return is the `return ERROR` that
follows an error of `multunit` or `divunit` (units.c:1153-1157), that is, when
the substitution of a definition did not fit the product. -/
def reduceproductLoopT (db : Database) (parseunit : Parser) (flip : Bool) :
    Nat → unittype → Option CStr → Nat → Nat → Option (reduction × Bool)
  | 0, _, _, _, _ => none
  | fuel + 1, theunit, irreducible, idx, didsomething =>
    let product := if flip then theunit.denominator else theunit.numerator
    match product.get? idx with
    | none =>
      some ({ ret := didsomething, theunit := theunit, irreducible := irreducible }, false)
    | some p =>
      if p.length = 0 then
        reduceproductLoopT db parseunit flip fuel theunit irreducible (idx + 1) didsomething
      else
        match lookupunit db p true with
        | none =>
          some ({ ret := ERROR, theunit := theunit,
                  irreducible := if irreducible.isNone then some p else irreducible },
            false)
        | some toadd =>
          if strchr toadd PRIMITIVECHAR then
            reduceproductLoopT db parseunit flip fuel theunit irreducible (idx + 1)
              didsomething
          else
            let theunit1 : unittype :=
              if flip then { theunit with denominator := product.set idx NULLUNIT }
              else { theunit with numerator := product.set idx NULLUNIT }
            let parsed := parseunit toadd
            if parsed.1 ≠ 0 then
              some ({ ret := ERROR, theunit := theunit1, irreducible := irreducible }, false)
            else
              let r := if flip then divunit theunit1 parsed.2 else multunit theunit1 parsed.2
              if r.1 ≠ 0 then
                some ({ ret := ERROR, theunit := r.2.1, irreducible := irreducible }, true)
              else
                reduceproductLoopT db parseunit flip fuel r.2.1 irreducible idx DIDREDUCTION

/-- `reduceproduct` (units.c:1118-1160) with the record. -/
def reduceproductT (db : Database) (parseunit : Parser) (fuel : Nat)
    (theunit : unittype) (irreducible : Option CStr) (flip : Bool) :
    Option (reduction × Bool) :=
  reduceproductLoopT db parseunit flip fuel theunit irreducible 0 NOREDUCTION

/-- The `while` loop of `reduceunit` (units.c:1180-1190) with the record of the
call of `reduceproduct` that ended it. -/
def reduceunitLoopT (db : Database) (parseunit : Parser) :
    Nat → unittype → Option CStr → Option ((Int × unittype × Option CStr) × Bool)
  | 0, _, _ => none
  | fuel + 1, theunit, irreducible =>
    match reduceproductT db parseunit fuel theunit irreducible false with
    | none => none
    | some r1 =>
      let second : Option (reduction × Bool) :=
        if r1.1.ret &&& ERROR = 0 then
          match reduceproductT db parseunit fuel r1.1.theunit r1.1.irreducible true with
          | none => none
          | some r2 => some ({ r2.1 with ret := r1.1.ret ||| r2.1.ret }, r2.2)
        else some r1
      match second with
      | none => none
      | some r =>
        if r.1.ret &&& ERROR ≠ 0 then
          if r.1.irreducible.isSome then
            some ((E_UNKNOWNUNIT, r.1.theunit, r.1.irreducible), r.2)
          else some ((E_REDUCE, r.1.theunit, r.1.irreducible), r.2)
        else if r.1.ret &&& DIDREDUCTION ≠ 0 then
          reduceunitLoopT db parseunit fuel r.1.theunit r.1.irreducible
        else some ((0, r.1.theunit, r.1.irreducible), r.2)

/-- `completereduce` (units.c:1278-1288) over `reduceunit` (units.c:1168-1192)
with the record: whether the reduction ended at a substitution that did not
fit. -/
def completereduceT (db : Database) (parseunit : Parser) (fuel : Nat) (unit : unittype) :
    Option ((Int × unittype × Option CStr) × Bool) :=
  match reduceunitLoopT db parseunit fuel unit none with
  | none => none
  | some r =>
    if r.1.1 ≠ 0 then some r
    else some ((0, cancelunit (sortunit r.1.2.1), r.1.2.2), r.2)

/-- The value `are are meter ... meter` whose numerator holds 98 atoms: the
substitution for the first `are` fits, the one for the second does not. -/
def twoare : unittype :=
  { factor := 1
    numerator := "are".toList :: "are".toList :: List.replicate 96 "meter".toList
    denominator := [] }

/-- The value `/ are are meter ... meter` with 98 atoms in the denominator. -/
def twoarebelow : unittype :=
  { factor := 1
    numerator := []
    denominator := "are".toList :: "are".toList :: List.replicate 96 "meter".toList }

/-! # Theorems -/

/-! ## Facts about `strcmp` -/

theorem strcmp_self (a : CStr) : strcmp a a = 0 := by
  induction a with
  | nil => rfl
  | cons c cs ih => simp [strcmp, ih]

theorem strcmp_eq_zero : ∀ {a b : CStr}, strcmp a b = 0 → a = b
  | [], [], _ => rfl
  | [], _ :: _, h => by simp [strcmp] at h
  | _ :: _, [], h => by simp [strcmp] at h
  | a :: as, b :: bs, h => by
    unfold strcmp at h
    by_cases hab : a = b
    · rw [if_pos hab] at h
      rw [hab, strcmp_eq_zero h]
    · rw [if_neg hab] at h
      split at h <;> simp at h

theorem strcmp_eq_zero_iff {a b : CStr} : strcmp a b = 0 ↔ a = b :=
  ⟨strcmp_eq_zero, fun h => h ▸ strcmp_self a⟩

theorem strcmp_range : ∀ a b : CStr, strcmp a b = -1 ∨ strcmp a b = 0 ∨ strcmp a b = 1
  | [], [] => by simp [strcmp]
  | [], _ :: _ => by simp [strcmp]
  | _ :: _, [] => by simp [strcmp]
  | a :: as, b :: bs => by
    unfold strcmp
    by_cases hab : a = b
    · rw [if_pos hab]; exact strcmp_range as bs
    · rw [if_neg hab]; split <;> simp

theorem strcmp_swap : ∀ a b : CStr, strcmp b a = -strcmp a b
  | [], [] => by simp [strcmp]
  | [], _ :: _ => by simp [strcmp]
  | _ :: _, [] => by simp [strcmp]
  | a :: as, b :: bs => by
    unfold strcmp
    by_cases hab : a = b
    · rw [if_pos hab, if_pos hab.symm]; exact strcmp_swap as bs
    · rw [if_neg hab, if_neg (Ne.symm hab)]
      rcases lt_trichotomy a b with h | h | h
      · rw [if_pos h, if_neg (not_lt_of_lt h)]; simp
      · exact absurd h hab
      · rw [if_neg (not_lt_of_lt h), if_pos h]

theorem strle_total (a b : CStr) : strle a b ∨ strle b a := by
  unfold strle
  rw [strcmp_swap a b]
  omega

theorem strle_trans : ∀ {a b c : CStr}, strle a b → strle b c → strle a c
  | [], [], _, _, h => h
  | [], _ :: _, [], _, _ => by simp [strle, strcmp]
  | [], _ :: _, _ :: _, _, _ => by simp [strle, strcmp]
  | _ :: _, [], _, h, _ => by simp [strle, strcmp] at h
  | _ :: _, _ :: _, [], _, h => by simp [strle, strcmp] at h
  | a :: as, b :: bs, c :: cs, h1, h2 => by
    unfold strle strcmp at *
    by_cases hab : a = b
    · subst hab
      rw [if_pos rfl] at h1
      by_cases hac : a = c
      · subst hac
        rw [if_pos rfl] at h2 ⊢
        exact strle_trans (a := as) (b := bs) (c := cs) h1 h2
      · rw [if_neg hac] at h2 ⊢
        exact h2
    · rw [if_neg hab] at h1
      have hlt : a < b := by
        by_contra hn
        rw [if_neg hn] at h1
        omega
      by_cases hbc : b = c
      · subst hbc
        rw [if_neg hab, if_pos hlt]
        omega
      · rw [if_neg hbc] at h2
        have hlt2 : b < c := by
          by_contra hn
          rw [if_neg hn] at h2
          omega
        have hac : a < c := lt_trans hlt hlt2
        rw [if_neg (ne_of_lt hac), if_pos hac]
        omega

theorem strle_antisymm {a b : CStr} (h1 : strle a b) (h2 : strle b a) : a = b := by
  unfold strle at h1 h2
  rw [strcmp_swap a b] at h2
  exact strcmp_eq_zero (by omega)

/-! ## Canonical form: `sortunit` then `cancelunit` -/

theorem mem_atoms {a : CStr} {l : List CStr} : a ∈ atoms l ↔ a ∈ l ∧ a ≠ NULLUNIT := by
  simp [atoms]

theorem atoms_cons_null (l : List CStr) : atoms (NULLUNIT :: l) = atoms l := by
  simp [atoms]

theorem atoms_sublist (l : List CStr) : (atoms l).Sublist l :=
  List.filter_sublist l

theorem cancelLoop_fst_sublist :
    ∀ (fuel : Nat) (num den : List CStr),
      (atoms (cancelLoop fuel num den).1).Sublist (atoms num)
  | 0, num, den => by simp [cancelLoop]
  | _ + 1, [], den => by simp [cancelLoop]
  | _ + 1, _ :: _, [] => by simp [cancelLoop]
  | fuel + 1, n :: ns, d :: ds => by
    simp only [cancelLoop]
    split
    · rw [atoms_cons_null]
      exact (cancelLoop_fst_sublist fuel ns ds).trans
        ((List.sublist_cons_self n ns).filter _)
    · split
      · exact cancelLoop_fst_sublist fuel (n :: ns) ds
      · by_cases hn : n = NULLUNIT
        · have h1 : atoms (n :: (cancelLoop fuel ns (d :: ds)).1)
              = atoms (cancelLoop fuel ns (d :: ds)).1 := by simp [atoms, hn]
          have h2 : atoms (n :: ns) = atoms ns := by simp [atoms, hn]
          rw [h1, h2]
          exact cancelLoop_fst_sublist fuel ns (d :: ds)
        · have h1 : atoms (n :: (cancelLoop fuel ns (d :: ds)).1)
              = n :: atoms (cancelLoop fuel ns (d :: ds)).1 := by simp [atoms, hn]
          have h2 : atoms (n :: ns) = n :: atoms ns := by simp [atoms, hn]
          rw [h1, h2]
          exact (cancelLoop_fst_sublist fuel ns (d :: ds)).cons₂ n

theorem cancelLoop_snd_sublist :
    ∀ (fuel : Nat) (num den : List CStr),
      (atoms (cancelLoop fuel num den).2).Sublist (atoms den)
  | 0, num, den => by simp [cancelLoop]
  | _ + 1, [], den => by simp [cancelLoop]
  | _ + 1, _ :: _, [] => by simp [cancelLoop]
  | fuel + 1, n :: ns, d :: ds => by
    simp only [cancelLoop]
    split
    · rw [atoms_cons_null]
      exact (cancelLoop_snd_sublist fuel ns ds).trans
        ((List.sublist_cons_self d ds).filter _)
    · split
      · by_cases hd : d = NULLUNIT
        · have h1 : atoms (d :: (cancelLoop fuel (n :: ns) ds).2)
              = atoms (cancelLoop fuel (n :: ns) ds).2 := by simp [atoms, hd]
          have h2 : atoms (d :: ds) = atoms ds := by simp [atoms, hd]
          rw [h1, h2]
          exact cancelLoop_snd_sublist fuel (n :: ns) ds
        · have h1 : atoms (d :: (cancelLoop fuel (n :: ns) ds).2)
              = d :: atoms (cancelLoop fuel (n :: ns) ds).2 := by simp [atoms, hd]
          have h2 : atoms (d :: ds) = d :: atoms ds := by simp [atoms, hd]
          rw [h1, h2]
          exact (cancelLoop_snd_sublist fuel (n :: ns) ds).cons₂ d
      · exact cancelLoop_snd_sublist fuel ns (d :: ds)

theorem cancelLoop_disjoint :
    ∀ (fuel : Nat) (num den : List CStr), num.length + den.length ≤ fuel →
      List.Sorted strle num → List.Sorted strle den →
      ∀ a : CStr, a ≠ NULLUNIT →
        a ∈ (cancelLoop fuel num den).1 → a ∈ (cancelLoop fuel num den).2 → False
  | 0, num, den, hf, _, _, a, _, h1, _ => by
    have : num = [] := List.eq_nil_of_length_eq_zero (by omega)
    subst this
    simp [cancelLoop] at h1
  | _ + 1, [], den, _, _, _, a, _, h1, _ => by simp [cancelLoop] at h1
  | _ + 1, _ :: _, [], _, _, _, a, _, _, h2 => by simp [cancelLoop] at h2
  | fuel + 1, n :: ns, d :: ds, hf, hsn, hsd, a, ha, h1, h2 => by
    simp only [List.length_cons] at hf
    have hns : List.Sorted strle ns := hsn.of_cons
    have hds : List.Sorted strle ds := hsd.of_cons
    simp only [cancelLoop] at h1 h2
    split at h1
    · -- the two heads match and are cancelled
      rename_i hc
      rw [if_pos hc] at h2
      have h1t : a ∈ (cancelLoop fuel ns ds).1 := by
        rcases List.mem_cons.1 h1 with h | h
        · exact absurd h ha
        · exact h
      have h2t : a ∈ (cancelLoop fuel ns ds).2 := by
        rcases List.mem_cons.1 h2 with h | h
        · exact absurd h ha
        · exact h
      exact cancelLoop_disjoint fuel ns ds (by omega) hns hds a ha h1t h2t
    · rename_i hc
      rw [if_neg hc] at h2
      split at h1
      · -- the denominator's head is behind: it stays
        rename_i hlt
        rw [if_pos hlt] at h2
        rcases List.mem_cons.1 h2 with h | h
        · have hmem : a ∈ n :: ns :=
            ((atoms_sublist _).subset
              ((cancelLoop_fst_sublist fuel (n :: ns) ds).subset (mem_atoms.2 ⟨h1, ha⟩)))
          have hle : strle n a := by
            rcases List.mem_cons.1 hmem with e | e
            · rw [e]; exact le_of_eq (strcmp_self n)
            · exact List.rel_of_sorted_cons hsn a e
          unfold strle at hle
          rw [h, strcmp_swap d n] at hle
          omega
        · exact cancelLoop_disjoint fuel (n :: ns) ds (by simp only [List.length_cons]; omega)
            hsn hds a ha h1 h
      · -- the numerator's head is behind: it stays
        rename_i hlt
        rw [if_neg hlt] at h2
        rcases List.mem_cons.1 h1 with h | h
        · have hmem : a ∈ d :: ds :=
            ((atoms_sublist _).subset
              ((cancelLoop_snd_sublist fuel ns (d :: ds)).subset (mem_atoms.2 ⟨h2, ha⟩)))
          have hle : strle d a := by
            rcases List.mem_cons.1 hmem with e | e
            · rw [e]; exact le_of_eq (strcmp_self d)
            · exact List.rel_of_sorted_cons hsd a e
          unfold strle at hle
          rw [h] at hle
          omega
        · exact cancelLoop_disjoint fuel ns (d :: ds) (by simp only [List.length_cons]; omega)
            hns hsd a ha h h2

theorem sorted_insertionSort_strle (l : List CStr) :
    List.Sorted strle (l.insertionSort strle) := by
  haveI : IsTotal CStr strle := ⟨strle_total⟩
  haveI : IsTrans CStr strle := ⟨fun _ _ _ => strle_trans⟩
  exact List.sorted_insertionSort strle l

/-- The outcome of `qsort` is determined: a rearrangement of the list that is
sorted by `strcmp` is the list `sortunit` is modelled by. -/
theorem qsort_unique (l sorted : List CStr) (hperm : sorted.Perm l)
    (hsorted : List.Sorted strle sorted) : sorted = l.insertionSort strle := by
  haveI : IsAntisymm CStr strle := ⟨fun _ _ => strle_antisymm⟩
  exact List.eq_of_perm_of_sorted (hperm.trans (List.perm_insertionSort strle l).symm)
    hsorted (sorted_insertionSort_strle l)

/-- C1. Canonical form: for every unit value, after `sortunit` followed by
`cancelunit` the atoms (non-sentinel entries) of the numerator are in
non-decreasing `strcmp` order, so are those of the denominator, and no atom
occurs in both lists. -/
theorem C1_canonical_form (u : unittype) :
    List.Sorted strle (atoms (cancelunit (sortunit u)).numerator) ∧
    List.Sorted strle (atoms (cancelunit (sortunit u)).denominator) ∧
    ∀ a : CStr, a ≠ NULLUNIT →
      ¬ (a ∈ (cancelunit (sortunit u)).numerator ∧
         a ∈ (cancelunit (sortunit u)).denominator) := by
  have hn := sorted_insertionSort_strle u.numerator
  have hd := sorted_insertionSort_strle u.denominator
  refine ⟨?_, ?_, ?_⟩
  · exact List.Pairwise.sublist (cancelLoop_fst_sublist _ _ _) (List.Pairwise.filter _ hn)
  · exact List.Pairwise.sublist (cancelLoop_snd_sublist _ _ _) (List.Pairwise.filter _ hd)
  · intro a ha ⟨h1, h2⟩
    exact cancelLoop_disjoint _ _ _ (le_refl _) hn hd a ha h1 h2

/-! ## Comparison of products -/

theorem kept_cons_blank {isdimless : Option CStr → Bool} {a : CStr} (l : List CStr)
    (h : ((a == NULLUNIT) || isdimless (some a)) = true) :
    kept isdimless (a :: l) = kept isdimless l := by
  unfold kept
  rw [List.filter_cons, h]
  rfl

theorem kept_cons_keep {isdimless : Option CStr → Bool} {a : CStr} (l : List CStr)
    (h : ((a == NULLUNIT) || isdimless (some a)) = false) :
    kept isdimless (a :: l) = a :: kept isdimless l := by
  unfold kept
  rw [List.filter_cons, h]
  rfl

theorem compareproductsLoop_spec (isdimless : Option CStr → Bool)
    (hnull : isdimless none = false) :
    ∀ (fuel : Nat) (one two : List CStr), one.length + two.length < fuel →
      (compareproductsLoop isdimless fuel one two = 0 ∨
        compareproductsLoop isdimless fuel one two = 1) ∧
      (compareproductsLoop isdimless fuel one two = 0 ↔
        kept isdimless one = kept isdimless two)
  | 0, _, _, h => by omega
  | fuel + 1, [], [], _ => by simp [compareproductsLoop]
  | fuel + 1, [], t :: ts, h => by
    simp only [List.length_cons, List.length_nil] at h
    have ih := compareproductsLoop_spec isdimless hnull fuel [] ts (by simp; omega)
    cases hb : ((t == NULLUNIT) || isdimless (some t))
    · rw [kept_cons_keep ts hb]
      simp [compareproductsLoop, hnull, hb, kept]
    · rw [kept_cons_blank ts hb]
      simpa [compareproductsLoop, hnull, hb] using ih
  | fuel + 1, o :: os, [], h => by
    simp only [List.length_cons, List.length_nil] at h
    have ih := compareproductsLoop_spec isdimless hnull fuel os [] (by simp; omega)
    cases hb : ((o == NULLUNIT) || isdimless (some o))
    · rw [kept_cons_keep os hb]
      simp [compareproductsLoop, hnull, hb, kept]
    · rw [kept_cons_blank os hb]
      simpa [compareproductsLoop, hnull, hb] using ih
  | fuel + 1, o :: os, t :: ts, h => by
    simp only [List.length_cons] at h
    cases hb : ((o == NULLUNIT) || isdimless (some o))
    · cases hc : ((t == NULLUNIT) || isdimless (some t))
      · have ih := compareproductsLoop_spec isdimless hnull fuel os ts (by omega)
        rw [kept_cons_keep os hb, kept_cons_keep ts hc]
        by_cases hot : strcmp o t = 0
        · have e : o = t := strcmp_eq_zero hot
          subst e
          simpa [compareproductsLoop, hb, hot] using ih
        · have e : o ≠ t := fun e => hot (strcmp_eq_zero_iff.2 e)
          simp [compareproductsLoop, hb, hc, hot, e]
      · have ih := compareproductsLoop_spec isdimless hnull fuel (o :: os) ts
          (by simp only [List.length_cons]; omega)
        rw [kept_cons_blank ts hc]
        simpa [compareproductsLoop, hb, hc] using ih
    · have ih := compareproductsLoop_spec isdimless hnull fuel os (t :: ts)
        (by simp only [List.length_cons]; omega)
      rw [kept_cons_blank os hb]
      simpa [compareproductsLoop, hb] using ih

theorem compareproducts_eq_zero_iff (isdimless : Option CStr → Bool)
    (hnull : isdimless none = false) (one two : List CStr) :
    compareproducts one two isdimless = 0 ↔ kept isdimless one = kept isdimless two :=
  (compareproductsLoop_spec isdimless hnull _ one two (Nat.lt_succ_self _)).2

theorem compareproducts_range (isdimless : Option CStr → Bool)
    (hnull : isdimless none = false) (one two : List CStr) :
    compareproducts one two isdimless = 0 ∨ compareproducts one two isdimless = 1 :=
  (compareproductsLoop_spec isdimless hnull _ one two (Nat.lt_succ_self _)).1

theorem compareunits_eq_zero_iff (isdimless : Option CStr → Bool)
    (hnull : isdimless none = false) (first second : unittype) :
    compareunits first second isdimless = 0 ↔
      kept isdimless first.numerator = kept isdimless second.numerator ∧
      kept isdimless first.denominator = kept isdimless second.denominator := by
  unfold compareunits
  rw [← compareproducts_eq_zero_iff isdimless hnull,
    ← compareproducts_eq_zero_iff isdimless hnull]
  by_cases h1 : compareproducts first.numerator second.numerator isdimless = 0
  · by_cases h2 : compareproducts first.denominator second.denominator isdimless = 0
    · simp [h1, h2]
    · simp [h1, h2]
  · simp [h1]

theorem ignore_null (db : Database) (isdimless : Option CStr → Bool)
    (hp : isdimless = ignore_nothing ∨ isdimless = ignore_dimless db ∨
      isdimless = ignore_primitive db) : isdimless none = false := by
  rcases hp with h | h | h <;> subst h <;> rfl

theorem kept_sublist_atoms (isdimless : Option CStr → Bool) (l : List CStr) :
    (kept isdimless l).Sublist (atoms l) := by
  induction l with
  | nil => simp [kept, atoms]
  | cons a l ih =>
    cases hb : ((a == NULLUNIT) || isdimless (some a))
    · rw [kept_cons_keep l hb]
      have ha : a ≠ NULLUNIT := by
        intro e
        simp [e] at hb
      have e2 : atoms (a :: l) = a :: atoms l := by simp [atoms, ha]
      rw [e2]
      exact ih.cons₂ a
    · rw [kept_cons_blank l hb]
      by_cases ha : a = NULLUNIT
      · have e2 : atoms (a :: l) = atoms l := by simp [atoms, ha]
        rw [e2]; exact ih
      · have e2 : atoms (a :: l) = a :: atoms l := by simp [atoms, ha]
        rw [e2]; exact ih.cons a

/-- C2. For each of the three ignore predicates, `compareproducts` returns 0
exactly when the two lists, after dropping `NULLUNIT` entries and the atoms the
predicate ignores, are equal element by element; `compareunits` returns 0
exactly when this holds for the numerators and for the denominators; and for
lists whose atoms are sorted this is equality of the multisets of kept atoms. -/
theorem C2_compare (db : Database) (isdimless : Option CStr → Bool)
    (hp : isdimless = ignore_nothing ∨ isdimless = ignore_dimless db ∨
      isdimless = ignore_primitive db) :
    (∀ one two : List CStr,
      compareproducts one two isdimless = 0 ↔ kept isdimless one = kept isdimless two) ∧
    (∀ first second : unittype,
      compareunits first second isdimless = 0 ↔
        kept isdimless first.numerator = kept isdimless second.numerator ∧
        kept isdimless first.denominator = kept isdimless second.denominator) ∧
    (∀ one two : List CStr,
      List.Sorted strle (atoms one) → List.Sorted strle (atoms two) →
      (compareproducts one two isdimless = 0 ↔
        (↑(kept isdimless one) : Multiset CStr) = ↑(kept isdimless two))) := by
  have hnull := ignore_null db isdimless hp
  refine ⟨compareproducts_eq_zero_iff isdimless hnull,
    compareunits_eq_zero_iff isdimless hnull, ?_⟩
  intro one two h1 h2
  rw [compareproducts_eq_zero_iff isdimless hnull, Multiset.coe_eq_coe]
  constructor
  · intro h; rw [h]
  · intro h
    haveI : IsAntisymm CStr strle := ⟨fun _ _ => strle_antisymm⟩
    exact List.eq_of_perm_of_sorted h
      (List.Pairwise.sublist (kept_sublist_atoms isdimless one) h1)
      (List.Pairwise.sublist (kept_sublist_atoms isdimless two) h2)

/-- C2 at a concrete input: a numerator with a cancelled slot against one
without. -/
theorem C2_compare_witness :
    compareproducts [NULLUNIT, "meter".toList] ["meter".toList] ignore_nothing = 0 :=
  ((C2_compare { utab := [], ptab := [], funcs := [] } ignore_nothing (Or.inl rfl)).1
    [NULLUNIT, "meter".toList] ["meter".toList]).2 (by decide)

/-! ## Conversion -/

theorem ignore_dimless_null (db : Database) : ignore_dimless db none = false := rfl

theorem showlines_ret (oneline : Bool) (h w : unittype) (r : Bool) :
    (showlines oneline h w r).ret = 0 := rfl

/-- C3. `showanswer` returns 0 exactly when `have` and `want` are conformable
under `ignore_dimless`, or strict conversion is off and the reciprocal of
`have` (lists swapped, factor inverted) is conformable with `want`; in every
other case it returns -1.  With `have = 1/second` and `want = second` it fails
when strict and is a reciprocal conversion otherwise; with `have = meter` and
`want = second` it fails in both modes. -/
theorem C3_showanswer :
    (∀ (db : Database) (strictconvert oneline : Bool) (haveu want : unittype),
      ((showanswer db strictconvert oneline haveu want).ret = 0 ↔
        (compareunits haveu want (ignore_dimless db) = 0 ∨
          (strictconvert = false ∧
            compareunits
              { factor := 1 / haveu.factor, numerator := haveu.denominator,
                denominator := haveu.numerator }
              want (ignore_dimless db) = 0))) ∧
      ((showanswer db strictconvert oneline haveu want).ret ≠ 0 →
        (showanswer db strictconvert oneline haveu want).ret = -1)) ∧
    (showanswer sampledb true false (perSecond 1) (seconds 1)).ret = -1 ∧
    (showanswer sampledb false false (perSecond 1) (seconds 1)).ret = 0 ∧
    (showanswer sampledb false false (perSecond 1) (seconds 1)).doingrec = true ∧
    (showanswer sampledb true false (meters 1) (seconds 1)).ret = -1 ∧
    (showanswer sampledb false false (meters 1) (seconds 1)).ret = -1 := by
  refine ⟨?_, by decide, by decide, by decide, by decide, by decide⟩
  intro db strictconvert oneline haveu want
  have hinv : invhave haveu =
      (⟨haveu.denominator, haveu.numerator, 1 / haveu.factor⟩ : unittype) := rfl
  rw [← hinv]
  unfold showanswer
  by_cases h1 : compareunits haveu want (ignore_dimless db) = 0
  · simp [h1, showlines_ret]
  · by_cases h2 : compareunits (invhave haveu) want (ignore_dimless db) = 0
    · cases strictconvert <;> simp [h1, h2, showlines_ret]
    · cases strictconvert <;> simp [h1, h2]

theorem compareunits_symm (db : Database) (a b : unittype) :
    compareunits a b (ignore_dimless db) = 0 ↔ compareunits b a (ignore_dimless db) = 0 := by
  rw [compareunits_eq_zero_iff _ (ignore_dimless_null db),
    compareunits_eq_zero_iff _ (ignore_dimless_null db)]
  constructor <;> rintro ⟨h1, h2⟩ <;> exact ⟨h1.symm, h2.symm⟩

theorem compareunits_invhave_symm (db : Database) (a b : unittype) :
    compareunits (invhave a) b (ignore_dimless db) = 0 ↔
      compareunits (invhave b) a (ignore_dimless db) = 0 := by
  rw [compareunits_eq_zero_iff _ (ignore_dimless_null db),
    compareunits_eq_zero_iff _ (ignore_dimless_null db)]
  simp only [invhave]
  constructor <;> rintro ⟨h1, h2⟩ <;> exact ⟨h2.symm, h1.symm⟩

/-- C4, the claim refuted: `2 / second` to `3 second` and `3 second` to
`2 / second` are both reciprocal conversions and both report 1/6, which is not
the reciprocal of 1/6. -/
theorem C4_counterexample :
    (perSecond 2).factor ≠ 0 ∧ (seconds 3).factor ≠ 0 ∧
    (showanswer sampledb false false (perSecond 2) (seconds 3)).ret = 0 ∧
    (showanswer sampledb false false (perSecond 2) (seconds 3)).first = some (1 / 6) ∧
    (showanswer sampledb false false (seconds 3) (perSecond 2)).ret = 0 ∧
    (showanswer sampledb false false (seconds 3) (perSecond 2)).first = some (1 / 6) ∧
    (1 / 6 : ℚ) ≠ 1 / (1 / 6) := by
  have e1 : showanswer sampledb false false (perSecond 2) (seconds 3)
      = showlines false (invhave (perSecond 2)) (seconds 3) true := by
    unfold showanswer
    rw [if_pos (by decide), if_neg (by decide)]
  have e2 : showanswer sampledb false false (seconds 3) (perSecond 2)
      = showlines false (invhave (seconds 3)) (perSecond 2) true := by
    unfold showanswer
    rw [if_pos (by decide), if_neg (by decide)]
  rw [e1, e2]
  simp only [showlines, invhave, perSecond, seconds]
  norm_num

/-- C4, amended. With strict conversion off and non-zero factors, the
conversion of A to B is permitted exactly when that of B to A is, and in the
same way (directly or as a reciprocal conversion).  For a direct conversion
the factor reported for A to B is the reciprocal of the factor reported for B
to A; for a reciprocal conversion the two reported factors are equal, each
being `1 / (A.factor * B.factor)`. -/
theorem C4_reciprocal_symmetry (db : Database) (oneline : Bool) (A B : unittype)
    (hA : A.factor ≠ 0) (hB : B.factor ≠ 0) :
    ((showanswer db false oneline A B).ret = 0 ↔
      (showanswer db false oneline B A).ret = 0) ∧
    (showanswer db false oneline A B).doingrec =
      (showanswer db false oneline B A).doingrec ∧
    ((showanswer db false oneline A B).ret = 0 →
      ∃ x y : ℚ,
        (showanswer db false oneline A B).first = some x ∧
        (showanswer db false oneline B A).first = some y ∧
        ((showanswer db false oneline A B).doingrec = false → x = 1 / y) ∧
        ((showanswer db false oneline A B).doingrec = true →
          x = y ∧ x = 1 / (A.factor * B.factor))) := by
  have s1 := compareunits_symm db A B
  have s2 := compareunits_invhave_symm db A B
  by_cases h1 : compareunits A B (ignore_dimless db) = 0
  · have h1' := s1.1 h1
    have eAB : showanswer db false oneline A B = showlines oneline A B false := by
      unfold showanswer; rw [if_neg (not_not.2 h1)]
    have eBA : showanswer db false oneline B A = showlines oneline B A false := by
      unfold showanswer; rw [if_neg (not_not.2 h1')]
    rw [eAB, eBA]
    refine ⟨Iff.rfl, rfl, fun _ => ⟨A.factor / B.factor, B.factor / A.factor, rfl, rfl,
      fun _ => ?_, fun h => ?_⟩⟩
    · field_simp
    · simp [showlines] at h
  · have h1' : ¬ compareunits B A (ignore_dimless db) = 0 := fun h => h1 (s1.2 h)
    by_cases h2 : compareunits (invhave A) B (ignore_dimless db) = 0
    · have h2' := s2.1 h2
      have eAB : showanswer db false oneline A B
          = showlines oneline (invhave A) B true := by
        unfold showanswer; rw [if_pos h1, if_neg (by simp [h2])]
      have eBA : showanswer db false oneline B A
          = showlines oneline (invhave B) A true := by
        unfold showanswer; rw [if_pos h1', if_neg (by simp [h2'])]
      rw [eAB, eBA]
      refine ⟨Iff.rfl, rfl, fun _ => ⟨1 / A.factor / B.factor, 1 / B.factor / A.factor,
        rfl, rfl, fun h => ?_, fun _ => ⟨?_, ?_⟩⟩⟩
      · simp [showlines] at h
      · field_simp
        ring
      · field_simp
    · have h2' : ¬ compareunits (invhave B) A (ignore_dimless db) = 0 :=
        fun h => h2 (s2.2 h)
      have eAB : showanswer db false oneline A B
          = { ret := -1, doingrec := false, first := none, second := none } := by
        unfold showanswer; rw [if_pos h1, if_pos (Or.inr h2)]
      have eBA : showanswer db false oneline B A
          = { ret := -1, doingrec := false, first := none, second := none } := by
        unfold showanswer; rw [if_pos h1', if_pos (Or.inr h2')]
      rw [eAB, eBA]
      refine ⟨Iff.rfl, rfl, fun h => ?_⟩
      simp at h

/-- C4 (amended) at a concrete input: `2 / second` and `3 second`. -/
theorem C4_reciprocal_symmetry_witness :
    (perSecond 2).factor ≠ 0 ∧ (seconds 3).factor ≠ 0 ∧
    ((showanswer sampledb false false (perSecond 2) (seconds 3)).ret = 0 ↔
      (showanswer sampledb false false (seconds 3) (perSecond 2)).ret = 0) :=
  ⟨by simp [perSecond], by simp [seconds],
    (C4_reciprocal_symmetry sampledb false (perSecond 2) (seconds 3)
      (by simp [perSecond]) (by simp [seconds])).1⟩

/-! ## Name resolution -/

theorem pluralI_congr (look1 look2 : CStr → Option CStr) (copy : CStr)
    (h : ∀ c : CStr, c.length ≤ copy.length → look1 c = look2 c) :
    pluralI look1 copy = pluralI look2 copy := by
  unfold pluralI
  by_cases hg : 2 < copy.length ∧ copy.getLast? = some 'i'
  · rw [if_pos hg, if_pos hg]
    have hl : (copy.dropLast ++ ['y']).length ≤ copy.length := by
      simp only [List.length_append, List.length_dropLast, List.length_singleton]
      omega
    simp only [h _ hl]
  · rw [if_neg hg, if_neg hg]

theorem pluralE_congr (look1 look2 : CStr → Option CStr) (copy : CStr)
    (h : ∀ c : CStr, c.length ≤ copy.length → look1 c = look2 c) :
    pluralE look1 copy = pluralE look2 copy := by
  unfold pluralE
  by_cases hg : 2 < copy.length ∧ copy.getLast? = some 'e'
  · rw [if_pos hg, if_pos hg]
    have hl : copy.dropLast.length ≤ copy.length := by
      simp only [List.length_dropLast]; omega
    simp only [h _ hl]
    rw [pluralI_congr look1 look2 copy.dropLast (fun c hc => h c (le_trans hc hl))]
  · rw [if_neg hg, if_neg hg]
    exact pluralI_congr look1 look2 copy h

theorem pluralS_congr (look1 look2 : CStr → Option CStr) (unit : CStr)
    (h : ∀ c : CStr, c.length < unit.length → look1 c = look2 c) :
    pluralS look1 unit = pluralS look2 unit := by
  unfold pluralS
  by_cases hg : 2 < unit.length ∧ unit.getLast? = some 's'
  · rw [if_pos hg, if_pos hg]
    have hl : unit.dropLast.length < unit.length := by
      simp only [List.length_dropLast]; omega
    simp only [h _ hl]
    rw [pluralE_congr look1 look2 unit.dropLast (fun c hc => h c (lt_of_le_of_lt hc hl))]
  · rw [if_neg hg, if_neg hg]

theorem prefixBranch_congr (db : Database) (look1 look2 : CStr → Option CStr)
    (unit : CStr) (prefixok : Bool)
    (h : prefixok = true → ∀ c : CStr, c.length ≤ unit.length → look1 c = look2 c) :
    prefixBranch db look1 unit prefixok = prefixBranch db look2 unit prefixok := by
  unfold prefixBranch
  cases prefixok with
  | false => rfl
  | true =>
    simp only [if_true]
    cases plookup db unit with
    | none => rfl
    | some pfxptr =>
      have hl : (unit.drop pfxptr.len).length ≤ unit.length := by
        simp only [List.length_drop]; omega
      simp only [h rfl _ hl]

/-- The bound on the depth of the recursion of `lookupunit`. -/
theorem lookupunitAux_fuel (db : Database) :
    ∀ (fuel1 fuel2 : Nat) (unit : CStr) (prefixok : Bool),
      2 * unit.length + (if prefixok then 1 else 0) < fuel1 →
      2 * unit.length + (if prefixok then 1 else 0) < fuel2 →
      lookupunitAux db fuel1 unit prefixok = lookupunitAux db fuel2 unit prefixok
  | 0, _, _, _, h, _ => by omega
  | _ + 1, 0, _, _, _, h => by omega
  | fuel1 + 1, fuel2 + 1, unit, prefixok, h1, h2 => by
    unfold lookupunitAux
    have hp : pluralS (fun copy => lookupunitAux db fuel1 copy prefixok) unit
        = pluralS (fun copy => lookupunitAux db fuel2 copy prefixok) unit := by
      apply pluralS_congr
      intro c hc
      have hb : (if prefixok = true then 1 else 0) ≤ 1 := by split <;> omega
      exact lookupunitAux_fuel db fuel1 fuel2 c prefixok (by omega) (by omega)
    have hq : prefixBranch db (fun copy => lookupunitAux db fuel1 copy false) unit prefixok
        = prefixBranch db (fun copy => lookupunitAux db fuel2 copy false) unit prefixok := by
      apply prefixBranch_congr
      intro hpk c hc
      rw [hpk] at h1 h2
      simp only [if_true] at h1 h2
      exact lookupunitAux_fuel db fuel1 fuel2 c false (by simp; omega) (by simp; omega)
    rw [hp, hq]

/-- The body of `lookupunit` (units.c:953-1007) with its recursive calls. -/
theorem lookupunit_eq (db : Database) (unit : CStr) (prefixok : Bool) :
    lookupunit db unit prefixok =
      match ulookup db unit with
      | some uptr => some uptr.value
      | none =>
        match pluralS (fun copy => lookupunit db copy prefixok) unit with
        | some r => some r
        | none => prefixBranch db (fun copy => lookupunit db copy false) unit prefixok := by
  have hp : pluralS (fun copy => lookupunitAux db (2 * unit.length + 1) copy prefixok) unit
      = pluralS (fun copy => lookupunit db copy prefixok) unit := by
    apply pluralS_congr
    intro c hc
    have hb : (if prefixok = true then 1 else 0) ≤ 1 := by split <;> omega
    exact lookupunitAux_fuel db _ _ c prefixok (by omega) (by omega)
  have hq : prefixBranch db (fun copy => lookupunitAux db (2 * unit.length + 1) copy false)
        unit prefixok
      = prefixBranch db (fun copy => lookupunit db copy false) unit prefixok := by
    apply prefixBranch_congr
    intro _ c hc
    exact lookupunitAux_fuel db _ _ c false (by simp; omega) (by simp)
  show lookupunitAux db (2 * unit.length + 1 + 1) unit prefixok = _
  unfold lookupunitAux
  rw [hp, hq]

theorem lookupunit_of_plural (db : Database) (prefixok : Bool) (name r : CStr)
    (hu : ulookup db name = none)
    (h : pluralS (fun copy => lookupunit db copy prefixok) name = some r) :
    lookupunit db name prefixok = some r := by
  rw [lookupunit_eq, hu]
  simp only [h]

theorem lookupunit_of_no_plural (db : Database) (prefixok : Bool) (name : CStr)
    (hu : ulookup db name = none)
    (h : pluralS (fun copy => lookupunit db copy prefixok) name = none) :
    lookupunit db name prefixok =
      prefixBranch db (fun copy => lookupunit db copy false) name prefixok := by
  rw [lookupunit_eq, hu]
  simp only [h]

theorem isSome_false_of_none {α : Type} {o : Option α} (h : o = none) :
    ¬ (o.isSome = true) := by
  simp [h]

/-- C5. Plural resolution returns a spelling, not a body.  For a name that is
not a defined unit, is longer than 2 and ends in `s`: if the name without the
`s` resolves, `lookupunit` returns that singular spelling, which holds the
primitive mark only if the name does.  When the singular does not resolve, the
`es` rule returns the name without `es` if that resolves, and after that the
`ies` to `y` rule returns stem + `y` if that resolves; each returns the stem
that resolved, never its definition. -/
theorem C5_plural (db : Database) (prefixok : Bool) (name : CStr)
    (hu : ulookup db name = none) (hlen : 2 < name.length)
    (hs : name.getLast? = some 's') :
    ((lookupunit db name.dropLast prefixok).isSome →
      lookupunit db name prefixok = some name.dropLast ∧
      (PRIMITIVECHAR ∈ name.dropLast → PRIMITIVECHAR ∈ name)) ∧
    (lookupunit db name.dropLast prefixok = none →
      2 < name.dropLast.length → name.dropLast.getLast? = some 'e' →
      (lookupunit db name.dropLast.dropLast prefixok).isSome →
      lookupunit db name prefixok = some name.dropLast.dropLast ∧
      (PRIMITIVECHAR ∈ name.dropLast.dropLast → PRIMITIVECHAR ∈ name)) ∧
    (∀ stem : CStr, name = stem ++ ['i', 'e', 's'] → 2 ≤ stem.length →
      lookupunit db (stem ++ ['i', 'e']) prefixok = none →
      lookupunit db (stem ++ ['i']) prefixok = none →
      (lookupunit db (stem ++ ['y']) prefixok).isSome →
      lookupunit db name prefixok = some (stem ++ ['y']) ∧
      (PRIMITIVECHAR ∈ stem ++ ['y'] → PRIMITIVECHAR ∈ name)) := by
  refine ⟨?_, ?_, ?_⟩
  · intro h1
    refine ⟨lookupunit_of_plural db prefixok name _ hu ?_, List.mem_of_mem_dropLast⟩
    unfold pluralS
    rw [if_pos ⟨hlen, hs⟩]
    simp only [h1, if_true]
  · intro h0 hl2 he h2
    refine ⟨lookupunit_of_plural db prefixok name _ hu ?_,
      fun h => List.mem_of_mem_dropLast (List.mem_of_mem_dropLast h)⟩
    unfold pluralS
    rw [if_pos ⟨hlen, hs⟩]
    simp only [if_neg (isSome_false_of_none h0)]
    unfold pluralE
    rw [if_pos ⟨hl2, he⟩]
    simp only [h2, if_true]
  · intro stem hname hstem h0 h1 h2
    have d1 : name.dropLast = stem ++ ['i', 'e'] := by
      rw [hname]; simp [List.dropLast_append_cons]
    have d2 : (stem ++ ['i', 'e']).dropLast = stem ++ ['i'] := by
      simp [List.dropLast_append_cons]
    have d3 : (stem ++ ['i']).dropLast = stem := by simp
    refine ⟨lookupunit_of_plural db prefixok name _ hu ?_, ?_⟩
    · unfold pluralS
      rw [if_pos ⟨hlen, hs⟩]
      simp only [d1, if_neg (isSome_false_of_none h0)]
      unfold pluralE
      rw [if_pos ⟨by simp; omega, by simp⟩]
      simp only [d2, if_neg (isSome_false_of_none h1)]
      unfold pluralI
      rw [if_pos ⟨by simp; omega, by simp⟩]
      simp only [d3, h2, if_true]
    · intro h
      rw [hname]
      rcases List.mem_append.1 h with h | h
      · exact List.mem_append_left _ h
      · simp [PRIMITIVECHAR] at h

/-- C5 at concrete inputs: `meters` resolves to the spelling `meter`, not to
the definition `!` of `meter`; `inches` resolves to `inch` by the `es` rule and
`henries` to `henry` by the `ies` rule. -/
theorem C5_plural_witness :
    lookupunit sampledb "meters".toList true = some "meter".toList ∧
    lookupunit sampledb "inches".toList true = some "inch".toList ∧
    lookupunit sampledb "henries".toList true = some "henry".toList :=
  ⟨((C5_plural sampledb true "meters".toList (by decide) (by decide) (by decide)).1
      (by decide)).1,
    ((C5_plural sampledb true "inches".toList (by decide) (by decide) (by decide)).2.1
      (by decide) (by decide) (by decide) (by decide)).1,
    ((C5_plural sampledb true "henries".toList (by decide) (by decide) (by decide)).2.2
      "henr".toList (by decide) (by decide) (by decide) (by decide) (by decide)).1⟩

theorem ulookup_congr (db db2 : Database) (h : db2.utab = db.utab) (s : CStr) :
    ulookup db2 s = ulookup db s := by
  unfold ulookup
  rw [h]

theorem lookupunitAux_noprefix (db db2 : Database) (h : db2.utab = db.utab) :
    ∀ (fuel : Nat) (s : CStr), lookupunitAux db2 fuel s false = lookupunitAux db fuel s false
  | 0, _ => rfl
  | fuel + 1, s => by
    unfold lookupunitAux
    rw [ulookup_congr db db2 h s]
    have hf : (fun copy => lookupunitAux db2 fuel copy false)
        = (fun copy => lookupunitAux db fuel copy false) :=
      funext (fun c => lookupunitAux_noprefix db db2 h fuel c)
    rw [hf]
    rfl

/-- C6. Prefix resolution: for a name with no exact unit and no plural
resolution, `lookupunit(name, 1)` returns prefix body, one space, remainder
when `plookup` finds a prefix at the start of the name and the remainder is
empty or resolves with prefixes disallowed; it returns null when `plookup`
finds nothing or the non-empty remainder does not resolve.
`lookupunit(name, 0)` does not depend on the prefix table. -/
theorem C6_prefix_resolution (db : Database) (name : CStr)
    (hu : ulookup db name = none)
    (hpl : pluralS (fun copy => lookupunit db copy true) name = none) :
    (∀ pfxptr : prefixlist, plookup db name = some pfxptr →
      pfxptr ∈ db.ptab ∧ strncmp name pfxptr.name pfxptr.len = 0 ∧
      ((name.drop pfxptr.len = [] ∨
          (lookupunit db (name.drop pfxptr.len) false).isSome) →
        lookupunit db name true = some (pfxptr.value ++ [' '] ++ name.drop pfxptr.len)) ∧
      (name.drop pfxptr.len ≠ [] →
          lookupunit db (name.drop pfxptr.len) false = none →
        lookupunit db name true = none)) ∧
    (plookup db name = none → lookupunit db name true = none) ∧
    (∀ (db2 : Database) (s : CStr), db2.utab = db.utab →
      lookupunit db2 s false = lookupunit db s false) := by
  have hb := lookupunit_of_no_plural db true name hu hpl
  refine ⟨?_, ?_, ?_⟩
  · intro pfxptr hp
    have hmem : pfxptr ∈ db.ptab := List.mem_of_find?_eq_some hp
    have hmatch := List.find?_some hp
    simp only [decide_eq_true_eq] at hmatch
    refine ⟨hmem, hmatch.2, ?_, ?_⟩
    · intro hrem
      rw [hb]
      unfold prefixBranch
      simp only [if_true, hp]
      rw [if_pos]
      rcases hrem with h | h
      · left; simp [h]
      · right; exact h
    · intro hne hnone
      rw [hb]
      unfold prefixBranch
      simp only [if_true, hp]
      rw [if_neg]
      rintro (h | h)
      · exact hne (List.eq_nil_of_length_eq_zero h)
      · simp [hnone] at h
  · intro hp
    rw [hb]
    unfold prefixBranch
    simp only [if_true, hp]
  · intro db2 s h
    exact lookupunitAux_noprefix db db2 h _ s

/-- C6 at a concrete input: `kmeter` has no unit and no plural reading; the
prefix `k` (body `kilo`) is found and the remainder `meter` resolves. -/
theorem C6_prefix_resolution_witness :
    lookupunit sampledb "kmeter".toList true = some "kilo meter".toList :=
  ((C6_prefix_resolution sampledb "kmeter".toList (by decide) (by decide)).1
    { len := 1, name := "k".toList, value := "kilo".toList } (by decide)).2.2.1
    (Or.inr (by decide))

theorem pluralI_resolves (look : CStr → Option CStr) (copy r : CStr)
    (h : pluralI look copy = some r) : (look r).isSome := by
  unfold pluralI at h
  split at h
  · simp only at h
    split at h
    · rename_i h2
      simp only [Option.some.injEq] at h
      rw [← h]; exact h2
    · simp at h
  · simp at h

theorem pluralE_resolves (look : CStr → Option CStr) (copy r : CStr)
    (h : pluralE look copy = some r) : (look r).isSome := by
  unfold pluralE at h
  split at h
  · simp only at h
    split at h
    · rename_i h2
      simp only [Option.some.injEq] at h
      rw [← h]; exact h2
    · exact pluralI_resolves look _ r h
  · exact pluralI_resolves look _ r h

theorem pluralS_resolves (look : CStr → Option CStr) (unit r : CStr)
    (h : pluralS look unit = some r) : (look r).isSome := by
  unfold pluralS at h
  split at h
  · simp only at h
    split at h
    · rename_i h2
      simp only [Option.some.injEq] at h
      rw [← h]; exact h2
    · exact pluralE_resolves look _ r h
  · simp at h

/-- C8, the claim refuted: `foot` resolves to its body `12 inch`, and `12 inch`
does not resolve to `12 inch` (it does not resolve at all). -/
theorem C8_counterexample :
    lookupunit sampledb "foot".toList true = some "12 inch".toList ∧
    lookupunit sampledb "12 inch".toList true ≠ some "12 inch".toList := by
  decide

/-- C8, amended. When `lookupunit(name, flag)` answers through the plural
branch (the name is not a defined unit and a plural rule applies), its result
is a singular spelling that resolves again: `lookupunit` of it with the same
flag is not null. -/
theorem C8_plural_output_resolves (db : Database) (name r : CStr) (prefixok : Bool)
    (hu : ulookup db name = none)
    (hpl : pluralS (fun copy => lookupunit db copy prefixok) name = some r) :
    lookupunit db name prefixok = some r ∧ (lookupunit db r prefixok).isSome :=
  ⟨lookupunit_of_plural db prefixok name r hu hpl, pluralS_resolves _ name r hpl⟩

/-- C8 (amended) at a concrete input: `inches` gives `inch`, which resolves. -/
theorem C8_plural_output_resolves_witness :
    lookupunit sampledb "inches".toList true = some "inch".toList ∧
    (lookupunit sampledb "inch".toList true).isSome :=
  C8_plural_output_resolves sampledb "inches".toList "inch".toList true
    (by decide) (by decide)

/-! ## Roots -/

theorem subunitrootLoop_atoms (n : Nat) :
    ∀ (l : List CStr) (current : CStr) (count : Nat) (out : List CStr),
      subunitrootLoop n l current count out
        = subunitrootLoop n (atoms l) current count out
  | [], _, _, _ => rfl
  | p :: ptr, current, count, out => by
    by_cases hp : p = NULLUNIT
    · have e : atoms (p :: ptr) = atoms ptr := by simp [atoms, hp]
      rw [e, ← subunitrootLoop_atoms n ptr current count out]
      simp [subunitrootLoop, hp]
    · have e : atoms (p :: ptr) = p :: atoms ptr := by simp [atoms, hp]
      rw [e]
      simp only [subunitrootLoop, if_neg hp]
      rw [subunitrootLoop_atoms n ptr]

theorem dropWhile_null_eq (l : List CStr) :
    (match l.dropWhile (fun a => a = NULLUNIT) with
      | [] => NULLUNIT
      | c :: _ => c)
    = (match atoms l with
      | [] => NULLUNIT
      | c :: _ => c) := by
  induction l with
  | nil => rfl
  | cons a l ih =>
    by_cases ha : a = NULLUNIT
    · have e : atoms (a :: l) = atoms l := by simp [atoms, ha]
      rw [e, ← ih]
      simp [List.dropWhile, ha]
    · have e : atoms (a :: l) = a :: atoms l := by simp [atoms, ha]
      rw [e]
      simp [List.dropWhile, ha]

theorem not_mem_of_sorted_ne {current p : CStr} {ps : List CStr}
    (hs : List.Sorted strle (current :: p :: ps)) (hne : strcmp current p ≠ 0) :
    current ∉ p :: ps := by
  intro hmem
  have h1 : strle current p := List.rel_of_sorted_cons hs p (List.mem_cons_self _ _)
  have h2 : strle p current := by
    rcases List.mem_cons.1 hmem with e | e
    · rw [e]; exact le_of_eq (strcmp_self p)
    · exact List.rel_of_sorted_cons hs.of_cons current e
  exact hne (strcmp_eq_zero_iff.2 (strle_antisymm h1 h2))

theorem subunitrootLoop_spec (n : Nat) (hn : 1 ≤ n) :
    ∀ (ps : List CStr) (current : CStr) (count : Nat) (out : List CStr),
      1 ≤ count → count ≤ n → (∀ q ∈ ps, q ≠ NULLUNIT) →
      List.Sorted strle (current :: ps) →
      ((∀ a : CStr, n ∣ (List.replicate count current ++ ps).count a) →
        ∃ R : List CStr,
          subunitrootLoop n ps current count out = (0, out ++ R) ∧
          (∀ a : CStr, R.count a * n = (List.replicate count current ++ ps).count a) ∧
          List.Sorted strle R ∧ (∀ q ∈ R, q = current ∨ q ∈ ps)) ∧
      (¬ (∀ a : CStr, n ∣ (List.replicate count current ++ ps).count a) →
        (subunitrootLoop n ps current count out).1 = E_NOTROOT)
  | [], current, count, out, h1, h2, _, _ => by
    by_cases hc : count = n
    · subst hc
      have hdiv : ∀ a : CStr, count ∣ (List.replicate count current ++ []).count a := by
        intro a
        rw [List.append_nil, List.count_replicate]
        split
        · exact dvd_refl _
        · exact dvd_zero _
      refine ⟨fun _ => ⟨[current], ?_, ?_, ?_, ?_⟩, fun h => absurd hdiv h⟩
      · simp [subunitrootLoop]
      · intro a
        rw [List.append_nil, List.count_replicate, List.count_singleton]
        split <;> simp
      · exact List.sorted_singleton _
      · intro q hq
        left
        simpa using hq
    · have hlt : count < n := lt_of_le_of_ne h2 hc
      have hnd : ¬ (∀ a : CStr, n ∣ (List.replicate count current ++ []).count a) := by
        intro h
        have := h current
        rw [List.append_nil, List.count_replicate_self] at this
        have := Nat.le_of_dvd (by omega) this
        omega
      refine ⟨fun h => absurd h hnd, fun _ => ?_⟩
      have hc0 : count ≠ 0 := by omega
      simp [subunitrootLoop, hc, hc0]
  | p :: ps, current, count, out, h1, h2, hnn, hs => by
    have hp : p ≠ NULLUNIT := hnn p (List.mem_cons_self _ _)
    have hnn2 : ∀ q ∈ ps, q ≠ NULLUNIT := fun q hq => hnn q (List.mem_cons_of_mem _ hq)
    have hsp : List.Sorted strle (p :: ps) := hs.of_cons
    by_cases hc : count = n
    · -- a full run was read: `current` is written and a new run starts at `p`
      subst hc
      have ih := subunitrootLoop_spec count hn ps p 1 (out ++ [current]) (le_refl 1) hn hnn2 hsp
      have hstep : subunitrootLoop count (p :: ps) current count out
          = subunitrootLoop count ps p 1 (out ++ [current]) := by
        simp [subunitrootLoop, hp, strcmp_self]
      have hL : List.replicate 1 p ++ ps = p :: ps := rfl
      rw [hL] at ih
      have hcnt : ∀ a : CStr, (List.replicate count current ++ p :: ps).count a
          = (if current == a then count else 0) + (p :: ps).count a := by
        intro a
        rw [List.count_append, List.count_replicate]
      have hdiv : (∀ a : CStr, count ∣ (List.replicate count current ++ p :: ps).count a)
          ↔ (∀ a : CStr, count ∣ (p :: ps).count a) := by
        constructor
        · intro h a
          have := h a
          rw [hcnt] at this
          split at this
          · exact (Nat.dvd_add_right (dvd_refl _)).1 this
          · simpa using this
        · intro h a
          rw [hcnt]
          split
          · exact Dvd.dvd.add (dvd_refl _) (h a)
          · simpa using h a
      rw [hstep]
      refine ⟨fun h => ?_, fun h => ih.2 (fun h2 => h (hdiv.2 h2))⟩
      obtain ⟨R, hR, hRc, hRs, hRm⟩ := ih.1 (hdiv.1 h)
      refine ⟨current :: R, ?_, ?_, ?_, ?_⟩
      · rw [hR, List.append_assoc]; rfl
      · intro a
        rw [hcnt, List.count_cons, ← hRc a]
        split <;> ring
      · refine List.sorted_cons.2 ⟨?_, hRs⟩
        intro q hq
        rcases hRm q hq with e | e
        · rw [e]; exact List.rel_of_sorted_cons hs p (List.mem_cons_self _ _)
        · exact List.rel_of_sorted_cons hs q (List.mem_cons_of_mem _ e)
      · intro q hq
        rcases List.mem_cons.1 hq with e | e
        · left; exact e
        · right
          rcases hRm q e with e2 | e2
          · rw [e2]; exact List.mem_cons_self _ _
          · exact List.mem_cons_of_mem _ e2
    · have hlt : count < n := lt_of_le_of_ne h2 hc
      by_cases hcp : strcmp current p = 0
      · -- `p` continues the run
        have e : current = p := strcmp_eq_zero hcp
        subst e
        have ih := subunitrootLoop_spec n hn ps current (count + 1) out (by omega) (by omega)
          hnn2 hsp
        have hstep : subunitrootLoop n (current :: ps) current count out
            = subunitrootLoop n ps current (count + 1) out := by
          simp [subunitrootLoop, hp, hc, strcmp_self]
        have hL : List.replicate (count + 1) current ++ ps
            = List.replicate count current ++ current :: ps := by
          rw [List.replicate_succ', List.append_assoc]; rfl
        rw [hL] at ih
        rw [hstep]
        refine ⟨fun h => ?_, ih.2⟩
        obtain ⟨R, hR, hRc, hRs, hRm⟩ := ih.1 h
        refine ⟨R, hR, hRc, hRs, fun q hq => ?_⟩
        rcases hRm q hq with e | e
        · left; exact e
        · right; exact List.mem_cons_of_mem _ e
      · -- `p` breaks a run that is too short
        have hnm : current ∉ p :: ps := not_mem_of_sorted_ne hs hcp
        have hnd : ¬ (∀ a : CStr, n ∣ (List.replicate count current ++ p :: ps).count a) := by
          intro h
          have := h current
          rw [List.count_append, List.count_replicate_self,
            List.count_eq_zero_of_not_mem hnm, Nat.add_zero] at this
          have := Nat.le_of_dvd (by omega) this
          omega
        refine ⟨fun h => absurd h hnd, fun _ => ?_⟩
        simp [subunitrootLoop, hp, hc, hcp]

theorem subunitroot_eq (n : Nat) (inl : List CStr) :
    subunitroot n inl
      = subunitrootLoop n (atoms inl)
          (match atoms inl with
            | [] => NULLUNIT
            | c :: _ => c) 0 [] := by
  unfold subunitroot
  simp only
  rw [dropWhile_null_eq, subunitrootLoop_atoms]

theorem count_atoms (l : List CStr) (a : CStr) (ha : a ≠ NULLUNIT) :
    (atoms l).count a = l.count a := by
  unfold atoms
  exact List.count_filter (by simpa using ha)

theorem count_atoms_null (l : List CStr) : (atoms l).count NULLUNIT = 0 := by
  apply List.count_eq_zero_of_not_mem
  intro h
  exact (mem_atoms.1 h).2 rfl

theorem dvd_atoms_iff (n : Nat) (l : List CStr) :
    (∀ a : CStr, n ∣ (atoms l).count a) ↔ (∀ a : CStr, a ≠ NULLUNIT → n ∣ l.count a) := by
  constructor
  · intro h a ha
    rw [← count_atoms l a ha]; exact h a
  · intro h a
    by_cases ha : a = NULLUNIT
    · rw [ha, count_atoms_null]; exact dvd_zero _
    · rw [count_atoms l a ha]; exact h a ha

/-- C9. Root of an atom list: for `n >= 1` and a list whose atoms are sorted
(cancelled sentinels anywhere), `subunitroot` returns `E_NOTROOT` exactly when
the multiplicity of some atom is not a multiple of `n`; otherwise it returns 0
and the output holds each atom with exactly 1/n of its input multiplicity, in
sorted order and without sentinels. -/
theorem C9_subunitroot (n : Nat) (hn : 1 ≤ n) (inl : List CStr)
    (hs : List.Sorted strle (atoms inl)) :
    ((subunitroot n inl).1 = E_NOTROOT ↔
      ∃ a : CStr, a ≠ NULLUNIT ∧ ¬ n ∣ inl.count a) ∧
    ((∀ a : CStr, a ≠ NULLUNIT → n ∣ inl.count a) →
      (subunitroot n inl).1 = 0 ∧
      (∀ a : CStr, a ≠ NULLUNIT → (subunitroot n inl).2.count a * n = inl.count a) ∧
      List.Sorted strle (subunitroot n inl).2 ∧
      NULLUNIT ∉ (subunitroot n inl).2) := by
  have key : ((∀ a : CStr, n ∣ (atoms inl).count a) →
        (subunitroot n inl).1 = 0 ∧
        (∀ a : CStr, (subunitroot n inl).2.count a * n = (atoms inl).count a) ∧
        List.Sorted strle (subunitroot n inl).2 ∧
        NULLUNIT ∉ (subunitroot n inl).2) ∧
      (¬ (∀ a : CStr, n ∣ (atoms inl).count a) →
        (subunitroot n inl).1 = E_NOTROOT) := by
    rw [subunitroot_eq]
    cases h : atoms inl with
    | nil =>
      have hn0 : ¬ (0 = n) := by omega
      refine ⟨fun _ => ?_, fun hnd => absurd (fun a => by simp) hnd⟩
      simp [subunitrootLoop, hn0]
    | cons p ps =>
      have hmem : ∀ q ∈ p :: ps, q ≠ NULLUNIT := by
        intro q hq
        rw [← h] at hq
        exact (mem_atoms.1 hq).2
      have hp : p ≠ NULLUNIT := hmem p (List.mem_cons_self _ _)
      have hn0 : ¬ (0 = n) := by omega
      have hstep : subunitrootLoop n (p :: ps) p 0 [] = subunitrootLoop n ps p 1 [] := by
        simp [subunitrootLoop, hp, hn0, strcmp_self]
      have spec := subunitrootLoop_spec n hn ps p 1 [] (le_refl 1) hn
        (fun q hq => hmem q (List.mem_cons_of_mem _ hq)) (h ▸ hs)
      have hL : List.replicate 1 p ++ ps = p :: ps := rfl
      rw [hL] at spec
      simp only
      rw [hstep]
      refine ⟨fun hd => ?_, spec.2⟩
      obtain ⟨R, hR, hRc, hRs, hRm⟩ := spec.1 hd
      rw [hR]
      refine ⟨rfl, hRc, hRs, ?_⟩
      intro hnull
      rcases hRm _ hnull with e | e
      · exact hp e.symm
      · exact hmem _ (List.mem_cons_of_mem _ e) rfl
  have hE : E_NOTROOT ≠ 0 := by decide
  refine ⟨⟨fun hr => ?_, fun ⟨a, ha, hnd⟩ => ?_⟩, fun hd => ?_⟩
  · by_contra hcon
    have hd : ∀ a : CStr, a ≠ NULLUNIT → n ∣ inl.count a := by
      intro a ha
      by_contra hnd
      exact hcon ⟨a, ha, hnd⟩
    have := (key.1 ((dvd_atoms_iff n inl).2 hd)).1
    rw [hr] at this
    exact hE this
  · apply key.2
    intro hd
    exact hnd ((dvd_atoms_iff n inl).1 hd a ha)
  · obtain ⟨h1, h2, h3, h4⟩ := key.1 ((dvd_atoms_iff n inl).2 hd)
    refine ⟨h1, fun a ha => ?_, h3, h4⟩
    rw [h2 a, count_atoms inl a ha]

/-- C9 at a concrete input: the square root of `m m s _ s` (one cancelled
slot) is `m s`. -/
theorem C9_subunitroot_witness :
    (subunitroot 2 ["m".toList, "m".toList, "s".toList, NULLUNIT, "s".toList]).1 = 0 :=
  ((C9_subunitroot 2 (by decide)
    ["m".toList, "m".toList, "s".toList, NULLUNIT, "s".toList] (by decide)).2
    (by
      intro a ha
      by_cases h1 : a = "m".toList
      · subst h1; decide
      · by_cases h2 : a = "s".toList
        · subst h2; decide
        · have : List.count a ["m".toList, "m".toList, "s".toList, NULLUNIT, "s".toList] = 0 := by
            apply List.count_eq_zero_of_not_mem
            simp only [List.mem_cons, List.mem_singleton, List.not_mem_nil, or_false]
            rintro (h | h | h | h | h)
            · exact h1 h
            · exact h1 h
            · exact h2 h
            · exact ha h
            · exact h2 h
          rw [this]; exact dvd_zero _)).1

/-! ## Reduction and the factor -/

theorem multunit_sameatoms (l l2 r r2 : unittype) (h : sameatoms l l2)
    (hr : sameatoms r r2) :
    (multunit l r).1 = (multunit l2 r2).1 ∧
    sameatoms (multunit l r).2.1 (multunit l2 r2).2.1 ∧
    sameatoms (multunit l r).2.2 (multunit l2 r2).2.2 := by
  obtain ⟨h1, h2⟩ := h
  obtain ⟨h3, h4⟩ := hr
  unfold multunit sameatoms
  simp only [h1, h2, h3, h4]
  split <;> simp

theorem divunit_sameatoms (l l2 r r2 : unittype) (h : sameatoms l l2)
    (hr : sameatoms r r2) :
    (divunit l r).1 = (divunit l2 r2).1 ∧
    sameatoms (divunit l r).2.1 (divunit l2 r2).2.1 ∧
    sameatoms (divunit l r).2.2 (divunit l2 r2).2.2 := by
  obtain ⟨h1, h2⟩ := h
  obtain ⟨h3, h4⟩ := hr
  unfold divunit sameatoms
  simp only [h1, h2, h3, h4]
  split <;> simp

theorem sameatoms_refl (u : unittype) : sameatoms u u := ⟨rfl, rfl⟩

theorem reduceproductLoop_sameatoms (db : Database) (parseunit : Parser) (flip : Bool) :
    ∀ (fuel : Nat) (u v : unittype) (irr : Option CStr) (idx did : Nat),
      sameatoms u v →
      samereduction (reduceproductLoop db parseunit flip fuel u irr idx did)
        (reduceproductLoop db parseunit flip fuel v irr idx did)
  | 0, _, _, _, _, _, _ => by simp [reduceproductLoop, samereduction]
  | fuel + 1, u, v, irr, idx, did, h => by
    have ih := reduceproductLoop_sameatoms db parseunit flip fuel
    obtain ⟨hn, hd⟩ := h
    unfold reduceproductLoop
    have hprod : (if flip = true then u.denominator else u.numerator)
        = (if flip = true then v.denominator else v.numerator) := by rw [hn, hd]
    simp only [← hprod]
    cases hget : (if flip = true then u.denominator else u.numerator).get? idx with
    | none => exact ⟨rfl, rfl, hn, hd⟩
    | some p =>
      simp only
      by_cases hp : p.length = 0
      · simp only [if_pos hp]
        exact ih u v irr (idx + 1) did ⟨hn, hd⟩
      · simp only [if_neg hp]
        cases hl : lookupunit db p true with
        | none => exact ⟨rfl, rfl, hn, hd⟩
        | some toadd =>
          simp only
          by_cases hprim : strchr toadd PRIMITIVECHAR = true
          · simp only [if_pos hprim]
            exact ih u v irr (idx + 1) did ⟨hn, hd⟩
          · simp only [if_neg hprim]
            have h1 : sameatoms
                (if flip = true then
                  { u with denominator :=
                      (if flip = true then u.denominator else u.numerator).set idx NULLUNIT }
                else
                  { u with numerator :=
                      (if flip = true then u.denominator else u.numerator).set idx NULLUNIT })
                (if flip = true then
                  { v with denominator :=
                      (if flip = true then u.denominator else u.numerator).set idx NULLUNIT }
                else
                  { v with numerator :=
                      (if flip = true then u.denominator else u.numerator).set idx NULLUNIT }) := by
              cases flip <;> simp [sameatoms, hn, hd]
            by_cases hparse : (parseunit toadd).1 ≠ 0
            · simp only [if_pos hparse]
              exact ⟨rfl, rfl, h1⟩
            · simp only [if_neg hparse]
              cases flip with
              | true =>
                simp only [if_true] at h1 ⊢
                obtain ⟨e1, e2, _⟩ := divunit_sameatoms _ _ (parseunit toadd).2
                  (parseunit toadd).2 h1 (sameatoms_refl _)
                rw [← e1]
                split
                · exact ⟨rfl, rfl, e2⟩
                · exact ih _ _ irr idx DIDREDUCTION e2
              | false =>
                simp only [Bool.false_eq_true, if_false] at h1 ⊢
                obtain ⟨e1, e2, _⟩ := multunit_sameatoms _ _ (parseunit toadd).2
                  (parseunit toadd).2 h1 (sameatoms_refl _)
                rw [← e1]
                split
                · exact ⟨rfl, rfl, e2⟩
                · exact ih _ _ irr idx DIDREDUCTION e2

theorem reduceunitLoop_sameatoms (db : Database) (parseunit : Parser) :
    ∀ (fuel : Nat) (u v : unittype) (irr : Option CStr), sameatoms u v →
      samereduced (reduceunitLoop db parseunit fuel u irr)
        (reduceunitLoop db parseunit fuel v irr)
  | 0, _, _, _, _ => by simp [reduceunitLoop, samereduced]
  | fuel + 1, u, v, irr, h => by
    have ih := reduceunitLoop_sameatoms db parseunit fuel
    unfold reduceunitLoop reduceproduct
    have h1 := reduceproductLoop_sameatoms db parseunit false fuel u v irr 0 NOREDUCTION h
    cases e1 : reduceproductLoop db parseunit false fuel u irr 0 NOREDUCTION with
    | none =>
      cases e1' : reduceproductLoop db parseunit false fuel v irr 0 NOREDUCTION with
      | none => simp [samereduced]
      | some s1 => rw [e1, e1'] at h1; exact h1.elim
    | some r1 =>
      cases e1' : reduceproductLoop db parseunit false fuel v irr 0 NOREDUCTION with
      | none => rw [e1, e1'] at h1; exact h1.elim
      | some s1 =>
        rw [e1, e1'] at h1
        obtain ⟨hret, hirr, hat⟩ := h1
        simp only
        rw [← hret, ← hirr]
        by_cases herr : r1.ret &&& ERROR = 0
        · simp only [if_pos herr]
          have h2 := reduceproductLoop_sameatoms db parseunit true fuel r1.theunit
            s1.theunit r1.irreducible 0 NOREDUCTION hat
          cases e2 : reduceproductLoop db parseunit true fuel r1.theunit r1.irreducible 0
              NOREDUCTION with
          | none =>
            cases e2' : reduceproductLoop db parseunit true fuel s1.theunit r1.irreducible 0
                NOREDUCTION with
            | none => simp [samereduced]
            | some s2 => rw [e2, e2'] at h2; exact h2.elim
          | some r2 =>
            cases e2' : reduceproductLoop db parseunit true fuel s1.theunit r1.irreducible 0
                NOREDUCTION with
            | none => rw [e2, e2'] at h2; exact h2.elim
            | some s2 =>
              rw [e2, e2'] at h2
              obtain ⟨hret2, hirr2, hat2⟩ := h2
              simp only
              rw [← hret2, ← hirr2]
              split
              · split
                · exact ⟨rfl, rfl, hat2⟩
                · exact ⟨rfl, rfl, hat2⟩
              · split
                · exact ih _ _ _ hat2
                · exact ⟨rfl, rfl, hat2⟩
        · simp only [if_neg herr]
          rw [← hret, ← hirr]
          have herr2 : r1.ret &&& ERROR ≠ 0 := herr
          simp only [if_pos herr2]
          by_cases hsome : r1.irreducible.isSome = true
          · simp only [if_pos hsome]; exact ⟨rfl, rfl, hat⟩
          · simp only [if_neg hsome]; exact ⟨rfl, rfl, hat⟩

theorem cancelunit_sortunit_sameatoms (u v : unittype) (h : sameatoms u v) :
    sameatoms (cancelunit (sortunit u)) (cancelunit (sortunit v)) := by
  obtain ⟨h1, h2⟩ := h
  simp [sameatoms, cancelunit, sortunit, h1, h2]

theorem completereduce_sameatoms (db : Database) (parseunit : Parser) (fuel : Nat)
    (u v : unittype) (h : sameatoms u v) :
    samereduced (completereduce db parseunit fuel u) (completereduce db parseunit fuel v) := by
  unfold completereduce reduceunit
  have h1 := reduceunitLoop_sameatoms db parseunit fuel u v none h
  cases e1 : reduceunitLoop db parseunit fuel u none with
  | none =>
    cases e1' : reduceunitLoop db parseunit fuel v none with
    | none => simp [samereduced]
    | some s => rw [e1, e1'] at h1; exact h1.elim
  | some r =>
    cases e1' : reduceunitLoop db parseunit fuel v none with
    | none => rw [e1, e1'] at h1; exact h1.elim
    | some s =>
      rw [e1, e1'] at h1
      obtain ⟨hret, hirr, hat⟩ := h1
      simp only
      rw [← hret]
      split
      · exact ⟨hret, hirr, hat⟩
      · exact ⟨rfl, hirr, cancelunit_sortunit_sameatoms _ _ hat⟩

theorem compareunits_sameatoms (a a2 b b2 : unittype) (p : Option CStr → Bool)
    (ha : sameatoms a a2) (hb : sameatoms b b2) :
    compareunits a b p = compareunits a2 b2 p := by
  obtain ⟨h1, h2⟩ := ha
  obtain ⟨h3, h4⟩ := hb
  unfold compareunits
  rw [h1, h2, h3, h4]

theorem addunit_sameatoms (db : Database) (parseunit : Parser) (fuel : Nat)
    (a a2 b b2 : unittype) (ha : sameatoms a a2) (hb : sameatoms b b2) :
    (addunit db parseunit fuel a b).map (fun r => r.1)
      = (addunit db parseunit fuel a2 b2).map (fun r => r.1) := by
  unfold addunit
  have h1 := completereduce_sameatoms db parseunit fuel a a2 ha
  cases e1 : completereduce db parseunit fuel a with
  | none =>
    cases e1' : completereduce db parseunit fuel a2 with
    | none => rfl
    | some s => rw [e1, e1'] at h1; exact h1.elim
  | some ra =>
    cases e1' : completereduce db parseunit fuel a2 with
    | none => rw [e1, e1'] at h1; exact h1.elim
    | some sa =>
      rw [e1, e1'] at h1
      obtain ⟨hret, _, hat⟩ := h1
      simp only
      rw [← hret]
      by_cases hra : ra.1 ≠ 0
      · simp only [if_pos hra, Option.map_some']
      · simp only [if_neg hra]
        have h2 := completereduce_sameatoms db parseunit fuel b b2 hb
        cases e2 : completereduce db parseunit fuel b with
        | none =>
          cases e2' : completereduce db parseunit fuel b2 with
          | none => rfl
          | some s => rw [e2, e2'] at h2; exact h2.elim
        | some rb =>
          cases e2' : completereduce db parseunit fuel b2 with
          | none => rw [e2, e2'] at h2; exact h2.elim
          | some sb =>
            rw [e2, e2'] at h2
            obtain ⟨hret2, _, hat2⟩ := h2
            simp only
            rw [← hret2, compareunits_sameatoms _ _ _ _ ignore_nothing hat hat2]
            split
            · rfl
            · split <;> rfl
theorem expunitLoop_sameatoms (onum oden : List CStr) (tf tg : ℚ) :
    ∀ (k : Nat) (u v : unittype), sameatoms u v →
      (expunitLoop onum oden tf k u).1 = (expunitLoop onum oden tg k v).1
  | 0, _, _, _ => rfl
  | k + 1, u, v, h => by
    obtain ⟨h1, h2⟩ := h
    unfold expunitLoop
    simp only [h1, h2]
    split
    · rfl
    · split
      · rfl
      · exact expunitLoop_sameatoms onum oden tf tg k _ _ ⟨rfl, rfl⟩

theorem expunit_sameatoms (u v : unittype) (power : Int) (h : sameatoms u v) :
    (expunit u power).1 = (expunit v power).1 := by
  unfold expunit
  split
  · rfl
  · rw [h.1, h.2]
    exact expunitLoop_sameatoms _ _ _ _ _ _ _ h

theorem reduceproductLoop_primitive (db : Database) (parseunit : Parser) (flip : Bool) :
    ∀ (fuel : Nat) (u : unittype) (irr : Option CStr) (idx did : Nat),
      primitiveonly db (if flip then u.denominator else u.numerator) →
      idx ≤ (if flip then u.denominator else u.numerator).length →
      (if flip then u.denominator else u.numerator).length < fuel + idx →
      reduceproductLoop db parseunit flip fuel u irr idx did
        = some { ret := did, theunit := u, irreducible := irr }
  | 0, u, irr, idx, did, _, hidx, hlen => by
    exfalso
    omega
  | fuel + 1, u, irr, idx, did, hprim, hidx, hlen => by
    unfold reduceproductLoop
    dsimp only
    cases hget : (if flip = true then u.denominator else u.numerator).get? idx with
    | none => rfl
    | some p =>
      simp only
      have hmem : p ∈ (if flip = true then u.denominator else u.numerator) :=
        List.get?_mem hget
      have hlt : idx < (if flip = true then u.denominator else u.numerator).length := by
        by_contra hge
        rw [List.get?_eq_none.2 (by omega)] at hget
        exact Option.noConfusion hget
      have ih := reduceproductLoop_primitive db parseunit flip fuel u irr (idx + 1) did hprim
        (by omega) (by omega)
      by_cases hp : p.length = 0
      · simp only [if_pos hp]
        exact ih
      · simp only [if_neg hp]
        rcases hprim p hmem with e | ⟨body, hl, hb⟩
        · exact absurd (by rw [e]; rfl) hp
        · simp only [hl, hb, if_true]
          exact ih

theorem reduceunit_primitive (db : Database) (parseunit : Parser) (fuel : Nat)
    (u : unittype) (hn : primitiveonly db u.numerator) (hd : primitiveonly db u.denominator)
    (hfuel : u.numerator.length + u.denominator.length + 2 ≤ fuel) :
    reduceunit db parseunit fuel u = some (0, u, none) := by
  obtain ⟨f, rfl⟩ : ∃ f, fuel = f + 1 := ⟨fuel - 1, by omega⟩
  unfold reduceunit reduceunitLoop reduceproduct
  rw [reduceproductLoop_primitive db parseunit false f u none 0 NOREDUCTION hn
    (Nat.zero_le _) (by simp only [Bool.false_eq_true, if_false]; omega)]
  simp only
  have e1 : NOREDUCTION &&& ERROR = 0 := by decide
  rw [if_pos e1]
  rw [reduceproductLoop_primitive db parseunit true f u none 0 NOREDUCTION hd
    (Nat.zero_le _) (by simp only [if_true]; omega)]
  simp only
  have e2 : ¬ ((NOREDUCTION ||| NOREDUCTION) &&& ERROR ≠ 0) := by decide
  have e3 : ¬ ((NOREDUCTION ||| NOREDUCTION) &&& DIDREDUCTION ≠ 0) := by decide
  rw [if_neg e2, if_neg e3]

theorem completereduce_primitive (db : Database) (parseunit : Parser) (fuel : Nat)
    (u : unittype) (hn : primitiveonly db u.numerator) (hd : primitiveonly db u.denominator)
    (hfuel : u.numerator.length + u.denominator.length + 2 ≤ fuel) :
    completereduce db parseunit fuel u = some (0, cancelunit (sortunit u), none) := by
  unfold completereduce
  rw [reduceunit_primitive db parseunit fuel u hn hd hfuel]
  simp

theorem rootunit_even_negative (db : Database) (parseunit : Parser) (pow : ℚ → ℚ → ℚ)
    (fuel n : Nat) (u : unittype) (r : Int × unittype × Option CStr)
    (hn : n % 2 = 0) (hc : completereduce db parseunit fuel u = some r)
    (h0 : r.1 = 0) (hneg : r.2.1.factor < 0) :
    rootunit db parseunit pow fuel u n = some (E_NOTROOT, r.2.1) := by
  unfold rootunit
  rw [hc]
  simp only
  rw [if_neg (not_not.2 h0), if_pos ⟨by rw [Nat.and_one_is_mod]; exact hn, hneg⟩]

/-- C10. For every even `n >= 2` and every value whose complete reduction
succeeds with a negative factor, `rootunit` returns `E_NOTROOT`; in particular
for a value whose atoms are all primitive and whose factor is negative
(reduction then succeeds and keeps the factor).  The return values of
`multunit`, `divunit`, `expunit` and `addunit` do not depend on the factors of
their arguments, and `invertunit`, which has no return value, exchanges the
lists whatever the factor: a negative factor alone is never rejected. -/
theorem C10_even_root_negative (db : Database) (parseunit : Parser) (pow : ℚ → ℚ → ℚ) :
    (∀ (fuel n : Nat) (u : unittype) (r : Int × unittype × Option CStr),
      2 ≤ n → n % 2 = 0 →
      completereduce db parseunit fuel u = some r → r.1 = 0 → r.2.1.factor < 0 →
      rootunit db parseunit pow fuel u n = some (E_NOTROOT, r.2.1)) ∧
    (∀ (fuel n : Nat) (u : unittype),
      2 ≤ n → n % 2 = 0 →
      primitiveonly db u.numerator → primitiveonly db u.denominator → u.factor < 0 →
      u.numerator.length + u.denominator.length + 2 ≤ fuel →
      rootunit db parseunit pow fuel u n = some (E_NOTROOT, cancelunit (sortunit u))) ∧
    (∀ (left right : unittype) (f g : ℚ),
      (multunit { left with factor := f } { right with factor := g }).1
        = (multunit left right).1 ∧
      (divunit { left with factor := f } { right with factor := g }).1
        = (divunit left right).1) ∧
    (∀ (u : unittype) (f : ℚ) (power : Int),
      (expunit { u with factor := f } power).1 = (expunit u power).1) ∧
    (∀ (fuel : Nat) (a b : unittype) (f g : ℚ),
      (addunit db parseunit fuel { a with factor := f } { b with factor := g }).map
          (fun r => r.1)
        = (addunit db parseunit fuel a b).map (fun r => r.1)) ∧
    (∀ u : unittype,
      (invertunit u).numerator = u.denominator ∧
      (invertunit u).denominator = u.numerator) := by
  refine ⟨?_, ?_, ?_, ?_, ?_, ?_⟩
  · intro fuel n u r _ hn hc h0 hneg
    exact rootunit_even_negative db parseunit pow fuel n u r hn hc h0 hneg
  · intro fuel n u _ hn hpn hpd hneg hfuel
    exact rootunit_even_negative db parseunit pow fuel n u _ hn
      (completereduce_primitive db parseunit fuel u hpn hpd hfuel) rfl hneg
  · intro left right f g
    exact ⟨(multunit_sameatoms { left with factor := f } left { right with factor := g }
        right ⟨rfl, rfl⟩ ⟨rfl, rfl⟩).1,
      (divunit_sameatoms { left with factor := f } left { right with factor := g }
        right ⟨rfl, rfl⟩ ⟨rfl, rfl⟩).1⟩
  · intro u f power
    exact expunit_sameatoms { u with factor := f } u power ⟨rfl, rfl⟩
  · intro fuel a b f g
    exact addunit_sameatoms db parseunit fuel { a with factor := f } a
      { b with factor := g } b ⟨rfl, rfl⟩ ⟨rfl, rfl⟩
  · intro u
    exact ⟨rfl, rfl⟩

theorem primitiveonly_meter : primitiveonly sampledb ["meter".toList] := by
  intro a ha
  right
  refine ⟨"!".toList, ?_, by decide⟩
  rw [List.mem_singleton.1 ha]
  decide

/-- C10 at a concrete input: the square root of `-4 meter meter` is refused. -/
theorem C10_even_root_negative_witness :
    rootunit sampledb noparser (fun x _ => x) 10
        { factor := -4, numerator := ["meter".toList, "meter".toList], denominator := [] } 2
      = some (E_NOTROOT,
          cancelunit (sortunit
            { factor := -4, numerator := ["meter".toList, "meter".toList],
              denominator := [] })) :=
  (C10_even_root_negative sampledb noparser (fun x _ => x)).2.1 10 2
    { factor := -4, numerator := ["meter".toList, "meter".toList], denominator := [] }
    (by decide) (by decide)
    (by
      intro a ha
      apply primitiveonly_meter
      simp only [List.mem_cons, List.mem_singleton, List.not_mem_nil, or_false] at ha
      simp only [List.mem_singleton]
      rcases ha with h | h <;> exact h)
    (by intro a ha; simp at ha)
    (by norm_num)
    (by decide)

/-! ## The prefix table -/

theorem strncmp_eq_zero_iff :
    ∀ (s p : CStr), strncmp s p p.length = 0 ↔ p <+: s
  | _, [] => by simp [strncmp]
  | [], _ :: _ => by simp [strncmp]
  | a :: as, b :: bs => by
    simp only [List.length_cons, strncmp]
    by_cases hab : a = b
    · subst hab
      simp only [if_true]
      rw [strncmp_eq_zero_iff as bs, List.cons_prefix_cons]
      simp
    · simp only [if_neg hab, List.cons_prefix_cons]
      constructor
      · intro h; split at h <;> simp at h
      · intro h; exact absurd h.1.symm hab

theorem prefixhash_eq {p s : CStr} (hp : p ≠ []) (h : p <+: s) :
    prefixhash p = prefixhash s := by
  obtain ⟨t, rfl⟩ := h
  cases p with
  | nil => exact absurd rfl hp
  | cons c cs => rfl

theorem plookup_eq_none_iff (db : Database) (h : ptabOrdered db.ptab) (s : CStr) :
    plookup db s = none ↔ ∀ q ∈ db.ptab, ¬ q.name <+: s := by
  unfold plookup
  rw [List.find?_eq_none]
  constructor
  · intro hnone q hq hpre
    apply hnone q hq
    obtain ⟨hlen, hne⟩ := h.1 q hq
    simp only [decide_eq_true_eq]
    exact ⟨prefixhash_eq hne hpre, by rw [hlen]; exact (strncmp_eq_zero_iff s q.name).2 hpre⟩
  · intro hall q hq hpred
    simp only [decide_eq_true_eq] at hpred
    obtain ⟨hlen, _⟩ := h.1 q hq
    apply hall q hq
    rw [hlen] at hpred
    exact (strncmp_eq_zero_iff s q.name).1 hpred.2

theorem plookup_longest (db : Database) (h : ptabOrdered db.ptab) (s : CStr)
    (p : prefixlist) (hp : plookup db s = some p) :
    p ∈ db.ptab ∧ p.name <+: s ∧
      ∀ q ∈ db.ptab, q.name <+: s → q.name.length ≤ p.name.length := by
  unfold plookup at hp
  obtain ⟨hpred, l1, l2, hsplit, hfirst⟩ := List.find?_eq_some.1 hp
  simp only [decide_eq_true_eq] at hpred
  have hmem : p ∈ db.ptab := by rw [hsplit]; simp
  have hpre : p.name <+: s := by
    have := hpred.2
    rw [(h.1 p hmem).1] at this
    exact (strncmp_eq_zero_iff s p.name).1 this
  refine ⟨hmem, hpre, ?_⟩
  intro q hq hqpre
  rw [hsplit] at hq
  rcases List.mem_append.1 hq with h1 | h2
  · -- an earlier entry that matches would have been returned
    exfalso
    have hq' : q ∈ db.ptab := by rw [hsplit]; exact List.mem_append_left _ h1
    obtain ⟨hlen, hne⟩ := h.1 q hq'
    have := hfirst q h1
    simp only [Bool.not_eq_true', decide_eq_false_iff_not] at this
    apply this
    exact ⟨prefixhash_eq hne hqpre,
      by rw [hlen]; exact (strncmp_eq_zero_iff s q.name).2 hqpre⟩
  · rcases List.mem_cons.1 h2 with e | h3
    · rw [e]
    · -- a later entry is not hidden by `p`, so it is shorter
      by_contra hlt
      have hpw := h.2
      rw [hsplit] at hpw
      have hpq : ¬ p.name <+: q.name :=
        List.rel_of_pairwise_cons (List.pairwise_append.1 hpw).2.1 h3
      exact hpq (List.prefix_of_prefix_length_le hpre hqpre (by omega))

theorem readprefixline_ordered (db : Database) (unitname unitdef : CStr)
    (h : ptabOrdered db.ptab) : ptabOrdered (readprefixline db unitname unitdef).1.ptab := by
  unfold readprefixline
  simp only
  split
  · exact h
  · rename_i hdig
    cases hpl : plookup db unitname.dropLast with
    | some _ => exact h
    | none =>
      simp only
      have hne : unitname.dropLast ≠ [] := by
        intro e
        rw [e] at hdig
        exact hdig rfl
      have hnone := (plookup_eq_none_iff db h unitname.dropLast).1 hpl
      refine ⟨?_, ?_⟩
      · intro p hp
        rcases List.mem_append.1 hp with h1 | h1
        · exact h.1 p h1
        · rw [List.mem_singleton.1 h1]
          exact ⟨by simp, hne⟩
      · rw [List.pairwise_append]
        refine ⟨h.2, List.pairwise_singleton _ _, ?_⟩
        intro p hp q hq
        rw [List.mem_singleton.1 hq]
        exact hnone p hp

theorem readdefinition_ordered (strtod : Strtod) (db : Database) (unitname unitdef : CStr)
    (h : ptabOrdered db.ptab) :
    ptabOrdered (readdefinition strtod db unitname unitdef).1.ptab := by
  unfold readdefinition
  split
  · exact readprefixline_ordered db unitname unitdef h
  · split
    · unfold readtableline
      simp only
      repeat' split
      all_goals exact h
    · split
      · unfold readfuncline addfuncentry
        simp only
        repeat' split
        all_goals exact h
      · unfold readunit
        repeat' split
        all_goals exact h

theorem readunits_ordered (strtod : Strtod) :
    ∀ (lines : List (CStr × CStr)) (db : Database), ptabOrdered db.ptab →
      ptabOrdered (readunits strtod db lines).1.ptab
  | [], _, h => h
  | line :: lines, db, h => by
    unfold readunits
    exact readunits_ordered strtod lines _
      (readdefinition_ordered strtod db line.1 line.2 h)

/-- C7. Longest-prefix match: in the prefix table `readunits` builds from any
sequence of definition lines, `plookup(s)` returns a registered prefix that is
a prefix of `s` and no registered prefix of `s` is longer; it returns null
exactly when no registered prefix is a prefix of `s`.  First match is longest
match because no registered name starts with a name registered before it. -/
theorem C7_longest_prefix_match (strtod : Strtod) (lines : List (CStr × CStr)) (s : CStr) :
    (∀ p : prefixlist, plookup (readunits strtod emptydb lines).1 s = some p →
      p ∈ (readunits strtod emptydb lines).1.ptab ∧ p.name <+: s ∧
      ∀ q ∈ (readunits strtod emptydb lines).1.ptab,
        q.name <+: s → q.name.length ≤ p.name.length) ∧
    (plookup (readunits strtod emptydb lines).1 s = none ↔
      ∀ q ∈ (readunits strtod emptydb lines).1.ptab, ¬ q.name <+: s) ∧
    (readunits strtod emptydb lines).1.ptab.Pairwise (fun p q => ¬ p.name <+: q.name) := by
  have hord : ptabOrdered (readunits strtod emptydb lines).1.ptab :=
    readunits_ordered strtod lines emptydb
      ⟨fun p hp => by simp [emptydb] at hp, by simp [emptydb]⟩
  exact ⟨fun p hp => plookup_longest _ hord s p hp, plookup_eq_none_iff _ hord s, hord.2⟩

/-- C7 at a concrete input: after the lines `kilo- 1e3` and `k- kilo`, the
lookup of `kilometer` returns `kilo`, and no registered prefix of `kilometer`
is longer than 4. -/
theorem C7_longest_prefix_match_witness :
    plookup (readunits (fun _ => none) emptydb
        [("kilo-".toList, "1e3".toList), ("k-".toList, "kilo".toList)]).1
        "kilometer".toList
      = some { len := 4, name := "kilo".toList, value := "1e3".toList } ∧
    ∀ q ∈ (readunits (fun _ => none) emptydb
        [("kilo-".toList, "1e3".toList), ("k-".toList, "kilo".toList)]).1.ptab,
      q.name <+: "kilometer".toList → q.name.length ≤ 4 :=
  ⟨by decide,
    ((C7_longest_prefix_match (fun _ => none)
      [("kilo-".toList, "1e3".toList), ("k-".toList, "kilo".toList)]
      "kilometer".toList).1
      { len := 4, name := "kilo".toList, value := "1e3".toList } (by decide)).2.2⟩

/-! ## The unit table -/

theorem readunits_induction (strtod : Strtod) (Inv : Database → Prop)
    (hstep : ∀ (db : Database) (unitname unitdef : CStr),
      Inv db → Inv (readdefinition strtod db unitname unitdef).1) :
    ∀ (lines : List (CStr × CStr)) (db : Database), Inv db →
      Inv (readunits strtod db lines).1
  | [], _, h => h
  | line :: lines, db, h => by
    unfold readunits
    exact readunits_induction strtod Inv hstep lines _ (hstep db line.1 line.2 h)

theorem readunits_append (strtod : Strtod) :
    ∀ (lines1 lines2 : List (CStr × CStr)) (db : Database),
      readunits strtod db (lines1 ++ lines2)
        = ((readunits strtod (readunits strtod db lines1).1 lines2).1,
            (readunits strtod db lines1).2 ||
              (readunits strtod (readunits strtod db lines1).1 lines2).2)
  | [], lines2, db => by simp [readunits]
  | line :: lines1, lines2, db => by
    have ih := readunits_append strtod lines1 lines2 (readdefinition strtod db line.1 line.2).1
    show readunits strtod db (line :: (lines1 ++ lines2)) = _
    simp only [readunits]
    rw [ih]
    simp [Bool.or_assoc]

/-- The unit branch either refuses the line or puts a new entry, whose name was
not in the table, at the head. -/
theorem readdefinition_utab (strtod : Strtod) (db : Database) (unitname unitdef : CStr) :
    (readdefinition strtod db unitname unitdef).1.utab = db.utab ∨
    ((readdefinition strtod db unitname unitdef).1.utab
        = { name := unitname, value := unitdef } :: db.utab ∧
      ulookup db unitname = none ∧ endsdigit unitname = false ∧
      startsdigit unitname = false) := by
  unfold readdefinition
  split
  · left
    unfold readprefixline
    simp only
    repeat' split
    all_goals rfl
  · split
    · left
      unfold readtableline
      simp only
      repeat' split
      all_goals rfl
    · split
      · left
        unfold readfuncline addfuncentry
        simp only
        repeat' split
        all_goals rfl
      · unfold readunit
        by_cases h1 : endsdigit unitname = true
        · left; simp [h1]
        · by_cases h2 : startsdigit unitname = true
          · left; simp [h1, h2]
          · cases h3 : ulookup db unitname with
            | some u => left; simp [h1, h2, h3]
            | none =>
              right
              simp only [Bool.not_eq_true] at h1 h2
              simp [h1, h2, h3]

theorem ulookup_cons (db : Database) (e : unitlist) (str : CStr) :
    ulookup { db with utab := e :: db.utab } str
      = if strcmp str e.name = 0 then some e else ulookup db str := by
  unfold ulookup
  simp only [List.find?_cons]
  by_cases h : strcmp str e.name = 0
  · simp [h]
  · simp [h]

theorem ulookup_of_utab_eq (db db2 : Database) (h : db2.utab = db.utab) (str : CStr) :
    ulookup db2 str = ulookup db str := by
  unfold ulookup
  rw [h]

/-- A name that is defined keeps its definition through every later line. -/
theorem readdefinition_ulookup (strtod : Strtod) (db : Database) (unitname unitdef : CStr)
    (str : CStr) (u : unitlist) (h : ulookup db str = some u) :
    ulookup (readdefinition strtod db unitname unitdef).1 str = some u := by
  rcases readdefinition_utab strtod db unitname unitdef with e | ⟨e, hnone, _, _⟩
  · rw [ulookup_of_utab_eq db _ e str, h]
  · have hne : ¬ strcmp str unitname = 0 := by
      intro h0
      rw [strcmp_eq_zero h0, hnone] at h
      exact Option.noConfusion h
    have := ulookup_cons db { name := unitname, value := unitdef } str
    rw [if_neg hne] at this
    rw [ulookup_of_utab_eq { db with utab := { name := unitname, value := unitdef } :: db.utab }
      _ e str, this, h]

theorem readunits_ulookup (strtod : Strtod) (str : CStr) (u : unitlist) :
    ∀ (lines : List (CStr × CStr)) (db : Database), ulookup db str = some u →
      ulookup (readunits strtod db lines).1 str = some u :=
  readunits_induction strtod (fun db => ulookup db str = some u)
    (fun db unitname unitdef h => readdefinition_ulookup strtod db unitname unitdef str u h)

theorem ulookup_eq_none_iff (db : Database) (str : CStr) :
    ulookup db str = none ↔ str ∉ db.utab.map (fun e => e.name) := by
  unfold ulookup
  rw [List.find?_eq_none]
  simp only [decide_eq_true_eq, List.mem_map, not_exists, not_and]
  constructor
  · intro h e he hn
    exact h e he (by rw [hn]; exact strcmp_self _)
  · intro h e he h0
    exact h e he (strcmp_eq_zero h0).symm

theorem readdefinition_nodup (strtod : Strtod) (db : Database) (unitname unitdef : CStr)
    (h : (db.utab.map (fun e => e.name)).Nodup) :
    ((readdefinition strtod db unitname unitdef).1.utab.map (fun e => e.name)).Nodup := by
  rcases readdefinition_utab strtod db unitname unitdef with e | ⟨e, hnone, _, _⟩
  · rw [e]; exact h
  · rw [e, List.map_cons, List.nodup_cons]
    exact ⟨(ulookup_eq_none_iff db unitname).1 hnone, h⟩

theorem readunit_redefinition (strtod : Strtod) (db : Database) (unitname unitdef : CStr)
    (h1 : unitname.getLast? ≠ some '-') (h2 : strchr unitname '[' = false)
    (h3 : strchr unitname '(' = false) (h : (ulookup db unitname).isSome) :
    readdefinition strtod db unitname unitdef = (db, true) := by
  unfold readdefinition
  rw [if_neg h1]
  simp only [h2, h3, Bool.false_eq_true, if_false]
  unfold readunit
  simp only [h, if_true]
  split
  · rfl
  · split <;> rfl

/-- C20. Unit names are unique keys and redefinition is an error: a line that
defines a unit whose name is already in the unit table sets `goterr` and leaves
the database as it was; the load then returns `E_BADFILE`, `ulookup` of the
name still returns the earlier entry after this and every later line, and the
unit table never holds two entries of one name. -/
theorem C20_redefinition (strtod : Strtod) :
    (∀ (db : Database) (unitname unitdef : CStr),
      unitname.getLast? ≠ some '-' → strchr unitname '[' = false →
      strchr unitname '(' = false → (ulookup db unitname).isSome →
      readdefinition strtod db unitname unitdef = (db, true)) ∧
    (∀ (lines1 lines2 : List (CStr × CStr)) (unitname unitdef : CStr) (u : unitlist),
      unitname.getLast? ≠ some '-' → strchr unitname '[' = false →
      strchr unitname '(' = false →
      ulookup (readunits strtod emptydb lines1).1 unitname = some u →
      readunitsreturn (readunits strtod emptydb (lines1 ++ (unitname, unitdef) :: lines2))
        = E_BADFILE ∧
      ulookup (readunits strtod emptydb (lines1 ++ (unitname, unitdef) :: lines2)).1 unitname
        = some u) ∧
    (∀ lines : List (CStr × CStr),
      ((readunits strtod emptydb lines).1.utab.map (fun e => e.name)).Nodup) := by
  refine ⟨readunit_redefinition strtod, ?_, ?_⟩
  · intro lines1 lines2 unitname unitdef u h1 h2 h3 hu
    have hstep := readunit_redefinition strtod (readunits strtod emptydb lines1).1
      unitname unitdef h1 h2 h3 (by rw [hu]; rfl)
    rw [readunits_append]
    constructor
    · unfold readunitsreturn
      simp only [readunits, hstep, Bool.true_or, Bool.or_true, if_true]
    · exact readunits_ulookup strtod unitname u _ _ hu
  · intro lines
    exact readunits_induction strtod (fun db => (db.utab.map (fun e => e.name)).Nodup)
      (fun db unitname unitdef h => readdefinition_nodup strtod db unitname unitdef h)
      lines emptydb (by simp [emptydb])

/-- C20 at a concrete input: `foot` defined twice; the load returns `E_BADFILE`
and `foot` keeps its first definition. -/
theorem C20_redefinition_witness :
    readunitsreturn (readunits digitstrtod emptydb
        ([("foot".toList, "12 inch".toList)] ++
          ("foot".toList, "13 inch".toList) :: [("inch".toList, "!".toList)]))
      = E_BADFILE ∧
    ulookup (readunits digitstrtod emptydb
        ([("foot".toList, "12 inch".toList)] ++
          ("foot".toList, "13 inch".toList) :: [("inch".toList, "!".toList)])).1
        "foot".toList
      = some { name := "foot".toList, value := "12 inch".toList } :=
  (C20_redefinition digitstrtod).2.1 [("foot".toList, "12 inch".toList)]
    [("inch".toList, "!".toList)] "foot".toList "13 inch".toList
    { name := "foot".toList, value := "12 inch".toList }
    (by decide) (by decide) (by decide) (by decide)

/-! ## Names in the database -/

theorem startsdigit_take (l : CStr) (j : Nat) (hj : l.take j ≠ []) :
    startsdigit (l.take j) = startsdigit l := by
  cases l with
  | nil => simp at hj
  | cons c cs =>
    cases j with
    | zero => simp at hj
    | succ k => rfl

theorem cutbrackets_lookupname (unitname : CStr) (lb rb : Char) :
    (cutbrackets unitname lb rb).lookupname = unitname.take (unitname.indexOf lb) := by
  unfold cutbrackets
  simp only
  cases unitname.indexOf? rb with
  | none => rfl
  | some j =>
    simp only
    split <;> rfl

theorem cutbrackets_name_cases (unitname : CStr) (lb rb : Char) :
    (cutbrackets unitname lb rb).name = unitname.take (unitname.indexOf lb) ∨
    ∃ j : Nat, (cutbrackets unitname lb rb).name = unitname.take j := by
  unfold cutbrackets
  simp only
  cases unitname.indexOf? rb with
  | none => left; rfl
  | some j =>
    simp only
    split
    · right; exact ⟨j, rfl⟩
    · left; rfl

/-- The name `readunits` stores for a table or function does not begin with a
digit or `.` unless it is empty. -/
theorem cutbrackets_name (unitname : CStr) (lb rb : Char)
    (h : startsdigit (cutbrackets unitname lb rb).lookupname = false)
    (hne : (cutbrackets unitname lb rb).name ≠ []) :
    startsdigit (cutbrackets unitname lb rb).name = false := by
  rw [cutbrackets_lookupname] at h
  rcases cutbrackets_name_cases unitname lb rb with e | ⟨j, e⟩
  · rw [e]; exact h
  · rw [e] at hne ⊢
    rw [startsdigit_take _ _ hne]
    have hne2 : unitname.take (List.indexOf lb unitname) ≠ [] := by
      intro e2
      rw [e2] at h
      exact Bool.noConfusion h
    rw [← startsdigit_take _ _ hne2]
    exact h

/-- How one definition line changes the list of functions: not at all, or by
one entry at the end whose name is the one cut from the token. -/
theorem readdefinition_funcs (strtod : Strtod) (db : Database) (unitname unitdef : CStr) :
    (readdefinition strtod db unitname unitdef).1.funcs = db.funcs ∨
    ∃ (f : func) (lb rb : Char),
      (readdefinition strtod db unitname unitdef).1.funcs = db.funcs ++ [f] ∧
      f.name = (cutbrackets unitname lb rb).name ∧
      startsdigit (cutbrackets unitname lb rb).lookupname = false := by
  unfold readdefinition
  split
  · left
    unfold readprefixline
    simp only
    repeat' split
    all_goals rfl
  · split
    · unfold readtableline
      simp only
      by_cases h1 : startsdigit (cutbrackets unitname '[' ']').lookupname = true
      · left; simp [h1]
      · simp only [h1, Bool.false_eq_true, if_false]
        split
        · left; rfl
        · split
          · left; rfl
          · split
            · left; rfl
            · right
              exact ⟨_, '[', ']', rfl, rfl, by simpa using h1⟩
    · split
      · unfold readfuncline addfuncentry
        simp only
        by_cases h1 : startsdigit (cutbrackets unitname '(' ')').lookupname = true
        · left; simp [h1]
        · simp only [h1, Bool.false_eq_true, if_false]
          split
          · left; rfl
          · split
            · left; rfl
            · split
              · split
                · left; rfl
                · split
                  · split
                    · left; rfl
                    · right
                      exact ⟨_, '(', ')', rfl, rfl, by simpa using h1⟩
                  · right
                    exact ⟨_, '(', ')', rfl, rfl, by simpa using h1⟩
              · right
                exact ⟨_, '(', ')', rfl, rfl, by simpa using h1⟩
      · left
        unfold readunit
        repeat' split
        all_goals rfl

/-- What does hold of the names after any sequence of definition lines: unit
names are not empty, do not begin with a digit or `.` and do not end with a
digit 2-9; prefix names are not empty and do not begin with a digit or `.`;
table and function names do not begin with a digit or `.`, but may be empty. -/
theorem readunits_names (strtod : Strtod) (lines : List (CStr × CStr)) :
    (∀ e ∈ (readunits strtod emptydb lines).1.utab,
      e.name ≠ [] ∧ startsdigit e.name = false ∧ endsdigit e.name = false) ∧
    (∀ p ∈ (readunits strtod emptydb lines).1.ptab,
      p.name ≠ [] ∧ startsdigit p.name = false) ∧
    (∀ f ∈ (readunits strtod emptydb lines).1.funcs,
      f.name ≠ [] → startsdigit f.name = false) := by
  refine ⟨?_, ?_, ?_⟩
  · refine readunits_induction strtod
      (fun db => ∀ e ∈ db.utab,
        e.name ≠ [] ∧ startsdigit e.name = false ∧ endsdigit e.name = false)
      ?_ lines emptydb (by simp [emptydb])
    intro db unitname unitdef h e he
    rcases readdefinition_utab strtod db unitname unitdef with eq | ⟨eq, _, h1, h2⟩
    · rw [eq] at he; exact h e he
    · rw [eq] at he
      rcases List.mem_cons.1 he with e1 | e1
      · rw [e1]
        refine ⟨?_, h2, h1⟩
        intro hnil
        simp only at hnil
        rw [hnil] at h2
        exact Bool.noConfusion h2
      · exact h e e1
  · refine readunits_induction strtod
      (fun db => ∀ p ∈ db.ptab, p.name ≠ [] ∧ startsdigit p.name = false)
      ?_ lines emptydb (by simp [emptydb])
    intro db unitname unitdef h p hp
    unfold readdefinition at hp
    split at hp
    · unfold readprefixline at hp
      simp only at hp
      split at hp
      · exact h p hp
      · rename_i hd
        split at hp
        · exact h p hp
        · simp only [List.mem_append, List.mem_singleton] at hp
          rcases hp with h1 | h1
          · exact h p h1
          · rw [h1]
            simp only [Bool.not_eq_true] at hd
            refine ⟨?_, hd⟩
            intro hnil
            simp only at hnil
            rw [hnil] at hd
            exact Bool.noConfusion hd
    · have hsame : (if strchr unitname '[' = true then readtableline strtod db unitname unitdef
          else if strchr unitname '(' = true then readfuncline db unitname unitdef
          else readunit db unitname unitdef).1.ptab = db.ptab := by
        split
        · unfold readtableline
          simp only
          repeat' split
          all_goals rfl
        · split
          · unfold readfuncline addfuncentry
            simp only
            repeat' split
            all_goals rfl
          · unfold readunit
            repeat' split
            all_goals rfl
      rw [hsame] at hp
      exact h p hp
  · refine readunits_induction strtod
      (fun db => ∀ f ∈ db.funcs, f.name ≠ [] → startsdigit f.name = false)
      ?_ lines emptydb (by simp [emptydb])
    intro db unitname unitdef h f hf hne
    rcases readdefinition_funcs strtod db unitname unitdef with eq | ⟨g, lb, rb, eq, hn, hd⟩
    · rw [eq] at hf; exact h f hf hne
    · rw [eq] at hf
      rcases List.mem_append.1 hf with h1 | h1
      · exact h f h1 hne
      · rw [List.mem_singleton.1 h1] at hne ⊢
        rw [hn] at hne ⊢
        exact cutbrackets_name unitname lb rb hd hne

/-- C19, the code at the failing input: the definition line `][m 1 2` passes
every test of the table branch and registers a table whose name is empty, and
the line `)(x x` registers a function whose name is empty; neither sets
`goterr`, so the load returns 0. -/
theorem C19_empty_name_registered :
    (readunits digitstrtod emptydb [("][m".toList, "1 2".toList)]).1.funcs.map
        (fun f => (f.name, f.tableunit))
      = [([], some "m".toList)] ∧
    readunitsreturn (readunits digitstrtod emptydb [("][m".toList, "1 2".toList)]) = 0 ∧
    (readunits digitstrtod emptydb [(")(x".toList, "x".toList)]).1.funcs.map
        (fun f => (f.name, f.forward.param))
      = [([], some "x".toList)] ∧
    readunitsreturn (readunits digitstrtod emptydb [(")(x".toList, "x".toList)]) = 0 := by
  decide

/-! ## Sums -/

theorem kept_ignore_nothing (l : List CStr) : kept ignore_nothing l = atoms l := by
  unfold kept atoms ignore_nothing
  congr 1
  funext a
  by_cases h : a = NULLUNIT <;> simp [h]

theorem compareunits_nothing_eq_zero_iff (a b : unittype) :
    compareunits a b ignore_nothing = 0 ↔
      atoms a.numerator = atoms b.numerator ∧ atoms a.denominator = atoms b.denominator := by
  rw [compareunits_eq_zero_iff ignore_nothing rfl]
  simp only [kept_ignore_nothing]

theorem primitiveonly_radian : primitiveonly sampledb ["radian".toList] := by
  intro a ha
  right
  refine ⟨"!dimensionless".toList, ?_, by decide⟩
  rw [List.mem_singleton.1 ha]
  decide

theorem primitiveonly_nil (db : Database) : primitiveonly db [] := by
  intro a ha
  simp at ha

/-- C13. Sum: when the complete reductions of `a` and `b` succeed, `addunit`
returns `E_BADSUM` exactly when the reduced values are not conformable under
`ignore_nothing`, that is, when their atoms differ in the numerator or in the
denominator (no atom is ignored, a dimensionless one included); otherwise it
returns 0, `a` is its reduced form with the sum of the two reduced factors as
factor, and `b` is left without entries. -/
theorem C13_addunit (db : Database) (parseunit : Parser) (fuel : Nat)
    (a b ra rb : unittype) (ia ib : Option CStr)
    (ha : completereduce db parseunit fuel a = some (0, ra, ia))
    (hb : completereduce db parseunit fuel b = some (0, rb, ib)) :
    ((addunit db parseunit fuel a b).map (fun r => r.1) = some E_BADSUM ↔
      compareunits ra rb ignore_nothing ≠ 0) ∧
    (compareunits ra rb ignore_nothing ≠ 0 ↔
      ¬ (atoms ra.numerator = atoms rb.numerator ∧
         atoms ra.denominator = atoms rb.denominator)) ∧
    (compareunits ra rb ignore_nothing = 0 →
      addunit db parseunit fuel a b
        = some (0, { ra with factor := ra.factor + rb.factor },
            { rb with numerator := [], denominator := [] })) := by
  have hadd : addunit db parseunit fuel a b
      = if compareunits ra rb ignore_nothing ≠ 0 then some (E_BADSUM, ra, rb)
        else some (0, { ra with factor := ra.factor + rb.factor }, freeunit rb) := by
    unfold addunit
    rw [ha]
    simp only [ne_eq, not_true_eq_false, if_false]
    rw [hb]
    simp only [ne_eq, not_true_eq_false, if_false]
  refine ⟨?_, ?_, ?_⟩
  · rw [hadd]
    by_cases h : compareunits ra rb ignore_nothing = 0
    · simp [h, E_BADSUM]
    · simp [h]
  · rw [not_iff_not]
    exact compareunits_nothing_eq_zero_iff ra rb
  · intro h
    rw [hadd, if_neg (not_not.2 h)]
    rfl

/-- C13 at a concrete input: `radian + 1` is refused although `radian` is
tagged dimensionless. -/
theorem C13_addunit_witness :
    (addunit sampledb noparser 5
        { factor := 1, numerator := ["radian".toList], denominator := [] }
        { factor := 1, numerator := [], denominator := [] }).map (fun r => r.1)
      = some E_BADSUM :=
  (C13_addunit sampledb noparser 5
    { factor := 1, numerator := ["radian".toList], denominator := [] }
    { factor := 1, numerator := [], denominator := [] } _ _ none none
    (completereduce_primitive sampledb noparser 5 _ primitiveonly_radian
      (primitiveonly_nil sampledb) (by decide))
    (completereduce_primitive sampledb noparser 5 _ (primitiveonly_nil sampledb)
      (primitiveonly_nil sampledb) (by decide))).1.2 (by decide)

/-! ## Integer powers -/

theorem atoms_cons_atom {a : CStr} (l : List CStr) (h : a ≠ NULLUNIT) :
    atoms (a :: l) = a :: atoms l := by
  simp [atoms, h]

theorem expunitNum_ok :
    ∀ (src num : List CStr), (expunitNum src num).1 = false →
      (expunitNum src num).2 = num ++ atoms src
  | [], num, _ => by simp [expunitNum, atoms]
  | s :: src, num, h => by
    unfold expunitNum at h ⊢
    by_cases hs : s ≠ NULLUNIT
    · rw [if_pos hs] at h ⊢
      by_cases hl : num.length > MAXSUBUNITS - 1
      · rw [if_pos hl] at h
        exact absurd h (by simp)
      · rw [if_neg hl] at h ⊢
        rw [expunitNum_ok src (num ++ [s]) h, atoms_cons_atom src hs, List.append_assoc]
        rfl
    · rw [if_neg hs] at h ⊢
      rw [expunitNum_ok src num h]
      have e : s = NULLUNIT := not_not.1 hs
      rw [e, atoms_cons_null]

theorem expunitDen_ok :
    ∀ (src den : List CStr), (expunitDen src den).1 = false →
      (expunitDen src den).2 = den ++ atoms src
  | [], den, _ => by simp [expunitDen, atoms]
  | s :: src, den, h => by
    unfold expunitDen at h ⊢
    by_cases hs : s ≠ NULLUNIT
    · rw [if_pos hs] at h ⊢
      by_cases hl : (den ++ [s]).length > MAXSUBUNITS - 1
      · rw [if_pos hl] at h
        exact absurd h (by simp)
      · rw [if_neg hl] at h ⊢
        rw [expunitDen_ok src (den ++ [s]) h, atoms_cons_atom src hs, List.append_assoc]
        rfl
    · rw [if_neg hs] at h ⊢
      rw [expunitDen_ok src den h]
      have e : s = NULLUNIT := not_not.1 hs
      rw [e, atoms_cons_null]

/-- The number of entries that `expunit` leaves when it returns 0: those of
`u` and, `n - 1` times, the atoms of `u`. -/
theorem expunitLoop_length (onum oden : List CStr) (thefactor : ℚ) :
    ∀ (k : Nat) (u : unittype), (expunitLoop onum oden thefactor k u).1 = 0 →
      (expunitLoop onum oden thefactor k u).2.numerator.length
        = u.numerator.length + k * (atoms onum).length ∧
      (expunitLoop onum oden thefactor k u).2.denominator.length
        = u.denominator.length + k * (atoms oden).length
  | 0, u, _ => by simp [expunitLoop]
  | k + 1, u, h => by
    unfold expunitLoop at h ⊢
    simp only at h ⊢
    by_cases hn : (expunitNum onum u.numerator).1 = true
    · rw [if_pos hn] at h
      simp [E_PRODOVERFLOW] at h
    · rw [if_neg hn] at h ⊢
      by_cases hd : (expunitDen oden u.denominator).1 = true
      · rw [if_pos hd] at h
        simp [E_PRODOVERFLOW] at h
      · rw [if_neg hd] at h ⊢
        obtain ⟨h1, h2⟩ := expunitLoop_length onum oden thefactor k _ h
        simp only [Bool.not_eq_true] at hn hd
        simp only at h1 h2
        rw [h1, h2, expunitNum_ok _ _ hn, expunitDen_ok _ _ hd, List.length_append,
          List.length_append]
        constructor <;> ring

theorem expunit_length (u : unittype) (n : Nat) (hn : 1 ≤ n)
    (h : (expunit u (n : Int)).1 = 0) :
    (expunit u (n : Int)).2.numerator.length
      = u.numerator.length + (n - 1) * (atoms u.numerator).length ∧
    (expunit u (n : Int)).2.denominator.length
      = u.denominator.length + (n - 1) * (atoms u.denominator).length := by
  have hexp : expunit u (n : Int)
      = expunitLoop u.numerator u.denominator u.factor (n - 1) u := by
    unfold expunit
    have h1 : ¬ ((n : Int) = 0) := by omega
    have h2 : ((n : Int) - 1).toNat = n - 1 := by omega
    rw [if_neg h1, h2]
  rw [hexp] at h ⊢
  exact expunitLoop_length _ _ _ _ _ h

theorem reduceunitLoop_code (db : Database) (parseunit : Parser) :
    ∀ (fuel : Nat) (u : unittype) (irr : Option CStr) (r : Int × unittype × Option CStr),
      reduceunitLoop db parseunit fuel u irr = some r →
      r.1 = 0 ∨ r.1 = E_UNKNOWNUNIT ∨ r.1 = E_REDUCE
  | 0, _, _, _, h => by simp [reduceunitLoop] at h
  | fuel + 1, u, irr, r, h => by
    unfold reduceunitLoop at h
    cases h1 : reduceproduct db parseunit fuel u irr false with
    | none => rw [h1] at h; simp at h
    | some r1 =>
      rw [h1] at h
      simp only at h
      by_cases herr : r1.ret &&& ERROR = 0
      · rw [if_pos herr] at h
        cases h2 : reduceproduct db parseunit fuel r1.theunit r1.irreducible true with
        | none => rw [h2] at h; simp at h
        | some r2 =>
          rw [h2] at h
          simp only at h
          split at h
          · split at h
            · rw [← Option.some.inj h]; right; left; rfl
            · rw [← Option.some.inj h]; right; right; rfl
          · split at h
            · exact reduceunitLoop_code db parseunit fuel _ _ r h
            · rw [← Option.some.inj h]; left; rfl
      · rw [if_neg herr] at h
        have herr2 : r1.ret &&& ERROR ≠ 0 := herr
        simp only [if_pos herr2] at h
        split at h
        · rw [← Option.some.inj h]; right; left; rfl
        · rw [← Option.some.inj h]; right; right; rfl

/-- The return values of `completereduce`: 0, `E_UNKNOWNUNIT` or `E_REDUCE`. -/
theorem completereduce_code (db : Database) (parseunit : Parser) (fuel : Nat)
    (u : unittype) (r : Int × unittype × Option CStr)
    (h : completereduce db parseunit fuel u = some r) :
    r.1 = 0 ∨ r.1 = E_UNKNOWNUNIT ∨ r.1 = E_REDUCE := by
  unfold completereduce reduceunit at h
  cases h1 : reduceunitLoop db parseunit fuel u none with
  | none => rw [h1] at h; simp at h
  | some r1 =>
    rw [h1] at h
    simp only at h
    split at h
    · rw [← Option.some.inj h]
      exact reduceunitLoop_code db parseunit fuel u none r1 h1
    · rw [← Option.some.inj h]; left; rfl

theorem unit2num_number (db : Database) (parseunit : Parser) (fuel : Nat) (f : ℚ)
    (hfuel : 2 ≤ fuel) :
    unit2num db parseunit fuel { factor := f, numerator := [], denominator := [] }
      = some (0, { factor := f, numerator := [], denominator := [] }, none) := by
  unfold unit2num
  rw [completereduce_primitive db parseunit fuel _ (primitiveonly_nil db)
    (primitiveonly_nil db) (by simpa using hfuel)]
  have hc : compareunits
      (cancelunit (sortunit { factor := f, numerator := [], denominator := [] }))
      initializeunit ignore_nothing = 0 := by rfl
  simp only [ne_eq, not_true_eq_false, if_false, hc]
  rfl

theorem indexOf?_eq_none (c : Char) (l : List Char) (h : c ∉ l) : l.indexOf? c = none := by
  unfold List.indexOf?
  rw [List.findIdx?_eq_none_iff]
  intro x hx
  simp only [beq_eq_false_iff_ne, ne_eq]
  intro hxc
  exact h (hxc ▸ hx)

theorem addfuncentry_no_inverse (db : Database) (b : bracketed) (fdimen idimen : Option CStr)
    (unitdef : CStr) (h : ';' ∉ unitdef) :
    ∃ f : func, addfuncentry db b fdimen idimen unitdef = ({ db with funcs := db.funcs ++ [f] }, false) ∧
      f.name = b.name ∧ f.table = none ∧ f.inverse.defn = none := by
  unfold addfuncentry
  simp only [indexOf?_eq_none ';' unitdef h, Option.map_none']
  exact ⟨_, rfl, rfl, rfl, rfl⟩

/-- The part of a function definition after its dimension part: the text
`readunits` searches for the `;` that starts the inverse (units.c:684-712). -/
theorem readfuncline_no_inverse (db : Database) (unitname unitdef : CStr)
    (h : ';' ∉ unitdef) :
    (readfuncline db unitname unitdef).1 = db ∨
    ∃ f : func, (readfuncline db unitname unitdef).1 = { db with funcs := db.funcs ++ [f] } ∧
      f.table = none ∧ f.inverse.defn = none := by
  unfold readfuncline
  simp only
  split
  · exact Or.inl rfl
  · split
    · exact Or.inl rfl
    · split
      · exact Or.inl rfl
      · split
        · rename_i rest
          have hrest : ';' ∉ rest := fun hm => h (List.mem_cons_of_mem _ hm)
          split
          · exact Or.inl rfl
          · rename_i e he
            rw [indexOf?_eq_none ';' rest hrest]
            simp only
            obtain ⟨f, hf, _, h2, h3⟩ := addfuncentry_no_inverse db (cutbrackets unitname '(' ')')
              (some (removepadding (rest.take e))) none (rest.drop (e + 1))
              (fun hm => hrest (List.mem_of_mem_drop hm))
            exact Or.inr ⟨f, by rw [hf], h2, h3⟩
        · obtain ⟨f, hf, _, h2, h3⟩ := addfuncentry_no_inverse db (cutbrackets unitname '(' ')')
            none none unitdef h
          exact Or.inr ⟨f, by rw [hf], h2, h3⟩

/-- C17. For a function (not a table) whose inverse has no body, `evalfunc`
called with `inverse = 1` returns `E_NOINVERSE` and the value it was given is
unchanged, for every value, parser and database; a function line whose
definition holds no `;` is loaded as such a function: the entry that
`readunits` appends for it has no table and no inverse body. -/
theorem C17_no_inverse (db : Database) (parseunit : SlotParser) (fuel : Nat)
    (slot : globals) (theunit : unittype) :
    (∀ infunc : func, infunc.table = none → infunc.inverse.defn = none →
      evalfunc db parseunit fuel slot theunit infunc true
        = some { err := E_NOINVERSE, theunit := theunit, slot := slot, bodyslot := none }) ∧
    (∀ (ldb : Database) (unitname unitdef : CStr), ';' ∉ unitdef →
      (readfuncline ldb unitname unitdef).1 = ldb ∨
      ∃ f : func,
        (readfuncline ldb unitname unitdef).1 = { ldb with funcs := ldb.funcs ++ [f] } ∧
        evalfunc db parseunit fuel slot theunit f true
          = some { err := E_NOINVERSE, theunit := theunit, slot := slot,
                   bodyslot := none }) := by
  have key : ∀ infunc : func, infunc.table = none → infunc.inverse.defn = none →
      evalfunc db parseunit fuel slot theunit infunc true
        = some { err := E_NOINVERSE, theunit := theunit, slot := slot, bodyslot := none } := by
    intro infunc ht hi
    unfold evalfunc
    rw [ht]
    simp [hi]
  refine ⟨key, ?_⟩
  intro ldb unitname unitdef h
  rcases readfuncline_no_inverse ldb unitname unitdef h with h1 | ⟨f, hf, h2, h3⟩
  · exact Or.inl h1
  · exact Or.inr ⟨f, hf, key f h2 h3⟩

/-- C17 at a concrete input: the line `f(x)  x` is loaded as a function without
inverse, and its inverse applied to `3 meter` returns `E_NOINVERSE` and leaves
`3 meter`. -/
theorem C17_no_inverse_witness :
    (readunits digitstrtod emptydb [("f(x)".toList, "x".toList)]).1.funcs.map
        (fun f => (f.name, f.table.isNone, f.inverse.defn)) = [("f".toList, true, none)] ∧
    evalfunc sampledb nameparser 5 noslot (meters 3)
        { name := "f".toList
          forward := { param := some "x".toList, defn := some "x".toList, dimen := none }
          inverse := { param := none, defn := none, dimen := none }
          table := none
          tableunit := none } true
      = some { err := E_NOINVERSE, theunit := meters 3, slot := noslot, bodyslot := none } :=
  ⟨by decide, (C17_no_inverse sampledb nameparser 5 noslot (meters 3)).1 _ rfl rfl⟩


/-! ## The dimension of a function argument -/

theorem dimensioncheck_none (db : Database) (parseunit : Parser) (fuel : Nat)
    (theunit : unittype) : dimensioncheck db parseunit fuel none theunit = some 0 := rfl

theorem dimensioncheck_some (db : Database) (parseunit : Parser) (fuel : Nat)
    (dimen : CStr) (theunit d : unittype) (irr : Option CStr)
    (hparse : (parseunit dimen).1 = 0)
    (hred : completereduce db parseunit fuel (parseunit dimen).2 = some (0, d, irr)) :
    dimensioncheck db parseunit fuel (some dimen) theunit
      = some (if compareunits d theunit ignore_nothing ≠ 0 then E_BADFUNCARG else 0) := by
  unfold dimensioncheck
  simp only [hparse, ne_eq, not_true_eq_false, if_false, hred]
  split <;> rfl

/-- The outcome of `evalfunc` for a function once its argument is reduced and
has passed the dimension check: the body is parsed with the parameter bound. -/
theorem evalfunc_body (db : Database) (parseunit : SlotParser) (fuel : Nat)
    (slot : globals) (theunit : unittype) (infunc : func) (inverse : Bool)
    (u : unittype) (irr : Option CStr)
    (htable : infunc.table = none)
    (hbody : inverse = true → infunc.inverse.defn ≠ none)
    (hred : completereduce db (parseunit slot) fuel theunit = some (0, u, irr))
    (hdim : dimensioncheck db (parseunit slot) fuel
      (if inverse then infunc.inverse else infunc.forward).dimen u = some 0) :
    evalfunc db parseunit fuel slot theunit infunc inverse
      = some
        { err :=
            if (parseunit
                 { function_parameter := (if inverse then infunc.inverse else infunc.forward).param
                   parameter_value := some u }
                 ((if inverse then infunc.inverse else infunc.forward).defn.getD [])).1
                = E_PARSEMEM then E_PARSEMEM
            else if (parseunit
                 { function_parameter := (if inverse then infunc.inverse else infunc.forward).param
                   parameter_value := some u }
                 ((if inverse then infunc.inverse else infunc.forward).defn.getD [])).1 ≠ 0
              then E_FUNARGDEF
            else 0
          theunit :=
            if (parseunit
                 { function_parameter := (if inverse then infunc.inverse else infunc.forward).param
                   parameter_value := some u }
                 ((if inverse then infunc.inverse else infunc.forward).defn.getD [])).1 = 0
            then (multunit initializeunit (parseunit
                 { function_parameter := (if inverse then infunc.inverse else infunc.forward).param
                   parameter_value := some u }
                 ((if inverse then infunc.inverse else infunc.forward).defn.getD [])).2).2.1
            else u
          slot := slot
          bodyslot := some
            { function_parameter := (if inverse then infunc.inverse else infunc.forward).param
              parameter_value := some u } } := by
  unfold evalfunc
  rw [htable]
  simp only
  have hno : ¬ (inverse = true ∧
      (if inverse then infunc.inverse else infunc.forward).defn.isNone = true) := by
    rintro ⟨hi, hn⟩
    rw [hi] at hn
    simp only [if_true, Option.isNone_iff_eq_none] at hn
    exact hbody hi hn
  rw [if_neg hno, hred]
  simp only [ne_eq, not_true_eq_false, if_false, hdim]
  generalize parseunit
      { function_parameter := (if inverse then infunc.inverse else infunc.forward).param
        parameter_value := some u }
      ((if inverse then infunc.inverse else infunc.forward).defn.getD []) = parsed
  by_cases h1 : parsed.1 = E_PARSEMEM
  · have h0 : ¬ parsed.1 = 0 := by rw [h1]; decide
    simp only [if_pos h1, if_neg h0]
  · by_cases h0 : parsed.1 = 0
    · simp only [if_neg h1, if_pos h0, if_neg (not_not.2 h0)]
    · simp only [if_neg h1, if_pos h0, if_neg h0]

theorem primitiveonly_second : primitiveonly sampledb ["second".toList] := by
  intro a ha
  right
  refine ⟨"!".toList, ?_, by decide⟩
  rw [List.mem_singleton.1 ha]
  decide

/-- C18. Function argument dimension check, for any parser, database and
value whose complete reduction succeeds, and either branch of a function (for
the inverse, one that has a body).  When the branch has a dimension text that
parses and reduces, `evalfunc` returns `E_BADFUNCARG` if the reduced value is
not conformable with the reduced dimension under `ignore_nothing`, the value
is left as reduced and the body is not parsed; if it is conformable the body
is parsed with the parameter bound to the reduced value.  When the branch has
no dimension text the body is parsed with the parameter bound for every such
value, and the return value is that of the body's parse (0, `E_PARSEMEM` or
`E_FUNARGDEF`), never `E_BADFUNCARG`. -/
theorem C18_dimension_check (db : Database) (parseunit : SlotParser) (fuel : Nat)
    (slot : globals) (theunit : unittype) (infunc : func) (inverse : Bool)
    (u : unittype) (irr : Option CStr)
    (htable : infunc.table = none)
    (hbody : inverse = true → infunc.inverse.defn ≠ none)
    (hred : completereduce db (parseunit slot) fuel theunit = some (0, u, irr)) :
    (∀ (dimen : CStr) (d : unittype) (irr2 : Option CStr),
      (if inverse then infunc.inverse else infunc.forward).dimen = some dimen →
      (parseunit slot dimen).1 = 0 →
      completereduce db (parseunit slot) fuel (parseunit slot dimen).2 = some (0, d, irr2) →
      (compareunits d u ignore_nothing ≠ 0 →
        evalfunc db parseunit fuel slot theunit infunc inverse
          = some { err := E_BADFUNCARG, theunit := u, slot := slot, bodyslot := none }) ∧
      (compareunits d u ignore_nothing = 0 →
        ∃ ev, evalfunc db parseunit fuel slot theunit infunc inverse = some ev ∧
          ev.err ≠ E_BADFUNCARG ∧
          ev.bodyslot = some
            { function_parameter := (if inverse then infunc.inverse else infunc.forward).param
              parameter_value := some u })) ∧
    ((if inverse then infunc.inverse else infunc.forward).dimen = none →
      ∃ ev, evalfunc db parseunit fuel slot theunit infunc inverse = some ev ∧
        ev.err ≠ E_BADFUNCARG ∧
        ev.bodyslot = some
          { function_parameter := (if inverse then infunc.inverse else infunc.forward).param
            parameter_value := some u } ∧
        (ev.err = 0 ↔
          (parseunit
            { function_parameter := (if inverse then infunc.inverse else infunc.forward).param
              parameter_value := some u }
            ((if inverse then infunc.inverse else infunc.forward).defn.getD [])).1 = 0)) := by
  have hcode : ∀ c : Int,
      (if c = E_PARSEMEM then E_PARSEMEM else if c ≠ 0 then E_FUNARGDEF else 0)
        ≠ E_BADFUNCARG := by
    intro c
    split
    · decide
    · split <;> decide
  refine ⟨?_, ?_⟩
  · intro dimen d irr2 hdimen hparse hdred
    have hcheck := dimensioncheck_some db (parseunit slot) fuel dimen u d irr2 hparse hdred
    refine ⟨?_, ?_⟩
    · intro hne
      rw [if_pos hne] at hcheck
      unfold evalfunc
      rw [htable]
      simp only
      have hno : ¬ (inverse = true ∧
          (if inverse then infunc.inverse else infunc.forward).defn.isNone = true) := by
        rintro ⟨hi, hn⟩
        rw [hi] at hn
        simp only [if_true, Option.isNone_iff_eq_none] at hn
        exact hbody hi hn
      rw [if_neg hno, hred]
      simp only [ne_eq, not_true_eq_false, if_false, hdimen, hcheck]
      rw [if_pos (by decide)]
    · intro heq
      rw [if_neg (not_not.2 heq)] at hcheck
      rw [← hdimen] at hcheck
      exact ⟨_, evalfunc_body db parseunit fuel slot theunit infunc inverse u irr htable
        hbody hred hcheck, hcode _, rfl⟩
  · intro hdimen
    have hcheck : dimensioncheck db (parseunit slot) fuel
        (if inverse then infunc.inverse else infunc.forward).dimen u = some 0 := by
      rw [hdimen]; rfl
    refine ⟨_, evalfunc_body db parseunit fuel slot theunit infunc inverse u irr htable
      hbody hred hcheck, hcode _, rfl, ?_⟩
    simp only
    constructor
    · intro h
      by_contra h0
      by_cases h1 : (parseunit
          { function_parameter := (if inverse then infunc.inverse else infunc.forward).param
            parameter_value := some u }
          ((if inverse then infunc.inverse else infunc.forward).defn.getD [])).1 = E_PARSEMEM
      · rw [if_pos h1] at h; exact absurd h (by decide)
      · rw [if_neg h1, if_pos h0] at h; exact absurd h (by decide)
    · intro h0
      rw [h0]
      decide

/-- C18 at a concrete input: `f(x) [meter] x` applied to `3 second` returns
`E_BADFUNCARG` and the body is not parsed. -/
theorem C18_dimension_check_witness :
    evalfunc sampledb nameparser 5 noslot (seconds 3) samplefunc false
      = some { err := E_BADFUNCARG, theunit := cancelunit (sortunit (seconds 3)),
               slot := noslot, bodyslot := none } :=
  ((C18_dimension_check sampledb nameparser 5 noslot (seconds 3) samplefunc false
      (cancelunit (sortunit (seconds 3))) none rfl (by decide)
      (completereduce_primitive sampledb (nameparser noslot) 5 (seconds 3)
        primitiveonly_second (primitiveonly_nil sampledb) (by decide))).1
    "meter".toList (cancelunit (sortunit (meters 1))) none rfl (by decide)
    (completereduce_primitive sampledb (nameparser noslot) 5 (meters 1)
      primitiveonly_meter (primitiveonly_nil sampledb) (by decide))).1 (by decide)


/-! ## Tables -/

theorem linearinterp_eq (a b aval bval c : ℚ) (h : a ≠ b) :
    linearinterp a b aval bval c = aval + (c - a) * (bval - aval) / (b - a) := by
  unfold linearinterp
  have hne : b - a ≠ 0 := sub_ne_zero.2 (Ne.symm h)
  simp only
  field_simp
  ring

/-- The forward evaluation of a table whose co-unit parses, on an input that
`unit2num` turns into the number `u.factor`. -/
theorem evalfunc_forward (db : Database) (parseunit : SlotParser) (fuel : Nat)
    (slot : globals) (theunit : unittype) (infunc : func) (table : List pair)
    (u : unittype) (irr : Option CStr)
    (htable : infunc.table = some table)
    (hco : (parseunit slot (infunc.tableunit.getD [])).1 = 0)
    (hnum : unit2num db (parseunit slot) fuel theunit = some (0, u, irr)) :
    evalfunc db parseunit fuel slot theunit infunc false
      = match forwardsearch u.factor table with
        | none => some { err := E_NOTINDOMAIN, theunit := u, slot := slot, bodyslot := none }
        | some value =>
          some { err := 0
                 theunit := (multunit initializeunit
                   { (parseunit slot (infunc.tableunit.getD [])).2 with
                     factor := (parseunit slot (infunc.tableunit.getD [])).2.factor * value }).2.1
                 slot := slot, bodyslot := none } := by
  unfold evalfunc
  rw [htable]
  simp only [hco, ne_eq, not_true_eq_false, if_false, Bool.false_eq_true, hnum]

theorem takeWhile_stop (p : CStr → Bool) : ∀ (l : List CStr),
    (l.takeWhile p).length < l.length →
    ∃ x, l.get? (l.takeWhile p).length = some x ∧ p x = false
  | [], h => by simp at h
  | a :: l, h => by
    by_cases ha : p a = true
    · rw [List.takeWhile_cons_of_pos ha] at h ⊢
      simp only [List.length_cons, Nat.add_lt_add_iff_right] at h
      obtain ⟨x, hx, hpx⟩ := takeWhile_stop p l h
      exact ⟨x, by simpa using hx, hpx⟩
    · rw [List.takeWhile_cons_of_neg ha]
      exact ⟨a, rfl, by simpa using ha⟩

theorem freeslot_ge (product : List CStr) (dest : Nat) : dest ≤ freeslot product dest := by
  unfold freeslot
  omega

theorem freeslot_get (product : List CStr) (dest : Nat)
    (h : freeslot product dest < product.length) :
    product.get? (freeslot product dest) = some NULLUNIT := by
  unfold freeslot at h ⊢
  have hlen : ((product.drop dest).takeWhile (fun a => decide (a ≠ NULLUNIT))).length
      < (product.drop dest).length := by
    rw [List.length_drop]
    omega
  obtain ⟨x, hx, hpx⟩ := takeWhile_stop _ _ hlen
  have hx2 : x = NULLUNIT := by simpa using hpx
  rw [hx2] at hx
  rw [← hx]
  simp [List.getElem?_drop]

theorem freeslot_before (product : List CStr) (dest i : Nat)
    (h1 : dest ≤ i) (h2 : i < freeslot product dest) (x : CStr)
    (hx : product.get? i = some x) : x ≠ NULLUNIT := by
  unfold freeslot at h2
  have hmem : x ∈ (product.drop dest).takeWhile (fun a => decide (a ≠ NULLUNIT)) := by
    have hlt : i - dest < ((product.drop dest).takeWhile
        (fun a => decide (a ≠ NULLUNIT))).length := by omega
    have hpre := List.takeWhile_prefix (fun a => decide (a ≠ NULLUNIT)) (l := product.drop dest)
    have hget : ((product.drop dest).takeWhile (fun a => decide (a ≠ NULLUNIT))).get? (i - dest)
        = (product.drop dest).get? (i - dest) := by
      obtain ⟨t, ht⟩ := hpre
      conv_rhs => rw [← ht]
      simp only [List.get?_eq_getElem?]
      rw [List.getElem?_append_left hlt]
    have hd : (product.drop dest).get? (i - dest) = some x := by
      simp only [List.get?_eq_getElem?, List.getElem?_drop]
      rw [← List.get?_eq_getElem?, show dest + (i - dest) = i by omega]
      exact hx
    rw [hd] at hget
    exact List.get?_mem hget
  have := List.mem_takeWhile_imp hmem
  simpa using this

theorem atoms_set_perm (s : CStr) (hs : s ≠ NULLUNIT) : ∀ (l : List CStr) (i : Nat),
    l.get? i = some NULLUNIT → (atoms (l.set i s)).Perm (s :: atoms l)
  | [], i, h => by simp at h
  | a :: l, 0, h => by
    have ha : a = NULLUNIT := by simpa using h
    rw [ha, List.set_cons_zero, atoms_cons_atom l hs, atoms_cons_null]
  | a :: l, i + 1, h => by
    have ih := atoms_set_perm s hs l i (by simpa using h)
    rw [List.set_cons_succ]
    by_cases ha : a = NULLUNIT
    · rw [ha, atoms_cons_null, atoms_cons_null]
      exact ih
    · rw [atoms_cons_atom _ ha, atoms_cons_atom _ ha]
      exact (List.Perm.cons a ih).trans (List.Perm.swap s a _)

theorem atoms_append (l1 l2 : List CStr) : atoms (l1 ++ l2) = atoms l1 ++ atoms l2 := by
  simp [atoms]

theorem moveproductLoop_moved : ∀ (src product : List CStr) (dest : Nat),
    (moveproductLoop product dest src).1 = 0 →
    (atoms (moveproductLoop product dest src).2.1).Perm (atoms product ++ atoms src) ∧
    (moveproductLoop product dest src).2.2 = List.replicate src.length NULLUNIT := by
  intro src
  induction src with
  | nil =>
    intro product dest _
    simp [moveproductLoop, atoms]
  | cons s src ih =>
    intro product dest h
    by_cases hs : s = NULLUNIT
    · rw [moveproductLoop, if_pos hs] at h ⊢
      simp only at h ⊢
      obtain ⟨h1, h2⟩ := ih product dest h
      rw [hs, atoms_cons_null, h2]
      exact ⟨h1, rfl⟩
    · rw [moveproductLoop, if_neg hs] at h ⊢
      simp only at h ⊢
      by_cases hov : freeslot product dest ≥ MAXSUBUNITS - 1
      · rw [if_pos hov] at h
        simp [E_PRODOVERFLOW] at h
      · rw [if_neg hov] at h ⊢
        simp only at h ⊢
        obtain ⟨h1, h2⟩ := ih _ _ h
        rw [h2, atoms_cons_atom src hs]
        refine ⟨h1.trans ?_, rfl⟩
        by_cases hlt : freeslot product dest < product.length
        · rw [if_pos hlt]
          have hp := atoms_set_perm s hs product _ (freeslot_get product dest hlt)
          exact (List.Perm.append_right _ hp).trans
            (@List.perm_middle _ s (atoms product) (atoms src)).symm
        · rw [if_neg hlt, atoms_append, atoms_cons_atom [] hs]
          simp [atoms]

theorem freeslot_le (product : List CStr) (dest : Nat) (h : dest ≤ product.length) :
    freeslot product dest ≤ product.length := by
  unfold freeslot
  have := (List.takeWhile_prefix (fun a => decide (a ≠ NULLUNIT))
    (l := product.drop dest)).length_le
  rw [List.length_drop] at this
  omega

theorem atoms_length_full : ∀ (l : List CStr),
    (∀ (i : Nat) (x : CStr), l.get? i = some x → x ≠ NULLUNIT) → (atoms l).length = l.length
  | [], _ => rfl
  | a :: l, h => by
    have ha : a ≠ NULLUNIT := h 0 a rfl
    rw [atoms_cons_atom l ha, List.length_cons, List.length_cons,
      atoms_length_full l (fun i x hx => h (i + 1) x (by simpa using hx))]

theorem atoms_length_le (l : List CStr) : (atoms l).length ≤ l.length :=
  List.length_filter_le _ l

theorem moveproductLoop_length : ∀ (src product : List CStr) (dest : Nat),
    (∀ (i : Nat) (x : CStr), i < dest → product.get? i = some x → x ≠ NULLUNIT) →
    dest ≤ product.length →
    (moveproductLoop product dest src).1 = 0 →
    (moveproductLoop product dest src).2.1.length
      = max product.length ((atoms product).length + (atoms src).length) := by
  intro src
  induction src with
  | nil =>
    intro product dest _ _ _
    have hle := atoms_length_le product
    have e : atoms ([] : List CStr) = [] := rfl
    rw [moveproductLoop, e, List.length_nil, Nat.add_zero]
    exact (Nat.max_eq_left hle).symm
  | cons s src ih =>
    intro product dest hbefore hdest h
    by_cases hs : s = NULLUNIT
    · rw [moveproductLoop, if_pos hs] at h ⊢
      simp only at h ⊢
      rw [hs, atoms_cons_null]
      exact ih product dest hbefore hdest h
    · rw [moveproductLoop, if_neg hs] at h ⊢
      simp only at h ⊢
      by_cases hov : freeslot product dest ≥ MAXSUBUNITS - 1
      · rw [if_pos hov] at h
        simp [E_PRODOVERFLOW] at h
      · rw [if_neg hov] at h ⊢
        simp only at h ⊢
        have hge := freeslot_ge product dest
        have hle := freeslot_le product dest hdest
        have hall : ∀ (i : Nat) (x : CStr), i < freeslot product dest →
            product.get? i = some x → x ≠ NULLUNIT := by
          intro i x hi hx
          by_cases hid : i < dest
          · exact hbefore i x hid hx
          · exact freeslot_before product dest i (by omega) hi x hx
        rw [atoms_cons_atom src hs, List.length_cons]
        by_cases hlt : freeslot product dest < product.length
        · rw [if_pos hlt] at h ⊢
          have hp := (atoms_set_perm s hs product _ (freeslot_get product dest hlt)).length_eq
          rw [List.length_cons] at hp
          have := ih (product.set (freeslot product dest) s) (freeslot product dest)
            (by
              intro i x hi hx
              rw [List.get?_eq_getElem?, List.getElem?_set_ne (by omega),
                ← List.get?_eq_getElem?] at hx
              exact hall i x hi hx)
            (by rw [List.length_set]; exact hle) h
          rw [this, List.length_set, hp]
          congr 1
          omega
        · rw [if_neg hlt] at h ⊢
          have hfull : (atoms product).length = product.length :=
            atoms_length_full product (fun i x hx => by
              have hi : i < product.length := by
                by_contra hge2
                rw [List.get?_eq_none.2 (by omega)] at hx
                exact Option.noConfusion hx
              exact hall i x (by omega) hx)
          have := ih (product ++ [s]) (freeslot product dest)
            (by
              intro i x hi hx
              rw [List.get?_eq_getElem?, List.getElem?_append_left (by omega),
                ← List.get?_eq_getElem?] at hx
              exact hall i x hi hx)
            (by rw [List.length_append, List.length_singleton]; omega) h
          have e0 : atoms ([] : List CStr) = [] := rfl
          have e1 : (product ++ [s]).length = product.length + 1 := by simp
          have e2 : (atoms (product ++ [s])).length = product.length + 1 := by
            rw [atoms_append, atoms_cons_atom [] hs, e0, List.length_append, hfull]
            rfl
          rw [this, e1, e2, hfull]
          omega

theorem atoms_replicate_null (n : Nat) : atoms (List.replicate n NULLUNIT) = [] := by
  induction n with
  | zero => rfl
  | succ n ih => rw [List.replicate_succ, atoms_cons_null, ih]

/-- C30. Ownership transfer in `moveproduct`: when `moveproduct` returns 0, the
atoms of `product` are afterwards, as a multiset, its earlier atoms and the
atoms of `tomove`; the gaps of `product` are used before it grows (its length
is the larger of its earlier length and the number of atoms it holds
afterwards); every entry of `tomove` is `NULLUNIT` and its length is
unchanged.  Hence after a `multunit` or `divunit` that returns 0 the right
operand holds no atoms, its two lists keep their lengths and its factor is
untouched. -/
theorem C30_moveproduct :
    (∀ product tomove : List CStr, (moveproduct product tomove).1 = 0 →
      (atoms (moveproduct product tomove).2.1).Perm (atoms product ++ atoms tomove) ∧
      (moveproduct product tomove).2.1.length
        = max product.length ((atoms product).length + (atoms tomove).length) ∧
      (moveproduct product tomove).2.2 = List.replicate tomove.length NULLUNIT) ∧
    (∀ left right : unittype, (multunit left right).1 = 0 →
      (multunit left right).2.2
        = { factor := right.factor
            numerator := List.replicate right.numerator.length NULLUNIT
            denominator := List.replicate right.denominator.length NULLUNIT } ∧
      atoms (multunit left right).2.2.numerator = [] ∧
      atoms (multunit left right).2.2.denominator = [] ∧
      (atoms (multunit left right).2.1.numerator).Perm
        (atoms left.numerator ++ atoms right.numerator) ∧
      (atoms (multunit left right).2.1.denominator).Perm
        (atoms left.denominator ++ atoms right.denominator)) ∧
    (∀ left right : unittype, (divunit left right).1 = 0 →
      (divunit left right).2.2
        = { factor := right.factor
            numerator := List.replicate right.numerator.length NULLUNIT
            denominator := List.replicate right.denominator.length NULLUNIT } ∧
      atoms (divunit left right).2.2.numerator = [] ∧
      atoms (divunit left right).2.2.denominator = [] ∧
      (atoms (divunit left right).2.1.numerator).Perm
        (atoms left.numerator ++ atoms right.denominator) ∧
      (atoms (divunit left right).2.1.denominator).Perm
        (atoms left.denominator ++ atoms right.numerator)) := by
  refine ⟨?_, ?_, ?_⟩
  · intro product tomove h
    unfold moveproduct at h ⊢
    obtain ⟨h1, h2⟩ := moveproductLoop_moved tomove product 0 h
    exact ⟨h1, moveproductLoop_length tomove product 0
      (fun i x hi => absurd hi (Nat.not_lt_zero i)) (Nat.zero_le _) h, h2⟩
  · intro left right h
    unfold multunit at h ⊢
    simp only at h ⊢
    by_cases hm : (moveproduct left.numerator right.numerator).1 = 0
    · rw [if_neg (not_not.2 hm)] at h ⊢
      simp only at h ⊢
      unfold moveproduct at hm h ⊢
      obtain ⟨h1, h2⟩ := moveproductLoop_moved _ _ 0 hm
      obtain ⟨h3, h4⟩ := moveproductLoop_moved _ _ 0 h
      rw [h2, h4]
      exact ⟨rfl, atoms_replicate_null _, atoms_replicate_null _, h1, h3⟩
    · rw [if_pos hm] at h
      exact absurd h hm
  · intro left right h
    unfold divunit at h ⊢
    simp only at h ⊢
    by_cases hm : (moveproduct left.numerator right.denominator).1 = 0
    · rw [if_neg (not_not.2 hm)] at h ⊢
      simp only at h ⊢
      unfold moveproduct at hm h ⊢
      obtain ⟨h1, h2⟩ := moveproductLoop_moved _ _ 0 hm
      obtain ⟨h3, h4⟩ := moveproductLoop_moved _ _ 0 h
      rw [h2, h4]
      exact ⟨rfl, atoms_replicate_null _, atoms_replicate_null _, h1, h3⟩
    · rw [if_pos hm] at h
      exact absurd h hm

/-- C30 at a concrete input: `second` is moved into the gap of
`[meter, NULLUNIT]`, which keeps its length. -/
theorem C30_moveproduct_witness :
    (atoms (moveproduct ["meter".toList, NULLUNIT] [NULLUNIT, "second".toList]).2.1).Perm
        (atoms ["meter".toList, NULLUNIT] ++ atoms [NULLUNIT, "second".toList]) ∧
    (moveproduct ["meter".toList, NULLUNIT] [NULLUNIT, "second".toList]).2.1.length
      = max ["meter".toList, NULLUNIT].length
          ((atoms ["meter".toList, NULLUNIT]).length +
            (atoms [NULLUNIT, "second".toList]).length) ∧
    (moveproduct ["meter".toList, NULLUNIT] [NULLUNIT, "second".toList]).2.2
      = List.replicate [NULLUNIT, "second".toList].length NULLUNIT :=
  C30_moveproduct.1 ["meter".toList, NULLUNIT] [NULLUNIT, "second".toList] (by decide)


/-! ## Tables in the database -/

theorem indexOf?_append_cons (c : Char) (l r : List Char) (h : c ∉ l) :
    (l ++ c :: r).indexOf? c = some l.length := by
  unfold List.indexOf?
  rw [List.findIdx?_append]
  have hnone : List.findIdx? (fun x => x == c) l = none := by
    rw [List.findIdx?_eq_none_iff]
    intro x hx
    simp only [beq_eq_false_iff_ne, ne_eq]
    intro hxc
    exact h (hxc ▸ hx)
  rw [hnone]
  simp [List.findIdx?_cons]

theorem indexOf_append_cons (c : Char) (l r : List Char) (h : c ∉ l) :
    (l ++ c :: r).indexOf c = l.length := by
  rw [List.indexOf_append_of_not_mem h, List.indexOf_cons_self, Nat.add_zero]

theorem cutbrackets_function (foo p : CStr) (h1 : '(' ∉ foo) (h2 : ')' ∉ foo)
    (h3 : ')' ∉ p) :
    cutbrackets (foo ++ '(' :: (p ++ [')'])) '(' ')'
      = { lookupname := foo, endok := true, name := foo, inner := p } := by
  have hi : (foo ++ '(' :: (p ++ [')'])).indexOf '(' = foo.length :=
    indexOf_append_cons '(' foo _ h1
  have hre : foo ++ '(' :: (p ++ [')']) = (foo ++ '(' :: p) ++ ')' :: [] := by simp
  have hmem : ')' ∉ foo ++ '(' :: p := by
    simp only [List.mem_append, List.mem_cons, not_or]
    exact ⟨h2, by decide, h3⟩
  have hj : (foo ++ '(' :: (p ++ [')'])).indexOf? ')' = some (foo ++ '(' :: p).length := by
    rw [hre]
    exact indexOf?_append_cons ')' _ _ hmem
  unfold cutbrackets
  simp only [hi, hj]
  have hlt : ¬ ((foo ++ '(' :: p).length < foo.length) := by
    simp only [List.length_append, List.length_cons]
    omega
  rw [if_neg hlt]
  have e1 : (foo ++ '(' :: (p ++ [')'])).take foo.length = foo := List.take_left foo _
  have e2 : (foo ++ '(' :: (p ++ [')'])).take (foo ++ '(' :: p).length = foo ++ '(' :: p := by
    rw [hre]
    exact List.take_left _ _
  have e3 : (foo ++ '(' :: p).drop (foo.length + 1) = p := by
    have : foo ++ '(' :: p = (foo ++ ['(']) ++ p := by simp
    rw [this]
    exact List.drop_left' (by simp)
  have e4 : (foo ++ '(' :: (p ++ [')'])).length - (foo ++ '(' :: p).length ≤ 1 := by
    simp only [List.length_append, List.length_cons, List.length_nil]
    omega
  rw [e1, e2, e3]
  simp only [e4, decide_True]

theorem readdefinition_function (strtod : Strtod) (db : Database) (foo p unitdef : CStr)
    (hfoo1 : '(' ∉ foo) (hfoo2 : ')' ∉ foo) (hfoo3 : '[' ∉ foo)
    (hp1 : ')' ∉ p) (hp2 : '[' ∉ p)
    (hdigit : startsdigit foo = false) (hnew : fnlookup db foo foo.length = none) :
    readdefinition strtod db (foo ++ '(' :: (p ++ [')'])) unitdef
      = match unitdef with
        | '[' :: rest =>
          match rest.indexOf? ']' with
          | none => (db, true)
          | some e =>
            match rest.indexOf? ';' with
            | some i =>
              if e < i then (db, true)
              else
                addfuncentry db { lookupname := foo, endok := true, name := foo, inner := p }
                  (some (removepadding (rest.take i)))
                  (some (removepadding ((rest.take e).drop (i + 1)))) (rest.drop (e + 1))
            | none =>
              addfuncentry db { lookupname := foo, endok := true, name := foo, inner := p }
                (some (removepadding (rest.take e))) none (rest.drop (e + 1))
        | _ => addfuncentry db { lookupname := foo, endok := true, name := foo, inner := p }
            none none unitdef := by
  have hlast : (foo ++ '(' :: (p ++ [')'])).getLast? ≠ some '-' := by
    have : (foo ++ '(' :: (p ++ [')'])) = (foo ++ '(' :: p) ++ [')'] := by simp
    rw [this, List.getLast?_append]
    simp
  have hbr : strchr (foo ++ '(' :: (p ++ [')'])) '[' = false := by
    unfold strchr
    rw [Bool.eq_false_iff]
    intro hc
    have hm : '[' ∈ foo ++ '(' :: (p ++ [')']) := by simpa using hc
    rcases List.mem_append.1 hm with h | h
    · exact hfoo3 h
    · rcases List.mem_cons.1 h with h | h
      · exact absurd h (by decide)
      · rcases List.mem_append.1 h with h | h
        · exact hp2 h
        · exact absurd (List.mem_singleton.1 h) (by decide)
  have hpar : strchr (foo ++ '(' :: (p ++ [')'])) '(' = true := by
    unfold strchr
    simp
  unfold readdefinition
  rw [if_neg hlast]
  simp only [hbr, hpar, Bool.false_eq_true, if_false, if_true]
  unfold readfuncline
  simp only [cutbrackets_function foo p hfoo1 hfoo2 hp1, hdigit, hnew, Bool.false_eq_true,
    if_false, Bool.not_true, Option.isSome_none]

theorem drop_append_cons (c : Char) (l r : List Char) :
    (l ++ c :: r).drop (l.length + 1) = r := by
  have : l ++ c :: r = (l ++ [c]) ++ r := by simp
  rw [this]
  exact List.drop_left' (by simp)

theorem addfuncentry_inverse (db : Database) (b : bracketed) (fdimen idimen : Option CStr)
    (f i : CStr) (hf : ';' ∉ f) :
    addfuncentry db b fdimen idimen (f ++ ';' :: i)
      = ({ db with
            funcs := db.funcs ++
              [{ name := b.name
                 forward := { param := some b.inner, defn := some (removepadding f),
                              dimen := fdimen }
                 inverse := { param := some b.name, defn := some (removepadding i),
                              dimen := idimen }
                 table := none, tableunit := none }] }, false) := by
  unfold addfuncentry
  simp only [indexOf?_append_cons ';' f i hf, Option.map_some', List.take_left,
    drop_append_cons]

theorem addfuncentry_forward (db : Database) (b : bracketed) (fdimen idimen : Option CStr)
    (f : CStr) (hf : ';' ∉ f) :
    addfuncentry db b fdimen idimen f
      = ({ db with
            funcs := db.funcs ++
              [{ name := b.name
                 forward := { param := some b.inner, defn := some (removepadding f),
                              dimen := fdimen }
                 inverse := { param := none, defn := none, dimen := idimen }
                 table := none, tableunit := none }] }, false) := by
  unfold addfuncentry
  simp only [indexOf?_eq_none ';' f hf, Option.map_none']

/-- C22, the claim refuted: the line `f(x) [m] x ; f` has the first shape, with
one dimension and an inverse; `readunits` registers nothing for it and the
load returns `E_BADFILE`. -/
theorem C22_counterexample :
    (readunits digitstrtod emptydb [("f(x)".toList, "[m] x ; f".toList)]).1.funcs = [] ∧
    readunitsreturn (readunits digitstrtod emptydb [("f(x)".toList, "[m] x ; f".toList)])
      = E_BADFILE := by
  decide

/-- C22, amended. Function definition syntax, for a name `foo` that does not
start with a digit or `.`, is not yet a function name and holds no bracket, and
a parameter `p` that holds no `)` or `[`.  A line `foo(p) [DIM_IN;DIM_OUT] F ; I`
registers the function `foo` whose forward branch has parameter `p`, body `F`
and dimension `DIM_IN` and whose inverse branch has parameter `foo`, body `I`
and dimension `DIM_OUT` (bodies and dimensions with the white space around
them removed).  Without `; I` the lines `foo(p) [DIM_IN;DIM_OUT] F` and
`foo(p) [DIM] F` register `foo` with no inverse body.  A line
`foo(p) [DIM] F ; I`, whose first `;` stands after the `]`, registers nothing
and sets `goterr`. -/
theorem C22_function_definition (strtod : Strtod) (db : Database) (foo p : CStr)
    (hfoo1 : '(' ∉ foo) (hfoo2 : ')' ∉ foo) (hfoo3 : '[' ∉ foo)
    (hp1 : ')' ∉ p) (hp2 : '[' ∉ p)
    (hdigit : startsdigit foo = false) (hnew : fnlookup db foo foo.length = none) :
    (∀ din dout f i : CStr, ';' ∉ din → ']' ∉ din → ']' ∉ dout → ';' ∉ f →
      readdefinition strtod db (foo ++ '(' :: (p ++ [')']))
          ('[' :: (din ++ ';' :: (dout ++ ']' :: (f ++ ';' :: i))))
        = ({ db with
              funcs := db.funcs ++
                [{ name := foo
                   forward := { param := some p, defn := some (removepadding f),
                                dimen := some (removepadding din) }
                   inverse := { param := some foo, defn := some (removepadding i),
                                dimen := some (removepadding dout) }
                   table := none, tableunit := none }] }, false)) ∧
    (∀ din dout f : CStr, ';' ∉ din → ']' ∉ din → ']' ∉ dout → ';' ∉ f →
      readdefinition strtod db (foo ++ '(' :: (p ++ [')']))
          ('[' :: (din ++ ';' :: (dout ++ ']' :: f)))
        = ({ db with
              funcs := db.funcs ++
                [{ name := foo
                   forward := { param := some p, defn := some (removepadding f),
                                dimen := some (removepadding din) }
                   inverse := { param := none, defn := none,
                                dimen := some (removepadding dout) }
                   table := none, tableunit := none }] }, false)) ∧
    (∀ dim f : CStr, ';' ∉ dim → ']' ∉ dim → ';' ∉ f →
      readdefinition strtod db (foo ++ '(' :: (p ++ [')'])) ('[' :: (dim ++ ']' :: f))
        = ({ db with
              funcs := db.funcs ++
                [{ name := foo
                   forward := { param := some p, defn := some (removepadding f),
                                dimen := some (removepadding dim) }
                   inverse := { param := none, defn := none, dimen := none }
                   table := none, tableunit := none }] }, false)) ∧
    (∀ dim f i : CStr, ';' ∉ dim → ']' ∉ dim → ';' ∉ f →
      readdefinition strtod db (foo ++ '(' :: (p ++ [')']))
          ('[' :: (dim ++ ']' :: (f ++ ';' :: i)))
        = (db, true)) := by
  have hsemi : ∀ (din dout tail : CStr), ';' ∉ din → ']' ∉ din → ']' ∉ dout →
      (din ++ ';' :: (dout ++ ']' :: tail)).indexOf? ';' = some din.length ∧
      (din ++ ';' :: (dout ++ ']' :: tail)).indexOf? ']'
        = some (din ++ ';' :: dout).length ∧
      (din ++ ';' :: (dout ++ ']' :: tail)).take din.length = din ∧
      ((din ++ ';' :: (dout ++ ']' :: tail)).take (din ++ ';' :: dout).length).drop
        (din.length + 1) = dout ∧
      (din ++ ';' :: (dout ++ ']' :: tail)).drop ((din ++ ';' :: dout).length + 1) = tail := by
    intro din dout tail h1 h2 h3
    have hre : din ++ ';' :: (dout ++ ']' :: tail) = (din ++ ';' :: dout) ++ ']' :: tail := by
      simp
    have hmem : ']' ∉ din ++ ';' :: dout := by
      simp only [List.mem_append, List.mem_cons, not_or]
      exact ⟨h2, by decide, h3⟩
    refine ⟨indexOf?_append_cons ';' din _ h1, ?_, List.take_left din _, ?_, ?_⟩
    · rw [hre]
      exact indexOf?_append_cons ']' _ _ hmem
    · rw [hre, List.take_left]
      exact drop_append_cons ';' din dout
    · rw [hre]
      exact drop_append_cons ']' _ tail
  have hlt : ∀ din dout : CStr, ¬ ((din ++ ';' :: dout).length < din.length) := by
    intro din dout
    simp only [List.length_append, List.length_cons]
    omega
  refine ⟨?_, ?_, ?_, ?_⟩
  · intro din dout f i h1 h2 h3 h4
    obtain ⟨e1, e2, e3, e4, e5⟩ := hsemi din dout (f ++ ';' :: i) h1 h2 h3
    rw [readdefinition_function strtod db foo p _ hfoo1 hfoo2 hfoo3 hp1 hp2 hdigit hnew]
    simp only [e1, e2, if_neg (hlt din dout), e3, e4, e5]
    exact addfuncentry_inverse db _ _ _ f i h4
  · intro din dout f h1 h2 h3 h4
    obtain ⟨e1, e2, e3, e4, e5⟩ := hsemi din dout f h1 h2 h3
    rw [readdefinition_function strtod db foo p _ hfoo1 hfoo2 hfoo3 hp1 hp2 hdigit hnew]
    simp only [e1, e2, if_neg (hlt din dout), e3, e4, e5]
    exact addfuncentry_forward db _ _ _ f h4
  · intro dim f h1 h2 h3
    have hnone : (dim ++ ']' :: f).indexOf? ';' = none := by
      apply indexOf?_eq_none
      simp only [List.mem_append, List.mem_cons, not_or]
      exact ⟨h1, by decide, h3⟩
    rw [readdefinition_function strtod db foo p _ hfoo1 hfoo2 hfoo3 hp1 hp2 hdigit hnew]
    simp only [indexOf?_append_cons ']' dim f h2, hnone, List.take_left, drop_append_cons]
    exact addfuncentry_forward db _ _ _ f h3
  · intro dim f i h1 h2 h3
    have hre : dim ++ ']' :: (f ++ ';' :: i) = (dim ++ ']' :: f) ++ ';' :: i := by simp
    have hmem : ';' ∉ dim ++ ']' :: f := by
      simp only [List.mem_append, List.mem_cons, not_or]
      exact ⟨h1, by decide, h3⟩
    have hs : (dim ++ ']' :: (f ++ ';' :: i)).indexOf? ';' = some (dim ++ ']' :: f).length := by
      rw [hre]
      exact indexOf?_append_cons ';' _ _ hmem
    have hl : dim.length < (dim ++ ']' :: f).length := by
      simp only [List.length_append, List.length_cons]
      omega
    rw [readdefinition_function strtod db foo p _ hfoo1 hfoo2 hfoo3 hp1 hp2 hdigit hnew]
    simp only [indexOf?_append_cons ']' dim _ h2, hs, if_pos hl]

/-- C22 (amended) at a concrete input: the line `f(x) [m;s] x ; f`. -/
theorem C22_function_definition_witness :
    readdefinition digitstrtod emptydb ("f".toList ++ '(' :: ("x".toList ++ [')']))
        ('[' :: ("m".toList ++ ';' :: ("s".toList ++ ']' :: (" x ".toList ++ ';' :: " f".toList))))
      = ({ emptydb with
            funcs := emptydb.funcs ++
              [{ name := "f".toList
                 forward := { param := some "x".toList, defn := some (removepadding " x ".toList),
                              dimen := some (removepadding "m".toList) }
                 inverse := { param := some "f".toList,
                              defn := some (removepadding " f".toList),
                              dimen := some (removepadding "s".toList) }
                 table := none, tableunit := none }] }, false) :=
  (C22_function_definition digitstrtod emptydb "f".toList "x".toList (by decide) (by decide)
    (by decide) (by decide) (by decide) (by decide) (by decide)).1
    "m".toList "s".toList " x ".toList " f".toList (by decide) (by decide) (by decide)
    (by decide)


/-! ## The irreducible name -/

theorem or_and_self_right (n m : Nat) : (n ||| m) &&& m = m := by
  apply Nat.eq_of_testBit_eq
  intro i
  simp only [Nat.testBit_and, Nat.testBit_or]
  cases n.testBit i <;> cases m.testBit i <;> rfl

theorem reduceproductLoop_irreducible (db : Database) (parseunit : Parser) (flip : Bool) :
    ∀ (fuel : Nat) (u : unittype) (irr : Option CStr) (idx did : Nat) (r : reduction),
      reduceproductLoop db parseunit flip fuel u irr idx did = some r →
      r.irreducible = irr ∨
      (irr = none ∧ r.ret = ERROR ∧
        ∃ a : CStr, r.irreducible = some a ∧ a.length ≠ 0 ∧ lookupunit db a true = none)
  | 0, _, _, _, _, _, h => by simp [reduceproductLoop] at h
  | fuel + 1, u, irr, idx, did, r, h => by
    unfold reduceproductLoop at h
    dsimp only at h
    cases hget : (if flip = true then u.denominator else u.numerator).get? idx with
    | none =>
      rw [hget] at h
      simp only [Option.some.injEq] at h
      rw [← h]
      exact Or.inl rfl
    | some p =>
      rw [hget] at h
      simp only at h
      by_cases hp : p.length = 0
      · rw [if_pos hp] at h
        exact reduceproductLoop_irreducible db parseunit flip fuel u irr (idx + 1) did r h
      · rw [if_neg hp] at h
        cases hl : lookupunit db p true with
        | none =>
          rw [hl] at h
          simp only [Option.some.injEq] at h
          rw [← h]
          cases irr with
          | none => exact Or.inr ⟨rfl, rfl, p, rfl, hp, hl⟩
          | some x => exact Or.inl rfl
        | some toadd =>
          rw [hl] at h
          simp only at h
          by_cases hprim : strchr toadd PRIMITIVECHAR = true
          · rw [if_pos hprim] at h
            exact reduceproductLoop_irreducible db parseunit flip fuel u irr (idx + 1) did r h
          · rw [if_neg hprim] at h
            by_cases hparse : (parseunit toadd).1 ≠ 0
            · rw [if_pos hparse] at h
              simp only [Option.some.injEq] at h
              rw [← h]
              exact Or.inl rfl
            · rw [if_neg hparse] at h
              split at h <;> split at h
              all_goals first
                | exact reduceproductLoop_irreducible db parseunit flip fuel _ irr idx
                    DIDREDUCTION r h
                | (simp only [Option.some.injEq] at h
                   rw [← h]
                   exact Or.inl rfl)

theorem reduceunitLoop_irreducible (db : Database) (parseunit : Parser) :
    ∀ (fuel : Nat) (u : unittype) (r : Int × unittype × Option CStr),
      reduceunitLoop db parseunit fuel u none = some r →
      (r.1 = 0 ∨ r.1 = E_UNKNOWNUNIT ∨ r.1 = E_REDUCE) ∧
      (r.1 = E_UNKNOWNUNIT ↔ r.2.2.isSome = true) ∧
      (∀ a : CStr, r.2.2 = some a → a.length ≠ 0 ∧ lookupunit db a true = none)
  | 0, _, _, h => by simp [reduceunitLoop] at h
  | fuel + 1, u, r, h => by
    unfold reduceunitLoop at h
    cases h1 : reduceproduct db parseunit fuel u none false with
    | none => rw [h1] at h; simp at h
    | some r1 =>
      rw [h1] at h
      simp only at h
      have i1 := reduceproductLoop_irreducible db parseunit false fuel u none 0 NOREDUCTION r1 h1
      by_cases herr : r1.ret &&& ERROR = 0
      · rw [if_pos herr] at h
        have hnone1 : r1.irreducible = none := by
          rcases i1 with e | ⟨_, e, _⟩
          · exact e
          · rw [e] at herr
            exact absurd herr (by decide)
        cases h2 : reduceproduct db parseunit fuel r1.theunit r1.irreducible true with
        | none => rw [h2] at h; simp at h
        | some r2 =>
          rw [h2] at h
          simp only at h
          rw [hnone1] at h2
          have i2 := reduceproductLoop_irreducible db parseunit true fuel r1.theunit none 0
            NOREDUCTION r2 h2
          by_cases herr2 : (r1.ret ||| r2.ret) &&& ERROR ≠ 0
          · rw [if_pos herr2] at h
            cases hirr : r2.irreducible with
            | none =>
              rw [hirr] at h
              simp only [Option.isSome_none, Bool.false_eq_true, if_false,
                Option.some.injEq] at h
              rw [← h]
              refine ⟨Or.inr (Or.inr rfl), ?_, ?_⟩
              · simp only [Option.isSome_none, Bool.false_eq_true, iff_false]
                decide
              · intro a ha
                exact Option.noConfusion ha
            | some a =>
              rw [hirr] at h
              simp only [Option.isSome_some, if_true, Option.some.injEq] at h
              rw [← h]
              refine ⟨Or.inr (Or.inl rfl), by simp, ?_⟩
              intro b hb
              rcases i2 with e | ⟨_, _, c, hc, hc1, hc2⟩
              · rw [hirr] at e
                exact Option.noConfusion e
              · rw [hirr] at hc
                have hb2 : a = b := Option.some.inj hb
                have hc3 : a = c := Option.some.inj hc
                rw [← hb2, hc3]
                exact ⟨hc1, hc2⟩
          · rw [if_neg herr2] at h
            have hnone2 : r2.irreducible = none := by
              rcases i2 with e | ⟨_, e, _⟩
              · exact e
              · exfalso
                apply herr2
                rw [e]
                rw [or_and_self_right]
                decide
            split at h
            · rw [hnone2] at h
              exact reduceunitLoop_irreducible db parseunit fuel _ r h
            · simp only [Option.some.injEq] at h
              rw [← h]
              refine ⟨Or.inl rfl, ?_, ?_⟩
              · simp only [hnone2, Option.isSome_none, Bool.false_eq_true, iff_false]
                decide
              · intro a ha
                simp only [hnone2] at ha
                exact Option.noConfusion ha
      · rw [if_neg herr] at h
        have herr2 : r1.ret &&& ERROR ≠ 0 := herr
        simp only [if_pos herr2] at h
        cases hirr : r1.irreducible with
        | none =>
          rw [hirr] at h
          simp only [Option.isSome_none, Bool.false_eq_true, if_false, Option.some.injEq] at h
          rw [← h]
          refine ⟨Or.inr (Or.inr rfl), ?_, ?_⟩
          · simp only [Option.isSome_none, Bool.false_eq_true, iff_false]
            decide
          · intro a ha
            exact Option.noConfusion ha
        | some a =>
          rw [hirr] at h
          simp only [Option.isSome_some, if_true, Option.some.injEq] at h
          rw [← h]
          refine ⟨Or.inr (Or.inl rfl), by simp, ?_⟩
          intro b hb
          rcases i1 with e | ⟨_, _, c, hc, hc1, hc2⟩
          · rw [hirr] at e
            exact Option.noConfusion e
          · rw [hirr] at hc
            have hb2 : a = b := Option.some.inj hb
            have hc3 : a = c := Option.some.inj hc
            rw [← hb2, hc3]
            exact ⟨hc1, hc2⟩

theorem reduceproductLoop_unknown (db : Database) (parseunit : Parser) (flip : Bool) :
    ∀ (fuel : Nat) (u : unittype) (irr : Option CStr) (idx did : Nat)
      (pre : List CStr) (a : CStr) (post : List CStr),
      (if flip then u.denominator else u.numerator) = pre ++ a :: post →
      primitiveonly db pre → a.length ≠ 0 → lookupunit db a true = none →
      idx ≤ pre.length → pre.length < fuel + idx →
      reduceproductLoop db parseunit flip fuel u irr idx did
        = some { ret := ERROR, theunit := u,
                 irreducible := if irr.isNone then some a else irr }
  | 0, u, irr, idx, did, pre, a, post, _, _, _, _, hidx, hlen => by
    exfalso
    omega
  | fuel + 1, u, irr, idx, did, pre, a, post, hprod, hprim, ha, hl, hidx, hlen => by
    unfold reduceproductLoop
    dsimp only
    rw [hprod]
    by_cases hlt : idx < pre.length
    · have hget : (pre ++ a :: post).get? idx = pre.get? idx := by
        simp only [List.get?_eq_getElem?]
        exact List.getElem?_append_left hlt
      have hsome : pre.get? idx = some (pre.get ⟨idx, hlt⟩) := List.get?_eq_get hlt
      rw [hget, hsome]
      simp only
      have hmem : pre.get ⟨idx, hlt⟩ ∈ pre := List.get_mem pre idx hlt
      have ih := reduceproductLoop_unknown db parseunit flip fuel u irr (idx + 1) did pre a post
        hprod hprim ha hl (by omega) (by omega)
      by_cases hp : (pre.get ⟨idx, hlt⟩).length = 0
      · rw [if_pos hp]
        exact ih
      · rw [if_neg hp]
        rcases hprim _ hmem with e | ⟨body, hb1, hb2⟩
        · exact absurd (by rw [e]; rfl) hp
        · simp only [hb1, hb2, if_true]
          exact ih
    · have hidx2 : idx = pre.length := by omega
      have hget : (pre ++ a :: post).get? idx = some a := by
        rw [hidx2, List.get?_eq_getElem?, List.getElem?_append_right (Nat.le_refl _)]
        simp
      rw [hget]
      simp only [if_neg ha, hl]

theorem reduceunit_unknown_numerator (db : Database) (parseunit : Parser) (fuel : Nat)
    (u : unittype) (pre : List CStr) (a : CStr) (post : List CStr)
    (hnum : u.numerator = pre ++ a :: post) (hprim : primitiveonly db pre)
    (ha : a ≠ NULLUNIT) (hl : lookupunit db a true = none) (hfuel : pre.length + 2 ≤ fuel) :
    reduceunit db parseunit fuel u = some (E_UNKNOWNUNIT, u, some a) := by
  obtain ⟨f, rfl⟩ : ∃ f, fuel = f + 1 := ⟨fuel - 1, by omega⟩
  have ha2 : a.length ≠ 0 := fun h => ha (List.length_eq_zero.1 h)
  unfold reduceunit reduceunitLoop reduceproduct
  rw [reduceproductLoop_unknown db parseunit false f u none 0 NOREDUCTION pre a post
    (by simpa using hnum) hprim ha2 hl (Nat.zero_le _) (by omega)]
  simp only [Option.isNone_none, if_true]
  have e1 : ¬ (ERROR &&& ERROR = 0) := by decide
  have e2 : ERROR &&& ERROR ≠ 0 := by decide
  rw [if_neg e1]
  simp only [if_pos e2, Option.isSome_some, if_true]

theorem reduceunit_unknown_denominator (db : Database) (parseunit : Parser) (fuel : Nat)
    (u : unittype) (pre : List CStr) (a : CStr) (post : List CStr)
    (hnum : primitiveonly db u.numerator)
    (hden : u.denominator = pre ++ a :: post) (hprim : primitiveonly db pre)
    (ha : a ≠ NULLUNIT) (hl : lookupunit db a true = none)
    (hfuel : u.numerator.length + pre.length + 2 ≤ fuel) :
    reduceunit db parseunit fuel u = some (E_UNKNOWNUNIT, u, some a) := by
  obtain ⟨f, rfl⟩ : ∃ f, fuel = f + 1 := ⟨fuel - 1, by omega⟩
  have ha2 : a.length ≠ 0 := fun h => ha (List.length_eq_zero.1 h)
  unfold reduceunit reduceunitLoop reduceproduct
  rw [reduceproductLoop_primitive db parseunit false f u none 0 NOREDUCTION hnum
    (Nat.zero_le _) (by simp only [Bool.false_eq_true, if_false]; omega)]
  simp only
  have e0 : NOREDUCTION &&& ERROR = 0 := by decide
  rw [if_pos e0]
  rw [reduceproductLoop_unknown db parseunit true f u none 0 NOREDUCTION pre a post
    (by simpa using hden) hprim ha2 hl (Nat.zero_le _) (by omega)]
  simp only [Option.isNone_none, if_true]
  have e2 : (NOREDUCTION ||| ERROR) &&& ERROR ≠ 0 := by decide
  simp only [if_pos e2, Option.isSome_some, if_true]

/-- C25. Unknown unit reporting, for any parser and database.  The irreducible
name `reduceunit` and `completereduce` leave is that of this reduction: it is
null when they return 0, and when it is not null it is an atom that is not the
sentinel and for which `lookupunit(atom, 1)` finds nothing.  They return
`E_UNKNOWNUNIT` exactly when the irreducible name is not null, and `E_REDUCE`
for every other failure.  If every entry of the numerator before an atom is the
sentinel or primitive and `lookupunit` finds nothing for the atom, or if this
holds of the whole numerator and of the entries of the denominator before the
atom, then `completereduce` returns `E_UNKNOWNUNIT`, the value is unchanged and
the irreducible name is that atom. -/
theorem C25_unknown_unit (db : Database) (parseunit : Parser) (fuel : Nat) (u : unittype) :
    (∀ r, reduceunit db parseunit fuel u = some r →
      (r.1 = 0 ∨ r.1 = E_UNKNOWNUNIT ∨ r.1 = E_REDUCE) ∧
      (r.1 = E_UNKNOWNUNIT ↔ r.2.2.isSome = true) ∧
      (r.1 = 0 → r.2.2 = none) ∧
      (∀ a : CStr, r.2.2 = some a → a ≠ NULLUNIT ∧ lookupunit db a true = none)) ∧
    (∀ r, completereduce db parseunit fuel u = some r →
      (r.1 = 0 ∨ r.1 = E_UNKNOWNUNIT ∨ r.1 = E_REDUCE) ∧
      (r.1 = E_UNKNOWNUNIT ↔ r.2.2.isSome = true) ∧
      (r.1 = 0 → r.2.2 = none) ∧
      (∀ a : CStr, r.2.2 = some a → a ≠ NULLUNIT ∧ lookupunit db a true = none)) ∧
    (∀ (pre : List CStr) (a : CStr) (post : List CStr),
      u.numerator = pre ++ a :: post → primitiveonly db pre →
      a ≠ NULLUNIT → lookupunit db a true = none → pre.length + 2 ≤ fuel →
      completereduce db parseunit fuel u = some (E_UNKNOWNUNIT, u, some a)) ∧
    (∀ (pre : List CStr) (a : CStr) (post : List CStr),
      primitiveonly db u.numerator →
      u.denominator = pre ++ a :: post → primitiveonly db pre →
      a ≠ NULLUNIT → lookupunit db a true = none →
      u.numerator.length + pre.length + 2 ≤ fuel →
      completereduce db parseunit fuel u = some (E_UNKNOWNUNIT, u, some a)) := by
  have key : ∀ r, reduceunit db parseunit fuel u = some r →
      (r.1 = 0 ∨ r.1 = E_UNKNOWNUNIT ∨ r.1 = E_REDUCE) ∧
      (r.1 = E_UNKNOWNUNIT ↔ r.2.2.isSome = true) ∧
      (r.1 = 0 → r.2.2 = none) ∧
      (∀ a : CStr, r.2.2 = some a → a ≠ NULLUNIT ∧ lookupunit db a true = none) := by
    intro r hr
    obtain ⟨h1, h2, h3⟩ := reduceunitLoop_irreducible db parseunit fuel u r hr
    refine ⟨h1, h2, ?_, ?_⟩
    · intro h0
      cases hirr : r.2.2 with
      | none => rfl
      | some a =>
        have := h2.2 (by rw [hirr]; rfl)
        rw [h0] at this
        exact absurd this (by decide)
    · intro a ha
      obtain ⟨h4, h5⟩ := h3 a ha
      exact ⟨fun e => h4 (by rw [e]; rfl), h5⟩
  refine ⟨key, ?_, ?_, ?_⟩
  · intro r hr
    unfold completereduce at hr
    cases h1 : reduceunit db parseunit fuel u with
    | none => rw [h1] at hr; simp at hr
    | some r1 =>
      rw [h1] at hr
      simp only at hr
      obtain ⟨k1, k2, k3, k4⟩ := key r1 h1
      split at hr
      · rw [← Option.some.inj hr]
        exact ⟨k1, k2, k3, k4⟩
      · rename_i h0
        have h0' : r1.1 = 0 := not_not.1 h0
        rw [← Option.some.inj hr]
        refine ⟨Or.inl rfl, ?_, fun _ => k3 h0', k4⟩
        simp only [k3 h0', Option.isSome_none, Bool.false_eq_true, iff_false]
        decide
  · intro pre a post hnum hprim ha hl hfuel
    unfold completereduce
    rw [reduceunit_unknown_numerator db parseunit fuel u pre a post hnum hprim ha hl hfuel]
    simp only
    rw [if_pos (by decide)]
  · intro pre a post hnum hden hprim ha hl hfuel
    unfold completereduce
    rw [reduceunit_unknown_denominator db parseunit fuel u pre a post hnum hden hprim ha hl
      hfuel]
    simp only
    rw [if_pos (by decide)]

/-- C25 at a concrete input: in `meter foo bar` the first offending atom is
`foo`. -/
theorem C25_unknown_unit_witness :
    completereduce sampledb noparser 5
        { factor := 1, numerator := ["meter".toList, "foo".toList, "bar".toList],
          denominator := [] }
      = some (E_UNKNOWNUNIT,
          { factor := 1, numerator := ["meter".toList, "foo".toList, "bar".toList],
            denominator := [] },
          some "foo".toList) :=
  (C25_unknown_unit sampledb noparser 5
    { factor := 1, numerator := ["meter".toList, "foo".toList, "bar".toList],
      denominator := [] }).2.2.1 ["meter".toList] "foo".toList ["bar".toList] rfl
    primitiveonly_meter (by decide) (by decide) (by decide)


/-! ## Overflow while reducing -/

theorem reduceproductLoop_skip (db : Database) (parseunit : Parser) (flip : Bool)
    (u : unittype) (irr : Option CStr) (did : Nat) (pre rest : List CStr)
    (hprod : (if flip then u.denominator else u.numerator) = pre ++ rest)
    (hprim : primitiveonly db pre) :
    ∀ (k idx fuel : Nat), idx + k = pre.length →
      reduceproductLoop db parseunit flip (fuel + k) u irr idx did
        = reduceproductLoop db parseunit flip fuel u irr pre.length did
  | 0, idx, fuel, h => by
    have : idx = pre.length := by omega
    rw [this]
    rfl
  | k + 1, idx, fuel, h => by
    have hlt : idx < pre.length := by omega
    have ih := reduceproductLoop_skip db parseunit flip u irr did pre rest hprod hprim k
      (idx + 1) fuel (by omega)
    rw [show fuel + (k + 1) = (fuel + k) + 1 by omega]
    conv_lhs => unfold reduceproductLoop
    dsimp only
    rw [hprod]
    have hget : (pre ++ rest).get? idx = some (pre.get ⟨idx, hlt⟩) := by
      rw [List.get?_eq_getElem?, List.getElem?_append_left hlt, ← List.get?_eq_getElem?]
      exact List.get?_eq_get hlt
    rw [hget]
    simp only
    have hmem : pre.get ⟨idx, hlt⟩ ∈ pre := List.get_mem pre idx hlt
    by_cases hp : (pre.get ⟨idx, hlt⟩).length = 0
    · rw [if_pos hp]
      exact ih
    · rw [if_neg hp]
      rcases hprim _ hmem with e | ⟨body, hb1, hb2⟩
      · exact absurd (by rw [e]; rfl) hp
      · simp only [hb1, hb2, if_true]
        exact ih

theorem reduceproductLoop_overflow (db : Database) (parseunit : Parser) (flip : Bool)
    (fuel : Nat) (u : unittype) (irr : Option CStr) (did : Nat)
    (pre : List CStr) (a : CStr) (post : List CStr) (toadd : CStr)
    (hprod : (if flip then u.denominator else u.numerator) = pre ++ a :: post)
    (hprim : primitiveonly db pre) (ha : a ≠ NULLUNIT)
    (hl : lookupunit db a true = some toadd) (hp : strchr toadd PRIMITIVECHAR = false)
    (hparse : (parseunit toadd).1 = 0)
    (hover : (if flip then
        divunit { u with denominator := u.denominator.set pre.length NULLUNIT }
          (parseunit toadd).2
      else
        multunit { u with numerator := u.numerator.set pre.length NULLUNIT }
          (parseunit toadd).2).1 ≠ 0)
    (hfuel : pre.length + 1 ≤ fuel) :
    reduceproductLoop db parseunit flip fuel u irr 0 did
      = some { ret := ERROR
               theunit := (if flip then
                   divunit { u with denominator := u.denominator.set pre.length NULLUNIT }
                     (parseunit toadd).2
                 else
                   multunit { u with numerator := u.numerator.set pre.length NULLUNIT }
                     (parseunit toadd).2).2.1
               irreducible := irr } := by
  obtain ⟨f, rfl⟩ : ∃ f, fuel = (f + 1) + pre.length := ⟨fuel - 1 - pre.length, by omega⟩
  rw [reduceproductLoop_skip db parseunit flip u irr did pre (a :: post) hprod hprim
    pre.length 0 (f + 1) (by omega)]
  have ha2 : a.length ≠ 0 := fun h => ha (List.length_eq_zero.1 h)
  have hget : (pre ++ a :: post).get? pre.length = some a := by
    rw [List.get?_eq_getElem?, List.getElem?_append_right (Nat.le_refl _)]
    simp
  unfold reduceproductLoop
  dsimp only
  rw [hprod, hget]
  simp only [if_neg ha2, hl, hp, Bool.false_eq_true, if_false, hparse, ne_eq,
    not_true_eq_false]
  cases flip with
  | false =>
    simp only [Bool.false_eq_true, if_false] at hprod hover ⊢
    rw [← hprod]
    rw [if_pos hover]
  | true =>
    simp only [if_true] at hprod hover ⊢
    rw [← hprod]
    rw [if_pos hover]

/-! ## Overflow during reduction -/

/-- Without its record the reduction of a product is `reduceproduct`. -/
theorem reduceproductLoopT_fst (db : Database) (parseunit : Parser) (flip : Bool) :
    ∀ (fuel : Nat) (theunit : unittype) (irr : Option CStr) (idx did : Nat),
      (reduceproductLoopT db parseunit flip fuel theunit irr idx did).map (fun x => x.1)
        = reduceproductLoop db parseunit flip fuel theunit irr idx did
  | 0, _, _, _, _ => rfl
  | fuel + 1, theunit, irr, idx, did => by
    rw [reduceproductLoopT, reduceproductLoop]
    simp only
    cases (if flip then theunit.denominator else theunit.numerator).get? idx with
    | none => rfl
    | some p =>
      simp only
      by_cases hp : p.length = 0
      · rw [if_pos hp, if_pos hp]
        exact reduceproductLoopT_fst db parseunit flip fuel _ _ _ _
      · rw [if_neg hp, if_neg hp]
        cases lookupunit db p true with
        | none => rfl
        | some toadd =>
          simp only
          by_cases hc : strchr toadd PRIMITIVECHAR = true
          · rw [if_pos hc, if_pos hc]
            exact reduceproductLoopT_fst db parseunit flip fuel _ _ _ _
          · rw [if_neg hc, if_neg hc]
            by_cases he : (parseunit toadd).1 ≠ 0
            · rw [if_pos he, if_pos he]
              rfl
            · rw [if_neg he, if_neg he]
              split
              · split
                · rfl
                · exact reduceproductLoopT_fst db parseunit _ fuel _ _ _ _
              · split
                · rfl
                · exact reduceproductLoopT_fst db parseunit _ fuel _ _ _ _

/-- A reduction of a product that ends at a refused substitution returns
`ERROR` and leaves the irreducible name as it found it. -/
theorem reduceproductLoopT_flag (db : Database) (parseunit : Parser) (flip : Bool) :
    ∀ (fuel : Nat) (theunit : unittype) (irr : Option CStr) (idx did : Nat) (r : reduction),
      reduceproductLoopT db parseunit flip fuel theunit irr idx did = some (r, true) →
      r.ret = ERROR ∧ r.irreducible = irr
  | 0, _, _, _, _, _, h => by
    rw [reduceproductLoopT] at h
    exact Option.noConfusion h
  | fuel + 1, theunit, irr, idx, did, r, h => by
    rw [reduceproductLoopT] at h
    simp only at h
    cases hg : (if flip then theunit.denominator else theunit.numerator).get? idx with
    | none =>
      rw [hg] at h
      simp only [Option.some.injEq, Prod.mk.injEq] at h
      exact absurd h.2 (by decide)
    | some p =>
      rw [hg] at h
      simp only at h
      by_cases hp : p.length = 0
      · rw [if_pos hp] at h
        exact reduceproductLoopT_flag db parseunit flip fuel _ _ _ _ r h
      · rw [if_neg hp] at h
        cases hl : lookupunit db p true with
        | none =>
          rw [hl] at h
          simp only [Option.some.injEq, Prod.mk.injEq] at h
          exact absurd h.2 (by decide)
        | some toadd =>
          rw [hl] at h
          simp only at h
          by_cases hc : strchr toadd PRIMITIVECHAR = true
          · rw [if_pos hc] at h
            exact reduceproductLoopT_flag db parseunit flip fuel _ _ _ _ r h
          · rw [if_neg hc] at h
            by_cases he : (parseunit toadd).1 ≠ 0
            · rw [if_pos he] at h
              simp only [Option.some.injEq, Prod.mk.injEq] at h
              exact absurd h.2 (by decide)
            · rw [if_neg he] at h
              split at h <;> split at h
              all_goals first
                | exact reduceproductLoopT_flag db parseunit _ fuel _ _ _ _ r h
                | (simp only [Option.some.injEq, Prod.mk.injEq] at h
                   rw [← h.1]
                   exact ⟨rfl, rfl⟩)

theorem reduceunitLoopT_fst (db : Database) (parseunit : Parser) :
    ∀ (fuel : Nat) (theunit : unittype) (irr : Option CStr),
      (reduceunitLoopT db parseunit fuel theunit irr).map (fun x => x.1)
        = reduceunitLoop db parseunit fuel theunit irr
  | 0, _, _ => rfl
  | fuel + 1, theunit, irr => by
    rw [reduceunitLoopT, reduceunitLoop]
    simp only [reduceproductT, reduceproduct, ← reduceproductLoopT_fst db parseunit]
    cases reduceproductLoopT db parseunit false fuel theunit irr 0 NOREDUCTION with
    | none => rfl
    | some r1 =>
      simp only [Option.map_some']
      by_cases h1 : r1.1.ret &&& ERROR = 0
      · rw [if_pos h1, if_pos h1]
        cases reduceproductLoopT db parseunit true fuel r1.1.theunit r1.1.irreducible 0
            NOREDUCTION with
        | none => rfl
        | some r2 =>
          simp only [Option.map_some']
          by_cases h2 : (r1.1.ret ||| r2.1.ret) &&& ERROR ≠ 0
          · rw [if_pos h2, if_pos h2]
            split <;> rfl
          · rw [if_neg h2, if_neg h2]
            by_cases h3 : (r1.1.ret ||| r2.1.ret) &&& DIDREDUCTION ≠ 0
            · rw [if_pos h3, if_pos h3]
              exact reduceunitLoopT_fst db parseunit fuel _ _
            · rw [if_neg h3, if_neg h3]
              rfl
      · rw [if_neg h1, if_neg h1]
        simp only
        have h2 : r1.1.ret &&& ERROR ≠ 0 := h1
        rw [if_pos h2, if_pos h2]
        split <;> rfl

/-- Without its record the complete reduction is `completereduce`. -/
theorem completereduceT_fst (db : Database) (parseunit : Parser) (fuel : Nat)
    (unit : unittype) :
    (completereduceT db parseunit fuel unit).map (fun x => x.1)
      = completereduce db parseunit fuel unit := by
  rw [completereduceT, completereduce, reduceunit, ← reduceunitLoopT_fst db parseunit]
  cases reduceunitLoopT db parseunit fuel unit none with
  | none => rfl
  | some r =>
    simp only [Option.map_some']
    split <;> rfl

/-- A complete reduction that ends at a refused substitution returns
`E_REDUCE` with a null irreducible name. -/
theorem reduceunitLoopT_flag (db : Database) (parseunit : Parser) :
    ∀ (fuel : Nat) (u : unittype) (r : Int × unittype × Option CStr),
      reduceunitLoopT db parseunit fuel u none = some (r, true) →
      r.1 = E_REDUCE ∧ r.2.2 = none
  | 0, _, _, h => by
    rw [reduceunitLoopT] at h
    exact Option.noConfusion h
  | fuel + 1, u, r, h => by
    rw [reduceunitLoopT] at h
    simp only [reduceproductT] at h
    cases hT1 : reduceproductLoopT db parseunit false fuel u none 0 NOREDUCTION with
    | none => rw [hT1] at h; exact Option.noConfusion h
    | some r1 =>
      rw [hT1] at h
      simp only at h
      have hL1 : reduceproductLoop db parseunit false fuel u none 0 NOREDUCTION = some r1.1 := by
        rw [← reduceproductLoopT_fst, hT1]
        rfl
      have i1 := reduceproductLoop_irreducible db parseunit false fuel u none 0 NOREDUCTION
        r1.1 hL1
      by_cases herr : r1.1.ret &&& ERROR = 0
      · rw [if_pos herr] at h
        have hnone1 : r1.1.irreducible = none := by
          rcases i1 with e | ⟨_, e, _⟩
          · exact e
          · rw [e] at herr
            exact absurd herr (by decide)
        rw [hnone1] at h
        cases hT2 : reduceproductLoopT db parseunit true fuel r1.1.theunit none 0
            NOREDUCTION with
        | none => rw [hT2] at h; exact Option.noConfusion h
        | some r2 =>
          rw [hT2] at h
          simp only at h
          have hL2 : reduceproductLoop db parseunit true fuel r1.1.theunit none 0 NOREDUCTION
              = some r2.1 := by
            rw [← reduceproductLoopT_fst, hT2]
            rfl
          have i2 := reduceproductLoop_irreducible db parseunit true fuel r1.1.theunit none 0
            NOREDUCTION r2.1 hL2
          by_cases herr2 : (r1.1.ret ||| r2.1.ret) &&& ERROR ≠ 0
          · rw [if_pos herr2] at h
            cases hirr : r2.1.irreducible with
            | none =>
              rw [hirr] at h
              simp only [Option.isSome_none, Bool.false_eq_true, if_false,
                Option.some.injEq, Prod.mk.injEq] at h
              rw [← h.1]
              exact ⟨rfl, rfl⟩
            | some a =>
              rw [hirr] at h
              simp only [Option.isSome_some, if_true, Option.some.injEq, Prod.mk.injEq] at h
              obtain ⟨r2a, r2b⟩ := r2
              have hb : r2b = true := h.2
              subst hb
              have := (reduceproductLoopT_flag db parseunit true fuel r1.1.theunit none 0
                NOREDUCTION r2a hT2).2
              rw [this] at hirr
              exact Option.noConfusion hirr
          · rw [if_neg herr2] at h
            have hnone2 : r2.1.irreducible = none := by
              rcases i2 with e | ⟨_, e, _⟩
              · exact e
              · exfalso
                apply herr2
                rw [e, or_and_self_right]
                decide
            by_cases h3 : (r1.1.ret ||| r2.1.ret) &&& DIDREDUCTION ≠ 0
            · rw [if_pos h3, hnone2] at h
              exact reduceunitLoopT_flag db parseunit fuel _ r h
            · rw [if_neg h3] at h
              simp only [Option.some.injEq, Prod.mk.injEq] at h
              obtain ⟨r2a, r2b⟩ := r2
              have hb : r2b = true := h.2
              subst hb
              have := (reduceproductLoopT_flag db parseunit true fuel r1.1.theunit none 0
                NOREDUCTION r2a hT2).1
              exfalso
              apply herr2
              show (r1.1.ret ||| r2a.ret) &&& ERROR ≠ 0
              rw [this, or_and_self_right]
              decide
      · rw [if_neg herr] at h
        simp only at h
        have h2 : r1.1.ret &&& ERROR ≠ 0 := herr
        rw [if_pos h2] at h
        obtain ⟨r1a, r1b⟩ := r1
        cases hirr : r1a.irreducible with
        | none =>
          simp only at h
          rw [hirr] at h
          simp only [Option.isSome_none, Bool.false_eq_true, if_false,
            Option.some.injEq, Prod.mk.injEq] at h
          rw [← h.1]
          exact ⟨rfl, rfl⟩
        | some a =>
          simp only at h
          rw [hirr] at h
          simp only [Option.isSome_some, if_true, Option.some.injEq, Prod.mk.injEq] at h
          have hb : r1b = true := h.2
          subst hb
          have := (reduceproductLoopT_flag db parseunit false fuel u none 0
            NOREDUCTION r1a hT1).2
          rw [this] at hirr
          exact Option.noConfusion hirr

theorem completereduceT_flag (db : Database) (parseunit : Parser) (fuel : Nat)
    (u : unittype) (r : Int × unittype × Option CStr)
    (h : completereduceT db parseunit fuel u = some (r, true)) :
    r.1 = E_REDUCE ∧ r.2.2 = none := by
  rw [completereduceT] at h
  cases hT : reduceunitLoopT db parseunit fuel u none with
  | none => rw [hT] at h; exact Option.noConfusion h
  | some x =>
    obtain ⟨x1, xb⟩ := x
    rw [hT] at h
    simp only at h
    by_cases h0 : x1.1 ≠ 0
    · rw [if_pos h0] at h
      simp only [Option.some.injEq, Prod.mk.injEq] at h
      rw [h.2] at hT
      rw [← h.1]
      exact reduceunitLoopT_flag db parseunit fuel u x1 hT
    · rw [if_neg h0] at h
      simp only [Option.some.injEq, Prod.mk.injEq] at h
      rw [h.2] at hT
      have := (reduceunitLoopT_flag db parseunit fuel u x1 hT).1
      rw [this] at h0
      exact absurd (by decide) h0

/-- The return values of `moveproduct`: 0 or `E_PRODOVERFLOW`. -/
theorem moveproductLoop_code : ∀ (src product : List CStr) (dest : Nat),
    (moveproductLoop product dest src).1 = 0 ∨
    (moveproductLoop product dest src).1 = E_PRODOVERFLOW := by
  intro src
  induction src with
  | nil => intro product dest; left; rfl
  | cons s src ih =>
    intro product dest
    by_cases hs : s = NULLUNIT
    · rw [moveproductLoop, if_pos hs]
      exact ih product dest
    · rw [moveproductLoop, if_neg hs]
      simp only
      split
      · right; rfl
      · exact ih _ _

theorem multunit_code (left right : unittype) :
    (multunit left right).1 = 0 ∨ (multunit left right).1 = E_PRODOVERFLOW := by
  unfold multunit moveproduct
  simp only
  split
  · exact moveproductLoop_code _ _ _
  · exact moveproductLoop_code _ _ _

theorem divunit_code (left right : unittype) :
    (divunit left right).1 = 0 ∨ (divunit left right).1 = E_PRODOVERFLOW := by
  unfold divunit moveproduct
  simp only
  split
  · exact moveproductLoop_code _ _ _
  · exact moveproductLoop_code _ _ _

/-- C26, the claim refuted: the numerator `are meter ... meter` holds 99
atoms; substituting `meter meter` for `are` overflows it (`multunit` returns
`E_PRODOVERFLOW`), and `completereduce` returns `E_REDUCE`. -/
theorem C26_counterexample :
    (multunit { fullunit with numerator := fullunit.numerator.set 0 NULLUNIT }
      (wordsparser "meter meter".toList).2).1 = E_PRODOVERFLOW ∧
    (completereduce aredb wordsparser 5 fullunit).map (fun r => r.1) = some E_REDUCE ∧
    E_REDUCE ≠ E_PRODOVERFLOW := by
  decide

/-- C26, amended. Capacity overflow during reduction is reported as
`E_REDUCE`: `completereduce` never returns `E_PRODOVERFLOW`; `multunit` and
`divunit` return 0 or `E_PRODOVERFLOW`; whenever a reduction ends at a
substitution that `multunit` (for the numerator) or `divunit` (for the
denominator) refuses because a list would exceed `MAXSUBUNITS`, whichever
substitution of the reduction it is, `completereduce` returns `E_REDUCE` with a
null irreducible name (the reduction with the record of this event is
`completereduce` when the record is dropped); and when the refused
substitution is that of the first atom that is not primitive, the value
returned is the one `multunit` or `divunit` left. -/
theorem C26_overflow_reduce (db : Database) (parseunit : Parser) (fuel : Nat)
    (u : unittype) :
    (∀ r, completereduce db parseunit fuel u = some r → r.1 ≠ E_PRODOVERFLOW) ∧
    (∀ (pre : List CStr) (a : CStr) (post : List CStr) (toadd : CStr),
      u.numerator = pre ++ a :: post → primitiveonly db pre → a ≠ NULLUNIT →
      lookupunit db a true = some toadd → strchr toadd PRIMITIVECHAR = false →
      (parseunit toadd).1 = 0 →
      (multunit { u with numerator := u.numerator.set pre.length NULLUNIT }
        (parseunit toadd).2).1 = E_PRODOVERFLOW →
      pre.length + 2 ≤ fuel →
      completereduce db parseunit fuel u
        = some (E_REDUCE,
            (multunit { u with numerator := u.numerator.set pre.length NULLUNIT }
              (parseunit toadd).2).2.1, none)) ∧
    (∀ (pre : List CStr) (a : CStr) (post : List CStr) (toadd : CStr),
      primitiveonly db u.numerator →
      u.denominator = pre ++ a :: post → primitiveonly db pre → a ≠ NULLUNIT →
      lookupunit db a true = some toadd → strchr toadd PRIMITIVECHAR = false →
      (parseunit toadd).1 = 0 →
      (divunit { u with denominator := u.denominator.set pre.length NULLUNIT }
        (parseunit toadd).2).1 = E_PRODOVERFLOW →
      u.numerator.length + pre.length + 2 ≤ fuel →
      completereduce db parseunit fuel u
        = some (E_REDUCE,
            (divunit { u with denominator := u.denominator.set pre.length NULLUNIT }
              (parseunit toadd).2).2.1, none)) ∧
    (∀ left right : unittype,
      ((multunit left right).1 = 0 ∨ (multunit left right).1 = E_PRODOVERFLOW) ∧
      ((divunit left right).1 = 0 ∨ (divunit left right).1 = E_PRODOVERFLOW)) ∧
    (completereduceT db parseunit fuel u).map (fun x => x.1)
      = completereduce db parseunit fuel u ∧
    ((completereduceT db parseunit fuel u).map (fun x => x.2) = some true →
      (completereduce db parseunit fuel u).map (fun r => (r.1, r.2.2))
        = some (E_REDUCE, none)) := by
  refine ⟨?_, ?_, ?_, fun left right => ⟨multunit_code left right, divunit_code left right⟩,
    completereduceT_fst db parseunit fuel u, ?_⟩
  rotate_left 3
  · intro hflag
    rw [← completereduceT_fst db parseunit fuel u]
    cases hT : completereduceT db parseunit fuel u with
    | none => rw [hT] at hflag; exact Option.noConfusion hflag
    | some x =>
      obtain ⟨r, b⟩ := x
      rw [hT] at hflag
      have hb : b = true := Option.some.inj hflag
      subst hb
      obtain ⟨h1, h2⟩ := completereduceT_flag db parseunit fuel u r hT
      simp only [Option.map_some', h1, h2]
  · intro r hr
    rcases completereduce_code db parseunit fuel u r hr with h | h | h <;> rw [h] <;> decide
  · intro pre a post toadd hnum hprim ha hl hp hparse hover hfuel
    obtain ⟨f, rfl⟩ : ∃ f, fuel = f + 1 := ⟨fuel - 1, by omega⟩
    have hover2 : (multunit { u with numerator := u.numerator.set pre.length NULLUNIT }
        (parseunit toadd).2).1 ≠ 0 := by
      rw [hover]; decide
    unfold completereduce reduceunit reduceunitLoop reduceproduct
    rw [reduceproductLoop_overflow db parseunit false f u none NOREDUCTION pre a post toadd
      (by simpa using hnum) hprim ha hl hp hparse (by simpa using hover2) (by omega)]
    simp only [Bool.false_eq_true, if_false]
    have e1 : ¬ (ERROR &&& ERROR = 0) := by decide
    have e2 : ERROR &&& ERROR ≠ 0 := by decide
    rw [if_neg e1]
    simp only [if_pos e2, Option.isSome_none, Bool.false_eq_true, if_false]
    rw [if_pos (by decide)]
  · intro pre a post toadd hnum hden hprim ha hl hp hparse hover hfuel
    obtain ⟨f, rfl⟩ : ∃ f, fuel = f + 1 := ⟨fuel - 1, by omega⟩
    have hover2 : (divunit { u with denominator := u.denominator.set pre.length NULLUNIT }
        (parseunit toadd).2).1 ≠ 0 := by
      rw [hover]; decide
    unfold completereduce reduceunit reduceunitLoop reduceproduct
    rw [reduceproductLoop_primitive db parseunit false f u none 0 NOREDUCTION hnum
      (Nat.zero_le _) (by simp only [Bool.false_eq_true, if_false]; omega)]
    simp only
    have e0 : NOREDUCTION &&& ERROR = 0 := by decide
    rw [if_pos e0]
    rw [reduceproductLoop_overflow db parseunit true f u none NOREDUCTION pre a post toadd
      (by simpa using hden) hprim ha hl hp hparse (by simpa using hover2) (by omega)]
    simp only [if_true]
    have e2 : (NOREDUCTION ||| ERROR) &&& ERROR ≠ 0 := by decide
    simp only [if_pos e2, Option.isSome_none, Bool.false_eq_true, if_false]
    rw [if_pos (by decide)]

/-- C26 (amended) at concrete inputs: the numerator `are meter ... meter` of
99 atoms, where the first substitution does not fit, and the values
`are are meter ... meter` and `/ are are meter ... meter` of 98 atoms, where the
first substitution fits and the second does not. -/
theorem C26_overflow_reduce_witness :
    completereduce aredb wordsparser 5 fullunit
      = some (E_REDUCE,
          (multunit
            { fullunit with numerator := fullunit.numerator.set ([] : List CStr).length NULLUNIT }
            (wordsparser "meter meter".toList).2).2.1, none) ∧
    ((completereduceT aredb wordsparser 5 twoare).map (fun x => x.2) = some true ∧
      (completereduce aredb wordsparser 5 twoare).map (fun r => (r.1, r.2.2))
        = some (E_REDUCE, none)) ∧
    ((completereduceT aredb wordsparser 5 twoarebelow).map (fun x => x.2) = some true ∧
      (completereduce aredb wordsparser 5 twoarebelow).map (fun r => (r.1, r.2.2))
        = some (E_REDUCE, none)) :=
  ⟨(C26_overflow_reduce aredb wordsparser 5 fullunit).2.1 [] "are".toList
      (List.replicate 98 "meter".toList) "meter meter".toList rfl
      (fun a ha => absurd ha (List.not_mem_nil a)) (by decide) (by decide) (by decide)
      (by decide) (by decide) (by decide),
    ⟨by decide, (C26_overflow_reduce aredb wordsparser 5 twoare).2.2.2.2.2 (by decide)⟩,
    ⟨by decide,
      (C26_overflow_reduce aredb wordsparser 5 twoarebelow).2.2.2.2.2 (by decide)⟩⟩


/-! ## Locale blocks -/

theorem readline_skipped (strtod : Strtod) (mylocale : CStr)
    (recurse : CStr → Database → Option (Int × Database)) (file : CStr) (depth : Nat)
    (st : loadstate) (line : fileline) (hw : st.wronglocale = true)
    (hplain : plainline line = true) :
    readline strtod mylocale recurse file depth st line = some st := by
  cases line with
  | localeline name => simp [plainline] at hplain
  | endlocaleline => simp [plainline] at hplain
  | includeline name => simp [readline, hw]
  | badcommand => simp [readline, hw]
  | blank => rfl
  | nodef n => simp [readline, hw]
  | definition n d => simp [readline, hw]

theorem readlines_skipped (strtod : Strtod) (mylocale : CStr)
    (recurse : CStr → Database → Option (Int × Database)) (file : CStr) (depth : Nat)
    (st : loadstate) (hw : st.wronglocale = true) :
    ∀ (body rest : List fileline), (∀ l ∈ body, plainline l = true) →
      readlines strtod mylocale recurse file depth st (body ++ rest)
        = readlines strtod mylocale recurse file depth st rest
  | [], rest, _ => rfl
  | l :: body, rest, h => by
    rw [List.cons_append, readlines,
      readline_skipped strtod mylocale recurse file depth st l hw (h l (by simp))]
    exact readlines_skipped strtod mylocale recurse file depth st hw body rest
      (fun x hx => h x (List.mem_cons_of_mem _ hx))

/-- A line other than `!locale` and `!endlocale` does not look at `inlocale` and
leaves `inlocale` and `wronglocale` as they are. -/
theorem readline_plain (strtod : Strtod) (mylocale : CStr)
    (recurse : CStr → Database → Option (Int × Database)) (file : CStr) (depth : Nat)
    (st : loadstate) (line : fileline) (b : Bool) (hplain : plainline line = true) :
    readline strtod mylocale recurse file depth { st with inlocale := b } line
      = (readline strtod mylocale recurse file depth st line).map
          (fun s => { s with inlocale := b }) ∧
    ∀ s, readline strtod mylocale recurse file depth st line = some s →
      s.inlocale = st.inlocale ∧ s.wronglocale = st.wronglocale := by
  cases line with
  | localeline name => simp [plainline] at hplain
  | endlocaleline => simp [plainline] at hplain
  | includeline name =>
    simp only [readline]
    by_cases hw : st.wronglocale = true
    · simp only [hw, if_true, Option.map_some', Option.some.injEq, true_and]
      intro s hs
      rw [← hs]
      exact ⟨rfl, hw⟩
    · simp only [hw, Bool.false_eq_true, if_false]
      by_cases hd : depth > MAXINCLUDE
      · simp only [hd, if_true, Option.map_some', Option.some.injEq, true_and]
        intro s hs
        rw [← hs]
        exact ⟨rfl, rfl⟩
      · simp only [hd, if_false]
        cases recurse (includefile file name) st.db with
        | none => simp
        | some r =>
          simp only [Option.map_some', Option.some.injEq, true_and]
          intro s hs
          rw [← hs]
          exact ⟨rfl, rfl⟩
  | badcommand =>
    simp only [readline]
    by_cases hw : st.wronglocale = true
    · simp only [hw, if_true, Option.map_some', Option.some.injEq, true_and]
      intro s hs
      rw [← hs]
      exact ⟨rfl, hw⟩
    · simp only [hw, Bool.false_eq_true, if_false, Option.map_some', Option.some.injEq,
        true_and]
      intro s hs
      rw [← hs]
      exact ⟨rfl, rfl⟩
  | blank =>
    simp only [readline, Option.map_some', Option.some.injEq, true_and]
    intro s hs
    rw [← hs]
    exact ⟨rfl, rfl⟩
  | nodef n =>
    simp only [readline]
    by_cases hw : st.wronglocale = true
    · simp only [hw, if_true, Option.map_some', Option.some.injEq, true_and]
      intro s hs
      rw [← hs]
      exact ⟨rfl, hw⟩
    · simp only [hw, Bool.false_eq_true, if_false, Option.map_some', Option.some.injEq,
        true_and]
      intro s hs
      rw [← hs]
      exact ⟨rfl, rfl⟩
  | definition n d =>
    simp only [readline]
    by_cases hw : st.wronglocale = true
    · simp only [hw, if_true, Option.map_some', Option.some.injEq, true_and]
      intro s hs
      rw [← hs]
      exact ⟨rfl, hw⟩
    · simp only [hw, Bool.false_eq_true, if_false, Option.map_some', Option.some.injEq,
        true_and]
      intro s hs
      rw [← hs]
      exact ⟨rfl, rfl⟩

theorem readlines_inblock (strtod : Strtod) (mylocale : CStr)
    (recurse : CStr → Database → Option (Int × Database)) (file : CStr) (depth : Nat) :
    ∀ (body rest : List fileline) (st : loadstate), (∀ l ∈ body, plainline l = true) →
      st.inlocale = false → st.wronglocale = false →
      readlines strtod mylocale recurse file depth { st with inlocale := true }
          (body ++ fileline.endlocaleline :: rest)
        = readlines strtod mylocale recurse file depth st (body ++ rest)
  | [], rest, st, _, hi, hw => by
    simp only [List.nil_append, readlines, readline, if_true]
    have : ({ db := st.db, goterr := st.goterr, wronglocale := false, inlocale := false }
        : loadstate) = st := by
      cases st
      simp only at hi hw
      simp only [hi, hw]
    rw [this]
  | l :: body, rest, st, h, hi, hw => by
    obtain ⟨h1, h2⟩ := readline_plain strtod mylocale recurse file depth st l true
      (h l (by simp))
    rw [List.cons_append, List.cons_append, readlines, readlines, h1]
    cases hr : readline strtod mylocale recurse file depth st l with
    | none => rfl
    | some s =>
      simp only [Option.map_some']
      obtain ⟨k1, k2⟩ := h2 s hr
      exact readlines_inblock strtod mylocale recurse file depth body rest s
        (fun x hx => h x (List.mem_cons_of_mem _ hx)) (by rw [k1, hi]) (by rw [k2, hw])

theorem readline_goterr (strtod : Strtod) (mylocale : CStr)
    (recurse : CStr → Database → Option (Int × Database)) (file : CStr) (depth : Nat)
    (st s : loadstate) (line : fileline) (hg : st.goterr = true)
    (h : readline strtod mylocale recurse file depth st line = some s) :
    s.goterr = true := by
  cases line with
  | localeline name =>
    simp only [readline] at h
    split at h
    · rw [← Option.some.inj h]
    · split at h
      · rw [← Option.some.inj h]
      · rw [← Option.some.inj h]; exact hg
  | endlocaleline =>
    simp only [readline, Option.some.injEq] at h
    rw [← h]
    simp only [hg, ite_self]
  | includeline name =>
    simp only [readline] at h
    split at h
    · rw [← Option.some.inj h]; exact hg
    · split at h
      · rw [← Option.some.inj h]
      · split at h
        · exact Option.noConfusion h
        · rw [← Option.some.inj h]
          simp only [hg, ite_self]
  | badcommand =>
    simp only [readline] at h
    split at h
    · rw [← Option.some.inj h]; exact hg
    · rw [← Option.some.inj h]
  | blank =>
    simp only [readline, Option.some.injEq] at h
    rw [← h]; exact hg
  | nodef n =>
    simp only [readline] at h
    split at h
    · rw [← Option.some.inj h]; exact hg
    · rw [← Option.some.inj h]
  | definition n d =>
    simp only [readline] at h
    split at h
    · rw [← Option.some.inj h]; exact hg
    · rw [← Option.some.inj h]
      simp only [hg, ite_self]

theorem readlines_goterr (strtod : Strtod) (mylocale : CStr)
    (recurse : CStr → Database → Option (Int × Database)) (file : CStr) (depth : Nat) :
    ∀ (lines : List fileline) (st s : loadstate), st.goterr = true →
      readlines strtod mylocale recurse file depth st lines = some s → s.goterr = true
  | [], st, s, hg, h => by
    simp only [readlines, Option.some.injEq] at h
    rw [← h]; exact hg
  | l :: lines, st, s, hg, h => by
    rw [readlines] at h
    cases hr : readline strtod mylocale recurse file depth st l with
    | none => rw [hr] at h; exact Option.noConfusion h
    | some s1 =>
      rw [hr] at h
      exact readlines_goterr strtod mylocale recurse file depth lines s1 s
        (readline_goterr strtod mylocale recurse file depth st s1 l hg hr) h

theorem readline_outside (strtod : Strtod) (mylocale : CStr)
    (recurse : CStr → Database → Option (Int × Database)) (file : CStr) (depth : Nat)
    (st s : loadstate) (line : fileline)
    (hinv : st.inlocale = false → st.wronglocale = false)
    (h : readline strtod mylocale recurse file depth st line = some s) :
    s.inlocale = false → s.wronglocale = false := by
  by_cases hplain : plainline line = true
  · obtain ⟨k1, k2⟩ := (readline_plain strtod mylocale recurse file depth st line true
      hplain).2 s h
    rw [k1, k2]
    exact hinv
  · cases line with
    | localeline name =>
      simp only [readline] at h
      split at h
      · rw [← Option.some.inj h]; exact hinv
      · split at h
        · rw [← Option.some.inj h]; exact hinv
        · rw [← Option.some.inj h]
          intro hc
          exact absurd hc (by simp)
    | endlocaleline =>
      simp only [readline, Option.some.injEq] at h
      rw [← h]
      intro _
      rfl
    | includeline name => simp [plainline] at hplain
    | badcommand => simp [plainline] at hplain
    | blank => simp [plainline] at hplain
    | nodef n => simp [plainline] at hplain
    | definition n d => simp [plainline] at hplain

theorem readlines_outside (strtod : Strtod) (mylocale : CStr)
    (recurse : CStr → Database → Option (Int × Database)) (file : CStr) (depth : Nat) :
    ∀ (lines : List fileline) (st s : loadstate),
      (st.inlocale = false → st.wronglocale = false) →
      readlines strtod mylocale recurse file depth st lines = some s →
      s.inlocale = false → s.wronglocale = false
  | [], st, s, hinv, h => by
    simp only [readlines, Option.some.injEq] at h
    rw [← h]; exact hinv
  | l :: lines, st, s, hinv, h => by
    rw [readlines] at h
    cases hr : readline strtod mylocale recurse file depth st l with
    | none => rw [hr] at h; exact Option.noConfusion h
    | some s1 =>
      rw [hr] at h
      exact readlines_outside strtod mylocale recurse file depth lines s1 s
        (readline_outside strtod mylocale recurse file depth st s1 l hinv hr) h

/-- C24. Locale blocks, in the loop of `readunits` over the lines of a file,
for lines other than `!locale` and `!endlocale` between `!locale X` and the
next `!endlocale`: when `X` is not the configured locale the lines have no
effect, the load goes on after `!endlocale` from the state before `!locale X`;
when `X` is the configured locale the load is the one of the same lines
outside a block.  Outside every block `wronglocale` is not set, and when it is
not set a definition line is read by the definition branches and an `!include`
line is followed.  A `!locale` met while a block is open sets `goterr` and
changes nothing else, and `goterr` stays set, so the load returns `E_BADFILE`. -/
theorem C24_locale_blocks (strtod : Strtod) (mylocale : CStr)
    (recurse : CStr → Database → Option (Int × Database)) (file : CStr) (depth : Nat) :
    (∀ (st : loadstate) (name : CStr) (body rest : List fileline),
      st.inlocale = false → st.wronglocale = false → name ≠ [] → name ≠ mylocale →
      (∀ l ∈ body, plainline l = true) →
      readlines strtod mylocale recurse file depth st
          (fileline.localeline name :: (body ++ fileline.endlocaleline :: rest))
        = readlines strtod mylocale recurse file depth st rest) ∧
    (∀ (st : loadstate) (body rest : List fileline),
      st.inlocale = false → st.wronglocale = false → mylocale ≠ [] →
      (∀ l ∈ body, plainline l = true) →
      readlines strtod mylocale recurse file depth st
          (fileline.localeline mylocale :: (body ++ fileline.endlocaleline :: rest))
        = readlines strtod mylocale recurse file depth st (body ++ rest)) ∧
    (∀ (st s : loadstate) (lines : List fileline),
      (st.inlocale = false → st.wronglocale = false) →
      readlines strtod mylocale recurse file depth st lines = some s →
      s.inlocale = false → s.wronglocale = false) ∧
    (∀ (st : loadstate) (unitname unitdef : CStr), st.wronglocale = false →
      readline strtod mylocale recurse file depth st (fileline.definition unitname unitdef)
        = some { st with
            db := (readdefinition strtod st.db unitname unitdef).1
            goterr := if (readdefinition strtod st.db unitname unitdef).2 then true
              else st.goterr }) ∧
    (∀ (st : loadstate) (name : CStr), st.wronglocale = false → depth ≤ MAXINCLUDE →
      readline strtod mylocale recurse file depth st (fileline.includeline name)
        = (recurse (includefile file name) st.db).map
            (fun r => { st with db := r.2, goterr := if r.1 ≠ 0 then true else st.goterr })) ∧
    (∀ (st : loadstate) (name : CStr), st.inlocale = true →
      readline strtod mylocale recurse file depth st (fileline.localeline name)
        = some { st with goterr := true }) ∧
    (∀ (st s : loadstate) (lines : List fileline), st.goterr = true →
      readlines strtod mylocale recurse file depth st lines = some s → s.goterr = true) := by
  refine ⟨?_, ?_, ?_, ?_, ?_, ?_, ?_⟩
  · intro st name body rest hi hw hne hloc hplain
    have hcmp : strcmp name mylocale ≠ 0 := fun h => hloc (strcmp_eq_zero h)
    rw [readlines]
    simp only [readline, if_neg hne, hi, Bool.false_eq_true, if_false, if_pos hcmp]
    rw [readlines_skipped strtod mylocale recurse file depth _ rfl body _ hplain]
    simp only [readlines, readline, if_true]
    have : ({ db := st.db, goterr := st.goterr, wronglocale := false, inlocale := false }
        : loadstate) = st := by
      cases st
      simp only at hi hw
      simp only [hi, hw]
    rw [this]
  · intro st body rest hi hw hne hplain
    have hcmp : ¬ strcmp mylocale mylocale ≠ 0 := not_not.2 (strcmp_self mylocale)
    rw [readlines]
    simp only [readline, if_neg hne, hi, Bool.false_eq_true, if_false, if_neg hcmp]
    exact readlines_inblock strtod mylocale recurse file depth body rest st hplain hi hw
  · intro st s lines hinv h
    exact readlines_outside strtod mylocale recurse file depth lines st s hinv h
  · intro st unitname unitdef hw
    simp only [readline, hw, Bool.false_eq_true, if_false]
  · intro st name hw hd
    have hd2 : ¬ depth > MAXINCLUDE := by omega
    simp only [readline, hw, Bool.false_eq_true, if_false, if_neg hd2]
    cases recurse (includefile file name) st.db <;> rfl
  · intro st name hi
    simp only [readline, hi, if_true, ite_self]
  · intro st s lines hg h
    exact readlines_goterr strtod mylocale recurse file depth lines st s hg h

/-- C24 at a concrete input: with the locale `en_US` the block for `en_GB` of
the sample file has no effect. -/
theorem C24_locale_blocks_witness :
    readlines digitstrtod "en_US".toList (fun _ _ => none) "units.dat".toList 0
        { db := emptydb, goterr := false, wronglocale := false, inlocale := false }
        (fileline.localeline "en_GB".toList ::
          ([fileline.definition "litre".toList "!".toList] ++
            fileline.endlocaleline ::
              [fileline.localeline "en_US".toList,
                fileline.definition "liter".toList "!".toList,
                fileline.endlocaleline,
                fileline.definition "meter".toList "!".toList]))
      = readlines digitstrtod "en_US".toList (fun _ _ => none) "units.dat".toList 0
          { db := emptydb, goterr := false, wronglocale := false, inlocale := false }
          [fileline.localeline "en_US".toList,
            fileline.definition "liter".toList "!".toList,
            fileline.endlocaleline,
            fileline.definition "meter".toList "!".toList] :=
  (C24_locale_blocks digitstrtod "en_US".toList (fun _ _ => none) "units.dat".toList 0).1
    { db := emptydb, goterr := false, wronglocale := false, inlocale := false }
    "en_GB".toList [fileline.definition "litre".toList "!".toList] _ rfl rfl
    (by decide) (by decide) (by decide)


/-! ## Included files -/

theorem readline_returns (strtod : Strtod) (mylocale : CStr)
    (recurse : CStr → Database → Option (Int × Database)) (file : CStr) (depth : Nat)
    (st : loadstate) (line : fileline)
    (hrec : depth ≤ MAXINCLUDE → ∀ f d, (recurse f d).isSome = true) :
    (readline strtod mylocale recurse file depth st line).isSome = true := by
  cases line with
  | localeline name =>
    simp only [readline]
    split
    · rfl
    · split <;> rfl
  | endlocaleline => rfl
  | includeline name =>
    simp only [readline]
    split
    · rfl
    · split
      · rfl
      · rename_i hd
        have h := hrec (by omega) (includefile file name) st.db
        cases hr : recurse (includefile file name) st.db with
        | none => rw [hr] at h; exact Bool.noConfusion h
        | some r => rfl
  | badcommand =>
    simp only [readline]
    split <;> rfl
  | blank => rfl
  | nodef n =>
    simp only [readline]
    split <;> rfl
  | definition n d =>
    simp only [readline]
    split <;> rfl

theorem readlines_returns (strtod : Strtod) (mylocale : CStr)
    (recurse : CStr → Database → Option (Int × Database)) (file : CStr) (depth : Nat)
    (hrec : depth ≤ MAXINCLUDE → ∀ f d, (recurse f d).isSome = true) :
    ∀ (lines : List fileline) (st : loadstate),
      (readlines strtod mylocale recurse file depth st lines).isSome = true
  | [], _ => rfl
  | l :: lines, st => by
    rw [readlines]
    have h := readline_returns strtod mylocale recurse file depth st l hrec
    cases hr : readline strtod mylocale recurse file depth st l with
    | none => rw [hr] at h; exact Bool.noConfusion h
    | some s => exact readlines_returns strtod mylocale recurse file depth hrec lines s

/-- The load returns: a chain of `MAXINCLUDE + 2` calls is never exceeded, also
when a file includes itself. -/
theorem readunitsAt_returns (strtod : Strtod) (mylocale : CStr)
    (files : CStr → Option (List fileline)) :
    ∀ (fuel depth : Nat) (file : CStr) (db : Database), depth ≤ MAXINCLUDE + 1 →
      MAXINCLUDE + 2 ≤ fuel + depth →
      (readunitsAt strtod mylocale files fuel depth file db).isSome = true
  | 0, depth, file, db, hd, h => by
    exfalso
    omega
  | fuel + 1, depth, file, db, hd, h => by
    rw [readunitsAt]
    cases files file with
    | none => rfl
    | some lines =>
      simp only
      have hl := readlines_returns strtod mylocale
        (readunitsAt strtod mylocale files fuel (depth + 1)) file depth
        (fun hd2 f d => readunitsAt_returns strtod mylocale files fuel (depth + 1) f d
          (by omega) (by omega))
        lines { db := db, goterr := false, wronglocale := false, inlocale := false }
      cases hr : readlines strtod mylocale
          (readunitsAt strtod mylocale files fuel (depth + 1)) file depth
          { db := db, goterr := false, wronglocale := false, inlocale := false } lines with
      | none => rw [hr] at hl; exact Bool.noConfusion hl
      | some s => rfl

theorem readunitsfile_returns (strtod : Strtod) (mylocale : CStr)
    (files : CStr → Option (List fileline)) (file : CStr) (db : Database) :
    (readunitsfile strtod mylocale files file db).isSome = true :=
  readunitsAt_returns strtod mylocale files (MAXINCLUDE + 2) 0 file db (Nat.zero_le _)
    (Nat.le_refl _)

/-- An `!include` met at a depth above `MAXINCLUDE` is not followed and sets
`goterr`. -/
theorem readline_include_refused (strtod : Strtod) (mylocale : CStr)
    (recurse : CStr → Database → Option (Int × Database)) (file : CStr) (depth : Nat)
    (st : loadstate) (name : CStr) (hw : st.wronglocale = false) (hd : MAXINCLUDE < depth) :
    readline strtod mylocale recurse file depth st (fileline.includeline name)
      = some { st with goterr := true } := by
  have hd2 : depth > MAXINCLUDE := hd
  simp only [readline, hw, Bool.false_eq_true, if_false, if_pos hd2]

/-- C23, the code at the failing input: `f0` includes `f1`, ..., `f5` includes
`f6`, so that `f6` stands at include depth 6; `readunits` reads it, defines
its unit `deep` and returns 0. -/
theorem C23_depth_six_read :
    (readunitsfile digitstrtod "en_US".toList chainfiles "f0".toList emptydb).map
        (fun r => (r.1, ulookup r.2 "deep".toList))
      = some (0, some { name := "deep".toList, value := "!".toList }) := by
  decide


/-! ## The check of tables -/

theorem SIGN_eq_one (x : ℚ) : SIGN x = 1 ↔ 0 < x := by
  unfold SIGN
  by_cases h1 : x > 0
  · simp [h1]
  · by_cases h2 : x < 0
    · simp only [if_neg h1, if_pos h2]
      constructor
      · intro h; exact absurd h (by decide)
      · intro h; exact absurd h h1
    · simp only [if_neg h1, if_neg h2]
      constructor
      · intro h; exact absurd h (by decide)
      · intro h; exact absurd h h1

theorem SIGN_eq_neg_one (x : ℚ) : SIGN x = -1 ↔ x < 0 := by
  unfold SIGN
  by_cases h1 : x > 0
  · simp only [if_pos h1]
    constructor
    · intro h; exact absurd h (by decide)
    · intro h; exact absurd h (not_lt.2 (le_of_lt h1))
  · by_cases h2 : x < 0
    · simp [h1, h2]
    · simp only [if_neg h1, if_neg h2]
      constructor
      · intro h; exact absurd h (by decide)
      · intro h; exact absurd h h2

theorem SIGN_eq_zero (x : ℚ) : SIGN x = 0 ↔ x = 0 := by
  unfold SIGN
  by_cases h1 : x > 0
  · simp only [if_pos h1]
    constructor
    · intro h; exact absurd h (by decide)
    · intro h; rw [h] at h1; exact absurd h1 (lt_irrefl _)
  · by_cases h2 : x < 0
    · simp only [if_neg h1, if_pos h2]
      constructor
      · intro h; exact absurd h (by decide)
      · intro h; rw [h] at h2; exact absurd h2 (lt_irrefl _)
    · simp only [if_neg h1, if_neg h2, true_iff]
      exact le_antisymm (not_lt.1 h1) (not_lt.1 h2)

theorem SIGN_cases (x : ℚ) : SIGN x = 1 ∨ SIGN x = -1 ∨ SIGN x = 0 := by
  unfold SIGN
  split
  · exact Or.inl rfl
  · split
    · exact Or.inr (Or.inl rfl)
    · exact Or.inr (Or.inr rfl)

theorem checkfuncLoop_nothing_iff (d : Int) : ∀ (prev : pair) (rest : List pair),
    checkfuncLoop d prev rest = tablemessage.nothing ↔
      List.Chain (fun a b => SIGN (b.value - a.value) = d) prev rest
  | prev, [] => by simp [checkfuncLoop]
  | prev, p :: rest => by
    rw [checkfuncLoop, List.chain_cons]
    by_cases h : SIGN (p.value - prev.value) = d
    · rw [if_neg (not_not.2 h)]
      simp only [h, true_and]
      exact checkfuncLoop_nothing_iff d p rest
    · rw [if_pos h]
      simp only [h, false_and, iff_false]
      intro hc
      exact tablemessage.noConfusion hc

/-- What the check lets pass: `checkfunc` prints nothing for a table of two or
more points exactly when its values are strictly increasing, strictly
decreasing, or all equal. -/
theorem checkfunc_nothing_iff (p0 p1 : pair) (rest : List pair) :
    checkfunc (p0 :: p1 :: rest) = tablemessage.nothing ↔
      (p0 :: p1 :: rest).Chain' (fun a b => a.value < b.value) ∨
      (p0 :: p1 :: rest).Chain' (fun a b => b.value < a.value) ∨
      (p0 :: p1 :: rest).Chain' (fun a b => a.value = b.value) := by
  have hloop : checkfunc (p0 :: p1 :: rest) = tablemessage.nothing ↔
      (p0 :: p1 :: rest).Chain'
        (fun a b => SIGN (b.value - a.value) = SIGN (p1.value - p0.value)) := by
    rw [checkfunc, checkfuncLoop_nothing_iff, List.chain'_cons]
    simp only [true_and]
    rfl
  have hinc : ∀ l : List pair,
      l.Chain' (fun a b => SIGN (b.value - a.value) = 1) ↔
        l.Chain' (fun a b => a.value < b.value) :=
    fun l => List.Chain'.iff (fun a b => by rw [SIGN_eq_one, sub_pos])
  have hdec : ∀ l : List pair,
      l.Chain' (fun a b => SIGN (b.value - a.value) = -1) ↔
        l.Chain' (fun a b => b.value < a.value) :=
    fun l => List.Chain'.iff (fun a b => by rw [SIGN_eq_neg_one, sub_neg])
  have hflat : ∀ l : List pair,
      l.Chain' (fun a b => SIGN (b.value - a.value) = 0) ↔
        l.Chain' (fun a b => a.value = b.value) :=
    fun l => List.Chain'.iff (fun a b => by
      rw [SIGN_eq_zero, sub_eq_zero]
      exact eq_comm)
  rw [hloop]
  constructor
  · intro h
    rcases SIGN_cases (p1.value - p0.value) with e | e | e
    · rw [e] at h; exact Or.inl ((hinc _).1 h)
    · rw [e] at h; exact Or.inr (Or.inl ((hdec _).1 h))
    · rw [e] at h; exact Or.inr (Or.inr ((hflat _).1 h))
  · rintro (h | h | h)
    · have e : SIGN (p1.value - p0.value) = 1 := by
        rw [SIGN_eq_one, sub_pos]
        exact (List.chain'_cons.1 h).1
      rw [e]; exact (hinc _).2 h
    · have e : SIGN (p1.value - p0.value) = -1 := by
        rw [SIGN_eq_neg_one, sub_neg]
        exact (List.chain'_cons.1 h).1
      rw [e]; exact (hdec _).2 h
    · have e : SIGN (p1.value - p0.value) = 0 := by
        rw [SIGN_eq_zero, sub_eq_zero]
        exact ((List.chain'_cons.1 h).1).symm
      rw [e]; exact (hflat _).2 h

/-- C27, the code at the failing input: for the table `0 5 1 5 2 5`, whose
values are neither strictly increasing nor strictly decreasing, and for the
table `0 5 1 5`, `checkfunc` prints nothing. -/
theorem C27_flat_table_unreported :
    checkfunc [{ location := 0, value := 5 }, { location := 1, value := 5 },
      { location := 2, value := 5 }] = tablemessage.nothing ∧
    checkfunc [{ location := 0, value := 5 }, { location := 1, value := 5 }]
      = tablemessage.nothing ∧
    ¬ [({ location := 0, value := 5 } : pair), { location := 1, value := 5 },
        { location := 2, value := 5 }].Chain' (fun a b => a.value < b.value) ∧
    ¬ [({ location := 0, value := 5 } : pair), { location := 1, value := 5 },
        { location := 2, value := 5 }].Chain' (fun a b => b.value < a.value) := by
  refine ⟨?_, ?_, ?_, ?_⟩
  · simp [checkfunc, checkfuncLoop, SIGN]
  · simp [checkfunc, checkfuncLoop]
  · simp
  · simp


/-! ## Searching the tables -/

theorem addtolist_text (db : Database) (parseunit : Parser) (fuel : Nat)
    (s rname : CStr) (name : Option CStr) (defn : CStr) (list : List namedef) :
    ∃ out, addtolist db parseunit fuel none s rname name defn list = some out ∧
      out.map (fun e => e.name)
        = list.map (fun e => e.name) ++
            (if name.isSome = true ∧ strstr rname s = true then [rname] else []) := by
  unfold addtolist
  cases name with
  | none => exact ⟨list, rfl, by simp⟩
  | some nm =>
    simp only
    by_cases hk : strstr rname s = true
    · simp only [hk]
      exact ⟨_, rfl, by simp⟩
    · have hk2 : strstr rname s = false := by simpa using hk
      simp only [hk2]
      exact ⟨list, rfl, by simp⟩

theorem addunits_text (db : Database) (parseunit : Parser) (fuel : Nat) (s : CStr) :
    ∀ (us : List unitlist) (list : List namedef),
      ∃ out, addunits db parseunit fuel none s us list = some out ∧
        out.map (fun e => e.name)
          = list.map (fun e => e.name) ++
              (us.filter (fun u => strstr u.name s)).map (fun u => u.name)
  | [], list => ⟨list, rfl, by simp⟩
  | u :: us, list => by
    obtain ⟨o1, h1, e1⟩ := addtolist_text db parseunit fuel s u.name (some u.name) u.value list
    obtain ⟨o2, h2, e2⟩ := addunits_text db parseunit fuel s us o1
    refine ⟨o2, ?_, ?_⟩
    · rw [addunits, h1]
      exact h2
    · rw [e2, e1]
      by_cases hk : strstr u.name s = true
      · simp [hk, List.filter_cons]
      · simp [hk, List.filter_cons]

/-- The names `addfuncs` adds in a text search.  The argument `name` that
`tryallunits` gives to `addtolist` is the co-unit of a table and the inverse
dimension of a function; `addtolist` returns at once when it is null. -/
theorem addfuncs_text (db : Database) (parseunit : Parser) (fuel : Nat) (s : CStr) :
    ∀ (fs : List func) (list : List namedef),
      ∃ out, addfuncs db parseunit fuel none s fs list = some out ∧
        out.map (fun e => e.name)
          = list.map (fun e => e.name) ++
              (fs.filter (fun f =>
                (if f.table.isSome then f.tableunit else f.inverse.dimen).isSome &&
                  strstr f.name s)).map (fun f => f.name)
  | [], list => ⟨list, rfl, by simp⟩
  | f :: fs, list => by
    have hstep : ∃ o1,
        (if f.table.isSome then
          addtolist db parseunit fuel none s f.name f.tableunit "<piecewise linear>".toList list
        else
          addtolist db parseunit fuel none s f.name f.inverse.dimen "<nonlinear>".toList list)
          = some o1 ∧
        o1.map (fun e => e.name)
          = list.map (fun e => e.name) ++
              (if (if f.table.isSome then f.tableunit else f.inverse.dimen).isSome = true ∧
                  strstr f.name s = true then [f.name] else []) := by
      by_cases ht : f.table.isSome = true
      · simp only [ht, if_true]
        exact addtolist_text db parseunit fuel s f.name f.tableunit _ list
      · simp only [ht, Bool.false_eq_true, if_false]
        exact addtolist_text db parseunit fuel s f.name f.inverse.dimen _ list
    obtain ⟨o1, h1, e1⟩ := hstep
    obtain ⟨o2, h2, e2⟩ := addfuncs_text db parseunit fuel s fs o1
    refine ⟨o2, ?_, ?_⟩
    · rw [addfuncs, h1]
      exact h2
    · rw [e2, e1]
      by_cases hk : (if f.table.isSome then f.tableunit else f.inverse.dimen).isSome = true ∧
          strstr f.name s = true
      · have hk2 : ((if f.table.isSome then f.tableunit else f.inverse.dimen).isSome &&
            strstr f.name s) = true := by simpa using hk
        rw [List.filter_cons, if_pos hk2, if_pos hk]
        simp
      · have hk2 : ¬ ((if f.table.isSome then f.tableunit else f.inverse.dimen).isSome &&
            strstr f.name s) = true := by simpa using hk
        rw [List.filter_cons, if_neg hk2, if_neg hk]
        simp

theorem sorted_names (l : List namedef) :
    ((l.insertionSort (fun a b => strcmp a.name b.name ≤ 0)).map (fun e => e.name)).Sorted
      strle := by
  haveI : IsTotal namedef (fun a b => strcmp a.name b.name ≤ 0) :=
    ⟨fun a b => strle_total a.name b.name⟩
  haveI : IsTrans namedef (fun a b => strcmp a.name b.name ≤ 0) :=
    ⟨fun a b c hab hbc => strle_trans hab hbc⟩
  have h := List.sorted_insertionSort (fun a b : namedef => strcmp a.name b.name ≤ 0) l
  exact List.pairwise_map.2 h

/-- The names `tryallunits` lists in a text search: those of the units whose
name holds the string and those of the functions whose name holds the string
and for which the argument `name` of `addtolist` is not null, sorted. -/
theorem tryallunits_text (db : Database) (parseunit : Parser) (fuel : Nat) (s : Option CStr) :
    ∃ listing, tryallunits db parseunit fuel none s = some listing ∧
      (listing.map (fun e => e.name)).Sorted strle ∧
      (listing.map (fun e => e.name)).Perm
        ((db.utab.filter (fun u => strstr u.name (s.getD []))).map (fun u => u.name) ++
          (db.funcs.filter (fun f =>
            (if f.table.isSome then f.tableunit else f.inverse.dimen).isSome &&
              strstr f.name (s.getD []))).map (fun f => f.name)) := by
  obtain ⟨o1, h1, e1⟩ := addunits_text db parseunit fuel (s.getD []) db.utab []
  obtain ⟨o2, h2, e2⟩ := addfuncs_text db parseunit fuel (s.getD []) db.funcs o1
  refine ⟨_, ?_, sorted_names o2, ?_⟩
  · unfold tryallunits
    rw [h1]
    simp only
    rw [h2]
  · have hp := (List.perm_insertionSort (fun a b : namedef => strcmp a.name b.name ≤ 0) o2).map
      (fun e => e.name)
    refine hp.trans ?_
    rw [e2, e1]
    simp

theorem strstr_iff (haystack needle : CStr) :
    strstr haystack needle = true ↔ List.IsInfix needle haystack := by
  unfold strstr
  rw [List.any_eq_true, List.infix_iff_prefix_suffix]
  constructor
  · rintro ⟨t, ht, hp⟩
    exact ⟨t, List.isPrefixOf_iff_prefix.1 hp, (List.mem_tails _ _).1 ht⟩
  · rintro ⟨t, hp, ht⟩
    exact ⟨t, (List.mem_tails _ _).2 ht, List.isPrefixOf_iff_prefix.2 hp⟩

/-- C28, the claim refuted: the lines `meter !`, `foo !`, `foo[meter] 0 0 1 1`
and `f(x) x` load without error into a database in which `foo` is a unit and a
table; the text search for `foo` lists the name `foo` twice. -/
theorem C28_counterexample :
    (readunits digitstrtod emptydb
        [("meter".toList, "!".toList), ("foo".toList, "!".toList),
          ("foo[meter]".toList, "0 0 1 1".toList), ("f(x)".toList, "x".toList)]).1.utab
      = searchdb.utab ∧
    (readunits digitstrtod emptydb
        [("meter".toList, "!".toList), ("foo".toList, "!".toList),
          ("foo[meter]".toList, "0 0 1 1".toList), ("f(x)".toList, "x".toList)]).1.funcs
      = searchdb.funcs ∧
    readunitsreturn (readunits digitstrtod emptydb
        [("meter".toList, "!".toList), ("foo".toList, "!".toList),
          ("foo[meter]".toList, "0 0 1 1".toList), ("f(x)".toList, "x".toList)]) = 0 ∧
    (tryallunits searchdb noparser 0 none (some "foo".toList)).map
        (fun l => l.map (fun e => e.name))
      = some ["foo".toList, "foo".toList] := by
  decide

/-- C28, amended. Text search: for every search string, `tryallunits` in
text-match mode returns a list whose names are in ascending `strcmp` order and
are, as a multiset, the names of the defined units whose name contains the
string, one entry for each, together with names of functions and tables whose
name contains the string, among them one entry for every table that has a
co-unit and every function that has an inverse dimension; a name that is
defined as a unit and as a function or table is listed once for each.  A name
contains the string when the string is a run of consecutive characters of it. -/
theorem C28_text_search (db : Database) (parseunit : Parser) (fuel : Nat) (s : CStr) :
    (∀ name : CStr, strstr name s = true ↔ List.IsInfix s name) ∧
    ∃ (listing : List namedef) (fnames : List CStr),
      tryallunits db parseunit fuel none (some s) = some listing ∧
      (listing.map (fun e => e.name)).Sorted strle ∧
      (listing.map (fun e => e.name)).Perm
        ((db.utab.filter (fun u => strstr u.name s)).map (fun u => u.name) ++ fnames) ∧
      ((db.funcs.filter (fun f =>
          (if f.table.isSome then f.tableunit else f.inverse.dimen).isSome &&
            strstr f.name s)).map (fun f => f.name)).Sublist fnames ∧
      fnames.Sublist ((db.funcs.filter (fun f => strstr f.name s)).map (fun f => f.name)) := by
  obtain ⟨listing, h1, h2, h3⟩ := tryallunits_text db parseunit fuel (some s)
  refine ⟨fun name => strstr_iff name s, listing, _, h1, h2, h3, List.Sublist.refl _, ?_⟩
  apply List.Sublist.map
  apply List.monotone_filter_right
  intro f hf
  simp only [Option.getD_some, Bool.and_eq_true] at hf
  exact hf.2


/-- What `addtolist` does in a conformable search: the entry is added exactly
when `compareunits` finds `have` and what `parseunit` and `completereduce` left
in `want` conformable; the return values of the two are not consulted. -/
theorem addtolist_conformable (db : Database) (parseunit : Parser) (fuel : Nat)
    (h : unittype) (s rname name defn : CStr) (list : List namedef)
    (want : Int × unittype × Option CStr)
    (hred : completereduce db parseunit fuel (parseunit name).2 = some want) :
    addtolist db parseunit fuel (some h) s rname (some name) defn list
      = some (if compareunits h want.2.1 (ignore_dimless db) = 0 then
          list ++
            [{ name := rname
               defn := if strchr defn PRIMITIVECHAR then "<primitive unit>".toList else defn }]
        else list) := by
  unfold addtolist
  simp only [hred]
  by_cases hc : compareunits h want.2.1 (ignore_dimless db) = 0
  · simp only [hc, decide_True, if_true]
  · simp only [hc, decide_False, if_false]

/-- C29, the code at the failing input: the lines `meter !`,
`are meter meter` and `bad ((` load without error; the definition of `bad` does
not parse, so the complete reduction of `bad` fails with `E_REDUCE`; the
conformable search for the number 1 lists `bad`. -/
theorem C29_unreduced_unit_listed :
    (readunits digitstrtod emptydb
        [("meter".toList, "!".toList), ("are".toList, "meter meter".toList),
          ("bad".toList, "((".toList)]).1.utab = aredb.utab ∧
    readunitsreturn (readunits digitstrtod emptydb
        [("meter".toList, "!".toList), ("are".toList, "meter meter".toList),
          ("bad".toList, "((".toList)]) = 0 ∧
    (wordsparser "bad".toList).1 = 0 ∧
    (completereduce aredb wordsparser 5 (wordsparser "bad".toList).2).map (fun r => r.1)
      = some E_REDUCE ∧
    (tryallunits aredb wordsparser 5 (some initializeunit) none).map
        (fun l => l.map (fun e => e.name))
      = some ["bad".toList] := by
  decide

/-! ## invertunit -/

theorem arraylength_le (a : List (Option CStr)) : arraylength a ≤ a.length :=
  (List.takeWhile_prefix _).length_le

/-- What a coarser predicate keeps is a filter of what a finer one keeps. -/
theorem kept_filter (p q : Option CStr → Bool)
    (hpq : ∀ a, p (some a) = true → q (some a) = true) (l : List CStr) :
    kept q l = (kept p l).filter (fun a => !q (some a)) := by
  unfold kept
  rw [List.filter_filter]
  apply List.filter_congr
  intro a _
  by_cases hq : q (some a) = true
  · simp [hq]
  · have hp : p (some a) ≠ true := fun h => hq (hpq a h)
    simp only [Bool.not_eq_true] at hq hp
    simp [hq, hp]

theorem compareunits_mono (p q : Option CStr → Bool) (hp : p none = false)
    (hq : q none = false) (hpq : ∀ a, p (some a) = true → q (some a) = true)
    (a b : unittype) (h : compareunits a b p = 0) : compareunits a b q = 0 := by
  rw [compareunits_eq_zero_iff p hp] at h
  rw [compareunits_eq_zero_iff q hq, kept_filter p q hpq, kept_filter p q hpq,
    kept_filter p q hpq, kept_filter p q hpq, h.1, h.2]
  exact ⟨rfl, rfl⟩

/-- Every name that `ignore_dimless` ignores is ignored by `ignore_primitive`:
the body `!dimensionless` contains `!`. -/
theorem ignore_dimless_primitive (db : Database) (name : Option CStr)
    (h : ignore_dimless db name = true) : ignore_primitive db name = true := by
  cases name with
  | none => simp [ignore_dimless] at h
  | some name =>
    simp only [ignore_dimless, ignore_primitive] at h ⊢
    cases hu : ulookup db name with
    | none => simp [hu] at h
    | some ul =>
      simp only [hu, decide_eq_true_eq] at h ⊢
      rw [strcmp_eq_zero_iff] at h
      rw [h]
      decide

/-- C38: for every database and all values `a` and `b`, conformability under
`ignore_nothing` gives conformability under `ignore_dimless`, and
conformability under `ignore_dimless` gives conformability under
`ignore_primitive`; every name that `ignore_dimless` ignores is ignored by
`ignore_primitive`. -/
theorem C38_ignore_monotone (db : Database) (a b : unittype) :
    (compareunits a b ignore_nothing = 0 → compareunits a b (ignore_dimless db) = 0) ∧
    (compareunits a b (ignore_dimless db) = 0 →
      compareunits a b (ignore_primitive db) = 0) ∧
    (∀ name, ignore_dimless db name = true → ignore_primitive db name = true) :=
  ⟨compareunits_mono ignore_nothing (ignore_dimless db) rfl rfl
      (fun _ h => by simp [ignore_nothing] at h) a b,
    compareunits_mono (ignore_dimless db) (ignore_primitive db) rfl rfl
      (fun x h => ignore_dimless_primitive db (some x) h) a b,
    ignore_dimless_primitive db⟩

theorem C38_ignore_monotone_witness :
    compareunits (meters 1) (meters 2) ignore_nothing = 0 ∧
    compareunits (meters 1) (meters 2) (ignore_dimless sampledb) = 0 ∧
    ((compareunits (meters 1) (meters 2) ignore_nothing = 0 →
      compareunits (meters 1) (meters 2) (ignore_dimless sampledb) = 0) ∧
    (compareunits (meters 1) (meters 2) (ignore_dimless sampledb) = 0 →
      compareunits (meters 1) (meters 2) (ignore_primitive sampledb) = 0) ∧
    (∀ name, ignore_dimless sampledb name = true → ignore_primitive sampledb name = true)) :=
  ⟨by decide, by decide, C38_ignore_monotone sampledb (meters 1) (meters 2)⟩

/-! ## Termination of lookupunit -/

theorem readline_ordered (strtod : Strtod) (mylocale : CStr)
    (recurse : CStr → Database → Option (Int × Database)) (file : CStr) (depth : Nat)
    (hrec : ∀ f d r, ptabOrdered d.ptab → recurse f d = some r → ptabOrdered r.2.ptab)
    (st st1 : loadstate) (line : fileline) (hst : ptabOrdered st.db.ptab)
    (h : readline strtod mylocale recurse file depth st line = some st1) :
    ptabOrdered st1.db.ptab := by
  cases line with
  | localeline name =>
    simp only [readline] at h
    split at h
    · simp only [Option.some.injEq] at h; rw [← h]; exact hst
    · split at h <;> (simp only [Option.some.injEq] at h; rw [← h]; exact hst)
  | endlocaleline =>
    simp only [readline, Option.some.injEq] at h; rw [← h]; exact hst
  | includeline name =>
    simp only [readline] at h
    split at h
    · simp only [Option.some.injEq] at h; rw [← h]; exact hst
    · split at h
      · simp only [Option.some.injEq] at h; rw [← h]; exact hst
      · cases hr : recurse (includefile file name) st.db with
        | none => rw [hr] at h; exact Option.noConfusion h
        | some r =>
          rw [hr] at h
          simp only [Option.some.injEq] at h
          rw [← h]
          exact hrec _ _ r hst hr
  | badcommand =>
    simp only [readline] at h
    split at h <;> (simp only [Option.some.injEq] at h; rw [← h]; exact hst)
  | blank =>
    simp only [readline, Option.some.injEq] at h; rw [← h]; exact hst
  | nodef n =>
    simp only [readline] at h
    split at h <;> (simp only [Option.some.injEq] at h; rw [← h]; exact hst)
  | definition unitname unitdef =>
    simp only [readline] at h
    split at h
    · simp only [Option.some.injEq] at h; rw [← h]; exact hst
    · simp only [Option.some.injEq] at h
      rw [← h]
      exact readdefinition_ordered strtod st.db unitname unitdef hst

theorem readlines_ordered (strtod : Strtod) (mylocale : CStr)
    (recurse : CStr → Database → Option (Int × Database)) (file : CStr) (depth : Nat)
    (hrec : ∀ f d r, ptabOrdered d.ptab → recurse f d = some r → ptabOrdered r.2.ptab) :
    ∀ (lines : List fileline) (st st1 : loadstate), ptabOrdered st.db.ptab →
      readlines strtod mylocale recurse file depth st lines = some st1 →
      ptabOrdered st1.db.ptab
  | [], st, st1, hst, h => by
    simp only [readlines, Option.some.injEq] at h
    rw [← h]; exact hst
  | l :: lines, st, st1, hst, h => by
    rw [readlines] at h
    cases hr : readline strtod mylocale recurse file depth st l with
    | none => rw [hr] at h; exact Option.noConfusion h
    | some s =>
      rw [hr] at h
      exact readlines_ordered strtod mylocale recurse file depth hrec lines s st1
        (readline_ordered strtod mylocale recurse file depth hrec st s l hst hr) h

/-- The prefix table that a load leaves is ordered when the one it found was. -/
theorem readunitsAt_ordered (strtod : Strtod) (mylocale : CStr)
    (files : CStr → Option (List fileline)) :
    ∀ (fuel depth : Nat) (file : CStr) (db : Database) (r : Int × Database),
      ptabOrdered db.ptab → readunitsAt strtod mylocale files fuel depth file db = some r →
      ptabOrdered r.2.ptab
  | 0, _, _, _, _, _, h => by
    rw [readunitsAt] at h; exact Option.noConfusion h
  | fuel + 1, depth, file, db, r, hdb, h => by
    rw [readunitsAt] at h
    cases hf : files file with
    | none =>
      rw [hf] at h
      simp only [Option.some.injEq] at h
      rw [← h]; exact hdb
    | some lines =>
      rw [hf] at h
      simp only at h
      cases hr : readlines strtod mylocale
          (readunitsAt strtod mylocale files fuel (depth + 1)) file depth
          { db := db, goterr := false, wronglocale := false, inlocale := false } lines with
      | none => rw [hr] at h; exact Option.noConfusion h
      | some st =>
        rw [hr] at h
        simp only [Option.some.injEq] at h
        rw [← h]
        exact readlines_ordered strtod mylocale _ file depth
          (fun f d r2 hd hr2 => readunitsAt_ordered strtod mylocale files fuel (depth + 1)
            f d r2 hd hr2)
          lines _ st hdb hr

/-- With an ordered prefix table the string after a matched prefix is strictly
shorter than the string. -/
theorem plookup_shorter (db : Database) (h : ptabOrdered db.ptab) (unit : CStr)
    (p : prefixlist) (hp : plookup db unit = some p) :
    1 ≤ p.len ∧ (unit.drop p.len).length < unit.length := by
  obtain ⟨hmem, hpre, _⟩ := plookup_longest db h unit p hp
  obtain ⟨hlen, hne⟩ := h.1 p hmem
  have h1 : 1 ≤ p.name.length := by
    cases hn : p.name with
    | nil => exact absurd hn hne
    | cons c t => simp
  have h2 : p.name.length ≤ unit.length := hpre.length_le
  simp only [List.length_drop]
  omega

/-- With an ordered prefix table the prefix branch consults its recursive call
on strictly shorter strings only. -/
theorem prefixBranch_congr_shorter (db : Database) (h : ptabOrdered db.ptab)
    (look1 look2 : CStr → Option CStr) (unit : CStr) (prefixok : Bool)
    (hl : ∀ c : CStr, c.length < unit.length → look1 c = look2 c) :
    prefixBranch db look1 unit prefixok = prefixBranch db look2 unit prefixok := by
  unfold prefixBranch
  cases prefixok with
  | false => rfl
  | true =>
    simp only [if_true]
    cases hp : plookup db unit with
    | none => rfl
    | some pfxptr =>
      simp only [hl _ (plookup_shorter db h unit pfxptr hp).2]

/-- With an ordered prefix table a depth of `strlen(unit) + 1` calls is never
exceeded. -/
theorem lookupunitAux_fuel_shorter (db : Database) (h : ptabOrdered db.ptab) :
    ∀ (fuel1 fuel2 : Nat) (unit : CStr) (prefixok : Bool),
      unit.length < fuel1 → unit.length < fuel2 →
      lookupunitAux db fuel1 unit prefixok = lookupunitAux db fuel2 unit prefixok
  | 0, _, _, _, h1, _ => by omega
  | _ + 1, 0, _, _, _, h2 => by omega
  | fuel1 + 1, fuel2 + 1, unit, prefixok, h1, h2 => by
    unfold lookupunitAux
    have hp : pluralS (fun copy => lookupunitAux db fuel1 copy prefixok) unit
        = pluralS (fun copy => lookupunitAux db fuel2 copy prefixok) unit := by
      apply pluralS_congr
      intro c hc
      exact lookupunitAux_fuel_shorter db h fuel1 fuel2 c prefixok (by omega) (by omega)
    have hq : prefixBranch db (fun copy => lookupunitAux db fuel1 copy false) unit prefixok
        = prefixBranch db (fun copy => lookupunitAux db fuel2 copy false) unit prefixok := by
      apply prefixBranch_congr_shorter db h
      intro c hc
      exact lookupunitAux_fuel_shorter db h fuel1 fuel2 c false (by omega) (by omega)
    rw [hp, hq]

theorem lookupunit_terminates (db : Database) (h : ptabOrdered db.ptab) (unit : CStr)
    (prefixok : Bool) :
    (∀ p ∈ db.ptab, 1 ≤ p.len) ∧
    (∀ look1 look2 : CStr → Option CStr,
      (∀ c : CStr, c.length < unit.length → look1 c = look2 c) →
      pluralS look1 unit = pluralS look2 unit ∧
      prefixBranch db look1 unit prefixok = prefixBranch db look2 unit prefixok) ∧
    (∀ fuel, unit.length < fuel →
      lookupunitAux db fuel unit prefixok = lookupunit db unit prefixok) := by
  refine ⟨?_, ?_, ?_⟩
  · intro p hp
    obtain ⟨hlen, hne⟩ := h.1 p hp
    rw [hlen]
    cases hn : p.name with
    | nil => exact absurd hn hne
    | cons c t => simp
  · intro look1 look2 hl
    exact ⟨pluralS_congr look1 look2 unit hl,
      prefixBranch_congr_shorter db h look1 look2 unit prefixok hl⟩
  · intro fuel hf
    unfold lookupunit
    exact lookupunitAux_fuel_shorter db h fuel _ unit prefixok hf (by omega)

/-- The tables that `readunits` builds from definition lines: `lookupunit`
terminates within `strlen(unit) + 1` nested calls. -/
theorem lookupunit_terminates_lines (strtod : Strtod) (lines : List (CStr × CStr))
    (unit : CStr) (prefixok : Bool) (fuel : Nat) (hf : unit.length < fuel) :
    lookupunitAux (readunits strtod emptydb lines).1 fuel unit prefixok =
      lookupunit (readunits strtod emptydb lines).1 unit prefixok :=
  (lookupunit_terminates _
    (readunits_ordered strtod lines emptydb ⟨fun _ hp => by simp [emptydb] at hp,
      List.Pairwise.nil⟩) unit prefixok).2.2 fuel hf

/-- C39: in the tables that a load of a units file (with the files it includes)
leaves, every registered prefix has length at least 1, the definition of the
empty prefix `-` being refused; the plural branch and the prefix branch of
`lookupunit(unit, prefixok)` consult recursive calls on names strictly shorter
than `unit` only; and `lookupunit` terminates: `strlen(unit) + 1` nested calls
are never exceeded, every larger allowance gives the same answer. -/
theorem C39_lookupunit_terminates (strtod : Strtod) (mylocale : CStr)
    (files : CStr → Option (List fileline)) (file : CStr) (r : Int × Database)
    (hload : readunitsfile strtod mylocale files file emptydb = some r)
    (unit : CStr) (prefixok : Bool) :
    (∀ (db : Database) (unitdef : CStr),
      readdefinition strtod db ['-'] unitdef = (db, true)) ∧
    (∀ p ∈ r.2.ptab, 1 ≤ p.len) ∧
    (∀ look1 look2 : CStr → Option CStr,
      (∀ c : CStr, c.length < unit.length → look1 c = look2 c) →
      pluralS look1 unit = pluralS look2 unit ∧
      prefixBranch r.2 look1 unit prefixok = prefixBranch r.2 look2 unit prefixok) ∧
    (∀ fuel, unit.length < fuel →
      lookupunitAux r.2 fuel unit prefixok = lookupunit r.2 unit prefixok) := by
  have hord : ptabOrdered r.2.ptab :=
    readunitsAt_ordered strtod mylocale files (MAXINCLUDE + 2) 0 file emptydb r
      ⟨fun _ hp => by simp [emptydb] at hp, List.Pairwise.nil⟩ hload
  refine ⟨?_, lookupunit_terminates r.2 hord unit prefixok⟩
  intro db unitdef
  simp [readdefinition, readprefixline, startsdigit]

theorem C39_lookupunit_terminates_witness :
    readunitsfile digitstrtod [] prefixfile "u".toList emptydb = some (0, prefixdb) ∧
    ((∀ (db : Database) (unitdef : CStr),
      readdefinition digitstrtod db ['-'] unitdef = (db, true)) ∧
    (∀ p ∈ prefixdb.ptab, 1 ≤ p.len) ∧
    (∀ look1 look2 : CStr → Option CStr,
      (∀ c : CStr, c.length < "kilometers".toList.length → look1 c = look2 c) →
      pluralS look1 "kilometers".toList = pluralS look2 "kilometers".toList ∧
      prefixBranch prefixdb look1 "kilometers".toList true =
        prefixBranch prefixdb look2 "kilometers".toList true) ∧
    (∀ fuel, "kilometers".toList.length < fuel →
      lookupunitAux prefixdb fuel "kilometers".toList true =
        lookupunit prefixdb "kilometers".toList true)) :=
  ⟨rfl, C39_lookupunit_terminates digitstrtod [] prefixfile "u".toList (0, prefixdb)
    rfl "kilometers".toList true⟩

/-! ## The spellings that the plural branch resolves -/

theorem dropLast_append_of_getLast? {l : CStr} {c : Char} (h : l.getLast? = some c) :
    l = l.dropLast ++ [c] :=
  (List.dropLast_append_getLast? c (by simp [h])).symm

/-- The four spellings that the plural branch of `lookupunit` resolves: the
answer `r` followed by `s`, by `es`, or, when `r` is `stem ++ "y"`, `stem`
followed by `ies` or by `is`. -/
theorem pluralS_forms (look : CStr → Option CStr) (unit r : CStr)
    (h : pluralS look unit = some r) :
    (look r).isSome = true ∧
    (unit = r ++ ['s'] ∨ unit = r ++ ['e', 's'] ∨
      (∃ stem, r = stem ++ ['y'] ∧ unit = stem ++ ['i', 'e', 's']) ∨
      (∃ stem, r = stem ++ ['y'] ∧ unit = stem ++ ['i', 's'])) := by
  refine ⟨pluralS_resolves look unit r h, ?_⟩
  unfold pluralS at h
  split at h
  · rename_i hs
    have hu := dropLast_append_of_getLast? hs.2
    simp only at h
    split at h
    · simp only [Option.some.injEq] at h
      rw [← h]
      exact Or.inl hu
    · unfold pluralE at h
      split at h
      · rename_i he
        have hu2 := dropLast_append_of_getLast? he.2
        simp only at h
        split at h
        · simp only [Option.some.injEq] at h
          rw [← h]
          refine Or.inr (Or.inl ?_)
          rw [hu, hu2]
          simp
        · unfold pluralI at h
          split at h
          · rename_i hi
            have hu3 := dropLast_append_of_getLast? hi.2
            simp only at h
            split at h
            · simp only [Option.some.injEq] at h
              refine Or.inr (Or.inr (Or.inl ⟨unit.dropLast.dropLast.dropLast, h.symm, ?_⟩))
              conv_lhs => rw [hu, hu2, hu3]
              simp
            · exact Option.noConfusion h
          · exact Option.noConfusion h
      · unfold pluralI at h
        split at h
        · rename_i hi
          have hu3 := dropLast_append_of_getLast? hi.2
          simp only at h
          split at h
          · simp only [Option.some.injEq] at h
            refine Or.inr (Or.inr (Or.inr ⟨unit.dropLast.dropLast, h.symm, ?_⟩))
            conv_lhs => rw [hu, hu3]
            simp
          · exact Option.noConfusion h
        · exact Option.noConfusion h
  · exact Option.noConfusion h

/-- C32, the code at the failing input: with `henry` defined, `henris` is not
a defined unit and `henri` does not resolve, yet the plural branch of
`lookupunit("henris", 1)` turns the `i` left after the `s` into `y` and the
call returns `henry`. -/
theorem C32_is_resolves :
    ulookup sampledb "henris".toList = none ∧
    lookupunit sampledb "henri".toList true = none ∧
    pluralS (fun copy => lookupunit sampledb copy true) "henris".toList
      = some "henry".toList ∧
    lookupunit sampledb "henris".toList true = some "henry".toList := by
  decide

/-! ## The capacity of the arrays -/

/-- `moveproduct` keeps a product within the 99 entries that leave room for the
terminator, whatever it returns. -/
theorem moveproductLoop_capacity : ∀ (src product : List CStr) (dest : Nat),
    dest ≤ product.length → product.length ≤ MAXSUBUNITS - 1 →
    (moveproductLoop product dest src).2.1.length ≤ MAXSUBUNITS - 1 := by
  intro src
  induction src with
  | nil =>
    intro product dest _ h
    simpa [moveproductLoop] using h
  | cons s src ih =>
    intro product dest hdest hlen
    by_cases hs : s = NULLUNIT
    · rw [moveproductLoop, if_pos hs]
      exact ih product dest hdest hlen
    · rw [moveproductLoop, if_neg hs]
      simp only
      by_cases hov : freeslot product dest ≥ MAXSUBUNITS - 1
      · rw [if_pos hov]
        exact hlen
      · rw [if_neg hov]
        simp only
        have hle := freeslot_le product dest hdest
        apply ih
        · split
          · rw [List.length_set]; omega
          · rw [List.length_append, List.length_singleton]; omega
        · split
          · rw [List.length_set]; exact hlen
          · rw [List.length_append, List.length_singleton]; omega

theorem multunit_capacity (left right : unittype)
    (hn : left.numerator.length ≤ MAXSUBUNITS - 1)
    (hd : left.denominator.length ≤ MAXSUBUNITS - 1) :
    (multunit left right).2.1.numerator.length ≤ MAXSUBUNITS - 1 ∧
    (multunit left right).2.1.denominator.length ≤ MAXSUBUNITS - 1 := by
  have h1 := moveproductLoop_capacity right.numerator left.numerator 0 (Nat.zero_le _) hn
  have h2 := moveproductLoop_capacity right.denominator left.denominator 0 (Nat.zero_le _) hd
  unfold multunit
  simp only
  split
  · exact ⟨h1, hd⟩
  · exact ⟨h1, h2⟩

theorem divunit_capacity (left right : unittype)
    (hn : left.numerator.length ≤ MAXSUBUNITS - 1)
    (hd : left.denominator.length ≤ MAXSUBUNITS - 1) :
    (divunit left right).2.1.numerator.length ≤ MAXSUBUNITS - 1 ∧
    (divunit left right).2.1.denominator.length ≤ MAXSUBUNITS - 1 := by
  have h1 := moveproductLoop_capacity right.denominator left.numerator 0 (Nat.zero_le _) hn
  have h2 := moveproductLoop_capacity right.numerator left.denominator 0 (Nat.zero_le _) hd
  unfold divunit
  simp only
  split
  · exact ⟨h1, hd⟩
  · exact ⟨h1, h2⟩

/-- C33, the code at the failing inputs: the square of a value with fifty
atoms in the numerator is returned with 0 and a numerator of 100 entries, the
terminator standing at index 100 of the 100-slot array; the square of a value
with fifty atoms in the denominator is refused with `E_PRODOVERFLOW` after the
hundredth entry was written, the terminator again standing at index 100; and
`meter^100` is returned with 0 and a numerator of 100 entries. -/
theorem C33_expunit_overrun :
    fiftyabove.numerator.length ≤ MAXSUBUNITS - 1 ∧
    fiftyabove.denominator.length ≤ MAXSUBUNITS - 1 ∧
    (expunit fiftyabove 2).1 = 0 ∧
    (expunit fiftyabove 2).2.numerator.length = MAXSUBUNITS ∧
    fiftybelow.numerator.length ≤ MAXSUBUNITS - 1 ∧
    fiftybelow.denominator.length ≤ MAXSUBUNITS - 1 ∧
    (expunit fiftybelow 2).1 = E_PRODOVERFLOW ∧
    (expunit fiftybelow 2).2.denominator.length = MAXSUBUNITS ∧
    (expunit (meters 1) 100).1 = 0 ∧
    (expunit (meters 1) 100).2.numerator.length = MAXSUBUNITS := by
  decide

/-! ## Cancellation preserves the value -/

theorem cancelLoop_length :
    ∀ (fuel : Nat) (num den : List CStr),
      (cancelLoop fuel num den).1.length = num.length ∧
      (cancelLoop fuel num den).2.length = den.length
  | 0, num, den => by simp [cancelLoop]
  | _ + 1, [], den => by simp [cancelLoop]
  | _ + 1, _ :: _, [] => by simp [cancelLoop]
  | fuel + 1, n :: ns, d :: ds => by
    simp only [cancelLoop]
    split
    · have := cancelLoop_length fuel ns ds
      simp only [List.length_cons]
      omega
    · split
      · have := cancelLoop_length fuel (n :: ns) ds
        simp only [List.length_cons] at this ⊢
        omega
      · have := cancelLoop_length fuel ns (d :: ds)
        simp only [List.length_cons] at this ⊢
        omega

/-- Each cancellation removes one occurrence of an atom from both lists. -/
theorem cancelLoop_count (a : CStr) (ha : a ≠ NULLUNIT) :
    ∀ (fuel : Nat) (num den : List CStr),
      ((cancelLoop fuel num den).1.count a : Int) - (cancelLoop fuel num den).2.count a
        = (num.count a : Int) - den.count a
  | 0, num, den => by simp [cancelLoop]
  | _ + 1, [], den => by simp [cancelLoop]
  | _ + 1, _ :: _, [] => by simp [cancelLoop]
  | fuel + 1, n :: ns, d :: ds => by
    have hne : ¬ (NULLUNIT = a) := fun h => ha h.symm
    simp only [cancelLoop]
    split
    · rename_i h0
      have hdn : d = n := strcmp_eq_zero_iff.1 h0
      have ih := cancelLoop_count a ha fuel ns ds
      subst hdn
      simp only [List.count_cons, beq_iff_eq, if_neg hne, Nat.add_zero]
      by_cases hda : d = a
      · simp only [if_pos hda]
        push_cast
        omega
      · simp only [if_neg hda, Nat.add_zero]
        exact ih
    · split
      · have ih := cancelLoop_count a ha fuel (n :: ns) ds
        simp only [List.count_cons, beq_iff_eq] at ih ⊢
        push_cast at ih ⊢
        omega
      · have ih := cancelLoop_count a ha fuel ns (d :: ds)
        simp only [List.count_cons, beq_iff_eq] at ih ⊢
        push_cast at ih ⊢
        omega

/-- What `cancelunit` leaves of an atom in sorted lists: each multiplicity less
the smaller of the two. -/
theorem cancelunit_count (u : unittype) (hn : List.Sorted strle u.numerator)
    (hd : List.Sorted strle u.denominator) (a : CStr) (ha : a ≠ NULLUNIT) :
    (cancelunit u).numerator.count a =
      u.numerator.count a - min (u.numerator.count a) (u.denominator.count a) ∧
    (cancelunit u).denominator.count a =
      u.denominator.count a - min (u.numerator.count a) (u.denominator.count a) := by
  have hc := cancelLoop_count a ha (u.numerator.length + u.denominator.length)
    u.numerator u.denominator
  have hdis := cancelLoop_disjoint (u.numerator.length + u.denominator.length)
    u.numerator u.denominator (le_refl _) hn hd a ha
  have hz : (cancelunit u).numerator.count a = 0 ∨ (cancelunit u).denominator.count a = 0 := by
    by_cases h1 : a ∈ (cancelunit u).numerator
    · right
      apply List.count_eq_zero_of_not_mem
      intro h2
      exact hdis h1 h2
    · left
      exact List.count_eq_zero_of_not_mem h1
  have hc2 : ((cancelunit u).numerator.count a : Int) - (cancelunit u).denominator.count a
      = (u.numerator.count a : Int) - u.denominator.count a := hc
  omega

/-- C34: for every value whose lists are sorted, `cancelunit` leaves the factor
and the lengths of both lists unchanged and, for every atom `a`, leaves the
multiplicity of `a` in the numerator minus that in the denominator unchanged,
each of the two multiplicities being lowered by the smaller of them, so that
the smaller one becomes zero. -/
theorem C34_cancel_preserves (u : unittype) (hn : List.Sorted strle u.numerator)
    (hd : List.Sorted strle u.denominator) :
    (cancelunit u).factor = u.factor ∧
    (cancelunit u).numerator.length = u.numerator.length ∧
    (cancelunit u).denominator.length = u.denominator.length ∧
    ∀ a : CStr, a ≠ NULLUNIT →
      ((cancelunit u).numerator.count a : Int) - (cancelunit u).denominator.count a
        = (u.numerator.count a : Int) - u.denominator.count a ∧
      (cancelunit u).numerator.count a =
        u.numerator.count a - min (u.numerator.count a) (u.denominator.count a) ∧
      (cancelunit u).denominator.count a =
        u.denominator.count a - min (u.numerator.count a) (u.denominator.count a) ∧
      min ((cancelunit u).numerator.count a) ((cancelunit u).denominator.count a) = 0 := by
  have hl := cancelLoop_length (u.numerator.length + u.denominator.length)
    u.numerator u.denominator
  refine ⟨rfl, hl.1, hl.2, ?_⟩
  intro a ha
  have hc := cancelunit_count u hn hd a ha
  refine ⟨cancelLoop_count a ha _ _ _, hc.1, hc.2, ?_⟩
  rw [hc.1, hc.2]
  omega

/-- C34 at a concrete input: `m m m s / k m m` becomes `_ _ m s / k _ _`. -/
theorem C34_cancel_preserves_witness :
    cancelunit cancelsample
      = { factor := 2, numerator := [NULLUNIT, NULLUNIT, ['m'], ['s']],
          denominator := [['k'], NULLUNIT, NULLUNIT] } ∧
    (cancelunit cancelsample).numerator.count ['m'] =
      cancelsample.numerator.count ['m'] -
        min (cancelsample.numerator.count ['m']) (cancelsample.denominator.count ['m']) :=
  ⟨by decide,
    ((C34_cancel_preserves cancelsample (by decide) (by decide)).2.2.2
      ['m'] (by decide)).2.1⟩

/-! ## Canonicalisation is idempotent -/

/-- The atoms of a sorted list are the sorted atoms. -/
theorem atoms_insertionSort (l : List CStr) (h : List.Sorted strle (atoms l)) :
    atoms (l.insertionSort strle) = atoms l := by
  haveI : IsAntisymm CStr strle := ⟨fun _ _ => strle_antisymm⟩
  apply List.eq_of_perm_of_sorted _ _ h
  · exact (List.perm_insertionSort strle l).filter _
  · exact List.Pairwise.filter _ (sorted_insertionSort_strle l)

theorem sublist_eq_of_count : ∀ (l1 l2 : List CStr), l1.Sublist l2 →
    (∀ a : CStr, l1.count a = l2.count a) → l1 = l2 := by
  intro l1 l2 hsub
  induction hsub with
  | slnil => intro _; rfl
  | cons a hs _ =>
    intro hc
    have h1 := hs.count_le a
    have h2 := hc a
    rw [List.count_cons_self] at h2
    omega
  | cons₂ a hs ih =>
    intro hc
    rw [ih ?_]
    intro b
    have h2 := hc b
    simp only [List.count_cons] at h2
    omega

/-- On sorted lists without a common atom `cancelunit` removes no atom. -/
theorem cancelunit_atoms (u : unittype) (hn : List.Sorted strle u.numerator)
    (hd : List.Sorted strle u.denominator)
    (hdis : ∀ a : CStr, a ≠ NULLUNIT → ¬ (a ∈ u.numerator ∧ a ∈ u.denominator)) :
    atoms (cancelunit u).numerator = atoms u.numerator ∧
    atoms (cancelunit u).denominator = atoms u.denominator := by
  have hcount : ∀ a : CStr, a ≠ NULLUNIT →
      (cancelunit u).numerator.count a = u.numerator.count a ∧
      (cancelunit u).denominator.count a = u.denominator.count a := by
    intro a ha
    have hc := cancelunit_count u hn hd a ha
    have hz : u.numerator.count a = 0 ∨ u.denominator.count a = 0 := by
      by_cases h1 : a ∈ u.numerator
      · right
        apply List.count_eq_zero_of_not_mem
        intro h2
        exact hdis a ha ⟨h1, h2⟩
      · left
        exact List.count_eq_zero_of_not_mem h1
    omega
  have key : ∀ (l1 l2 : List CStr), (atoms l1).Sublist (atoms l2) →
      (∀ a : CStr, a ≠ NULLUNIT → l1.count a = l2.count a) → atoms l1 = atoms l2 := by
    intro l1 l2 hsub hc
    apply sublist_eq_of_count _ _ hsub
    intro a
    by_cases ha : a = NULLUNIT
    · subst ha
      exact (count_atoms_null l1).trans (count_atoms_null l2).symm
    · exact ((count_atoms l1 a ha).trans (hc a ha)).trans (count_atoms l2 a ha).symm
  exact ⟨key _ _ (cancelLoop_fst_sublist _ _ _) (fun a ha => (hcount a ha).1),
    key _ _ (cancelLoop_snd_sublist _ _ _) (fun a ha => (hcount a ha).2)⟩

/-- A value whose atoms are sorted and in one list only keeps its factor and
its atoms under `sortunit` followed by `cancelunit`. -/
theorem canonical_fixed (v : unittype) (hn : List.Sorted strle (atoms v.numerator))
    (hd : List.Sorted strle (atoms v.denominator))
    (hdis : ∀ a : CStr, a ≠ NULLUNIT → ¬ (a ∈ v.numerator ∧ a ∈ v.denominator)) :
    (cancelunit (sortunit v)).factor = v.factor ∧
    atoms (cancelunit (sortunit v)).numerator = atoms v.numerator ∧
    atoms (cancelunit (sortunit v)).denominator = atoms v.denominator := by
  have hmem : ∀ (l : List CStr) (a : CStr), a ∈ l.insertionSort strle ↔ a ∈ l :=
    fun l a => (List.perm_insertionSort strle l).mem_iff
  have h := cancelunit_atoms (sortunit v) (sorted_insertionSort_strle _)
    (sorted_insertionSort_strle _)
    (fun a ha hboth => hdis a ha
      ⟨(hmem _ a).1 hboth.1, (hmem _ a).1 hboth.2⟩)
  refine ⟨rfl, ?_, ?_⟩
  · rw [h.1]
    exact atoms_insertionSort _ hn
  · rw [h.2]
    exact atoms_insertionSort _ hd

/-- The outcome of `sortunit` followed by `cancelunit`: sorted atoms, none of
them in both lists. -/
theorem canonical_sorted_disjoint (u : unittype) :
    List.Sorted strle (atoms (cancelunit (sortunit u)).numerator) ∧
    List.Sorted strle (atoms (cancelunit (sortunit u)).denominator) ∧
    ∀ a : CStr, a ≠ NULLUNIT →
      ¬ (a ∈ (cancelunit (sortunit u)).numerator ∧
         a ∈ (cancelunit (sortunit u)).denominator) := by
  have hn := sorted_insertionSort_strle u.numerator
  have hd := sorted_insertionSort_strle u.denominator
  refine ⟨?_, ?_, ?_⟩
  · exact List.Pairwise.sublist (cancelLoop_fst_sublist _ _ _) (List.Pairwise.filter _ hn)
  · exact List.Pairwise.sublist (cancelLoop_snd_sublist _ _ _) (List.Pairwise.filter _ hd)
  · intro a ha ⟨h1, h2⟩
    exact cancelLoop_disjoint _ _ _ (le_refl _) hn hd a ha h1 h2

/-- C36: for every value `u`, `sortunit` followed by `cancelunit` applied to
the outcome of `sortunit` followed by `cancelunit` on `u` changes neither the
factor nor the sequence of atoms of either list; hence `completereduce` on such
an outcome whose entries are all primitive returns 0 with the same factor and
the same atoms in both lists. -/
theorem C36_canonical_idempotent (u : unittype) :
    (cancelunit (sortunit (cancelunit (sortunit u)))).factor
      = (cancelunit (sortunit u)).factor ∧
    atoms (cancelunit (sortunit (cancelunit (sortunit u)))).numerator
      = atoms (cancelunit (sortunit u)).numerator ∧
    atoms (cancelunit (sortunit (cancelunit (sortunit u)))).denominator
      = atoms (cancelunit (sortunit u)).denominator ∧
    ∀ (db : Database) (parseunit : Parser) (fuel : Nat),
      primitiveonly db (cancelunit (sortunit u)).numerator →
      primitiveonly db (cancelunit (sortunit u)).denominator →
      (cancelunit (sortunit u)).numerator.length +
        (cancelunit (sortunit u)).denominator.length + 2 ≤ fuel →
      ∃ w : unittype,
        completereduce db parseunit fuel (cancelunit (sortunit u)) = some (0, w, none) ∧
        w.factor = (cancelunit (sortunit u)).factor ∧
        atoms w.numerator = atoms (cancelunit (sortunit u)).numerator ∧
        atoms w.denominator = atoms (cancelunit (sortunit u)).denominator := by
  obtain ⟨c1, c2, c3⟩ := canonical_sorted_disjoint u
  have h := canonical_fixed (cancelunit (sortunit u)) c1 c2 c3
  refine ⟨h.1, h.2.1, h.2.2, ?_⟩
  intro db parseunit fuel hpn hpd hfuel
  exact ⟨_, completereduce_primitive db parseunit fuel _ hpn hpd hfuel, h.1, h.2.1, h.2.2⟩

/-- C36 at a concrete input: `2 meter` in the sample database. -/
theorem C36_canonical_idempotent_witness :
    ∃ w : unittype,
      completereduce sampledb noparser 3 (cancelunit (sortunit (meters 2)))
        = some (0, w, none) ∧
      w.factor = (cancelunit (sortunit (meters 2))).factor ∧
      atoms w.numerator = atoms (cancelunit (sortunit (meters 2))).numerator ∧
      atoms w.denominator = atoms (cancelunit (sortunit (meters 2))).denominator :=
  (C36_canonical_idempotent (meters 2)).2.2.2 sampledb noparser 3 primitiveonly_meter
    (primitiveonly_nil sampledb) (by decide)

/-! ## Round trip through a table -/

theorem linearinterp_roundtrip (a b aval bval c : ℚ) (h : a ≠ b) (hv : aval ≠ bval) :
    linearinterp aval bval a b (linearinterp a b aval bval c) = c := by
  rw [linearinterp_eq a b aval bval c h, linearinterp_eq aval bval a b _ hv]
  have h1 : b - a ≠ 0 := sub_ne_zero.2 (Ne.symm h)
  have h2 : bval - aval ≠ 0 := sub_ne_zero.2 (Ne.symm hv)
  field_simp
  ring

/-- The interpolated value on a rising segment lies between the values at its
ends and leaves the left one as soon as the argument leaves the left end. -/
theorem linearinterp_rising (a b aval bval c : ℚ) (h : a < b) (hv : aval < bval)
    (h1 : a ≤ c) (h2 : c ≤ b) :
    aval ≤ linearinterp a b aval bval c ∧ linearinterp a b aval bval c ≤ bval ∧
    (a < c → aval < linearinterp a b aval bval c) := by
  rw [linearinterp_eq a b aval bval c (ne_of_lt h)]
  have hd : 0 < b - a := sub_pos.2 h
  have he : 0 < bval - aval := sub_pos.2 hv
  refine ⟨?_, ?_, ?_⟩
  · have : 0 ≤ (c - a) * (bval - aval) / (b - a) :=
      div_nonneg (mul_nonneg (sub_nonneg.2 h1) (le_of_lt he)) (le_of_lt hd)
    linarith
  · have : (c - a) * (bval - aval) / (b - a) ≤ bval - aval := by
      rw [div_le_iff₀ hd]
      nlinarith
    linarith
  · intro hac
    have : 0 < (c - a) * (bval - aval) / (b - a) :=
      div_pos (mul_pos (sub_pos.2 hac) he) hd
    linarith

theorem linearinterp_falling (a b aval bval c : ℚ) (h : a < b) (hv : bval < aval)
    (h1 : a ≤ c) (h2 : c ≤ b) :
    linearinterp a b aval bval c ≤ aval ∧ bval ≤ linearinterp a b aval bval c ∧
    (a < c → linearinterp a b aval bval c < aval) := by
  rw [linearinterp_eq a b aval bval c (ne_of_lt h)]
  have hd : 0 < b - a := sub_pos.2 h
  have he : 0 < aval - bval := sub_pos.2 hv
  have e : (c - a) * (bval - aval) / (b - a) = -((c - a) * (aval - bval) / (b - a)) := by
    field_simp
    ring
  rw [e]
  refine ⟨?_, ?_, ?_⟩
  · have : 0 ≤ (c - a) * (aval - bval) / (b - a) :=
      div_nonneg (mul_nonneg (sub_nonneg.2 h1) (le_of_lt he)) (le_of_lt hd)
    linarith
  · have : (c - a) * (aval - bval) / (b - a) ≤ aval - bval := by
      rw [div_le_iff₀ hd]
      nlinarith
    linarith
  · intro hac
    have : 0 < (c - a) * (aval - bval) / (b - a) :=
      div_pos (mul_pos (sub_pos.2 hac) he) hd
    linarith

/-- Round trip through a table with rising values, from the first point on. -/
theorem roundtrip_rising (v : ℚ) : ∀ (rest : List pair) (p q last : pair),
    (p :: q :: rest).Pairwise (fun a b => a.location < b.location) →
    (p :: q :: rest).Pairwise (fun a b => a.value < b.value) →
    (q :: rest).getLast? = some last →
    p.location ≤ v → v ≤ last.location →
    ∃ y, forwardsearch v (p :: q :: rest) = some y ∧
      inversesearch y (p :: q :: rest) = some v ∧
      p.value ≤ y ∧ (p.location < v → p.value < y) := by
  intro rest
  induction rest with
  | nil =>
    intro p q last hx hy hlast h1 h2
    have hq : q = last := by simpa using hlast
    subst hq
    have hpx : p.location < q.location := (List.pairwise_cons.1 hx).1 q (by simp)
    have hpy : p.value < q.value := (List.pairwise_cons.1 hy).1 q (by simp)
    obtain ⟨b1, b2, b3⟩ := linearinterp_rising _ _ _ _ v hpx hpy h1 h2
    refine ⟨linearinterp p.location q.location p.value q.value v, ?_, ?_, b1, b3⟩
    · rw [forwardsearch, if_pos ⟨h1, h2⟩]
    · rw [inversesearch, if_pos (Or.inl ⟨b1, b2⟩),
        linearinterp_roundtrip _ _ _ _ _ (ne_of_lt hpx) (ne_of_lt hpy)]
  | cons r rest ih =>
    intro p q last hx hy hlast h1 h2
    have hpx : p.location < q.location := (List.pairwise_cons.1 hx).1 q (by simp)
    have hpy : p.value < q.value := (List.pairwise_cons.1 hy).1 q (by simp)
    by_cases hc : p.location ≤ v ∧ v ≤ q.location
    · obtain ⟨b1, b2, b3⟩ := linearinterp_rising _ _ _ _ v hpx hpy hc.1 hc.2
      refine ⟨linearinterp p.location q.location p.value q.value v, ?_, ?_, b1, b3⟩
      · rw [forwardsearch, if_pos hc]
      · rw [inversesearch, if_pos (Or.inl ⟨b1, b2⟩),
          linearinterp_roundtrip _ _ _ _ _ (ne_of_lt hpx) (ne_of_lt hpy)]
    · have hqv : q.location < v := by
        by_contra hn
        exact hc ⟨h1, not_lt.1 hn⟩
      have hlast2 : (r :: rest).getLast? = some last := by
        simpa [List.getLast?_cons_cons] using hlast
      obtain ⟨y, f1, f2, f3, f4⟩ := ih q r last (List.pairwise_cons.1 hx).2
        (List.pairwise_cons.1 hy).2 hlast2 (le_of_lt hqv) h2
      have hqy : q.value < y := f4 hqv
      refine ⟨y, ?_, ?_, le_of_lt (lt_trans hpy hqy), fun _ => lt_trans hpy hqy⟩
      · rw [forwardsearch, if_neg hc]
        exact f1
      · have hno : ¬ ((p.value ≤ y ∧ y ≤ q.value) ∨ (q.value ≤ y ∧ y ≤ p.value)) := by
          intro h
          rcases h with h | h
          · exact absurd h.2 (not_le.2 hqy)
          · exact absurd h.2 (not_le.2 (lt_trans hpy hqy))
        rw [inversesearch, if_neg hno]
        exact f2

/-- Round trip through a table with falling values, from the first point on. -/
theorem roundtrip_falling (v : ℚ) : ∀ (rest : List pair) (p q last : pair),
    (p :: q :: rest).Pairwise (fun a b => a.location < b.location) →
    (p :: q :: rest).Pairwise (fun a b => b.value < a.value) →
    (q :: rest).getLast? = some last →
    p.location ≤ v → v ≤ last.location →
    ∃ y, forwardsearch v (p :: q :: rest) = some y ∧
      inversesearch y (p :: q :: rest) = some v ∧
      y ≤ p.value ∧ (p.location < v → y < p.value) := by
  intro rest
  induction rest with
  | nil =>
    intro p q last hx hy hlast h1 h2
    have hq : q = last := by simpa using hlast
    subst hq
    have hpx : p.location < q.location := (List.pairwise_cons.1 hx).1 q (by simp)
    have hpy : q.value < p.value := (List.pairwise_cons.1 hy).1 q (by simp)
    obtain ⟨b1, b2, b3⟩ := linearinterp_falling _ _ _ _ v hpx hpy h1 h2
    refine ⟨linearinterp p.location q.location p.value q.value v, ?_, ?_, b1, b3⟩
    · rw [forwardsearch, if_pos ⟨h1, h2⟩]
    · rw [inversesearch, if_pos (Or.inr ⟨b2, b1⟩),
        linearinterp_roundtrip _ _ _ _ _ (ne_of_lt hpx) (ne_of_gt hpy)]
  | cons r rest ih =>
    intro p q last hx hy hlast h1 h2
    have hpx : p.location < q.location := (List.pairwise_cons.1 hx).1 q (by simp)
    have hpy : q.value < p.value := (List.pairwise_cons.1 hy).1 q (by simp)
    by_cases hc : p.location ≤ v ∧ v ≤ q.location
    · obtain ⟨b1, b2, b3⟩ := linearinterp_falling _ _ _ _ v hpx hpy hc.1 hc.2
      refine ⟨linearinterp p.location q.location p.value q.value v, ?_, ?_, b1, b3⟩
      · rw [forwardsearch, if_pos hc]
      · rw [inversesearch, if_pos (Or.inr ⟨b2, b1⟩),
          linearinterp_roundtrip _ _ _ _ _ (ne_of_lt hpx) (ne_of_gt hpy)]
    · have hqv : q.location < v := by
        by_contra hn
        exact hc ⟨h1, not_lt.1 hn⟩
      have hlast2 : (r :: rest).getLast? = some last := by
        simpa [List.getLast?_cons_cons] using hlast
      obtain ⟨y, f1, f2, f3, f4⟩ := ih q r last (List.pairwise_cons.1 hx).2
        (List.pairwise_cons.1 hy).2 hlast2 (le_of_lt hqv) h2
      have hqy : y < q.value := f4 hqv
      refine ⟨y, ?_, ?_, le_of_lt (lt_trans hqy hpy), fun _ => lt_trans hqy hpy⟩
      · rw [forwardsearch, if_neg hc]
        exact f1
      · have hno : ¬ ((p.value ≤ y ∧ y ≤ q.value) ∨ (q.value ≤ y ∧ y ≤ p.value)) := by
          intro h
          rcases h with h | h
          · exact absurd h.1 (not_le.2 (lt_trans hqy hpy))
          · exact absurd h.1 (not_le.2 hqy)
        rw [inversesearch, if_neg hno]
        exact f2

/-- C40, the claim refuted: the line `one[meter] 0 5` registers a table of one
point, so its x are strictly increasing and its y strictly monotonic, and 0
lies between its first and its last x; the forward search finds no segment and
the forward evaluation of the number 0 returns `E_NOTINDOMAIN`. -/
theorem C40_counterexample :
    (readdefinition digitstrtod emptydb "one[meter]".toList "0 5".toList).1.funcs
      = [onepointtable] ∧
    (readdefinition digitstrtod emptydb "one[meter]".toList "0 5".toList).2 = false ∧
    onepointtable.table = some [{ location := 0, value := 5 }] ∧
    [({ location := 0, value := 5 } : pair)].Pairwise
      (fun a b => a.location < b.location) ∧
    [({ location := 0, value := 5 } : pair)].Pairwise (fun a b => a.value < b.value) ∧
    forwardsearch 0 [{ location := 0, value := 5 }] = none ∧
    (evalfunc sampledb nameparser 5 noslot
      { factor := 0, numerator := [], denominator := [] } onepointtable false).map
        (fun ev => ev.err) = some E_NOTINDOMAIN := by
  refine ⟨by decide, by decide, rfl, by simp, by simp, rfl, ?_⟩
  rw [evalfunc_forward sampledb nameparser 5 noslot _ onepointtable
    [{ location := 0, value := 5 }] { factor := 0, numerator := [], denominator := [] } none
    rfl (by decide) (unit2num_number sampledb (nameparser noslot) 5 0 (by decide))]
  rfl

/-- C40: for every table with at least two points, strictly increasing x and
strictly monotonic y (rising or falling), and every `v` from the first x to the
last x, the forward search of `evalfunc` finds a segment and interpolates a
value `y`, and the inverse search on `y` finds a segment and interpolates `v`
back, whichever segments the two first-match searches pick. -/
theorem C40_table_roundtrip (table : List pair) (first last : pair) (v : ℚ)
    (hlen : 2 ≤ table.length)
    (hx : table.Pairwise (fun a b => a.location < b.location))
    (hy : table.Pairwise (fun a b => a.value < b.value) ∨
      table.Pairwise (fun a b => b.value < a.value))
    (hfirst : table.head? = some first) (hlast : table.getLast? = some last)
    (h1 : first.location ≤ v) (h2 : v ≤ last.location) :
    ∃ y, forwardsearch v table = some y ∧ inversesearch y table = some v := by
  match table, hlen, hx, hy, hfirst, hlast with
  | p :: q :: rest, _, hx, hy, hfirst, hlast =>
    have hp : p = first := by simpa using hfirst
    subst hp
    have hlast2 : (q :: rest).getLast? = some last := by
      simpa [List.getLast?_cons_cons] using hlast
    rcases hy with hy | hy
    · obtain ⟨y, f1, f2, _⟩ := roundtrip_rising v rest p q last hx hy hlast2 h1 h2
      exact ⟨y, f1, f2⟩
    · obtain ⟨y, f1, f2, _⟩ := roundtrip_falling v rest p q last hx hy hlast2 h1 h2
      exact ⟨y, f1, f2⟩

/-- C40 at a concrete input: the table `0 0 1 10 3 20` at the point 1, where
two segments meet. -/
theorem C40_table_roundtrip_witness :
    ∃ y, forwardsearch 1 [{ location := 0, value := 0 }, { location := 1, value := 10 },
        { location := 3, value := 20 }] = some y ∧
      inversesearch y [{ location := 0, value := 0 }, { location := 1, value := 10 },
        { location := 3, value := 20 }] = some 1 :=
  C40_table_roundtrip
    [{ location := 0, value := 0 }, { location := 1, value := 10 },
      { location := 3, value := 20 }]
    { location := 0, value := 0 } { location := 3, value := 20 } 1 (by simp)
    (by simp [List.pairwise_cons]) (Or.inl (by simp [List.pairwise_cons]; norm_num)) rfl rfl
    (by norm_num) (by norm_num)

/-! ## The function-parameter slot -/

theorem globals_eta (g : globals) :
    ({ function_parameter := g.function_parameter,
       parameter_value := g.parameter_value } : globals) = g := by
  cases g; rfl

/-- With a parser that leaves the slot `g` as it found it, the reduction of a
product leaves it so and is the reduction with that parser's results. -/
theorem reduceproductLoopG_eq (db : Database) (parseunit : GlobalParser) (flip : Bool)
    (g : globals) (hframe : ∀ s, (parseunit g s).2 = g) :
    ∀ (fuel : Nat) (theunit : unittype) (irr : Option CStr) (idx did : Nat),
      reduceproductLoopG db parseunit flip fuel g theunit irr idx did
        = (reduceproductLoop db (fun s => (parseunit g s).1) flip fuel theunit irr idx did).map
            (fun r => (r, g))
  | 0, _, _, _, _ => rfl
  | fuel + 1, theunit, irr, idx, did => by
    rw [reduceproductLoopG, reduceproductLoop]
    simp only
    cases (if flip then theunit.denominator else theunit.numerator).get? idx with
    | none => rfl
    | some p =>
      simp only
      by_cases hp : p.length = 0
      · rw [if_pos hp, if_pos hp]
        exact reduceproductLoopG_eq db parseunit flip g hframe fuel _ _ _ _
      · rw [if_neg hp, if_neg hp]
        cases lookupunit db p true with
        | none => rfl
        | some toadd =>
          simp only
          by_cases hc : strchr toadd PRIMITIVECHAR = true
          · rw [if_pos hc, if_pos hc]
            exact reduceproductLoopG_eq db parseunit flip g hframe fuel _ _ _ _
          · rw [if_neg hc, if_neg hc, hframe toadd]
            by_cases he : (parseunit g toadd).1.1 ≠ 0
            · rw [if_pos he, if_pos he]
              rfl
            · rw [if_neg he, if_neg he]
              split
              · split
                · rfl
                · exact reduceproductLoopG_eq db parseunit _ g hframe fuel _ _ _ _
              · split
                · rfl
                · exact reduceproductLoopG_eq db parseunit _ g hframe fuel _ _ _ _

theorem reduceunitLoopG_eq (db : Database) (parseunit : GlobalParser)
    (g : globals) (hframe : ∀ s, (parseunit g s).2 = g) :
    ∀ (fuel : Nat) (theunit : unittype) (irr : Option CStr),
      reduceunitLoopG db parseunit fuel g theunit irr
        = (reduceunitLoop db (fun s => (parseunit g s).1) fuel theunit irr).map
            (fun r => (r, g))
  | 0, _, _ => rfl
  | fuel + 1, theunit, irr => by
    rw [reduceunitLoopG, reduceunitLoop]
    simp only [reduceproductG, reduceproduct,
      reduceproductLoopG_eq db parseunit _ g hframe]
    cases reduceproductLoop db (fun s => (parseunit g s).1) false fuel theunit irr 0
        NOREDUCTION with
    | none => rfl
    | some r1 =>
      simp only [Option.map_some', reduceproductLoopG_eq db parseunit _ g hframe]
      by_cases h1 : r1.ret &&& ERROR = 0
      · rw [if_pos h1, if_pos h1]
        cases reduceproductLoop db (fun s => (parseunit g s).1) true fuel r1.theunit
            r1.irreducible 0 NOREDUCTION with
        | none => rfl
        | some r2 =>
          simp only [Option.map_some']
          by_cases h2 : (r1.ret ||| r2.ret) &&& ERROR ≠ 0
          · rw [if_pos h2, if_pos h2]
            split <;> rfl
          · rw [if_neg h2, if_neg h2]
            by_cases h3 : (r1.ret ||| r2.ret) &&& DIDREDUCTION ≠ 0
            · rw [if_pos h3, if_pos h3]
              exact reduceunitLoopG_eq db parseunit g hframe fuel _ _
            · rw [if_neg h3, if_neg h3]
              rfl
      · rw [if_neg h1, if_neg h1]
        simp only
        have h2 : r1.ret &&& ERROR ≠ 0 := h1
        rw [if_pos h2, if_pos h2]
        split <;> rfl

theorem completereduceG_eq (db : Database) (parseunit : GlobalParser)
    (g : globals) (hframe : ∀ s, (parseunit g s).2 = g) (fuel : Nat) (unit : unittype) :
    completereduceG db parseunit fuel g unit
      = (completereduce db (fun s => (parseunit g s).1) fuel unit).map (fun r => (r, g)) := by
  rw [completereduceG, completereduce, reduceunitG, reduceunit,
    reduceunitLoopG_eq db parseunit g hframe]
  cases reduceunitLoop db (fun s => (parseunit g s).1) fuel unit none with
  | none => rfl
  | some r =>
    simp only [Option.map_some']
    split <;> rfl

theorem unit2numG_eq (db : Database) (parseunit : GlobalParser)
    (g : globals) (hframe : ∀ s, (parseunit g s).2 = g) (fuel : Nat) (input : unittype) :
    unit2numG db parseunit fuel g input
      = (unit2num db (fun s => (parseunit g s).1) fuel input).map (fun r => (r, g)) := by
  rw [unit2numG, unit2num, completereduceG_eq db parseunit g hframe]
  cases completereduce db (fun s => (parseunit g s).1) fuel input with
  | none => rfl
  | some r =>
    simp only [Option.map_some']
    split
    · rfl
    · split <;> rfl

theorem dimensioncheckG_eq (db : Database) (parseunit : GlobalParser)
    (g : globals) (hframe : ∀ s, (parseunit g s).2 = g) (fuel : Nat)
    (dimen : Option CStr) (theunit : unittype) :
    dimensioncheckG db parseunit fuel g dimen theunit
      = (dimensioncheck db (fun s => (parseunit g s).1) fuel dimen theunit).map
          (fun e => (e, g)) := by
  cases dimen with
  | none => rfl
  | some dimen =>
    simp only [dimensioncheckG, dimensioncheck, hframe,
      completereduceG_eq db parseunit g hframe]
    split
    · rfl
    · cases completereduce db (fun s => (parseunit g s).1) fuel (parseunit g dimen).1.2 with
      | none => rfl
      | some r =>
        simp only [Option.map_some']
        split
        · rfl
        · split <;> rfl

/-- With a parser that leaves the slot of the call as it found it, `evalfunc`
with the globals passed along is `evalfunc` on that parser's results. -/
theorem evalfuncG_eq (db : Database) (parseunit : GlobalParser) (fuel : Nat)
    (slot : globals) (theunit : unittype) (infunc : func) (inverse : Bool)
    (hframe : ∀ s, (parseunit slot s).2 = slot) :
    evalfuncG db parseunit fuel slot theunit infunc inverse
      = evalfunc db (fun g s => (parseunit g s).1) fuel slot theunit infunc inverse := by
  unfold evalfuncG evalfunc
  cases infunc.table with
  | some table =>
    simp only [hframe, unit2numG_eq db parseunit slot hframe]
    by_cases h1 : (parseunit slot (infunc.tableunit.getD [])).1.1 ≠ 0
    · rw [if_pos h1, if_pos h1]
    · rw [if_neg h1, if_neg h1]
      cases inverse with
      | true =>
        simp only [if_true]
        by_cases h2 : (divunit theunit (parseunit slot (infunc.tableunit.getD [])).1.2).1 ≠ 0
        · rw [if_pos h2, if_pos h2]
        · rw [if_neg h2, if_neg h2]
          cases unit2num db (fun s => (parseunit slot s).1) fuel
            (divunit theunit (parseunit slot (infunc.tableunit.getD [])).1.2).2.1 with
          | none => rfl
          | some n =>
            simp only [Option.map_some']
      | false =>
        simp only [Bool.false_eq_true, if_false]
        cases unit2num db (fun s => (parseunit slot s).1) fuel theunit with
        | none => rfl
        | some n =>
          simp only [Option.map_some']
  | none =>
    simp only [completereduceG_eq db parseunit slot hframe]
    generalize (if inverse = true then infunc.inverse else infunc.forward) = thefunc
    by_cases h1 : inverse = true ∧ thefunc.defn.isNone = true
    · rw [if_pos h1, if_pos h1]
    · rw [if_neg h1, if_neg h1]
      cases completereduce db (fun s => (parseunit slot s).1) fuel theunit with
      | none => rfl
      | some r =>
        simp only [Option.map_some', dimensioncheckG_eq db parseunit slot hframe]
        by_cases h2 : r.1 ≠ 0
        · rw [if_pos h2, if_pos h2]
        · rw [if_neg h2, if_neg h2]
          cases dimensioncheck db (fun s => (parseunit slot s).1) fuel thefunc.dimen r.2.1 with
          | none => rfl
          | some e =>
            simp only [Option.map_some', globals_eta]

/-- What a call of `evalfunc` that returns leaves in the two slot fields. -/
theorem evalfunc_slots (db : Database) (parseunit : SlotParser) (fuel : Nat)
    (slot : globals) (theunit : unittype) (infunc : func) (inverse : Bool) (ev : evaluation)
    (h : evalfunc db parseunit fuel slot theunit infunc inverse = some ev) :
    ev.slot = slot ∧
    (∀ b, ev.bodyslot = some b →
      infunc.table = none ∧
      b.function_parameter = (if inverse then infunc.inverse else infunc.forward).param ∧
      ∃ (r : unittype) (irr : Option CStr),
        completereduce db (parseunit slot) fuel theunit = some (0, r, irr) ∧
        b.parameter_value = some r) ∧
    (infunc.table = none → ev.err = 0 → ev.bodyslot.isSome = true) := by
  unfold evalfunc at h
  cases ht : infunc.table with
  | some table =>
    rw [ht] at h
    simp only at h
    have fin : ∀ e : evaluation, e.slot = slot → e.bodyslot = none → some e = some ev →
        ev.slot = slot ∧
        (∀ b, ev.bodyslot = some b →
          some table = none ∧
          b.function_parameter = (if inverse then infunc.inverse else infunc.forward).param ∧
          ∃ (r : unittype) (irr : Option CStr),
            completereduce db (parseunit slot) fuel theunit = some (0, r, irr) ∧
            b.parameter_value = some r) ∧
        (some table = none → ev.err = 0 → ev.bodyslot.isSome = true) := by
      intro e h1 h2 he
      have e2 : e = ev := Option.some.inj he
      subst e2
      refine ⟨h1, ?_, ?_⟩
      · intro b hb
        rw [h2] at hb
        exact Option.noConfusion hb
      · intro hn
        exact Option.noConfusion hn
    by_cases h1 : (parseunit slot (infunc.tableunit.getD [])).1 ≠ 0
    · rw [if_pos h1] at h
      exact fin _ rfl rfl h
    · rw [if_neg h1] at h
      cases inverse with
      | true =>
        simp only [if_true] at h
        by_cases h2 : (divunit theunit (parseunit slot (infunc.tableunit.getD [])).2).1 ≠ 0
        · rw [if_pos h2] at h
          exact fin _ rfl rfl h
        · rw [if_neg h2] at h
          cases hn : unit2num db (parseunit slot) fuel
            (divunit theunit (parseunit slot (infunc.tableunit.getD [])).2).2.1 with
          | none => rw [hn] at h; exact Option.noConfusion h
          | some n =>
            rw [hn] at h
            simp only at h
            by_cases h3 : n.1 = E_NOTANUMBER
            · rw [if_pos h3] at h
              exact fin _ rfl rfl h
            · rw [if_neg h3] at h
              by_cases h4 : n.1 ≠ 0
              · rw [if_pos h4] at h
                exact fin _ rfl rfl h
              · rw [if_neg h4] at h
                cases hs : inversesearch n.2.1.factor table with
                | none => rw [hs] at h; exact fin _ rfl rfl h
                | some value => rw [hs] at h; exact fin _ rfl rfl h
      | false =>
        simp only [Bool.false_eq_true, if_false] at h
        cases hn : unit2num db (parseunit slot) fuel theunit with
        | none => rw [hn] at h; exact Option.noConfusion h
        | some n =>
          rw [hn] at h
          simp only at h
          by_cases h4 : n.1 ≠ 0
          · rw [if_pos h4] at h
            exact fin _ rfl rfl h
          · rw [if_neg h4] at h
            cases hs : forwardsearch n.2.1.factor table with
            | none => rw [hs] at h; exact fin _ rfl rfl h
            | some value => rw [hs] at h; exact fin _ rfl rfl h
  | none =>
    rw [ht] at h
    simp only at h
    generalize (if inverse = true then infunc.inverse else infunc.forward) = thefunc at h ⊢
    have fin : ∀ (P : globals → Prop) (e : evaluation), e.slot = slot →
        e.bodyslot = none → e.err ≠ 0 → some e = some ev →
        ev.slot = slot ∧ (∀ b, ev.bodyslot = some b → P b) ∧
        ((none : Option (List pair)) = none → ev.err = 0 → ev.bodyslot.isSome = true) := by
      intro P e h1 h2 h3 he
      have e2 : e = ev := Option.some.inj he
      subst e2
      refine ⟨h1, ?_, ?_⟩
      · intro b hb
        rw [h2] at hb
        exact Option.noConfusion hb
      · intro _ h0
        exact absurd h0 h3
    by_cases h1 : inverse = true ∧ thefunc.defn.isNone = true
    · rw [if_pos h1] at h
      exact fin _ _ rfl rfl (by show E_NOINVERSE ≠ 0; decide) h
    · rw [if_neg h1] at h
      cases hcr : completereduce db (parseunit slot) fuel theunit with
      | none => rw [hcr] at h; exact Option.noConfusion h
      | some r =>
        rw [hcr] at h
        simp only at h
        by_cases h2 : r.1 ≠ 0
        · rw [if_pos h2] at h
          exact fin _ _ rfl rfl h2 h
        · rw [if_neg h2] at h
          cases hd : dimensioncheck db (parseunit slot) fuel thefunc.dimen r.2.1 with
          | none => rw [hd] at h; exact Option.noConfusion h
          | some e =>
            rw [hd] at h
            simp only at h
            by_cases h3 : e ≠ 0
            · rw [if_pos h3] at h
              exact fin _ _ rfl rfl h3 h
            · rw [if_neg h3] at h
              have hr0 : r = (0, r.2.1, r.2.2) := by
                have : r.1 = 0 := not_not.1 h2
                rw [← this]
              have fin2 : ∀ e : evaluation, e.slot = slot →
                  e.bodyslot = some { function_parameter := thefunc.param,
                                      parameter_value := some r.2.1 } →
                  some e = some ev →
                  ev.slot = slot ∧
                  (∀ b, ev.bodyslot = some b →
                    (none : Option (List pair)) = none ∧
                    b.function_parameter = thefunc.param ∧
                    ∃ (r1 : unittype) (irr : Option CStr),
                      some r = some (0, r1, irr) ∧
                      b.parameter_value = some r1) ∧
                  ((none : Option (List pair)) = none → ev.err = 0 →
                    ev.bodyslot.isSome = true) := by
                intro e h4 h5 he
                have e2 : e = ev := Option.some.inj he
                subst e2
                refine ⟨h4, ?_, ?_⟩
                · intro b hb
                  rw [h5] at hb
                  have hb2 := Option.some.inj hb
                  subst hb2
                  exact ⟨rfl, rfl, r.2.1, r.2.2, congrArg some hr0, rfl⟩
                · intro _ _
                  rw [h5]
                  rfl
              split at h
              · exact fin2 _ rfl rfl h
              · split at h
                · exact fin2 _ rfl rfl h
                · exact fin2 _ rfl rfl h

/-- C31: for every call of `evalfunc` that returns (table or function, forward
or inverse, whatever the return value) with a parser that leaves the slot of
the call as it found it, the globals `function_parameter` and `parameter_value`
hold at the return what they held at the call; when the body of a branch is
parsed, they hold the parameter name of that branch and the reduced input
value during that parse, whatever the parser does to them there; and a function
call that returns 0 has parsed its body. -/
theorem C31_slot_restored (db : Database) (parseunit : GlobalParser) (fuel : Nat)
    (slot : globals) (theunit : unittype) (infunc : func) (inverse : Bool) (ev : evaluation)
    (hframe : ∀ s, (parseunit slot s).2 = slot)
    (h : evalfuncG db parseunit fuel slot theunit infunc inverse = some ev) :
    ev.slot = slot ∧
    (∀ b, ev.bodyslot = some b →
      infunc.table = none ∧
      b.function_parameter = (if inverse then infunc.inverse else infunc.forward).param ∧
      ∃ (r : unittype) (irr : Option CStr),
        completereduceG db parseunit fuel slot theunit = some ((0, r, irr), slot) ∧
        b.parameter_value = some r) ∧
    (infunc.table = none → ev.err = 0 → ev.bodyslot.isSome = true) := by
  rw [evalfuncG_eq db parseunit fuel slot theunit infunc inverse hframe] at h
  obtain ⟨h1, h2, h3⟩ := evalfunc_slots db (fun g s => (parseunit g s).1) fuel slot theunit
    infunc inverse ev h
  refine ⟨h1, ?_, h3⟩
  intro b hb
  obtain ⟨t1, t2, r, irr, t3, t4⟩ := h2 b hb
  refine ⟨t1, t2, r, irr, ?_, t4⟩
  rw [completereduceG_eq db parseunit slot hframe, t3]
  rfl

/-- C31 at a concrete input: `f(3 meter)` for `f(x) [meter] x` with a parser
that overwrites the two globals inside the body; the body is parsed with `x`
bound to `3 meter` and the slot of the call is restored. -/
theorem C31_slot_restored_witness :
    evalfuncG sampledb nameparserG 5 noslot (meters 3) samplefunc false =
      some { err := 0, theunit := (multunit initializeunit (meters 3)).2.1, slot := noslot
             bodyslot := some { function_parameter := some "x".toList
                                parameter_value := some (meters 3) } } ∧
    (nameparserG { function_parameter := some "x".toList, parameter_value := some (meters 3) }
      "x".toList).2 = { function_parameter := some "y".toList, parameter_value := none } ∧
    (noslot = noslot ∧
    (∀ b, some ({ function_parameter := some "x".toList
                  parameter_value := some (meters 3) } : globals) = some b →
      samplefunc.table = none ∧
      b.function_parameter = (if false then samplefunc.inverse else samplefunc.forward).param ∧
      ∃ (r : unittype) (irr : Option CStr),
        completereduceG sampledb nameparserG 5 noslot (meters 3) = some ((0, r, irr), noslot) ∧
        b.parameter_value = some r) ∧
    (samplefunc.table = none → (0 : Int) = 0 → true = true)) :=
  ⟨rfl, rfl,
    C31_slot_restored sampledb nameparserG 5 noslot (meters 3) samplefunc false
      { err := 0, theunit := (multunit initializeunit (meters 3)).2.1, slot := noslot
        bodyslot := some { function_parameter := some "x".toList
                           parameter_value := some (meters 3) } }
      (fun _ => rfl) rfl⟩

/-! ## showunit -/

theorem showpower_one (ps : CStr) : showpower ps 1 = [] := by
  simp [showpower]

theorem samerun_null (prev : Option CStr) : samerun prev NULLUNIT = false := by
  cases prev <;> simp [samerun, NULLUNIT]

theorem samerun_self (a : CStr) (ha : a ≠ NULLUNIT) : samerun (some a) a = true := by
  simp only [samerun, strcmp_self, decide_True, Bool.and_true, decide_eq_true_eq]
  exact ha

theorem samerun_ne (p a : CStr) (h : p ≠ a) : samerun (some p) a = false := by
  simp only [samerun, Bool.and_eq_false_imp, decide_eq_true_eq, decide_eq_false_iff_not]
  intro _ h0
  exact h (strcmp_eq_zero_iff.1 h0).symm

/-- The text of a loop with the power that is printed after it. -/
theorem showloop_replicate_same (ps : CStr) (slash : Bool) (a : CStr) (ha : a ≠ NULLUNIT)
    (rest : List CStr) : ∀ (k c : Nat) (flag : Bool),
    showloop ps slash (some a) c flag (List.replicate k a ++ rest)
      = showloop ps slash (some a) (c + k) flag rest
  | 0, c, flag => rfl
  | k + 1, c, flag => by
    rw [List.replicate_succ, List.cons_append, showloop, if_pos (samerun_self a ha),
      showloop_replicate_same ps slash a ha rest k (c + 1) flag]
    congr 1
    omega

theorem showloop_replicate_null (ps : CStr) (slash : Bool) (rest : List CStr) :
    ∀ (k : Nat) (prev : Option CStr) (c : Nat) (flag : Bool),
    showloop ps slash prev c flag (List.replicate (k + 1) NULLUNIT ++ rest)
      = (showpower ps c ++ (showloop ps slash (some NULLUNIT) 1 flag rest).1,
          (showloop ps slash (some NULLUNIT) 1 flag rest).2)
  | 0, prev, c, flag => by
    have e : (slash && decide (NULLUNIT ≠ ([] : CStr))) = false := by simp [NULLUNIT]
    rw [List.replicate_one, List.singleton_append, showloop]
    simp only [samerun_null, Bool.false_eq_true, if_false, e, Bool.or_false]
    simp [NULLUNIT]
  | k + 1, prev, c, flag => by
    have e : (slash && decide (NULLUNIT ≠ ([] : CStr))) = false := by simp [NULLUNIT]
    rw [List.replicate_succ, List.cons_append, showloop]
    simp only [samerun_null, Bool.false_eq_true, if_false, e, Bool.or_false]
    rw [showloop_replicate_null ps slash rest k (some NULLUNIT) 1 flag]
    simp [NULLUNIT, showpower_one]

theorem samerun_of_ne (prev : Option CStr) (a : CStr) (h : prev ≠ some a) :
    samerun prev a = false := by
  cases prev with
  | none => rfl
  | some p => exact samerun_ne p a (fun e => h (by rw [e]))

theorem runatoms_cons_null (k : Nat) (t : List (CStr × Nat)) :
    runatoms ((NULLUNIT, k) :: t) = runatoms t := by
  simp [runatoms]

theorem runatoms_cons_atom (a : CStr) (k : Nat) (t : List (CStr × Nat)) (ha : a ≠ NULLUNIT) :
    runatoms ((a, k) :: t) = a :: runatoms t := by
  simp [runatoms, ha]

theorem mem_runatoms_ne (a : CStr) (B : List (CStr × Nat)) (h : a ∈ runatoms B) :
    a ≠ NULLUNIT := by
  simp only [runatoms, List.mem_map, List.mem_filter, decide_eq_true_eq] at h
  obtain ⟨r, ⟨_, hr⟩, e⟩ := h
  rw [← e]; exact hr

/-- What a loop of `showunit` prints for a list given by runs whose atoms
differ from one another and from the entry before the list, the power printed
after the loop included. -/
theorem showloop_runs (ps : CStr) (slash : Bool) : ∀ (B : List (CStr × Nat))
    (prev : Option CStr) (c : Nat) (flag : Bool),
    (∀ a ∈ runatoms B, prev ≠ some a) → (runatoms B).Pairwise (fun a b => a ≠ b) →
    (showloop ps slash prev c flag (expandruns B)).1
        ++ showpower ps (showloop ps slash prev c flag (expandruns B)).2.1
      = showpower ps c ++ showruns ps slash flag B
  | [], prev, c, flag, _, _ => by
    simp [expandruns, showloop, showruns]
  | (a, k) :: t, prev, c, flag, hprev, hpw => by
    by_cases ha : a = NULLUNIT
    · subst ha
      rw [runatoms_cons_null] at hprev hpw
      have ih := showloop_runs ps slash t (some NULLUNIT) 1 flag
        (fun b hb e => mem_runatoms_ne b t hb (Option.some.inj e).symm) hpw
      rw [expandruns, showloop_replicate_null]
      simp only [showruns, if_true, List.append_assoc]
      rw [ih, showpower_one, List.nil_append]
    · rw [runatoms_cons_atom a k t ha] at hprev hpw
      have hs : samerun prev a = false := samerun_of_ne prev a (hprev a (by simp))
      have ih := showloop_runs ps slash t (some a) (1 + k)
        (flag || (slash && decide (a ≠ [])))
        (fun b hb e => (List.pairwise_cons.1 hpw).1 b hb (Option.some.inj e))
        (List.pairwise_cons.1 hpw).2
      have hane : a ≠ [] := ha
      have hflag : (flag || (slash && decide (a ≠ []))) = (flag || slash) := by
        simp [hane]
      rw [expandruns]
      simp only [List.replicate_succ, List.cons_append]
      rw [showloop]
      simp only [hs, Bool.false_eq_true, if_false, if_pos hane]
      rw [showloop_replicate_same ps slash a ha]
      simp only [showruns, if_neg ha, List.append_assoc]
      rw [ih, hflag, Nat.add_comm 1 k]

/-! ## Cancellation removes a leading part of a run -/

/-- An entry of the numerator whose text is not in the denominator is kept. -/
theorem cancelLoop_keeps_fst (a : CStr) :
    ∀ (fuel : Nat) (num den : List CStr), a ∉ den → ∀ j, num.get? j = some a →
      (cancelLoop fuel num den).1.get? j = some a
  | 0, num, den, _, j, h => by simpa only [cancelLoop] using h
  | _ + 1, [], den, _, j, h => by simpa only [cancelLoop] using h
  | _ + 1, _ :: _, [], _, j, h => by simpa only [cancelLoop] using h
  | fuel + 1, n :: ns, d :: ds, hden, j, h => by
    have hd : a ≠ d := fun e => hden (by rw [e]; simp)
    have hds : a ∉ ds := fun e => hden (List.mem_cons_of_mem d e)
    simp only [cancelLoop]
    split
    · rename_i h0
      have hdn : d = n := strcmp_eq_zero_iff.1 h0
      cases j with
      | zero =>
        have : n = a := by simpa using h
        exact absurd (hdn.trans this).symm hd
      | succ j =>
        simp only [List.get?_cons_succ] at h ⊢
        exact cancelLoop_keeps_fst a fuel ns ds hds j h
    · split
      · exact cancelLoop_keeps_fst a fuel (n :: ns) ds hds j h
      · cases j with
        | zero => simpa using h
        | succ j =>
          simp only [List.get?_cons_succ] at h ⊢
          exact cancelLoop_keeps_fst a fuel ns (d :: ds) hden j h

theorem cancelLoop_keeps_snd (a : CStr) :
    ∀ (fuel : Nat) (num den : List CStr), a ∉ num → ∀ j, den.get? j = some a →
      (cancelLoop fuel num den).2.get? j = some a
  | 0, num, den, _, j, h => by simpa only [cancelLoop] using h
  | _ + 1, [], den, _, j, h => by simpa only [cancelLoop] using h
  | _ + 1, _ :: _, [], _, j, h => by simpa only [cancelLoop] using h
  | fuel + 1, n :: ns, d :: ds, hnum, j, h => by
    have hn : a ≠ n := fun e => hnum (by rw [e]; simp)
    have hns : a ∉ ns := fun e => hnum (List.mem_cons_of_mem n e)
    simp only [cancelLoop]
    split
    · rename_i h0
      have hdn : d = n := strcmp_eq_zero_iff.1 h0
      cases j with
      | zero =>
        have : d = a := by simpa using h
        exact absurd (this.symm.trans hdn) hn
      | succ j =>
        simp only [List.get?_cons_succ] at h ⊢
        exact cancelLoop_keeps_snd a fuel ns ds hns j h
    · split
      · cases j with
        | zero => simpa using h
        | succ j =>
          simp only [List.get?_cons_succ] at h ⊢
          exact cancelLoop_keeps_snd a fuel (n :: ns) ds hnum j h
      · exact cancelLoop_keeps_snd a fuel ns (d :: ds) hns j h

/-- Every entry that `cancelunit` leaves is `NULLUNIT` or the entry it found. -/
theorem cancelLoop_pointwise :
    ∀ (fuel : Nat) (num den : List CStr) (j : Nat) (x : CStr),
      ((cancelLoop fuel num den).1.get? j = some x → x = NULLUNIT ∨ num.get? j = some x) ∧
      ((cancelLoop fuel num den).2.get? j = some x → x = NULLUNIT ∨ den.get? j = some x)
  | 0, num, den, j, x => by
    simp only [cancelLoop]
    exact ⟨fun h => Or.inr h, fun h => Or.inr h⟩
  | _ + 1, [], den, j, x => by
    simp only [cancelLoop]
    exact ⟨fun h => Or.inr h, fun h => Or.inr h⟩
  | _ + 1, _ :: _, [], j, x => by
    simp only [cancelLoop]
    exact ⟨fun h => Or.inr h, fun h => Or.inr h⟩
  | fuel + 1, n :: ns, d :: ds, j, x => by
    simp only [cancelLoop]
    split
    · cases j with
      | zero =>
        simp only [List.get?_cons_zero, Option.some.injEq]
        exact ⟨fun h => Or.inl h.symm, fun h => Or.inl h.symm⟩
      | succ j =>
        simp only [List.get?_cons_succ]
        exact cancelLoop_pointwise fuel ns ds j x
    · split
      · have ih := cancelLoop_pointwise fuel (n :: ns) ds
        refine ⟨(ih j x).1, ?_⟩
        cases j with
        | zero =>
          simp only [List.get?_cons_zero, Option.some.injEq]
          exact fun h => Or.inr h
        | succ j =>
          simp only [List.get?_cons_succ]
          exact (ih j x).2
      · have ih := cancelLoop_pointwise fuel ns (d :: ds)
        refine ⟨?_, (ih j x).2⟩
        cases j with
        | zero =>
          simp only [List.get?_cons_zero, Option.some.injEq]
          exact fun h => Or.inr h
        | succ j =>
          simp only [List.get?_cons_succ]
          exact (ih j x).1

/-- Once `cancelunit` has kept an atom of the numerator, it keeps every later
entry with the same text. -/
theorem cancelLoop_monotone_fst :
    ∀ (fuel : Nat) (num den : List CStr), List.Sorted strle den →
      ∀ (i j : Nat) (a : CStr), i < j → num.get? i = some a → num.get? j = some a →
        a ≠ NULLUNIT → (cancelLoop fuel num den).1.get? i = some a →
        (cancelLoop fuel num den).1.get? j = some a
  | 0, num, den, _, i, j, a, _, _, hj, _, _ => by simpa only [cancelLoop] using hj
  | _ + 1, [], den, _, i, j, a, _, _, hj, _, _ => by simpa only [cancelLoop] using hj
  | _ + 1, _ :: _, [], _, i, j, a, _, _, hj, _, _ => by simpa only [cancelLoop] using hj
  | fuel + 1, n :: ns, d :: ds, hsd, i, j, a, hij, hi, hj, ha, hk => by
    have hsds : List.Sorted strle ds := (List.pairwise_cons.1 hsd).2
    simp only [cancelLoop] at hk ⊢
    split at hk
    · rename_i h0
      rw [if_pos h0]
      cases i with
      | zero =>
        have : NULLUNIT = a := by simpa using hk
        exact absurd this.symm ha
      | succ i =>
        cases j with
        | zero => omega
        | succ j =>
          simp only [List.get?_cons_succ] at hi hj hk ⊢
          exact cancelLoop_monotone_fst fuel ns ds hsds i j a (by omega) hi hj ha hk
    · rename_i h0
      rw [if_neg h0]
      split at hk
      · rename_i h1
        rw [if_pos h1]
        exact cancelLoop_monotone_fst fuel (n :: ns) ds hsds i j a hij hi hj ha hk
      · rename_i h1
        rw [if_neg h1]
        cases j with
        | zero => omega
        | succ j =>
          simp only [List.get?_cons_succ] at hj ⊢
          cases i with
          | zero =>
            have hna : n = a := by simpa using hi
            apply cancelLoop_keeps_fst a fuel ns (d :: ds) _ j hj
            intro hmem
            rcases List.mem_cons.1 hmem with e | e
            · exact h0 (strcmp_eq_zero_iff.2 (e.symm.trans hna.symm))
            · have hle : strle d a := (List.pairwise_cons.1 hsd).1 a e
              unfold strle at hle
              rw [← hna] at hle
              omega
          | succ i =>
            simp only [List.get?_cons_succ] at hi hk
            exact cancelLoop_monotone_fst fuel ns (d :: ds) hsd i j a (by omega) hi hj ha hk

theorem cancelLoop_monotone_snd :
    ∀ (fuel : Nat) (num den : List CStr), List.Sorted strle num →
      ∀ (i j : Nat) (a : CStr), i < j → den.get? i = some a → den.get? j = some a →
        a ≠ NULLUNIT → (cancelLoop fuel num den).2.get? i = some a →
        (cancelLoop fuel num den).2.get? j = some a
  | 0, num, den, _, i, j, a, _, _, hj, _, _ => by simpa only [cancelLoop] using hj
  | _ + 1, [], den, _, i, j, a, _, _, hj, _, _ => by simpa only [cancelLoop] using hj
  | _ + 1, _ :: _, [], _, i, j, a, _, _, hj, _, _ => by simpa only [cancelLoop] using hj
  | fuel + 1, n :: ns, d :: ds, hsn, i, j, a, hij, hi, hj, ha, hk => by
    have hsns : List.Sorted strle ns := (List.pairwise_cons.1 hsn).2
    simp only [cancelLoop] at hk ⊢
    split at hk
    · rename_i h0
      rw [if_pos h0]
      cases i with
      | zero =>
        have : NULLUNIT = a := by simpa using hk
        exact absurd this.symm ha
      | succ i =>
        cases j with
        | zero => omega
        | succ j =>
          simp only [List.get?_cons_succ] at hi hj hk ⊢
          exact cancelLoop_monotone_snd fuel ns ds hsns i j a (by omega) hi hj ha hk
    · rename_i h0
      rw [if_neg h0]
      split at hk
      · rename_i h1
        rw [if_pos h1]
        cases j with
        | zero => omega
        | succ j =>
          simp only [List.get?_cons_succ] at hj ⊢
          cases i with
          | zero =>
            have hda : d = a := by simpa using hi
            apply cancelLoop_keeps_snd a fuel (n :: ns) ds _ j hj
            intro hmem
            rcases List.mem_cons.1 hmem with e | e
            · exact h0 (strcmp_eq_zero_iff.2 (hda.trans e))
            · have hle : strle n a := (List.pairwise_cons.1 hsn).1 a e
              unfold strle at hle
              rw [← hda, strcmp_swap d n] at hle
              omega
          | succ i =>
            simp only [List.get?_cons_succ] at hi hk
            exact cancelLoop_monotone_snd fuel (n :: ns) ds hsn i j a (by omega) hi hj ha hk
      · rename_i h1
        rw [if_neg h1]
        exact cancelLoop_monotone_snd fuel ns (d :: ds) hsns i j a hij hi hj ha hk

/-- In a sorted list the entries between two equal entries are equal to them. -/
theorem sorted_between (l : List CStr) (hs : List.Sorted strle l) (i j k : Nat) (a : CStr)
    (hij : i < j) (hjk : j < k) (hi : l.get? i = some a) (hk : l.get? k = some a) :
    l.get? j = some a := by
  have hkl : k < l.length := by
    by_contra hn
    rw [List.get?_eq_none.2 (Nat.le_of_not_lt hn)] at hk
    exact Option.noConfusion hk
  have hjl : j < l.length := by omega
  have hil : i < l.length := by omega
  rw [List.get?_eq_get hil] at hi
  rw [List.get?_eq_get hkl] at hk
  rw [List.get?_eq_get hjl]
  have h1 : strle (l.get ⟨i, hil⟩) (l.get ⟨j, hjl⟩) :=
    List.pairwise_iff_get.1 hs ⟨i, hil⟩ ⟨j, hjl⟩ hij
  have h2 : strle (l.get ⟨j, hjl⟩) (l.get ⟨k, hkl⟩) :=
    List.pairwise_iff_get.1 hs ⟨j, hjl⟩ ⟨k, hkl⟩ hjk
  rw [Option.some.inj hi] at h1
  rw [Option.some.inj hk] at h2
  rw [strle_antisymm h2 h1]

/-- The occurrences of an atom that `sortunit` and `cancelunit` leave in a list
are adjacent. -/
theorem canonical_contiguous (u : unittype) (i j k : Nat) (a : CStr) (ha : a ≠ NULLUNIT)
    (hij : i < j) (hjk : j < k) :
    ((cancelunit (sortunit u)).numerator.get? i = some a →
      (cancelunit (sortunit u)).numerator.get? k = some a →
      (cancelunit (sortunit u)).numerator.get? j = some a) ∧
    ((cancelunit (sortunit u)).denominator.get? i = some a →
      (cancelunit (sortunit u)).denominator.get? k = some a →
      (cancelunit (sortunit u)).denominator.get? j = some a) := by
  have hn := sorted_insertionSort_strle u.numerator
  have hd := sorted_insertionSort_strle u.denominator
  have hpw := cancelLoop_pointwise
    ((sortunit u).numerator.length + (sortunit u).denominator.length)
    (sortunit u).numerator (sortunit u).denominator
  constructor
  · intro hi hk
    have hi2 : (sortunit u).numerator.get? i = some a := by
      rcases (hpw i a).1 hi with e | e
      · exact absurd e ha
      · exact e
    have hk2 : (sortunit u).numerator.get? k = some a := by
      rcases (hpw k a).1 hk with e | e
      · exact absurd e ha
      · exact e
    have hj2 := sorted_between _ hn i j k a hij hjk hi2 hk2
    exact cancelLoop_monotone_fst _ _ _ hd i j a hij hi2 hj2 ha hi
  · intro hi hk
    have hi2 : (sortunit u).denominator.get? i = some a := by
      rcases (hpw i a).2 hi with e | e
      · exact absurd e ha
      · exact e
    have hk2 : (sortunit u).denominator.get? k = some a := by
      rcases (hpw k a).2 hk with e | e
      · exact absurd e ha
      · exact e
    have hj2 := sorted_between _ hd i j k a hij hjk hi2 hk2
    exact cancelLoop_monotone_snd _ _ _ hn i j a hij hi2 hj2 ha hi

/-! ## A canonical list as a list of runs -/

theorem mem_expandruns (x : CStr) : ∀ (B : List (CStr × Nat)),
    x ∈ expandruns B ↔ ∃ k, (x, k) ∈ B
  | [] => by simp [expandruns]
  | (a, j) :: t => by
    rw [expandruns, List.mem_append, mem_expandruns x t]
    constructor
    · intro h
      rcases h with h | ⟨k, hk⟩
      · have e : x = a := (List.mem_replicate.1 h).2
        exact ⟨j, by rw [e]; simp⟩
      · exact ⟨k, List.mem_cons_of_mem _ hk⟩
    · intro ⟨k, hk⟩
      rcases List.mem_cons.1 hk with e | e
      · left
        have e1 : x = a := congrArg Prod.fst e
        rw [e1]
        simp
      · exact Or.inr ⟨k, e⟩

theorem mem_runatoms (x : CStr) (B : List (CStr × Nat)) :
    x ∈ runatoms B ↔ x ≠ NULLUNIT ∧ ∃ k, (x, k) ∈ B := by
  simp only [runatoms, List.mem_map, List.mem_filter, decide_eq_true_eq]
  constructor
  · intro ⟨r, ⟨hr, hne⟩, e⟩
    subst e
    exact ⟨hne, r.2, hr⟩
  · intro ⟨hne, k, hk⟩
    exact ⟨(x, k), ⟨hk, hne⟩, rfl⟩

theorem mem_runatoms_iff (x : CStr) (B : List (CStr × Nat)) :
    x ∈ runatoms B ↔ x ∈ atoms (expandruns B) := by
  rw [mem_runatoms, mem_atoms, mem_expandruns]
  exact And.comm

theorem expandruns_head (a : CStr) (k : Nat) (t : List (CStr × Nat)) :
    (expandruns ((a, k) :: t)).get? 0 = some a := by
  simp [expandruns, List.replicate_succ]

theorem runatoms_bump (a : CStr) (k : Nat) (t : List (CStr × Nat)) :
    runatoms ((a, k + 1) :: t) = runatoms ((a, k) :: t) := by
  by_cases ha : a = NULLUNIT
  · subst ha
    rw [runatoms_cons_null, runatoms_cons_null]
  · rw [runatoms_cons_atom a _ t ha, runatoms_cons_atom a _ t ha]

/-- A list whose atoms are sorted and in which the occurrences of an atom are
adjacent is a list of runs with strictly increasing atoms. -/
theorem runs_exist : ∀ (l : List CStr), List.Sorted strle (atoms l) →
    (∀ (i j k : Nat) (a : CStr), a ≠ NULLUNIT → i < j → j < k →
      l.get? i = some a → l.get? k = some a → l.get? j = some a) →
    ∃ B : List (CStr × Nat), l = expandruns B ∧
      (runatoms B).Pairwise (fun a b => strcmp a b < 0)
  | [], _, _ => ⟨[], rfl, List.Pairwise.nil⟩
  | x :: l, hs, hc => by
    have hs2 : List.Sorted strle (atoms l) :=
      List.Pairwise.sublist ((List.sublist_cons_self x l).filter _) hs
    have hc2 : ∀ (i j k : Nat) (a : CStr), a ≠ NULLUNIT → i < j → j < k →
        l.get? i = some a → l.get? k = some a → l.get? j = some a := by
      intro i j k a ha hij hjk hi hk
      have := hc (i + 1) (j + 1) (k + 1) a ha (by omega) (by omega)
        (by simpa using hi) (by simpa using hk)
      simpa using this
    obtain ⟨B, hB, hpw⟩ := runs_exist l hs2 hc2
    cases B with
    | nil =>
      refine ⟨[(x, 0)], ?_, ?_⟩
      · rw [hB]
        simp [expandruns]
      · by_cases hx : x = NULLUNIT
        · subst hx
          rw [runatoms_cons_null]
          exact List.Pairwise.nil
        · rw [runatoms_cons_atom x 0 [] hx]
          simp [runatoms]
    | cons r t =>
      obtain ⟨a, k⟩ := r
      by_cases hxa : x = a
      · refine ⟨(a, k + 1) :: t, ?_, ?_⟩
        · rw [hB, hxa]
          simp only [expandruns, List.replicate_succ, List.cons_append]
        · rw [runatoms_bump]
          exact hpw
      · refine ⟨(x, 0) :: (a, k) :: t, ?_, ?_⟩
        · rw [hB]
          simp [expandruns]
        · by_cases hx : x = NULLUNIT
          · subst hx
            rw [runatoms_cons_null]
            exact hpw
          · rw [runatoms_cons_atom x 0 _ hx]
            refine List.pairwise_cons.2 ⟨?_, hpw⟩
            intro b hb
            have hb2 : b ∈ atoms l := by
              rw [hB]; exact (mem_runatoms_iff b _).1 hb
            have hbne : b ≠ NULLUNIT := (mem_atoms.1 hb2).2
            have hle : strle x b := by
              rw [atoms_cons_atom l hx] at hs
              exact (List.pairwise_cons.1 hs).1 b hb2
            have hne : x ≠ b := by
              intro e
              obtain ⟨j, hj⟩ := List.mem_iff_get?.1 (mem_atoms.1 hb2).1
              have h0 : l.get? 0 = some a := by rw [hB]; exact expandruns_head a k t
              cases j with
              | zero =>
                rw [h0] at hj
                exact hxa (e.trans (Option.some.inj hj).symm)
              | succ j =>
                have := hc 0 1 (j + 2) x hx (by omega) (by omega) (by simp)
                  (by simpa [e] using hj)
                have h1 : l.get? 0 = some x := by simpa using this
                rw [h0] at h1
                exact hxa (Option.some.inj h1).symm
            unfold strle at hle
            have : strcmp x b ≠ 0 := fun h0 => hne (strcmp_eq_zero_iff.1 h0)
            omega

/-! ## The text of the specification on a list of runs -/

theorem runatoms_nodup (B : List (CStr × Nat))
    (hpw : (runatoms B).Pairwise (fun a b => strcmp a b < 0)) : (runatoms B).Nodup := by
  apply List.Pairwise.imp _ hpw
  intro a b h e
  rw [e, strcmp_self] at h
  exact absurd h (by decide)

theorem runatoms_sorted (B : List (CStr × Nat))
    (hpw : (runatoms B).Pairwise (fun a b => strcmp a b < 0)) :
    List.Sorted strle (runatoms B) := by
  apply List.Pairwise.imp _ hpw
  intro a b h
  exact le_of_lt h

/-- The distinct atoms of a list of runs, sorted, are the atoms of the runs. -/
theorem dedup_expandruns (B : List (CStr × Nat))
    (hpw : (runatoms B).Pairwise (fun a b => strcmp a b < 0)) :
    (atoms (expandruns B)).dedup.insertionSort strle = runatoms B := by
  symm
  apply qsort_unique _ _ _ (runatoms_sorted B hpw)
  rw [List.perm_ext_iff_of_nodup (runatoms_nodup B hpw) (List.nodup_dedup _)]
  intro a
  rw [List.mem_dedup]
  exact mem_runatoms_iff a B

theorem count_expandruns : ∀ (B : List (CStr × Nat)),
    (runatoms B).Pairwise (fun a b => strcmp a b < 0) →
    ∀ r ∈ B, r.1 ≠ NULLUNIT → (expandruns B).count r.1 = r.2 + 1
  | [], _, r, hr, _ => by simp at hr
  | (b, j) :: t, hpw, r, hr, hne => by
    have hnd := runatoms_nodup _ hpw
    rw [expandruns, List.count_append]
    rcases List.mem_cons.1 hr with e | e
    · have e1 : r.1 = b := congrArg Prod.fst e
      have e2 : r.2 = j := congrArg Prod.snd e
      rw [e1] at hne ⊢
      rw [e2]
      rw [runatoms_cons_atom _ _ t hne] at hnd
      have hnot : b ∉ expandruns t := by
        intro hm
        exact (List.nodup_cons.1 hnd).1 ((mem_runatoms_iff _ t).2 (mem_atoms.2 ⟨hm, hne⟩))
      rw [List.count_eq_zero_of_not_mem hnot]
      simp
    · have hbr : b ≠ r.1 := by
        intro e2
        have hb : b ≠ NULLUNIT := by rw [e2]; exact hne
        rw [runatoms_cons_atom _ _ t hb] at hnd
        apply (List.nodup_cons.1 hnd).1
        rw [e2]
        exact (mem_runatoms _ t).2 ⟨hne, r.2, e⟩
      have hpw2 : (runatoms t).Pairwise (fun a b => strcmp a b < 0) := by
        by_cases hb : b = NULLUNIT
        · subst hb
          rw [runatoms_cons_null] at hpw
          exact hpw
        · rw [runatoms_cons_atom _ _ t hb] at hpw
          exact (List.pairwise_cons.1 hpw).2
      rw [count_expandruns t hpw2 r e hne]
      have h0 : (List.replicate (j + 1) b).count r.1 = 0 := by
        apply List.count_eq_zero_of_not_mem
        intro hm
        exact hbr (List.mem_replicate.1 hm).2.symm
      rw [h0]
      omega

theorem showruns_noslash (ps : CStr) : ∀ (B : List (CStr × Nat)) (flag : Bool)
    (cnt : CStr → Nat), (∀ r ∈ B, r.1 ≠ NULLUNIT → cnt r.1 = r.2 + 1) →
    ((runatoms B).map (fun a => ' ' :: a ++ showpower ps (cnt a))).flatten
      = showruns ps false flag B
  | [], flag, cnt, _ => by simp [runatoms, showruns]
  | (a, k) :: t, flag, cnt, h => by
    have ih := fun f => showruns_noslash ps t f cnt
      (fun r hr hne => h r (List.mem_cons_of_mem _ hr) hne)
    by_cases ha : a = NULLUNIT
    · subst ha
      rw [runatoms_cons_null, showruns, if_pos rfl]
      exact ih flag
    · rw [runatoms_cons_atom a k t ha, showruns, if_neg ha, List.map_cons,
        List.flatten_cons, ih (flag || false), h (a, k) (by simp) ha]
      simp

theorem showruns_printed (ps : CStr) : ∀ (B : List (CStr × Nat)) (flag : Bool),
    showruns ps true true B = showruns ps false flag B
  | [], flag => by simp [showruns]
  | (a, k) :: t, flag => by
    by_cases ha : a = NULLUNIT
    · subst ha
      rw [showruns, if_pos rfl, showruns, if_pos rfl]
      exact showruns_printed ps t flag
    · have ih := showruns_printed ps t flag
      simp [showruns, ha, ih]

theorem showruns_slash (ps : CStr) : ∀ (B : List (CStr × Nat)),
    showruns ps true false B
      = if runatoms B = [] then [] else " /".toList ++ showruns ps false false B
  | [] => by simp [showruns, runatoms]
  | (a, k) :: t => by
    by_cases ha : a = NULLUNIT
    · subst ha
      rw [showruns, if_pos rfl, showruns, if_pos rfl, runatoms_cons_null]
      exact showruns_slash ps t
    · have ih := showruns_printed ps t false
      simp [showruns, ha, runatoms_cons_atom a k t ha, ih]

/-- The text of the specification for a list of runs. -/
theorem showpowers_runs (ps : CStr) (B : List (CStr × Nat))
    (hpw : (runatoms B).Pairwise (fun a b => strcmp a b < 0)) :
    showpowers ps (expandruns B) = showruns ps false false B := by
  unfold showpowers
  rw [dedup_expandruns B hpw]
  exact showruns_noslash ps B false _ (count_expandruns B hpw)

theorem atoms_expandruns_nil (B : List (CStr × Nat)) :
    atoms (expandruns B) = [] ↔ runatoms B = [] := by
  rw [List.eq_nil_iff_forall_not_mem, List.eq_nil_iff_forall_not_mem]
  constructor
  · intro h a ha
    exact h a ((mem_runatoms_iff a B).1 ha)
  · intro h a ha
    exact h a ((mem_runatoms_iff a B).2 ha)

/-- What `showunit` prints for a value given by runs with strictly increasing
atoms is the text of the specification. -/
theorem showunit_runs (numformat : ℚ → CStr) (ps : CStr) (f : ℚ)
    (Bn Bd : List (CStr × Nat))
    (hn : (runatoms Bn).Pairwise (fun a b => strcmp a b < 0))
    (hd : (runatoms Bd).Pairwise (fun a b => strcmp a b < 0)) :
    showunit numformat ps
        { factor := f, numerator := expandruns Bn, denominator := expandruns Bd }
      = showcanonical numformat ps
        { factor := f, numerator := expandruns Bn, denominator := expandruns Bd } := by
  have hne : ∀ B : List (CStr × Nat), (runatoms B).Pairwise (fun a b => strcmp a b < 0) →
      (runatoms B).Pairwise (fun a b => a ≠ b) := fun B h => runatoms_nodup B h
  have h1 := showloop_runs ps false Bn none 1 false (fun _ _ h => Option.noConfusion h)
    (hne Bn hn)
  have h2 := showloop_runs ps true Bd none 1 false (fun _ _ h => Option.noConfusion h)
    (hne Bd hd)
  rw [showpower_one, List.nil_append] at h1 h2
  unfold showunit showcanonical
  simp only [List.append_assoc]
  rw [h2, ← List.append_assoc (showloop ps false none 1 false (expandruns Bn)).1, h1,
    showpowers_runs ps Bn hn, showpowers_runs ps Bd hd, showruns_slash]
  simp only [atoms_expandruns_nil]

/-- C35: after `sortunit` and `cancelunit` on any value the occurrences of an
atom that remain in a list are adjacent, no cancelled entry or other entry
standing between two of them; and `showunit` prints for such a value the
factor, each distinct atom of the numerator once in sorted order, followed by
the power string and `k` when its multiplicity `k` exceeds 1, and, when the
denominator holds an atom, ` /` once and the atoms of the denominator in the
same way. -/
theorem C35_runs_contiguous (numformat : ℚ → CStr) (powerstring : CStr) (u : unittype) :
    (∀ (i j k : Nat) (a : CStr), a ≠ NULLUNIT → i < j → j < k →
      ((cancelunit (sortunit u)).numerator.get? i = some a →
        (cancelunit (sortunit u)).numerator.get? k = some a →
        (cancelunit (sortunit u)).numerator.get? j = some a) ∧
      ((cancelunit (sortunit u)).denominator.get? i = some a →
        (cancelunit (sortunit u)).denominator.get? k = some a →
        (cancelunit (sortunit u)).denominator.get? j = some a)) ∧
    showunit numformat powerstring (cancelunit (sortunit u))
      = showcanonical numformat powerstring (cancelunit (sortunit u)) := by
  have hc : ∀ (i j k : Nat) (a : CStr), a ≠ NULLUNIT → i < j → j < k →
      ((cancelunit (sortunit u)).numerator.get? i = some a →
        (cancelunit (sortunit u)).numerator.get? k = some a →
        (cancelunit (sortunit u)).numerator.get? j = some a) ∧
      ((cancelunit (sortunit u)).denominator.get? i = some a →
        (cancelunit (sortunit u)).denominator.get? k = some a →
        (cancelunit (sortunit u)).denominator.get? j = some a) :=
    fun i j k a ha hij hjk => canonical_contiguous u i j k a ha hij hjk
  refine ⟨hc, ?_⟩
  obtain ⟨s1, s2, _⟩ := canonical_sorted_disjoint u
  obtain ⟨Bn, en, hn⟩ := runs_exist _ s1 (fun i j k a ha hij hjk => (hc i j k a ha hij hjk).1)
  obtain ⟨Bd, ed, hd⟩ := runs_exist _ s2 (fun i j k a ha hij hjk => (hc i j k a ha hij hjk).2)
  have e : cancelunit (sortunit u)
      = { factor := (cancelunit (sortunit u)).factor, numerator := expandruns Bn,
          denominator := expandruns Bd } := by
    rw [← en, ← ed]
  rw [e]
  exact showunit_runs numformat powerstring _ Bn Bd hn hd

/-- C35 at a concrete input: `2 s m m _ m m / m k m` becomes
`_ _ _ m m s / k _ _` and is printed as `2 m^2 s / k`. -/
theorem C35_runs_contiguous_witness :
    cancelunit (sortunit showsample)
      = { factor := 2
          numerator := [NULLUNIT, NULLUNIT, NULLUNIT, ['m'], ['m'], ['s']]
          denominator := [['k'], NULLUNIT, NULLUNIT] } ∧
    showunit (fun _ => ['2']) ['^'] (cancelunit (sortunit showsample))
      = "2 m^2 s / k".toList ∧
    showunit (fun _ => ['2']) ['^'] (cancelunit (sortunit showsample))
      = showcanonical (fun _ => ['2']) ['^'] (cancelunit (sortunit showsample)) :=
  ⟨by decide, by decide, (C35_runs_contiguous (fun _ => ['2']) ['^'] showsample).2⟩

end GnuUnits
